import Mathlib

/-!
# Tech newsletter pipeline: collector, curation engine, digest store, orchestrator

A shallow embedding of the JavaScript sources under `src/` and the properties of
their behaviour.  External collaborators (the feed client, the system clock, the
date parser of the runtime, the generative model, the mail transport) are
parameters of the functions that use them.
-/

namespace TechNews

/-! ## Errors and small runtime values -/

/-- An exception value thrown by the runtime or by a collaborator. -/
inductive JsErr where
  | typeError (msg : String)
  | syntaxError (msg : String)
  | rangeError (msg : String)
  | ioError (code : String)
  | other (msg : String)
  deriving DecidableEq, Repr

/-- A field of a feed item or of a raw article: `undefined`, `null` or a string. -/
inductive Field where
  | undefined
  | null
  | str (s : String)
  deriving DecidableEq, Repr

/-- JavaScript truthiness: `undefined`, `null` and the empty string are falsy. -/
def Field.truthy : Field → Bool
  | .str s => s != ""
  | _ => false

/-- The expression `a || b`. -/
def Field.or (a b : Field) : Field :=
  if a.truthy then a else b

/-! ## Time values -/

/-- ECMAScript `TimeClip`: a time value out of range becomes `NaN` (`none`). -/
def timeClip (t : Int) : Option Int :=
  if t.natAbs ≤ 8640000000000000 then some t else none

/-- The time value of `new Date(v)`; `none` is an Invalid Date.  `dateParse` is the
runtime's `Date.parse`, whose accepted formats are implementation-defined. -/
def newDate (dateParse : String → Option Int) : Field → Option Int
  | .undefined => none
  | .null => some 0
  | .str s => (dateParse s).bind timeClip

/-- The comparison `a >= b` of two Date objects: false when either is invalid. -/
def dateGe : Option Int → Option Int → Bool
  | some a, some b => decide (b ≤ a)
  | _, _ => false

/-! ## Feed collector (`src/collectors/rss.js`) -/

/-- A configured feed source. -/
structure Source where
  name : String
  url : String
  category : String
  deriving DecidableEq, Repr

/-- The fixed list of feed sources. -/
def RSS_SOURCES : List Source :=
  [ ⟨"HackerNews", "https://hnrss.org/frontpage", "Tech Geral"⟩,
    ⟨"Dev.to - AI", "https://dev.to/feed/tag/ai", "AI"⟩,
    ⟨"Dev.to - React", "https://dev.to/feed/tag/react", "Frontend"⟩,
    ⟨"Reddit Programming", "https://www.reddit.com/r/programming/.rss", "Discussões"⟩,
    ⟨"Reddit Machine Learning", "https://www.reddit.com/r/MachineLearning/.rss", "AI"⟩,
    ⟨"GitHub Blog", "https://github.blog/feed/", "Developer Tools"⟩,
    ⟨"Vercel Blog", "https://vercel.com/blog/feed", "Frontend"⟩ ]

/-- One item of a parsed feed, with the fields the collector reads. -/
structure FeedItem where
  title : Field
  link : Field
  contentSnippet : Field
  description : Field
  pubDate : Field
  isoDate : Field
  deriving DecidableEq, Repr

/-- One article as produced by the collector. -/
structure RawArticle where
  title : Field
  url : Field
  description : Field
  publishedAt : Field
  source : String
  sourceCategory : String
  deriving DecidableEq, Repr

/-- The object literal built for each feed item inside `fetchFeed`. -/
def normalizeItem (source : Source) (item : FeedItem) : RawArticle :=
  { title := item.title
    url := item.link
    description := (item.contentSnippet.or item.description).or (.str "")
    publishedAt := item.pubDate.or item.isoDate
    source := source.name
    sourceCategory := source.category }

/-- The function `fetchFeed`: the `try` block parses the feed and maps its items, the
`catch` block returns the empty array. -/
def fetchFeed (parseURL : String → Except JsErr (List FeedItem)) (source : Source) :
    Except JsErr (List RawArticle) :=
  match (do
      let feed ← parseURL source.url
      let articles := feed.map (normalizeItem source)
      pure articles : Except JsErr (List RawArticle)) with
  | .ok articles => .ok articles
  | .error _ => .ok []

/-- The function `filterLast24Hours`, with the clock reading `now` as a parameter. -/
def filterLast24Hours (dateParse : String → Option Int) (now : Int)
    (articles : List RawArticle) : List RawArticle :=
  let oneDayAgo := timeClip (now - 24 * 60 * 60 * 1000)
  articles.filter fun article =>
    if !article.publishedAt.truthy then false
    else
      let publishedDate := newDate dateParse article.publishedAt
      dateGe publishedDate oneDayAgo

/-- The body of `collectAllFeeds` over a list of sources: `Promise.all` over the
per-source fetches, `flat`, then the recency filter. -/
def collectFrom (sources : List Source) (parseURL : String → Except JsErr (List FeedItem))
    (dateParse : String → Option Int) (now : Int) : Except JsErr (List RawArticle) := do
  let results ← sources.mapM (fetchFeed parseURL)
  let allArticles := results.flatten
  let recentArticles := filterLast24Hours dateParse now allArticles
  pure recentArticles

/-- The function `collectAllFeeds`. -/
def collectAllFeeds (parseURL : String → Except JsErr (List FeedItem))
    (dateParse : String → Option Int) (now : Int) : Except JsErr (List RawArticle) :=
  collectFrom RSS_SOURCES parseURL dateParse now

/-- The feed environment in which every failing source returns an empty item list. -/
def absorbFailures (parseURL : String → Except JsErr (List FeedItem)) :
    String → Except JsErr (List FeedItem) :=
  fun url =>
    match parseURL url with
    | .ok items => .ok items
    | .error _ => .ok []

/-! ## JSON values and the runtime's `JSON.parse` -/

/-- A JSON value.  `num m k` is the number `m / 10^k`: the runtime's doubles are replaced
by exact decimals, with which they agree on every integer of magnitude below `2^53`.
The properties of an object are listed in the runtime's property order. -/
inductive JsVal where
  | null
  | bool (b : Bool)
  | num (m : Int) (k : Nat)
  | str (s : String)
  | arr (items : List JsVal)
  | obj (props : List (String × JsVal))
  deriving Repr, Inhabited

mutual
/-- Equality of JSON values is decidable. -/
def JsVal.decEq : (a b : JsVal) → Decidable (a = b)
  | .null, .null => isTrue rfl
  | .null, .bool _ => isFalse (fun h => JsVal.noConfusion h)
  | .null, .num _ _ => isFalse (fun h => JsVal.noConfusion h)
  | .null, .str _ => isFalse (fun h => JsVal.noConfusion h)
  | .null, .arr _ => isFalse (fun h => JsVal.noConfusion h)
  | .null, .obj _ => isFalse (fun h => JsVal.noConfusion h)
  | .bool _, .null => isFalse (fun h => JsVal.noConfusion h)
  | .bool b1, .bool b2 =>
    if h : b1 = b2 then isTrue (congrArg _ h)
    else isFalse (fun e => h (by injection e))
  | .bool _, .num _ _ => isFalse (fun h => JsVal.noConfusion h)
  | .bool _, .str _ => isFalse (fun h => JsVal.noConfusion h)
  | .bool _, .arr _ => isFalse (fun h => JsVal.noConfusion h)
  | .bool _, .obj _ => isFalse (fun h => JsVal.noConfusion h)
  | .num _ _, .null => isFalse (fun h => JsVal.noConfusion h)
  | .num _ _, .bool _ => isFalse (fun h => JsVal.noConfusion h)
  | .num m1 k1, .num m2 k2 =>
    if h : m1 = m2 ∧ k1 = k2 then isTrue (by rw [h.1, h.2])
    else isFalse (fun e => h (by injection e with e1 e2; exact ⟨e1, e2⟩))
  | .num _ _, .str _ => isFalse (fun h => JsVal.noConfusion h)
  | .num _ _, .arr _ => isFalse (fun h => JsVal.noConfusion h)
  | .num _ _, .obj _ => isFalse (fun h => JsVal.noConfusion h)
  | .str _, .null => isFalse (fun h => JsVal.noConfusion h)
  | .str _, .bool _ => isFalse (fun h => JsVal.noConfusion h)
  | .str _, .num _ _ => isFalse (fun h => JsVal.noConfusion h)
  | .str s1, .str s2 =>
    if h : s1 = s2 then isTrue (congrArg _ h)
    else isFalse (fun e => h (by injection e))
  | .str _, .arr _ => isFalse (fun h => JsVal.noConfusion h)
  | .str _, .obj _ => isFalse (fun h => JsVal.noConfusion h)
  | .arr _, .null => isFalse (fun h => JsVal.noConfusion h)
  | .arr _, .bool _ => isFalse (fun h => JsVal.noConfusion h)
  | .arr _, .num _ _ => isFalse (fun h => JsVal.noConfusion h)
  | .arr _, .str _ => isFalse (fun h => JsVal.noConfusion h)
  | .arr xs1, .arr xs2 =>
    match JsVal.decEqList xs1 xs2 with
    | isTrue h => isTrue (congrArg _ h)
    | isFalse h => isFalse (fun e => h (by injection e))
  | .arr _, .obj _ => isFalse (fun h => JsVal.noConfusion h)
  | .obj _, .null => isFalse (fun h => JsVal.noConfusion h)
  | .obj _, .bool _ => isFalse (fun h => JsVal.noConfusion h)
  | .obj _, .num _ _ => isFalse (fun h => JsVal.noConfusion h)
  | .obj _, .str _ => isFalse (fun h => JsVal.noConfusion h)
  | .obj _, .arr _ => isFalse (fun h => JsVal.noConfusion h)
  | .obj ps1, .obj ps2 =>
    match JsVal.decEqProps ps1 ps2 with
    | isTrue h => isTrue (congrArg _ h)
    | isFalse h => isFalse (fun e => h (by injection e))
/-- Equality of lists of JSON values is decidable. -/
def JsVal.decEqList : (xs ys : List JsVal) → Decidable (xs = ys)
  | [], [] => isTrue rfl
  | [], _ :: _ => isFalse (fun h => List.noConfusion h)
  | _ :: _, [] => isFalse (fun h => List.noConfusion h)
  | x :: xs, y :: ys =>
    match JsVal.decEq x y, JsVal.decEqList xs ys with
    | isTrue h1, isTrue h2 => isTrue (by rw [h1, h2])
    | isFalse h1, _ => isFalse (fun e => h1 (by injection e))
    | _, isFalse h2 => isFalse (fun e => h2 (by injection e))
/-- Equality of property lists is decidable. -/
def JsVal.decEqProps : (ps qs : List (String × JsVal)) → Decidable (ps = qs)
  | [], [] => isTrue rfl
  | [], _ :: _ => isFalse (fun h => List.noConfusion h)
  | _ :: _, [] => isFalse (fun h => List.noConfusion h)
  | (k1, x) :: ps, (k2, y) :: qs =>
    if hk : k1 = k2 then
      match JsVal.decEq x y, JsVal.decEqProps ps qs with
      | isTrue h1, isTrue h2 => isTrue (by rw [hk, h1, h2])
      | isFalse h1, _ => isFalse (fun e => h1 (by injection e with e1 e2; injection e1))
      | _, isFalse h2 => isFalse (fun e => h2 (by injection e))
    else isFalse (fun e => hk (by injection e with e1 e2; injection e1))
end

instance : DecidableEq JsVal := JsVal.decEq

/-- The four whitespace characters of the JSON grammar. -/
def isJsonWs (c : Char) : Bool :=
  c.toNat = 32 || c.toNat = 9 || c.toNat = 10 || c.toNat = 13

/-- Skips JSON whitespace. -/
def skipWs : List Char → List Char
  | [] => []
  | c :: cs => if isJsonWs c then skipWs cs else c :: cs

/-- Decimal digits. -/
def isDigit (c : Char) : Bool :=
  48 ≤ c.toNat && c.toNat ≤ 57

/-- Splits off the longest prefix of decimal digits. -/
def spanDigits : List Char → List Char × List Char
  | [] => ([], [])
  | c :: cs =>
    if isDigit c then
      let r := spanDigits cs
      (c :: r.1, r.2)
    else ([], c :: cs)

/-- The value of a sequence of decimal digits. -/
def digitsToNat (ds : List Char) : Nat :=
  ds.foldl (fun n c => 10 * n + (c.toNat - 48)) 0

/-- Removes trailing zeros of a decimal fraction: `m / 10^k` in lowest decimal terms. -/
def stripZeros : Nat → Nat → Nat × Nat
  | m, 0 => (m, 0)
  | m, k + 1 => if m % 10 = 0 then stripZeros (m / 10) k else (m, k + 1)

/-- The number `± mant * 10^scale` as a JSON value. -/
def mkNum (neg : Bool) (mant : Nat) (scale : Int) : JsVal :=
  let mk : Nat × Nat :=
    if 0 ≤ scale then (mant * 10 ^ scale.toNat, 0) else stripZeros mant (-scale).toNat
  .num (if neg then -(mk.1 : Int) else (mk.1 : Int)) mk.2

/-- The optional sign in front of a number or an exponent: whether it is a minus, and the
rest of the input. -/
def parseSign (plusAllowed : Bool) : List Char → Bool × List Char
  | [] => (false, [])
  | c :: r =>
    if c = '-' then (true, r)
    else if plusAllowed ∧ c = '+' then (false, r)
    else (false, c :: r)

/-- The exponent part of a number literal: its value and the rest of the input. -/
def parseExponent : List Char → Option (Int × List Char)
  | [] => some (0, [])
  | c :: r =>
    if c = 'e' ∨ c = 'E' then
      let sr := parseSign true r
      let ep := spanDigits sr.2
      if ep.1.isEmpty then none
      else some (if sr.1 then -(digitsToNat ep.1 : Int) else (digitsToNat ep.1 : Int), ep.2)
    else some (0, c :: r)

/-- The fraction part of a number literal: its digits and the rest of the input. -/
def parseFraction : List Char → Option (List Char × List Char)
  | [] => some ([], [])
  | c :: r =>
    if c = '.' then
      let fp := spanDigits r
      if fp.1.isEmpty then none else some fp
    else some ([], c :: r)

/-- A JSON number literal at the head of the input. -/
def parseNumber (cs : List Char) : Option (JsVal × List Char) :=
  let sr := parseSign false cs
  let ip := spanDigits sr.2
  if ip.1.isEmpty then none
  else if ip.1.head? = some '0' ∧ 1 < ip.1.length then none
  else
    match parseFraction ip.2 with
    | none => none
    | some (fp, r2) =>
      match parseExponent r2 with
      | none => none
      | some (e, r3) => some (mkNum sr.1 (digitsToNat (ip.1 ++ fp)) (e - fp.length), r3)

/-- The value of a hexadecimal digit. -/
def hexVal (c : Char) : Option Nat :=
  if 48 ≤ c.toNat ∧ c.toNat ≤ 57 then some (c.toNat - 48)
  else if 97 ≤ c.toNat ∧ c.toNat ≤ 102 then some (c.toNat - 87)
  else if 65 ≤ c.toNat ∧ c.toNat ≤ 70 then some (c.toNat - 55)
  else none

/-- The code unit written by four hexadecimal digits. -/
def hex4 (a b c d : Char) : Option Nat :=
  match hexVal a, hexVal b, hexVal c, hexVal d with
  | some x, some y, some z, some w => some (4096 * x + 256 * y + 16 * z + w)
  | _, _, _, _ => none

/-- The character of a `\uXXXX` escape that is not part of a surrogate pair.  Strings are
sequences of Unicode scalar values here, so an unpaired surrogate, which such a string
cannot hold, is read as U+FFFD. -/
def unitChar (n : Nat) : Char :=
  if 0xD800 ≤ n ∧ n ≤ 0xDFFF then Char.ofNat 0xFFFD else Char.ofNat n

/-- The low surrogate written by an escape at the head of the input, if there is one. -/
def lowSurrogate : List Char → Option (Nat × List Char)
  | '\\' :: 'u' :: a :: b :: c :: d :: r =>
    match hex4 a b c d with
    | some lo => if 0xDC00 ≤ lo ∧ lo ≤ 0xDFFF then some (lo, r) else none
    | none => none
  | _ => none

/-- The character written by an escape sequence, after its backslash, and the rest of the
input.  A high surrogate escape directly followed by a low surrogate escape is one
character. -/
def parseEscape : List Char → Option (Char × List Char)
  | [] => none
  | 'u' :: h1 :: h2 :: h3 :: h4 :: r =>
    match hex4 h1 h2 h3 h4 with
    | none => none
    | some hi =>
      match (if 0xD800 ≤ hi ∧ hi ≤ 0xDBFF then lowSurrogate r else none) with
      | some (lo, r2) => some (Char.ofNat (0x10000 + (hi - 0xD800) * 0x400 + (lo - 0xDC00)), r2)
      | none => some (unitChar hi, r)
  | e :: r =>
    if e = '"' then some ('"', r)
    else if e = '\\' then some ('\\', r)
    else if e = '/' then some ('/', r)
    else if e = 'b' then some (Char.ofNat 8, r)
    else if e = 'f' then some (Char.ofNat 12, r)
    else if e = 'n' then some (Char.ofNat 10, r)
    else if e = 'r' then some (Char.ofNat 13, r)
    else if e = 't' then some (Char.ofNat 9, r)
    else none

/-- The characters of a string literal after its opening quote, up to the closing quote,
and the rest of the input. -/
def parseStringBody : Nat → List Char → Option (List Char × List Char)
  | 0, _ => none
  | _ + 1, [] => none
  | fuel + 1, c :: rest =>
    if c = '"' then some ([], rest)
    else if c = '\\' then
      match parseEscape rest with
      | none => none
      | some (x, r) => (parseStringBody fuel r).map fun p => (x :: p.1, p.2)
    else if c.toNat < 32 then none
    else (parseStringBody fuel rest).map fun p => (c :: p.1, p.2)

/-- The index written by a canonical array-index property name (`"0"`, `"1"`, ... below
`2^32 - 1`), which the runtime orders before all other property names. -/
def arrayIndex (key : String) : Option Nat :=
  let ds := key.data
  if ds.isEmpty then none
  else if !ds.all isDigit then none
  else if ds.head? = some '0' ∧ 1 < ds.length then none
  else if digitsToNat ds < 4294967295 then some (digitsToNat ds) else none

/-- Inserts a new array-index property in ascending index order, before the other names. -/
def insertIndexed (n : Nat) (key : String) (v : JsVal) :
    List (String × JsVal) → List (String × JsVal)
  | [] => [(key, v)]
  | (k, w) :: rest =>
    match arrayIndex k with
    | some i => if i < n then (k, w) :: insertIndexed n key v rest else (key, v) :: (k, w) :: rest
    | none => (key, v) :: (k, w) :: rest

/-- Overwrites the value of an existing property, keeping its position. -/
def replaceProp (key : String) (v : JsVal) : List (String × JsVal) → List (String × JsVal)
  | [] => []
  | (k, w) :: rest => if k = key then (k, v) :: rest else (k, w) :: replaceProp key v rest

/-- Defines the property `key` of an object: an existing property keeps its place, a new one
goes after the existing ones (array indices first, in ascending order). -/
def setProp (props : List (String × JsVal)) (key : String) (v : JsVal) :
    List (String × JsVal) :=
  if props.any (fun p => p.1 = key) then replaceProp key v props
  else
    match arrayIndex key with
    | some n => insertIndexed n key v props
    | none => props ++ [(key, v)]

/-- The object built from the members of an object literal, in textual order. -/
def mkObject (members : List (String × JsVal)) : JsVal :=
  .obj (members.foldl (fun props m => setProp props m.1 m.2) [])

mutual
/-- A JSON value at the head of the input (no leading whitespace), and the rest. -/
def parseValue : Nat → List Char → Option (JsVal × List Char)
  | 0, _ => none
  | fuel + 1, cs =>
    match cs with
    | 'n' :: 'u' :: 'l' :: 'l' :: r => some (.null, r)
    | 't' :: 'r' :: 'u' :: 'e' :: r => some (.bool true, r)
    | 'f' :: 'a' :: 'l' :: 's' :: 'e' :: r => some (.bool false, r)
    | '"' :: r => (parseStringBody (r.length + 1) r).map fun p => (.str (String.mk p.1), p.2)
    | '[' :: r =>
      let r1 := skipWs r
      if r1.head? = some ']' then some (.arr [], r1.tail)
      else (parseElements fuel r1).map fun p => (.arr p.1, p.2)
    | '{' :: r =>
      let r1 := skipWs r
      if r1.head? = some '}' then some (.obj [], r1.tail)
      else (parseMembers fuel r1).map fun p => (mkObject p.1, p.2)
    | _ => parseNumber cs
/-- The elements of a non-empty array literal up to its closing bracket. -/
def parseElements : Nat → List Char → Option (List JsVal × List Char)
  | 0, _ => none
  | fuel + 1, cs =>
    match parseValue fuel cs with
    | none => none
    | some (v, r) =>
      match skipWs r with
      | ',' :: r1 => (parseElements fuel (skipWs r1)).map fun p => (v :: p.1, p.2)
      | ']' :: r1 => some ([v], r1)
      | _ => none
/-- The members of a non-empty object literal up to its closing brace. -/
def parseMembers : Nat → List Char → Option (List (String × JsVal) × List Char)
  | 0, _ => none
  | fuel + 1, cs =>
    match cs with
    | '"' :: r =>
      match parseStringBody (r.length + 1) r with
      | none => none
      | some (key, r1) =>
        match skipWs r1 with
        | ':' :: r2 =>
          match parseValue fuel (skipWs r2) with
          | none => none
          | some (v, r3) =>
            match skipWs r3 with
            | ',' :: r4 =>
              (parseMembers fuel (skipWs r4)).map fun p => ((String.mk key, v) :: p.1, p.2)
            | '}' :: r4 => some ([(String.mk key, v)], r4)
            | _ => none
        | _ => none
    | _ => none
end

/-- The runtime's `JSON.parse`: the text must be one JSON value between optional
whitespace, otherwise a `SyntaxError` is thrown.  The recursion budget given to
`parseValue` is enough for every text (`parse_of_parseValue`). -/
def JSON.parse (text : String) : Except JsErr JsVal :=
  let cs := skipWs text.data
  match parseValue (2 * cs.length + 2) cs with
  | none => .error (.syntaxError "Unexpected token in JSON")
  | some (v, rest) =>
    if (skipWs rest).isEmpty then .ok v else .error (.syntaxError "Unexpected token in JSON")

/-! ## The runtime's `JSON.stringify(value, null, 2)` -/

/-- The decimal digits of a number, most significant first, pushed in front of `acc`. -/
def natDigits : Nat → Nat → List Char → List Char
  | 0, _, acc => acc
  | fuel + 1, n, acc =>
    if n / 10 = 0 then Char.ofNat (48 + n % 10) :: acc
    else natDigits fuel (n / 10) (Char.ofNat (48 + n % 10) :: acc)

/-- The decimal numeral of a natural number. -/
def natText (n : Nat) : List Char :=
  natDigits (n + 1) n []

/-- The last `width` decimal digits of a number, with leading zeros. -/
def padDigits : Nat → Nat → List Char → List Char
  | 0, _, acc => acc
  | width + 1, n, acc => padDigits width (n / 10) (Char.ofNat (48 + n % 10) :: acc)

/-- The text of the number `m / 10^k`.  Integers are written as the runtime writes them
below `10^21`; other decimals are written in positional notation. -/
def numText (m : Int) (k : Nat) : List Char :=
  (if m < 0 then ['-'] else []) ++ natText (m.natAbs / 10 ^ k) ++
    (if k = 0 then [] else '.' :: padDigits k (m.natAbs % 10 ^ k) [])

/-- A lower-case hexadecimal digit. -/
def hexDigit (n : Nat) : Char :=
  if n < 10 then Char.ofNat (48 + n) else Char.ofNat (87 + n)

/-- The way `JSON.stringify` writes one character inside a string literal. -/
def quoteChar (c : Char) : List Char :=
  if c = '"' then ['\\', '"']
  else if c = '\\' then ['\\', '\\']
  else if c.toNat = 8 then ['\\', 'b']
  else if c.toNat = 12 then ['\\', 'f']
  else if c.toNat = 10 then ['\\', 'n']
  else if c.toNat = 13 then ['\\', 'r']
  else if c.toNat = 9 then ['\\', 't']
  else if c.toNat < 32 then ['\\', 'u', '0', '0', hexDigit (c.toNat / 16), hexDigit (c.toNat % 16)]
  else [c]

/-- The characters of a quoted string after the opening quote, closing quote included. -/
def quoteBody : List Char → List Char
  | [] => ['"']
  | c :: cs => quoteChar c ++ quoteBody cs

/-- A string literal. -/
def quoteString (s : String) : List Char :=
  '"' :: quoteBody s.data

/-- A line break followed by `n` spaces. -/
def newline (n : Nat) : List Char :=
  Char.ofNat 10 :: List.replicate n ' '

mutual
/-- The text of a value that starts at indentation `ind`. -/
def stringifyValue (ind : Nat) : JsVal → List Char
  | .null => ['n', 'u', 'l', 'l']
  | .bool true => ['t', 'r', 'u', 'e']
  | .bool false => ['f', 'a', 'l', 's', 'e']
  | .num m k => numText m k
  | .str s => quoteString s
  | .arr [] => ['[', ']']
  | .arr (x :: xs) =>
    '[' :: (newline (ind + 2) ++ stringifyValue (ind + 2) x ++ stringifyElements ind xs)
  | .obj [] => ['{', '}']
  | .obj ((key, x) :: ps) =>
    '{' :: (newline (ind + 2) ++ quoteString key ++ ':' :: ' ' :: stringifyValue (ind + 2) x ++
      stringifyMembers ind ps)
/-- The elements of an array after the first one, and the closing bracket. -/
def stringifyElements (ind : Nat) : List JsVal → List Char
  | [] => newline ind ++ [']']
  | x :: xs => ',' :: (newline (ind + 2) ++ stringifyValue (ind + 2) x ++ stringifyElements ind xs)
/-- The members of an object after the first one, and the closing brace. -/
def stringifyMembers (ind : Nat) : List (String × JsVal) → List Char
  | [] => newline ind ++ ['}']
  | (key, x) :: ps =>
    ',' :: (newline (ind + 2) ++ quoteString key ++ ':' :: ' ' :: stringifyValue (ind + 2) x ++
      stringifyMembers ind ps)
end

/-- The call `JSON.stringify(value, null, 2)` on a JSON value. -/
def JSON.stringify (v : JsVal) : String :=
  String.mk (stringifyValue 0 v)


/-! ## Property reads and arithmetic on runtime values -/

/-- The number of UTF-16 code units of a string: its `length` in the runtime. -/
def utf16Length (s : String) : Nat :=
  (s.data.map fun c => if c.toNat < 65536 then 1 else 2).sum

/-- The read `v.name` of a property that no prototype defines (`highlights`, `categories`,
`launches`, ...); `none` is `undefined`.  Reading a property of `undefined` or `null`
throws a `TypeError`. -/
def getProp (v : Option JsVal) (name : String) : Except JsErr (Option JsVal) :=
  match v with
  | none => .error (.typeError "Cannot read properties of undefined")
  | some .null => .error (.typeError "Cannot read properties of null")
  | some (.obj props) => .ok (props.lookup name)
  | some _ => .ok none

/-- The read `v.length`. -/
def getLength (v : Option JsVal) : Except JsErr (Option JsVal) :=
  match v with
  | none => .error (.typeError "Cannot read properties of undefined")
  | some .null => .error (.typeError "Cannot read properties of null")
  | some (.arr items) => .ok (some (.num items.length 0))
  | some (.str s) => .ok (some (.num (utf16Length s) 0))
  | some (.obj props) => .ok (props.lookup "length")
  | some _ => .ok none

/-- The call `Object.values(v)`.  The values of a string are its code units, each as a
string; the two halves of a character outside the basic plane are written U+FFFD. -/
def objectValues (v : Option JsVal) : Except JsErr (List JsVal) :=
  match v with
  | none => .error (.typeError "Cannot convert undefined or null to object")
  | some .null => .error (.typeError "Cannot convert undefined or null to object")
  | some (.obj props) => .ok (props.map Prod.snd)
  | some (.arr items) => .ok items
  | some (.str s) =>
    .ok (s.data.flatMap fun c =>
      if c.toNat < 65536 then [.str (String.mk [c])]
      else [.str (String.mk [Char.ofNat 0xFFFD]), .str (String.mk [Char.ofNat 0xFFFD])])
  | some _ => .ok []

/-- The call `xs.flat()`: nested arrays are spliced in, one level deep. -/
def flat (xs : List JsVal) : List JsVal :=
  xs.flatMap fun x =>
    match x with
    | .arr ys => ys
    | y => [y]

/-- A primitive runtime value, as an operand or result of `+`. -/
inductive Prim where
  | undefined
  | null
  | bool (b : Bool)
  | num (m : Int) (k : Nat)
  | nan
  | str (s : List Char)

mutual
/-- The runtime's `ToString` of a JSON value; an array is the comma-separated list of its
elements, with `null` written as the empty string. -/
def toStringValue : JsVal → List Char
  | .null => ['n', 'u', 'l', 'l']
  | .bool true => ['t', 'r', 'u', 'e']
  | .bool false => ['f', 'a', 'l', 's', 'e']
  | .num m k => numText m k
  | .str s => s.data
  | .arr xs => toStringElements xs
  | .obj _ => "[object Object]".data
/-- The runtime's `Array.prototype.join` with the separator `,`. -/
def toStringElements : List JsVal → List Char
  | [] => []
  | [.null] => []
  | [x] => toStringValue x
  | .null :: xs => ',' :: toStringElements xs
  | x :: xs => toStringValue x ++ ',' :: toStringElements xs
end

/-- The runtime's `ToPrimitive`: arrays and objects become strings. -/
def toPrimitive : Option JsVal → Prim
  | none => .undefined
  | some .null => .null
  | some (.bool b) => .bool b
  | some (.num m k) => .num m k
  | some (.str s) => .str s.data
  | some (.arr xs) => .str (toStringValue (.arr xs))
  | some (.obj ps) => .str (toStringValue (.obj ps))

/-- The runtime's `ToString` of a primitive. -/
def Prim.text : Prim → List Char
  | .undefined => "undefined".data
  | .null => "null".data
  | .bool true => "true".data
  | .bool false => "false".data
  | .num m k => numText m k
  | .nan => "NaN".data
  | .str s => s

/-- The sum of two decimals, in lowest decimal terms. -/
def addDecimal (m1 : Int) (k1 : Nat) (m2 : Int) (k2 : Nat) : Prim :=
  let total : Int := m1 * 10 ^ (max k1 k2 - k1) + m2 * 10 ^ (max k1 k2 - k2)
  let mk := stripZeros total.natAbs (max k1 k2)
  .num (if total < 0 then -(mk.1 : Int) else (mk.1 : Int)) mk.2

/-- The runtime's `ToNumber` of a primitive that is not a string; `none` is `NaN`. -/
def Prim.toNumber : Prim → Option (Int × Nat)
  | .undefined => none
  | .null => some (0, 0)
  | .bool b => some (if b then 1 else 0, 0)
  | .num m k => some (m, k)
  | .nan => none
  | .str _ => none

/-- The numeric addition of two primitives that are not strings. -/
def addNumeric (p q : Prim) : Prim :=
  match p.toNumber, q.toNumber with
  | some a, some b => addDecimal a.1 a.2 b.1 b.2
  | _, _ => .nan

/-- The expression `a + b`: concatenation when either operand is a string after
`ToPrimitive`, numeric addition otherwise. -/
def jsAdd (a b : Option JsVal) : Prim :=
  match toPrimitive a, toPrimitive b with
  | .str x, q => .str (x ++ q.text)
  | p, .str y => .str (p.text ++ y)
  | p, q => addNumeric p q

/-- What `JSON.stringify` makes of a primitive property value: `undefined` is left out,
`NaN` is written `null`. -/
def Prim.toJson : Prim → Option JsVal
  | .undefined => none
  | .null => some .null
  | .bool b => some (.bool b)
  | .num m k => some (.num m k)
  | .nan => some .null
  | .str s => some (.str (String.mk s))

/-- An object literal as `JSON.stringify` sees it: properties whose value is `undefined`
are left out. -/
def objectLiteral (props : List (String × Option JsVal)) : JsVal :=
  .obj (props.filterMap fun p => p.2.map fun v => (p.1, v))


/-! ## Calendar dates of time values -/

/-- The proleptic Gregorian year, month and day of a day number counted from 1970-01-01. -/
def civilFromDays (days : Int) : Int × Int × Int :=
  let z := days + 719468
  let era := z / 146097
  let doe := z - era * 146097
  let yoe := (doe - doe / 1460 + doe / 36524 - doe / 146096) / 365
  let doy := doe - (365 * yoe + yoe / 4 - yoe / 100)
  let mp := (5 * doy + 2) / 153
  let d := doy - (153 * mp + 2) / 5 + 1
  let m := if mp < 10 then mp + 3 else mp - 9
  let y := yoe + era * 400 + (if m ≤ 2 then 1 else 0)
  (y, m, d)

/-- The year of an ISO date string: four digits, or a sign and six digits outside
`0000`-`9999`. -/
def isoYear (y : Int) : List Char :=
  if 0 ≤ y ∧ y ≤ 9999 then padDigits 4 y.toNat []
  else (if y < 0 then '-' else '+') :: padDigits 6 y.natAbs []

/-- The ISO 8601 text of a time value: `YYYY-MM-DDTHH:mm:ss.sssZ`. -/
def isoText (t : Int) : List Char :=
  let ymd := civilFromDays (t / 86400000)
  let ms := (t % 86400000).toNat
  isoYear ymd.1 ++ '-' :: padDigits 2 ymd.2.1.toNat [] ++ '-' ::
    padDigits 2 ymd.2.2.toNat [] ++ 'T' :: padDigits 2 (ms / 3600000) [] ++ ':' ::
    padDigits 2 (ms / 60000 % 60) [] ++ ':' :: padDigits 2 (ms / 1000 % 60) [] ++ '.' ::
    padDigits 3 (ms % 1000) [] ++ ['Z']

/-- The method `toISOString` of a Date with time value `date` (`none`: an Invalid Date, for
which a `RangeError` is thrown). -/
def toISOString (date : Option Int) : Except JsErr (List Char) :=
  match date with
  | none => .error (.rangeError "Invalid time value")
  | some t => .ok (isoText t)

/-- The expression `s.split(sep)[0]`: the text before the first separator. -/
def splitFirst (sep : Char) : List Char → List Char
  | [] => []
  | c :: cs => if c = sep then [] else c :: splitFirst sep cs

/-- The date key of a time value: `date.toISOString().split('T')[0]`. -/
def dateKey (t : Int) : String :=
  String.mk (splitFirst 'T' (isoText t))

/-! ## Digest store (`src/email/storage.js`) -/

/-- A node of the newsletter directory: a regular file with its text, or a node that
cannot be read or written as a file (a directory). -/
inductive Entry where
  | file (content : String)
  | dir
  deriving DecidableEq, Repr

/-- The state of the file system as the store sees it: the working directory of the
process, whether the newsletter directory can be accessed (or created when missing), and
the nodes in it by name.  A missing directory that can be created is the empty directory. -/
structure FsState where
  cwd : String
  accessible : Bool
  entries : List (String × Entry)
  deriving DecidableEq, Repr

/-- The constant `DATA_DIR`. -/
def DATA_DIR (fs : FsState) : String :=
  fs.cwd ++ "/data/newsletters"

/-- The function `ensureDataDir`: `access`, and `mkdir` when that fails. -/
def ensureDataDir (fs : FsState) : Except JsErr FsState :=
  if fs.accessible then .ok fs else .error (.ioError "EACCES")

/-- Sets the node of a name, in place when the name exists. -/
def setEntry (name : String) (e : Entry) : List (String × Entry) → List (String × Entry)
  | [] => [(name, e)]
  | (n, x) :: rest => if n = name then (n, e) :: rest else (n, x) :: setEntry name e rest

/-- The file system in which the file `name` holds `content`. -/
def FsState.store (fs : FsState) (name content : String) : FsState :=
  { fs with entries := setEntry name (.file content) fs.entries }

/-- The call `fs.writeFile(path.join(DATA_DIR, name), content, 'utf-8')`. -/
def writeFile (fs : FsState) (name : String) (content : String) : Except JsErr FsState :=
  if !fs.accessible then .error (.ioError "ENOENT")
  else
    match fs.entries.lookup name with
    | some .dir => .error (.ioError "EISDIR")
    | _ => .ok (fs.store name content)

/-- The call `fs.readFile(path.join(DATA_DIR, name), 'utf-8')`. -/
def readFile (fs : FsState) (name : String) : Except JsErr String :=
  if !fs.accessible then .error (.ioError "ENOENT")
  else
    match fs.entries.lookup name with
    | some (.file content) => .ok content
    | some .dir => .error (.ioError "EISDIR")
    | none => .error (.ioError "ENOENT")

/-- The call `fs.readdir(DATA_DIR)`. -/
def readdir (fs : FsState) : Except JsErr (List String) :=
  if fs.accessible then .ok (fs.entries.map Prod.fst) else .error (.ioError "ENOENT")

/-- The size in bytes reported by `fs.stat(path.join(DATA_DIR, name))`. -/
def statSize (fs : FsState) (name : String) : Except JsErr Nat :=
  if !fs.accessible then .error (.ioError "ENOENT")
  else
    match fs.entries.lookup name with
    | some (.file content) => .ok content.utf8ByteSize
    | some .dir => .ok 4096
    | none => .error (.ioError "ENOENT")

/-- The object literal `newsletterData` built inside `saveNewsletter`: the date, the
generation time, the derived counts, the digest and the raw articles. -/
def newsletterData (dateStr : String) (generatedTime : Int) (curatedData rawArticles : JsVal) :
    Except JsErr JsVal := do
  let generatedAt ← toISOString (some generatedTime)
  let rawCount ← getLength (some rawArticles)
  let highlights ← getProp (some curatedData) "highlights"
  let highlightCount ← getLength highlights
  let categories ← getProp (some curatedData) "categories"
  let values ← objectValues categories
  let curatedCount := jsAdd highlightCount (some (.num (flat values).length 0))
  let highlights2 ← getProp (some curatedData) "highlights"
  let highlightCount2 ← getLength highlights2
  let launches ← getProp categories "launches"
  let launchCount ← getLength launches
  let tutorials ← getProp categories "tutorials"
  let tutorialCount ← getLength tutorials
  let discussions ← getProp categories "discussions"
  let discussionCount ← getLength discussions
  let trends ← getProp categories "trends"
  let trendCount ← getLength trends
  pure (objectLiteral
    [ ("date", some (.str dateStr)),
      ("generatedAt", some (.str (String.mk generatedAt))),
      ("stats", some (objectLiteral
        [ ("rawArticles", rawCount),
          ("curatedArticles", curatedCount.toJson),
          ("highlights", highlightCount2),
          ("categories", some (objectLiteral
            [ ("launches", launchCount),
              ("tutorials", tutorialCount),
              ("discussions", discussionCount),
              ("trends", trendCount) ])) ])),
      ("data", some curatedData),
      ("raw", some rawArticles) ])

/-- The function `saveNewsletter`, with the clock reading used for `generatedAt` as a
parameter; the `catch` block rethrows.  Returns the new state of the file system and the
path of the record. -/
def saveNewsletter (fs : FsState) (curatedData rawArticles : JsVal) (date : Option Int)
    (generatedTime : Int) : Except JsErr (FsState × String) := do
  let fs1 ← ensureDataDir fs
  let iso ← toISOString date
  let dateStr := String.mk (splitFirst 'T' iso)
  let filename := dateStr ++ ".json"
  let filepath := DATA_DIR fs ++ "/" ++ filename
  let data ← newsletterData dateStr generatedTime curatedData rawArticles
  let fs2 ← writeFile fs1 filename (JSON.stringify data)
  let _fileSize ← statSize fs2 filename
  pure (fs2, filepath)

/-- The order of the default `sort()`: strings are compared by their UTF-16 code units. -/
def utf16Units (s : String) : List Nat :=
  s.data.flatMap fun c =>
    if c.toNat < 65536 then [c.toNat]
    else [0xD800 + (c.toNat - 65536) / 1024, 0xDC00 + (c.toNat - 65536) % 1024]

/-- The comparison used by the default `sort()`. -/
def sortLe (a b : String) : Prop :=
  utf16Units a ≤ utf16Units b

instance : DecidableRel sortLe := fun a b =>
  inferInstanceAs (Decidable (utf16Units a ≤ utf16Units b))

instance : IsTotal String sortLe :=
  ⟨fun a b => le_total (utf16Units a) (utf16Units b)⟩

instance : IsTrans String sortLe :=
  ⟨fun _ _ _ h1 h2 => le_trans (α := List Nat) h1 h2⟩

/-- The test `f.endsWith('.json')`. -/
def endsWithJson (f : String) : Bool :=
  ".json".data.isSuffixOf f.data

/-- The function `listNewsletters`: the `try` block lists, filters, sorts and reverses the
names, the `catch` block returns the empty array. -/
def listNewsletters (fs : FsState) : Except JsErr (List String) :=
  match (do
      let fs1 ← ensureDataDir fs
      let files ← readdir fs1
      pure (((files.filter endsWithJson).insertionSort sortLe).reverse) :
        Except JsErr (List String)) with
  | .ok names => .ok names
  | .error _ => .ok []

/-- The function `loadNewsletter`: the `try` block reads and parses the record, the `catch`
block returns `null`. -/
def loadNewsletter (fs : FsState) (date : String) : Except JsErr JsVal :=
  match (do
      let filename := date ++ ".json"
      let content ← readFile fs filename
      JSON.parse content : Except JsErr JsVal) with
  | .ok record => .ok record
  | .error _ => .ok .null


/-! ## Curation engine (`src/ai/gemini.js`) -/

/-- The constant `CURATOR_PROMPT`: the fixed curation instructions. -/
def CURATOR_PROMPT : String :=
  String.join [
    "Você é um curador expert de conteúdo tech/programação/IA para uma newsletter BRASILEIRA.\n",
    "\n",
    "Analise os artigos fornecidos e retorne um JSON com a seguinte estrutura:\n",
    "\n",
    "\x7b\n",
    "  \"highlights\": [\n",
    "    // TOP 5 artigos mais importantes/relevantes do dia\n",
    "  ],\n",
    "  \"categories\": \x7b\n",
    "    \"launches\": [],      // Lançamentos de produtos, features, versões\n",
    "    \"tutorials\": [],     // Tutoriais, how-tos, guias práticos\n",
    "    \"discussions\": [],   // Discussões técnicas, debates, opiniões\n",
    "    \"trends\": []         // Análises de mercado, tendências, estudos\n",
    "  \x7d\n",
    "\x7d\n",
    "\n",
    "Para cada artigo, retorne:\n",
    "\x7b\n",
    "  \"title\": \"título TRADUZIDO para português brasileiro\",\n",
    "  \"original_title\": \"título original em inglês (se aplicável)\",\n",
    "  \"url\": \"url original\",\n",
    "  \"source\": \"fonte original\",\n",
    "  \"category\": \"categoria principal\",\n",
    "  \"relevance\": 1-5,  // 5 = muito relevante, 1 = pouco relevante\n",
    "  \"summary\": \"resumo em 2-3 linhas focado no valor/aprendizado\",\n",
    "  \"tags\": [\"tag1\", \"tag2\", \"tag3\"],\n",
    "  \"reasoning\": \"por que isso é relevante (1 linha)\"\n",
    "\x7d\n",
    "\n",
    "TRADUÇÃO OBRIGATÓRIA:\n",
    "- TRADUZA todos os títulos para português brasileiro natural e fluente\n",
    "- Mantenha termos técnicos em inglês: API, React, Node.js, TypeScript, DevOps, etc\n",
    "- Use linguagem informal mas profissional, como um dev brasileiro falaria\n",
    "- Exemplos:\n",
    "  - \"How to Build a REST API\" → \"Como Criar uma API REST\"\n",
    "  - \"React 19 is Here\" → \"React 19 Chegou!\"\n",
    "  - \"Why Senior Developers Use...\" → \"Por Que Devs Seniors Usam...\"\n",
    "\n",
    "CRITÉRIOS DE RELEVÂNCIA:\n",
    "- 5: Breaking news, major launches, game-changers\n",
    "- 4: Tutoriais práticos úteis, discussões importantes\n",
    "- 3: Conteúdo interessante mas não urgente\n",
    "- 2: Conteúdo específico/nicho\n",
    "- 1: Conteúdo repetitivo ou de baixo valor\n",
    "\n",
    "IMPORTANTE:\n",
    "- Priorize artigos sobre: Claude, IA generativa, React, Node.js, DevTools modernos\n",
    "- Destaque artigos do tipo \"como seniors usam X\" ou \"padrões de uso\"\n",
    "- Seja crítico: exclua clickbait e conteúdo superficial\n",
    "- Retorne APENAS o JSON válido, sem texto adicional" ]

/-- Removes every match of a fence pattern followed by an optional line feed, scanning
from the left: `text.replace(/PATTERN\n?/g, '')`. -/
def removeFence (pat : List Char) : Nat → List Char → List Char
  | 0, cs => cs
  | _ + 1, [] => []
  | fuel + 1, c :: cs =>
    if pat.isPrefixOf (c :: cs) then
      removeFence pat fuel
        (match (c :: cs).drop pat.length with
          | d :: r => if d.toNat = 10 then r else d :: r
          | [] => [])
    else c :: removeFence pat fuel cs

/-- The characters removed by `trim()`: white space and line terminators. -/
def isTrimSpace (c : Char) : Bool :=
  let n := c.toNat
  n = 9 || n = 10 || n = 11 || n = 12 || n = 13 || n = 32 || n = 160 || n = 5760 ||
    (8192 ≤ n && n ≤ 8202) || n = 8232 || n = 8233 || n = 8239 || n = 8287 || n = 12288 ||
    n = 65279

/-- The method `trim()`. -/
def trim (cs : List Char) : List Char :=
  ((cs.dropWhile isTrimSpace).reverse.dropWhile isTrimSpace).reverse

/-- The three backticks of a Markdown code fence. -/
def fence : List Char :=
  [Char.ofNat 96, Char.ofNat 96, Char.ofNat 96]

/-- The statement that strips Markdown code fences from the model's text: the fence opener
with the word json, then any remaining fence, each with an optional line feed, then
`trim()`. -/
def stripFences (text : String) : String :=
  let step1 := removeFence (fence ++ ['j', 's', 'o', 'n']) (text.data.length + 1) text.data
  let step2 := removeFence fence (step1.length + 1) step1
  String.mk (trim step2)

/-- The text of a field inside a template literal. -/
def Field.text : Field → String
  | .undefined => "undefined"
  | .null => "null"
  | .str s => s

/-- The first `n` UTF-16 code units of a string; a character outside the basic plane cut
in two leaves U+FFFD. -/
def takeUnits : Nat → List Char → List Char
  | 0, _ => []
  | _ + 1, [] => []
  | n + 1, c :: cs =>
    if c.toNat < 65536 then c :: takeUnits n cs
    else
      match n with
      | 0 => [Char.ofNat 0xFFFD]
      | m + 1 => c :: takeUnits m cs

/-- The expression `article.description.slice(0, 300)`. -/
def sliceDescription : Field → Except JsErr String
  | .undefined => .error (.typeError "Cannot read properties of undefined")
  | .null => .error (.typeError "Cannot read properties of null")
  | .str s => .ok (String.mk (takeUnits 300 s.data))

/-- The prompt blocks of the articles from position `index` on. -/
def promptBlocks (index : Nat) : List RawArticle → Except JsErr (List String)
  | [] => .ok []
  | article :: rest => do
    let description ← sliceDescription article.description
    let block := "[" ++ String.mk (natText (index + 1)) ++ "]\nTítulo: " ++ article.title.text ++
      "\nURL: " ++ article.url.text ++ "\nFonte: " ++ article.source ++ "\nDescrição: " ++
      description ++ "...\n---"
    let blocks ← promptBlocks (index + 1) rest
    pure (block :: blocks)

/-- The prompt sent to the model. -/
def buildPrompt (articles : List RawArticle) : Except JsErr String := do
  let blocks ← promptBlocks 0 articles
  let articlesText := "\n\n".intercalate blocks
  pure (CURATOR_PROMPT ++ "\n\nARTIGOS PARA ANALISAR:\n\n" ++ articlesText ++
    "\n\nRETORNE O JSON:")

/-- The digest returned for an empty article list. -/
def emptyDigest : JsVal :=
  .obj [("highlights", .arr []),
    ("categories", .obj [("launches", .arr []), ("tutorials", .arr []),
      ("discussions", .arr []), ("trends", .arr [])])]

/-- The reads of the parsed response made for the statistics that `processWithAI` logs.
Their values are only printed; a read of a property of `undefined` or `null` throws. -/
def logStatistics (curatedData : JsVal) : Except JsErr Unit := do
  let highlights ← getProp (some curatedData) "highlights"
  let highlightCount ← getLength highlights
  let categories ← getProp (some curatedData) "categories"
  let values ← objectValues categories
  let _totalCurated := jsAdd highlightCount (some (.num (flat values).length 0))
  let highlights2 ← getProp (some curatedData) "highlights"
  let _ ← getLength highlights2
  let launches ← getProp categories "launches"
  let _ ← getLength launches
  let tutorials ← getProp categories "tutorials"
  let _ ← getLength tutorials
  let discussions ← getProp categories "discussions"
  let _ ← getLength discussions
  let trends ← getProp categories "trends"
  let _ ← getLength trends
  pure ()

/-- The function `processWithAI`.  `generateContent` is the model call together with the
read of the text of its response; the `catch` block rethrows. -/
def processWithAI (generateContent : String → Except JsErr String)
    (articles : List RawArticle) : Except JsErr JsVal :=
  if articles.length = 0 then .ok emptyDigest
  else do
    let fullPrompt ← buildPrompt articles
    let text ← generateContent fullPrompt
    let text := stripFences text
    let curatedData ← JSON.parse text
    logStatistics curatedData
    pure curatedData

/-! ## Pipeline orchestrators (`src/index.js`, `src/server.js`) -/

/-- A raw article as a member of the array handed to the store: a field that is
`undefined` is a property that `JSON.stringify` leaves out. -/
def Field.toJson : Field → Option JsVal
  | .undefined => none
  | .null => some .null
  | .str s => some (.str s)

/-- The JSON value of a raw article. -/
def RawArticle.toJson (a : RawArticle) : JsVal :=
  objectLiteral
    [ ("title", a.title.toJson),
      ("url", a.url.toJson),
      ("description", a.description.toJson),
      ("publishedAt", a.publishedAt.toJson),
      ("source", some (.str a.source)),
      ("sourceCategory", some (.str a.sourceCategory)) ]

/-- The JSON value of an array of raw articles. -/
def rawToJson (articles : List RawArticle) : JsVal :=
  .arr (articles.map RawArticle.toJson)

/-- The collaborators of a pipeline run and the clock readings it makes. -/
structure World where
  parseURL : String → Except JsErr (List FeedItem)
  dateParse : String → Option Int
  collectTime : Int
  generateContent : String → Except JsErr String
  saveTime : Int
  generatedTime : Int
  sendNewsletter : JsVal → Except JsErr Unit
  sendEmailOnGenerate : Except JsErr Bool
  gmailConfigured : Bool

/-- A call made by an orchestrator to one of the pipeline components. -/
inductive Call where
  | collectAllFeeds
  | processWithAI (articles : List RawArticle)
  | saveNewsletter (curatedData : JsVal) (rawArticles : List RawArticle)
  | loadConfig
  | sendNewsletter (curatedData : JsVal)
  deriving DecidableEq, Repr

/-- How a run ended. -/
inductive Outcome where
  | returned
  | exited (code : Nat)
  | responded (status : Nat) (body : JsVal)
  deriving DecidableEq, Repr

/-- The result of a run: the component calls in order, the file system afterwards, and how
the run ended. -/
structure Run where
  calls : List Call
  fs : FsState
  outcome : Outcome
  deriving DecidableEq, Repr

/-- The steps that the three orchestrators share, from the model call on: curate, save,
load the configuration when `loadsConfig` is set, and send the mail when `sends` holds of
the loaded `sendEmailOnGenerate` flag.  Returns the calls made, the file system, and the
digest or the exception that ended the steps. -/
def curateSaveSend (w : World) (fs : FsState) (rawArticles : List RawArticle)
    (loadsConfig : Bool) (sends : Bool → Bool) : List Call × FsState × Except JsErr JsVal :=
  match processWithAI w.generateContent rawArticles with
  | .error e => ([.processWithAI rawArticles], fs, .error e)
  | .ok curatedData =>
    let calls1 := [Call.processWithAI rawArticles, .saveNewsletter curatedData rawArticles]
    match saveNewsletter fs curatedData (rawToJson rawArticles) (some w.saveTime)
        w.generatedTime with
    | .error e => (calls1, fs, .error e)
    | .ok (fs1, _) =>
      let calls2 := if loadsConfig then calls1 ++ [.loadConfig] else calls1
      match (if loadsConfig then w.sendEmailOnGenerate else .ok true) with
      | .error e => (calls2, fs1, .error e)
      | .ok flag =>
        if sends flag then
          match w.sendNewsletter curatedData with
          | .error e => (calls2 ++ [.sendNewsletter curatedData], fs1, .error e)
          | .ok _ => (calls2 ++ [.sendNewsletter curatedData], fs1, .ok curatedData)
        else (calls2, fs1, .ok curatedData)

/-- The function `runNewsletterJob` of `index.js`: the `catch` block exits the process with
code 1. -/
def runNewsletterJob (w : World) (fs : FsState) : Run :=
  match collectAllFeeds w.parseURL w.dateParse w.collectTime with
  | .error _ => ⟨[.collectAllFeeds], fs, .exited 1⟩
  | .ok rawArticles =>
    if rawArticles.length = 0 then ⟨[.collectAllFeeds], fs, .returned⟩
    else
      match curateSaveSend w fs rawArticles false (fun _ => true) with
      | (calls, fs1, .error _) => ⟨.collectAllFeeds :: calls, fs1, .exited 1⟩
      | (calls, fs1, .ok _) => ⟨.collectAllFeeds :: calls, fs1, .returned⟩

/-- The function `runScheduledNewsletter` of `server.js`: the `catch` block logs and
returns. -/
def runScheduledNewsletter (w : World) (fs : FsState) : Run :=
  match collectAllFeeds w.parseURL w.dateParse w.collectTime with
  | .error _ => ⟨[.collectAllFeeds], fs, .returned⟩
  | .ok rawArticles =>
    if rawArticles.length = 0 then ⟨[.collectAllFeeds], fs, .returned⟩
    else
      match curateSaveSend w fs rawArticles true (fun _ => w.gmailConfigured) with
      | (calls, fs1, _) => ⟨.collectAllFeeds :: calls, fs1, .returned⟩

/-- The body of an error response. -/
def errorBody (error message : String) : JsVal :=
  .obj [("error", .str error), ("message", .str message)]

/-- The message of an exception. -/
def JsErr.message : JsErr → String
  | .typeError m => m
  | .syntaxError m => m
  | .rangeError m => m
  | .ioError m => m
  | .other m => m

/-- The body of the success response of the generate handler. -/
def generateBody (rawArticles : List RawArticle) (curatedData : JsVal) : Except JsErr JsVal := do
  let highlights ← getProp (some curatedData) "highlights"
  let highlightCount ← getLength highlights
  let categories ← getProp (some curatedData) "categories"
  let launches ← getProp categories "launches"
  let launchCount ← getLength launches
  let tutorials ← getProp categories "tutorials"
  let tutorialCount ← getLength tutorials
  let discussions ← getProp categories "discussions"
  let discussionCount ← getLength discussions
  let trends ← getProp categories "trends"
  let trendCount ← getLength trends
  pure (objectLiteral
    [ ("success", some (.bool true)),
      ("message", some (.str "Newsletter gerada com sucesso!")),
      ("stats", some (objectLiteral
        [ ("rawArticles", some (.num rawArticles.length 0)),
          ("highlights", highlightCount),
          ("categories", some (objectLiteral
            [ ("launches", launchCount),
              ("tutorials", tutorialCount),
              ("discussions", discussionCount),
              ("trends", trendCount) ])) ])),
      ("data", some curatedData) ])

/-- The handler of `POST /api/newsletter/generate` in `server.js`. -/
def generateHandler (w : World) (fs : FsState) : Run :=
  match collectAllFeeds w.parseURL w.dateParse w.collectTime with
  | .error e => ⟨[.collectAllFeeds], fs, .responded 500 (errorBody "Erro ao gerar newsletter" e.message)⟩
  | .ok rawArticles =>
    if rawArticles.length = 0 then
      ⟨[.collectAllFeeds], fs,
        .responded 404 (errorBody "Nenhum artigo encontrado" "Nenhum artigo novo nas últimas 24h")⟩
    else
      match curateSaveSend w fs rawArticles true (fun flag => flag) with
      | (calls, fs1, .error e) =>
        ⟨.collectAllFeeds :: calls, fs1,
          .responded 500 (errorBody "Erro ao gerar newsletter" e.message)⟩
      | (calls, fs1, .ok curatedData) =>
        match generateBody rawArticles curatedData with
        | .error e =>
          ⟨.collectAllFeeds :: calls, fs1,
            .responded 500 (errorBody "Erro ao gerar newsletter" e.message)⟩
        | .ok body => ⟨.collectAllFeeds :: calls, fs1, .responded 200 body⟩

/-! ## Shapes of parsed responses -/

deriving instance DecidableEq for Except

/-- Whether a parsed response is an object with the given top-level key. -/
def hasKey (v : JsVal) (key : String) : Bool :=
  match v with
  | .obj props => (props.lookup key).isSome
  | _ => false

/-- Whether a value can be read from: it is neither `undefined` nor `null`. -/
def nonNullish : Option JsVal → Bool
  | none => false
  | some .null => false
  | some _ => true

/-- The own property `name` of a value, `none` when it has none. -/
def prop (v : Option JsVal) (name : String) : Option JsVal :=
  match v with
  | some (.obj props) => props.lookup name
  | _ => none

/-- Whether a parsed response has the shape that the reads of `processWithAI` need: its
`highlights` and `categories` are neither missing nor `null`, and neither are the
`launches`, `tutorials`, `discussions` and `trends` of its `categories`. -/
def hasDigestShape (v : JsVal) : Bool :=
  nonNullish (prop (some v) "highlights") && nonNullish (prop (some v) "categories") &&
    nonNullish (prop (prop (some v) "categories") "launches") &&
    nonNullish (prop (prop (some v) "categories") "tutorials") &&
    nonNullish (prop (prop (some v) "categories") "discussions") &&
    nonNullish (prop (prop (some v) "categories") "trends")

/-- A response in which the only highlight has relevance 9. -/
def relevanceNineResponse : String :=
  "\x7b\"highlights\": [\x7b\"title\": \"T\", \"url\": \"http://u\", \"relevance\": 9\x7d], \"categories\": \x7b\"launches\": [], \"tutorials\": [], \"discussions\": [], \"trends\": []\x7d\x7d"

/-! ## The digest of the data model, and values that survive serialization -/

/-- One curated article, with the fields that the prompt asks the model for. -/
structure CuratedArticle where
  title : String
  original_title : Option String
  url : String
  source : String
  category : String
  relevance : Int
  summary : String
  tags : List String
  reasoning : Option String
  deriving DecidableEq, Repr

/-- The JSON value of a curated article. -/
def CuratedArticle.toJson (a : CuratedArticle) : JsVal :=
  objectLiteral
    [ ("title", some (.str a.title)),
      ("original_title", a.original_title.map .str),
      ("url", some (.str a.url)),
      ("source", some (.str a.source)),
      ("category", some (.str a.category)),
      ("relevance", some (.num a.relevance 0)),
      ("summary", some (.str a.summary)),
      ("tags", some (.arr (a.tags.map .str))),
      ("reasoning", a.reasoning.map .str) ]

/-- The curated output of one run: the highlights and the four category lists. -/
structure Digest where
  highlights : List CuratedArticle
  launches : List CuratedArticle
  tutorials : List CuratedArticle
  discussions : List CuratedArticle
  trends : List CuratedArticle
  deriving DecidableEq, Repr

/-- The JSON value of a digest. -/
def Digest.toJson (d : Digest) : JsVal :=
  .obj [("highlights", .arr (d.highlights.map CuratedArticle.toJson)),
    ("categories", .obj
      [ ("launches", .arr (d.launches.map CuratedArticle.toJson)),
        ("tutorials", .arr (d.tutorials.map CuratedArticle.toJson)),
        ("discussions", .arr (d.discussions.map CuratedArticle.toJson)),
        ("trends", .arr (d.trends.map CuratedArticle.toJson)) ])]

/-- Property names as `JSON.parse` keeps them: pairwise distinct, none an array index. -/
def plainKeys (keys : List String) : Prop :=
  keys.Nodup ∧ ∀ key ∈ keys, arrayIndex key = none

mutual
/-- A JSON value whose numbers are integers and whose objects have plain keys. -/
def JsVal.Plain : JsVal → Prop
  | .null => True
  | .bool _ => True
  | .num _ k => k = 0
  | .str _ => True
  | .arr xs => JsVal.PlainList xs
  | .obj ps => plainKeys (ps.map Prod.fst) ∧ JsVal.PlainProps ps
/-- All elements are plain. -/
def JsVal.PlainList : List JsVal → Prop
  | [] => True
  | x :: xs => JsVal.Plain x ∧ JsVal.PlainList xs
/-- All property values are plain. -/
def JsVal.PlainProps : List (String × JsVal) → Prop
  | [] => True
  | (_, x) :: ps => JsVal.Plain x ∧ JsVal.PlainProps ps
end

mutual
/-- The recursion budget that parsing the text of a value takes. -/
def JsVal.cost : JsVal → Nat
  | .null => 1
  | .bool _ => 1
  | .num _ _ => 1
  | .str _ => 1
  | .arr xs => JsVal.costList xs + 1
  | .obj ps => JsVal.costProps ps + 1
/-- The budget for the elements of an array. -/
def JsVal.costList : List JsVal → Nat
  | [] => 0
  | x :: xs => JsVal.cost x + JsVal.costList xs + 1
/-- The budget for the members of an object. -/
def JsVal.costProps : List (String × JsVal) → Nat
  | [] => 0
  | (_, x) :: ps => JsVal.cost x + JsVal.costProps ps + 1
end

/-- Whether a value that may be `undefined` is plain. -/
def plainOpt : Option JsVal → Prop
  | none => True
  | some v => v.Plain

/-- The input after a number does not continue the number. -/
def numberEnds : List Char → Prop
  | [] => True
  | c :: _ => isDigit c = false ∧ c ≠ '.' ∧ c ≠ 'e' ∧ c ≠ 'E'


/-- The characters with which the text of a JSON value can start. -/
def isValueHead (c : Char) : Bool :=
  c = 'n' || c = 't' || c = 'f' || c = '"' || c = '[' || c = '{' || c = '-' || isDigit c

/-- One call of `saveNewsletter`: the digest, the raw articles, the date and the clock
reading used for `generatedAt`. -/
structure SaveCall where
  curatedData : JsVal
  rawArticles : JsVal
  date : Option Int
  generatedTime : Int

/-- A sequence of calls of `saveNewsletter`, each of which returns normally. -/
def saveAll (fs : FsState) : List SaveCall → Except JsErr FsState
  | [] => .ok fs
  | call :: rest => do
    let saved ← saveNewsletter fs call.curatedData call.rawArticles call.date call.generatedTime
    saveAll saved.1 rest

/-! ## Sample inputs -/

/-- A world in which every feed is unreachable and the model, the mailer and the
configuration all work. -/
def offlineWorld : World where
  parseURL := fun _ => .error (.other "ENOTFOUND")
  dateParse := fun _ => none
  collectTime := 1704067200000
  generateContent := fun _ => .ok "\x7b\x7d"
  saveTime := 1704067200000
  generatedTime := 1704067200000
  sendNewsletter := fun _ => .ok ()
  sendEmailOnGenerate := .ok true
  gmailConfigured := true

/-- A digest with one highlight, used in examples. -/
def sampleDigest : Digest where
  highlights := [⟨"React 19 Chegou!", some "React 19 is Here", "https://react.dev/blog", "HackerNews",
    "launches", 5, "Nova versão.", ["react", "frontend"], none⟩]
  launches := [⟨"React 19 Chegou!", some "React 19 is Here", "https://react.dev/blog", "HackerNews",
    "launches", 5, "Nova versão.", ["react", "frontend"], none⟩]
  tutorials := []
  discussions := []
  trends := []

/-- The three calls of the listing example: records for 2024-01-01, 2024-01-03 and
2024-01-02, saved in that order. -/
def threeSaves : List SaveCall :=
  [ ⟨sampleDigest.toJson, .arr [], some 1704096000000, 1704096000000⟩,
    ⟨sampleDigest.toJson, .arr [], some 1704268800000, 1704268800000⟩,
    ⟨sampleDigest.toJson, .arr [], some 1704182400000, 1704182400000⟩ ]

/-- The store after the three saves of the listing example. -/
def savedThree : FsState :=
  match saveAll ⟨"/app", true, []⟩ threeSaves with
  | .ok fs => fs
  | .error _ => ⟨"/app", true, []⟩

/-- One raw article, used in examples. -/
def sampleRaw : List RawArticle :=
  [⟨.str "React 19 is Here", .str "https://react.dev/blog", .str "The new release.",
    .str "Mon, 01 Jan 2024 06:00:00 GMT", "HackerNews", "Tech Geral"⟩]

/-- The digest without any article. -/
def emptyTypedDigest : Digest :=
  ⟨[], [], [], [], []⟩

/-- A response in which the title of the only highlight contains a Markdown fence. -/
def backtickResponse : String :=
  "\x7b\"highlights\": [\x7b\"title\": \"Use ```js fences\", \"url\": \"http://u\"\x7d], \"categories\": \x7b\"launches\": [], \"tutorials\": [], \"discussions\": [], \"trends\": []\x7d\x7d"

/-- A response whose only highlight carries a url that no raw article has. -/
def unseenUrlResponse : String :=
  "\x7b\"highlights\": [\x7b\"title\": \"T\", \"url\": \"http://invented.example/post\"\x7d], \"categories\": \x7b\"launches\": [], \"tutorials\": [], \"discussions\": [], \"trends\": []\x7d\x7d"

/-- A response whose `highlights` is a number, whose `tutorials` is a string, whose
`discussions` is an object, and whose only launch is an article without any field. -/
def looseResponse : String :=
  "\x7b\"highlights\": 5, \"categories\": \x7b\"launches\": [\x7b\x7d], \"tutorials\": \"x\", \"discussions\": \x7b\x7d, \"trends\": []\x7d\x7d"

/-- A feed environment in which two sources carry an item with the same link and the other
sources cannot be read. -/
def twoFeedsOneLink : String → Except JsErr (List FeedItem) :=
  fun url =>
    if url = "https://hnrss.org/frontpage" then
      .ok [⟨.str "Post", .str "https://example.org/post", .undefined, .undefined,
        .str "now", .undefined⟩]
    else if url = "https://dev.to/feed/tag/ai" then
      .ok [⟨.str "Post again", .str "https://example.org/post", .undefined, .undefined,
        .str "now", .undefined⟩]
    else .error (.other "ENOTFOUND")

/-- The number of elements that `flat` puts in its result for one element of its input. -/
def flatWidth : JsVal → Nat
  | .arr ys => ys.length
  | _ => 1

/-- ECMAScript `DayFromYear`: the day number of the first day of a year. -/
def dayFromYear (y : Int) : Int :=
  365 * (y - 1970) + (y - 1969) / 4 - (y - 1901) / 100 + (y - 1601) / 400

/-- Whether a year is a leap year of the Gregorian calendar. -/
def isLeapYear (y : Int) : Bool :=
  y % 4 = 0 && (y % 100 != 0 || y % 400 = 0)

/-- The number of days of a year that precede the first day of a month (1 to 12). -/
def daysBeforeMonth (leap : Bool) (m : Int) : Int :=
  let extra : Int := if leap then 1 else 0
  if m = 1 then 0 else if m = 2 then 31 else if m = 3 then 59 + extra
  else if m = 4 then 90 + extra else if m = 5 then 120 + extra else if m = 6 then 151 + extra
  else if m = 7 then 181 + extra else if m = 8 then 212 + extra else if m = 9 then 243 + extra
  else if m = 10 then 273 + extra else if m = 11 then 304 + extra else 334 + extra

/-- The number of days of a month (1 to 12). -/
def daysInMonth (leap : Bool) (m : Int) : Int :=
  if m = 2 then (if leap then 29 else 28)
  else if m = 4 ∨ m = 6 ∨ m = 9 ∨ m = 11 then 30 else 31

/-- What it is for `year`-`month`-`day` to be the calendar date of a day number counted
from 1970-01-01: the month and the day are in range, and the days of the years, of the
months and of the month that precede the date add up to the day number. -/
def IsCalendarDate (dayNumber year month day : Int) : Prop :=
  1 ≤ month ∧ month ≤ 12 ∧ 1 ≤ day ∧ day ≤ daysInMonth (isLeapYear year) month ∧
    dayFromYear year + daysBeforeMonth (isLeapYear year) month + (day - 1) = dayNumber

/-- The character of the last decimal digit of a number. -/
def digitChar (n : Nat) : Char :=
  Char.ofNat (48 + n % 10)

/-- From the specification: the ten characters `YYYY-MM-DD` of a calendar date, the year
in four digits, the month and the day in two, each zero-padded. -/
def calendarDateText (year month day : Nat) : String :=
  String.mk [digitChar (year / 1000), digitChar (year / 100), digitChar (year / 10),
    digitChar year, '-', digitChar (month / 10), digitChar month, '-',
    digitChar (day / 10), digitChar day]

/-! ## Fence stripping against the parser: auxiliary notions -/

/-- A pattern removed by `stripFences`: the fence, or the fence followed by `json`. -/
def IsFencePattern (pat : List Char) : Prop :=
  pat = fence ∨ pat = fence ++ ['j', 's', 'o', 'n']

/-- What follows a removed fence: the input without its first character when that is a
line feed. -/
def dropLineFeed : List Char → List Char
  | d :: r => if d.toNat = 10 then r else d :: r
  | [] => []

/-- The text left by `removeFence` when its budget covers the text. -/
def strip (pat cs : List Char) : List Char :=
  removeFence pat cs.length cs

/-- A character that stands for itself inside a string literal. -/
def isPlainChar (c : Char) : Bool :=
  decide (c ≠ '"') && decide (c ≠ '\\') && decide (32 ≤ c.toNat)

/-- A character that may follow the backslash of a two-character escape. -/
def isSimpleEscape (e : Char) : Bool :=
  decide (e = '"') || decide (e = '\\') || decide (e = '/') || decide (e = 'b') ||
    decide (e = 'f') || decide (e = 'n') || decide (e = 'r') || decide (e = 't')

/-- The grammar of the inside of a JSON string literal: plain characters, two-character
escapes and `\uXXXX` escapes. -/
inductive Body : List Char → Prop
  | nil : Body []
  | plain (c : Char) (rest : List Char) : isPlainChar c = true → Body rest → Body (c :: rest)
  | simple (e : Char) (rest : List Char) : isSimpleEscape e = true → Body rest →
      Body ('\\' :: e :: rest)
  | unicode (h1 h2 h3 h4 : Char) (rest : List Char) : (hex4 h1 h2 h3 h4).isSome = true →
      Body rest → Body ('\\' :: 'u' :: h1 :: h2 :: h3 :: h4 :: rest)

/-- The part of `parseNumber` that follows the sign. -/
def numberAfterSign (neg : Bool) (body : List Char) : Option (JsVal × List Char) :=
  let ip := spanDigits body
  if ip.1.isEmpty then none
  else if ip.1.head? = some '0' ∧ 1 < ip.1.length then none
  else
    match parseFraction ip.2 with
    | none => none
    | some (fp, r2) =>
      match parseExponent r2 with
      | none => none
      | some (e, r3) => some (mkNum neg (digitsToNat (ip.1 ++ fp)) (e - fp.length), r3)

mutual
/-- A JSON value with every string value replaced by the empty string: what is left is
the structure, the property names, the numbers and the literals. -/
def JsVal.skeleton : JsVal → JsVal
  | .null => .null
  | .bool b => .bool b
  | .num m k => .num m k
  | .str _ => .str ""
  | .arr xs => .arr (JsVal.skeletonList xs)
  | .obj ps => .obj (JsVal.skeletonProps ps)
/-- The skeletons of the elements of an array. -/
def JsVal.skeletonList : List JsVal → List JsVal
  | [] => []
  | x :: xs => JsVal.skeleton x :: JsVal.skeletonList xs
/-- The properties of an object with the skeletons of their values. -/
def JsVal.skeletonProps : List (String × JsVal) → List (String × JsVal)
  | [] => []
  | (k, x) :: ps => (k, JsVal.skeleton x) :: JsVal.skeletonProps ps
end

mutual
/-- No property name of the value, at any depth, contains a backtick. -/
def JsVal.TickFreeKeys : JsVal → Prop
  | .null => True
  | .bool _ => True
  | .num _ _ => True
  | .str _ => True
  | .arr xs => JsVal.TickFreeList xs
  | .obj ps => JsVal.TickFreeProps ps
/-- No property name in the elements contains a backtick. -/
def JsVal.TickFreeList : List JsVal → Prop
  | [] => True
  | x :: xs => JsVal.TickFreeKeys x ∧ JsVal.TickFreeList xs
/-- No property name in the properties contains a backtick. -/
def JsVal.TickFreeProps : List (String × JsVal) → Prop
  | [] => True
  | (k, x) :: ps => Char.ofNat 96 ∉ k.data ∧ JsVal.TickFreeKeys x ∧ JsVal.TickFreeProps ps
end

/-- The relation between a value read from a text and the value read from the text
without its fences: when no property name contains a backtick, only string values can
differ. -/
def Weak (v w : JsVal) : Prop :=
  v.TickFreeKeys → w.skeleton = v.skeleton

/-- The relation `Weak` between the members of two object literals, whose names agree
when the first has no backtick. -/
def WeakMember (m n : String × JsVal) : Prop :=
  (Char.ofNat 96 ∉ m.1.data → n.1 = m.1) ∧ Weak m.2 n.2

/-- Two properties with the same name and values related by `Weak`. -/
def WeakProp (m n : String × JsVal) : Prop :=
  n.1 = m.1 ∧ Weak m.2 n.2

/-- Fence stripping maps the text `A`, whatever follows it, to the text `A'`, and goes on
with what follows. -/
def StripsTo (pat A A' : List Char) : Prop :=
  ∀ Y, strip pat (A ++ Y) = A' ++ strip pat Y

/-- From the specification: a JSON text wrapped in a Markdown code fence: the fence with
the word json, a line feed, the text, a line feed, the fence. -/
def fenced (j : String) : String :=
  String.mk (fence ++ ['j', 's', 'o', 'n'] ++ Char.ofNat 10 :: (j.data ++ Char.ofNat 10 :: fence))

/-- A digest whose only highlight has a Markdown fence in its summary. -/
def fenceDigest : Digest where
  highlights := [⟨"Fences", none, "http://u", "HackerNews", "tutorials", 4,
    "Use ```js fences", ["markdown"], none⟩]
  launches := []
  tutorials := []
  discussions := []
  trends := []

/-- A feed environment in which the first source carries one item and the other sources
cannot be read. -/
def oneFreshItem : String → Except JsErr (List FeedItem) :=
  fun url =>
    if url = "https://hnrss.org/frontpage" then
      .ok [⟨.str "React 19 is Here", .str "https://react.dev/blog", .str "The new release.",
        .undefined, .str "Mon, 01 Jan 2024 06:00:00 GMT", .undefined⟩]
    else .error (.other "ENOTFOUND")

/-- A world in which one article is collected and the model call fails. -/
def modelDownWorld : World where
  parseURL := oneFreshItem
  dateParse := fun _ => some 1704088800000
  collectTime := 1704096000000
  generateContent := fun _ => .error (.other "503 Service Unavailable")
  saveTime := 1704096000000
  generatedTime := 1704096000123
  sendNewsletter := fun _ => .ok ()
  sendEmailOnGenerate := .ok true
  gmailConfigured := true

/-- A world in which one article is collected, the model answers with the sample digest,
the configuration asks for the mail, and the mailer fails. -/
def mailDownWorld : World where
  parseURL := oneFreshItem
  dateParse := fun _ => some 1704088800000
  collectTime := 1704096000000
  generateContent := fun _ => .ok (JSON.stringify sampleDigest.toJson)
  saveTime := 1704096000000
  generatedTime := 1704096000123
  sendNewsletter := fun _ => .error (.other "Invalid login")
  sendEmailOnGenerate := .ok true
  gmailConfigured := true

/-- A world in which one article is collected, the model answers with the sample digest,
the mail account is configured, and the saved configuration has `sendEmailOnGenerate`
switched off. -/
def mailOffWorld : World where
  parseURL := oneFreshItem
  dateParse := fun _ => some 1704088800000
  collectTime := 1704096000000
  generateContent := fun _ => .ok (JSON.stringify sampleDigest.toJson)
  saveTime := 1704096000000
  generatedTime := 1704096000123
  sendNewsletter := fun _ => .ok ()
  sendEmailOnGenerate := .ok false
  gmailConfigured := true

/-- The store after the save of the run in `mailDownWorld` from the empty store. -/
def savedOnce : FsState :=
  match saveNewsletter ⟨"/app", true, []⟩ sampleDigest.toJson (rawToJson sampleRaw)
      (some 1704096000000) 1704096000123 with
  | .ok (fs, _) => fs
  | .error _ => ⟨"/app", true, []⟩

/-- One prompt block, as the template literal inside `processWithAI` builds it for the
article at position `index` (counted from 0) from the sliced description. -/
def blockText (index : Nat) (article : RawArticle) (description : String) : String :=
  "[" ++ String.mk (natText (index + 1)) ++ "]\nTítulo: " ++ article.title.text ++
    "\nURL: " ++ article.url.text ++ "\nFonte: " ++ article.source ++ "\nDescrição: " ++
    description ++ "...\n---"

/-- An article list with four articles; the description of the last one has 299 letters
followed by a character outside the basic plane. -/
def fourArticles : List RawArticle :=
  [ ⟨.str "A", .str "http://a", .str "short", .str "now", "HackerNews", "Tech Geral"⟩,
    ⟨.str "B", .str "http://b", .str "", .str "now", "HackerNews", "Tech Geral"⟩,
    ⟨.str "C", .str "http://c", .str (String.mk (List.replicate 400 'x')), .str "now",
      "HackerNews", "Tech Geral"⟩,
    ⟨.str "D", .str "http://d",
      .str (String.mk (List.replicate 299 'y' ++ [Char.ofNat 0x1F600, 'z'])), .str "now",
      "HackerNews", "Tech Geral"⟩ ]

/-! ## Schedule validation (`src/config/storage.js`) -/

/-- The method `split(/\s+/)`: the pieces of a text between its maximal runs of white
space, with an empty first piece when the text starts with white space and an empty last
piece when it ends with white space.  The class `\s` has the characters that `trim()`
removes.  `piece` holds the characters of the current piece in reverse, `inSeparator`
tells whether the previous character was white space. -/
def splitSpaces : Bool → List Char → List Char → List (List Char)
  | _, piece, [] => [piece.reverse]
  | inSeparator, piece, c :: cs =>
    if isTrimSpace c then
      if inSeparator then splitSpaces true piece cs
      else piece.reverse :: splitSpaces true [] cs
    else splitSpaces false (c :: piece) cs

/-- A character class: one of the listed characters. -/
def oneOf (cs : List Char) : RegularExpression Char :=
  cs.foldr (fun c r => .char c + r) 0

/-- The class `\d`. -/
def digit : RegularExpression Char :=
  oneOf "0123456789".data

/-- The quantifier `?`. -/
def opt (r : RegularExpression Char) : RegularExpression Char :=
  1 + r

/-- The shape that the five patterns of `isValidCron` share: between the anchors, an
asterisk, or a number `N` followed by any count of a hyphen or a slash and a number `N`. -/
def rangeList (number : RegularExpression Char) : RegularExpression Char :=
  .char '*' + number * .star (oneOf ['-', '/'] * number)

/-- The number of the minute pattern: `[0-5]?\d`. -/
def minuteNumber : RegularExpression Char :=
  opt (oneOf "012345".data) * digit

/-- The number of the hour pattern: `[01]?\d|2[0-3]`. -/
def hourNumber : RegularExpression Char :=
  opt (oneOf "01".data) * digit + .char '2' * oneOf "0123".data

/-- The number of the day-of-month pattern: `[1-9]|[12]\d|3[01]`. -/
def dayOfMonthNumber : RegularExpression Char :=
  oneOf "123456789".data + oneOf "12".data * digit + .char '3' * oneOf "01".data

/-- The number of the month pattern: `[1-9]|1[0-2]`. -/
def monthNumber : RegularExpression Char :=
  oneOf "123456789".data + .char '1' * oneOf "012".data

/-- The number of the day-of-week pattern: `[0-6]`. -/
def dayOfWeekNumber : RegularExpression Char :=
  oneOf "0123456".data

/-- The array `patterns` of `isValidCron`: minute, hour, day of month, month, day of
week. -/
def cronPatterns : List (RegularExpression Char) :=
  [rangeList minuteNumber, rangeList hourNumber, rangeList dayOfMonthNumber,
    rangeList monthNumber, rangeList dayOfWeekNumber]

/-- The function `isValidCron`.  Each pattern is anchored at both ends, so `test` holds
when the whole part is in the language of the pattern; the parts and the patterns are
paired by position, both being five. -/
def isValidCron (expression : String) : Bool :=
  let parts := splitSpaces false [] (trim expression.data)
  if parts.length ≠ 5 then false
  else (parts.zip cronPatterns).all fun p => p.2.rmatch p.1

/-- The numbers that occur in a text: the values of its maximal runs of decimal digits, in
order.  `run` is the value of the run that is being read, if any. -/
def numbersFrom (run : Option Nat) : List Char → List Nat
  | [] => run.toList
  | c :: cs =>
    if isDigit c then numbersFrom (some (10 * run.getD 0 + (c.toNat - 48))) cs
    else run.toList ++ numbersFrom none cs

/-- From the claim: the numbers occurring in a text. -/
def numbersIn (text : List Char) : List Nat :=
  numbersFrom none text

/-- Whether a text is a decimal numeral with a value between `lo` and `hi`. -/
def isNumeral (lo hi : Nat) (a : List Char) : Bool :=
  !a.isEmpty && a.all isDigit && decide (lo ≤ digitsToNat a) && decide (digitsToNat a ≤ hi)

/-- What it is for a text to consist of the given fields, none of which contains white
space, with a non-empty run of white space between neighbours. -/
def Separated : List (List Char) → List Char → Prop
  | [], _ => False
  | [f], cs => cs = f ∧ ∀ c ∈ f, isTrimSpace c = false
  | f :: g :: rest, cs =>
    ∃ s tail, cs = f ++ s ++ tail ∧ s ≠ [] ∧ (∀ c ∈ s, isTrimSpace c = true) ∧
      (∀ c ∈ f, isTrimSpace c = false) ∧ Separated (g :: rest) tail

/-! ## Configuration store (`src/config/storage.js`) and its route (`src/server.js`) -/

/-- A runtime object: its own properties in property order.  The value `none` is
`undefined`. -/
abbrev JsObject := List (String × Option JsVal)

/-- JavaScript truthiness of a value that came from JSON; `none` is `undefined`. -/
def truthy : Option JsVal → Bool
  | none => false
  | some .null => false
  | some (.bool b) => b
  | some (.num m _) => m != 0
  | some (.str s) => s != ""
  | some _ => true

/-- Inserts a new array-index property in ascending index order, before the other names. -/
def insertIndex (n : Nat) (key : String) (v : Option JsVal) : JsObject → JsObject
  | [] => [(key, v)]
  | (k, w) :: rest =>
    match arrayIndex k with
    | some i => if i < n then (k, w) :: insertIndex n key v rest else (key, v) :: (k, w) :: rest
    | none => (key, v) :: (k, w) :: rest

/-- Defines the property `key` of a runtime object: an existing property keeps its place
and takes the new value, also when that is `undefined`; a new one goes after the existing
ones (array indices first, in ascending order). -/
def defineProperty (o : JsObject) (key : String) (v : Option JsVal) : JsObject :=
  if o.any (fun p => p.1 = key) then o.map fun p => if p.1 = key then (p.1, v) else p
  else
    match arrayIndex key with
    | some n => insertIndex n key v o
    | none => o ++ [(key, v)]

/-- The own enumerable properties of a parsed JSON value, as a spread copies them: the
members of an object, the elements of an array under their indices, the code units of a
string under their indices (a half of a character outside the basic plane is written
U+FFFD), and none for the other values. -/
def ownProperties : JsVal → JsObject
  | .obj props => props.map fun p => (p.1, some p.2)
  | .arr items => items.enum.map fun p => (String.mk (natText p.1), some p.2)
  | .str s =>
    (s.data.flatMap fun c =>
      if c.toNat < 65536 then [c] else [Char.ofNat 0xFFFD, Char.ofNat 0xFFFD]).enum.map
      fun p => (String.mk (natText p.1), some (.str (String.mk [p.2])))
  | _ => []

/-- The object literal that spreads the given objects in order and has no other member;
a later property, also one whose value is `undefined`, overwrites an earlier one of the
same name. -/
def objectSpread (sources : List JsObject) : JsObject :=
  sources.foldl (fun o source => source.foldl (fun o p => defineProperty o p.1 p.2) o) []

/-- The read of a property of a runtime object. -/
def JsObject.get (o : JsObject) (key : String) : Option JsVal :=
  (o.lookup key).join

/-- The constant `DEFAULT_CONFIG`. -/
def DEFAULT_CONFIG : JsObject :=
  [ ("cronSchedule", some (.str "0 7 * * *")),
    ("timezone", some (.str "America/Sao_Paulo")),
    ("sendEmailOnGenerate", some (.bool false)),
    ("lastUpdated", some .null) ]

/-- The file system as the configuration store sees it: the text of `data/config.json`,
`none` when the file is missing, and whether the directory `data` can be created and the
file written. -/
structure ConfigFs where
  file : Option String
  writable : Bool
  deriving DecidableEq, Repr

/-- The call `fs.writeFile(CONFIG_PATH, content)`. -/
def writeConfigFile (fs : ConfigFs) (content : String) : ConfigFs × Except JsErr Unit :=
  if fs.writable then ({ fs with file := some content }, .ok ())
  else (fs, .error (.ioError "EACCES"))

/-- The function `ensureConfig`: when `access` fails, the `catch` block creates the
directory and writes the defaults. -/
def ensureConfig (fs : ConfigFs) : ConfigFs × Except JsErr Unit :=
  match fs.file with
  | some _ => (fs, .ok ())
  | none => writeConfigFile fs (JSON.stringify (objectLiteral DEFAULT_CONFIG))

/-- The function `loadConfig`: the `try` block reads and parses the file and spreads the
result over the defaults, the `catch` block returns the defaults. -/
def loadConfig (fs : ConfigFs) : ConfigFs × Except JsErr JsObject :=
  match ensureConfig fs with
  | (fs1, .error e) => (fs1, .error e)
  | (fs1, .ok _) =>
    match (do
        let content ← (match fs1.file with
          | some content => .ok content
          | none => .error (.ioError "ENOENT") : Except JsErr String)
        let parsed ← JSON.parse content
        pure (objectSpread [DEFAULT_CONFIG, ownProperties parsed]) : Except JsErr JsObject) with
    | .ok config => (fs1, .ok config)
    | .error _ => (fs1, .ok DEFAULT_CONFIG)

/-- The function `saveConfig`, with the clock reading of `new Date()` as a parameter. -/
def saveConfig (fs : ConfigFs) (updates : JsObject) (now : Int) :
    ConfigFs × Except JsErr JsObject :=
  match ensureConfig fs with
  | (fs1, .error e) => (fs1, .error e)
  | (fs1, .ok _) =>
    match loadConfig fs1 with
    | (fs2, .error e) => (fs2, .error e)
    | (fs2, .ok current) =>
      let newConfig := objectSpread [current, updates,
        [("lastUpdated", some (.str (String.mk (isoText now))))]]
      match writeConfigFile fs2 (JSON.stringify (objectLiteral newConfig)) with
      | (fs3, .error e) => (fs3, .error e)
      | (fs3, .ok _) => (fs3, .ok newConfig)

/-- The call `isValidCron(cronSchedule)` on a truthy value of the request body: a value
that is not a string has no method `trim`. -/
def callIsValidCron : Option JsVal → Except JsErr Bool
  | some (.str s) => .ok (isValidCron s)
  | _ => .error (.typeError "expression.trim is not a function")

/-- The expression `v || undefined`. -/
def orUndefined (v : Option JsVal) : Option JsVal :=
  if truthy v then v else none

/-- The argument that the handler of `PUT /api/admin/config` gives to `saveConfig`; the
conditional on `sendEmailOnGenerate` yields the value itself. -/
def configUpdates (cronSchedule timezone sendEmailOnGenerate : Option JsVal) : JsObject :=
  [ ("cronSchedule", orUndefined cronSchedule),
    ("timezone", orUndefined timezone),
    ("sendEmailOnGenerate", sendEmailOnGenerate) ]

/-- The result of a request to `PUT /api/admin/config`: the file system afterwards, the
arguments of the call of `updateCronJob` when it was made, and the response. -/
structure ConfigRun where
  fs : ConfigFs
  scheduled : Option (Option JsVal × Option JsVal)
  outcome : Outcome
  deriving DecidableEq, Repr

/-- The body of the 500 response of the handler of `PUT /api/admin/config`. -/
def configErrorBody : JsVal :=
  .obj [("error", .str "Erro ao atualizar configuração")]

/-- The handler of `PUT /api/admin/config` behind `authMiddleware`.  `body` is `req.body`,
`updateCronJob` the function of that name, which schedules the job with the cron library,
and `now` the clock reading of `saveConfig`. -/
def putConfig (updateCronJob : Option JsVal → Option JsVal → Except JsErr Unit)
    (fs : ConfigFs) (now : Int) (body : Option JsVal) : ConfigRun :=
  match (do
      let cronSchedule ← getProp body "cronSchedule"
      let timezone ← getProp body "timezone"
      let sendEmailOnGenerate ← getProp body "sendEmailOnGenerate"
      let rejected ← (if truthy cronSchedule then
          (callIsValidCron cronSchedule).map fun valid => !valid
        else pure false : Except JsErr Bool)
      pure (cronSchedule, timezone, sendEmailOnGenerate, rejected) :
        Except JsErr (Option JsVal × Option JsVal × Option JsVal × Bool)) with
  | .error _ => ⟨fs, none, .responded 500 configErrorBody⟩
  | .ok (cronSchedule, timezone, sendEmailOnGenerate, rejected) =>
    if rejected then
      ⟨fs, none, .responded 400 (.obj [("error", .str "Formato de cron inválido"),
        ("example", .str "0 7 * * * (todo dia às 7h)")])⟩
    else
      match saveConfig fs (configUpdates cronSchedule timezone sendEmailOnGenerate) now with
      | (fs1, .error _) => ⟨fs1, none, .responded 500 configErrorBody⟩
      | (fs1, .ok newConfig) =>
        let respond : Outcome := .responded 200 (objectLiteral
          [ ("success", some (.bool true)),
            ("message", some (.str "Configuração atualizada!")),
            ("config", some (objectLiteral newConfig)) ])
        if truthy cronSchedule then
          match updateCronJob (newConfig.get "cronSchedule") (newConfig.get "timezone") with
          | .error _ =>
            ⟨fs1, some (newConfig.get "cronSchedule", newConfig.get "timezone"),
              .responded 500 configErrorBody⟩
          | .ok _ =>
            ⟨fs1, some (newConfig.get "cronSchedule", newConfig.get "timezone"), respond⟩
        else ⟨fs1, none, respond⟩

/-- The array `commonSchedules` of the admin page: the values of its entries. -/
def commonSchedules : List String :=
  ["0 6 * * *", "0 7 * * *", "0 8 * * *", "0 9 * * *", "0 12 * * *", "0 18 * * *"]

/-- A stored configuration: every day at nine, mail switched on. -/
def storedConfig : ConfigFs :=
  ⟨some (JSON.stringify (.obj [("cronSchedule", .str "0 9 * * *"),
    ("timezone", .str "America/Sao_Paulo"), ("sendEmailOnGenerate", .bool true),
    ("lastUpdated", .null)])), true⟩

/-! ## Admin authentication (`src/server.js`) -/

/-- The method `split(sep)` for a separator of one character.  `piece` holds the
characters of the current piece in reverse. -/
def splitChar (sep : Char) : List Char → List Char → List (List Char)
  | piece, [] => [piece.reverse]
  | piece, c :: cs =>
    if c = sep then piece.reverse :: splitChar sep [] cs
    else splitChar sep (c :: piece) cs

/-- The expression `process.env.NAME || fallback`: a variable that is unset or empty gives
the fallback. -/
def envOr (value : Option String) (fallback : String) : String :=
  match value with
  | some v => if v = "" then fallback else v
  | none => fallback

/-- How `authMiddleware` ends: it calls `next`, answers 401 with an error text, or throws. -/
inductive AuthResult where
  | next
  | unauthorized (error : String)
  | threw (e : JsErr)
  deriving DecidableEq, Repr

/-- The function `authMiddleware`.  `authorization` is `req.headers.authorization`,
`envUser` and `envPassword` are the environment variables `ADMIN_USER` and
`ADMIN_PASSWORD`, and `decodeBase64` is `Buffer.from(text, 'base64').toString('utf-8')`.
The array destructuring takes the first two pieces of the split credentials; a missing
piece is `undefined`, which equals no string. -/
def authMiddleware (decodeBase64 : String → String) (envUser envPassword : Option String)
    (authorization : Option String) : AuthResult :=
  match authorization with
  | none => .unauthorized "Autenticação requerida"
  | some authHeader =>
    if authHeader = "" ∨ "Basic ".data.isPrefixOf authHeader.data = false then
      .unauthorized "Autenticação requerida"
    else
      match (splitChar ' ' [] authHeader.data)[1]? with
      | none => .threw (.typeError "The first argument must be of type string")
      | some base64Credentials =>
        let credentials := decodeBase64 (String.mk base64Credentials)
        let parts := splitChar ':' [] credentials.data
        let username := parts[0]?
        let password := parts[1]?
        let adminUser := envOr envUser "admin"
        let adminPass := envOr envPassword "admin123"
        if username = some adminUser.data ∧ password = some adminPass.data then .next
        else .unauthorized "Credenciais inválidas"

/-- The runtime's base64 decoding at the tokens of the examples. -/
def sampleDecoder (token : String) : String :=
  if token = "YWRtaW46YWRtaW4xMjM=" then "admin:admin123"
  else if token = "YWRtaW46YWRtaW4xMjM6ZXh0cmE=" then "admin:admin123:extra"
  else if token = "YWRtaW46YTpi" then "admin:a:b"
  else if token = "YWRtaW46d3Jvbmc=" then "admin:wrong"
  else ""

/-! ## The latest record (`src/api.js`, `src/server.js`) -/

/-- The method `replace(pattern, replacement)` with a string pattern and a replacement
without `$`: the first occurrence of the pattern is replaced. -/
def replaceFirst (pattern replacement : List Char) : List Char → List Char
  | [] => if pattern.isPrefixOf [] then replacement else []
  | c :: cs =>
    if pattern.isPrefixOf (c :: cs) then replacement ++ (c :: cs).drop pattern.length
    else c :: replaceFirst pattern replacement cs

/-- The handler of `GET /api/newsletter/latest`, the same in `api.js` and `server.js`. -/
def latestHandler (fs : FsState) : Outcome :=
  match (do
      let newsletters ← listNewsletters fs
      match newsletters with
      | [] =>
        pure (Outcome.responded 404 (errorBody "Nenhuma newsletter encontrada"
          "Execute primeiro a geração de newsletter"))
      | first :: _ =>
        let latestDate := String.mk (replaceFirst ".json".data [] first.data)
        let newsletter ← loadNewsletter fs latestDate
        pure (Outcome.responded 200 newsletter) : Except JsErr Outcome) with
  | .ok response => response
  | .error _ => .responded 500 (.obj [("error", .str "Erro interno do servidor")])

/-- ECMAScript `Day(t)`: the day number of a time value. -/
def dayOf (t : Int) : Int :=
  t / 86400000

/-! ## Raw articles as runtime objects -/

/-- The own properties of a raw article as the object literal of `fetchFeed` builds it, in
the order of the literal.  A field that is `undefined` is an own property whose value is
`undefined`; `JSON.stringify` leaves such a property out, which is what
`RawArticle.toJson` gives. -/
def RawArticle.properties (a : RawArticle) : JsObject :=
  [ ("title", a.title.toJson),
    ("url", a.url.toJson),
    ("description", a.description.toJson),
    ("publishedAt", a.publishedAt.toJson),
    ("source", some (.str a.source)),
    ("sourceCategory", some (.str a.sourceCategory)) ]

/-- The properties of a runtime object whose value is not `undefined`. -/
def definedProperties (o : JsObject) : JsObject :=
  o.filter fun p => p.2.isSome

/-- A feed item without a title. -/
def untitledItem : FeedItem :=
  ⟨.undefined, .str "https://example.org/post", .str "Text of the post.", .undefined,
    .str "Mon, 01 Jan 2024 06:00:00 GMT", .undefined⟩

/-- The articles of the round-trip example: the article of `untitledItem`, whose `title` is
`undefined`, and an article with all its fields. -/
def untitledRaw : List RawArticle :=
  [ normalizeItem ⟨"HackerNews", "https://hnrss.org/frontpage", "Tech Geral"⟩ untitledItem,
    ⟨.str "React 19 is Here", .str "https://react.dev/blog", .str "The new release.",
      .str "Mon, 01 Jan 2024 06:00:00 GMT", "HackerNews", "Tech Geral"⟩ ]

/-! ## Theorems -/

set_option maxRecDepth 1000000

/-! ### Feed collector -/

theorem mem_filterLast24Hours (dateParse : String → Option Int) (now : Int)
    (articles : List RawArticle) (a : RawArticle) :
    a ∈ filterLast24Hours dateParse now articles ↔
      a ∈ articles ∧ a.publishedAt.truthy = true ∧
        dateGe (newDate dateParse a.publishedAt) (timeClip (now - 86400000)) = true := by
  simp [filterLast24Hours]

theorem timeClip_eq_some {t u : Int} (h : timeClip t = some u) :
    t = u ∧ t.natAbs ≤ 8640000000000000 := by
  unfold timeClip at h
  split at h
  · exact ⟨by simpa using h, by assumption⟩
  · simp at h

theorem newDate_range (dateParse : String → Option Int) (f : Field) (t : Int)
    (h : newDate dateParse f = some t) : timeClip t = some t := by
  cases f with
  | undefined => simp [newDate] at h
  | null =>
    simp [newDate] at h
    subst h
    decide
  | str s =>
    simp only [newDate] at h
    cases hp : dateParse s with
    | none => simp [hp] at h
    | some u =>
      simp only [hp, Option.some_bind] at h
      obtain ⟨h1, h2⟩ := timeClip_eq_some h
      subst h1
      exact h

/-- C1: `filterLast24Hours` drops every article whose `publishedAt` parses to an instant
strictly before `now - 24h` and keeps an article whose `publishedAt` parses to exactly
`now - 24h` (86,400,000 ms before the collection time). -/
theorem filterLast24Hours_window (dateParse : String → Option Int) (now : Int)
    (articles : List RawArticle) :
    (∀ a ∈ articles, ∀ t : Int, newDate dateParse a.publishedAt = some t →
        t < now - 86400000 → a ∉ filterLast24Hours dateParse now articles) ∧
    (∀ a ∈ articles, a.publishedAt.truthy = true →
        newDate dateParse a.publishedAt = some (now - 86400000) →
        a ∈ filterLast24Hours dateParse now articles) := by
  refine ⟨?_, ?_⟩
  · intro a _ t ht hlt hmem
    rw [mem_filterLast24Hours] at hmem
    obtain ⟨_, _, hge⟩ := hmem
    rw [ht] at hge
    cases hc : timeClip (now - 86400000) with
    | none => simp [hc, dateGe] at hge
    | some u =>
      obtain ⟨h1, _⟩ := timeClip_eq_some hc
      simp only [hc, dateGe, decide_eq_true_eq] at hge
      omega
  · intro a ha htr ht
    rw [mem_filterLast24Hours]
    refine ⟨ha, htr, ?_⟩
    rw [ht, newDate_range dateParse _ _ ht]
    simp [dateGe]

/-- Witness for C1: with a clock reading of 100,000,000 ms, an article stamped 13,599,999 ms
is dropped and one stamped exactly 13,600,000 ms (24 hours earlier) is kept. -/
theorem filterLast24Hours_window_witness :
    (⟨.str "old", .undefined, .str "", .str "T13599999", "s", "c"⟩ : RawArticle) ∉
        filterLast24Hours (fun s => if s = "T13599999" then some 13599999 else
            if s = "T13600000" then some 13600000 else none) 100000000
          [⟨.str "old", .undefined, .str "", .str "T13599999", "s", "c"⟩,
           ⟨.str "edge", .undefined, .str "", .str "T13600000", "s", "c"⟩] ∧
    (⟨.str "edge", .undefined, .str "", .str "T13600000", "s", "c"⟩ : RawArticle) ∈
        filterLast24Hours (fun s => if s = "T13599999" then some 13599999 else
            if s = "T13600000" then some 13600000 else none) 100000000
          [⟨.str "old", .undefined, .str "", .str "T13599999", "s", "c"⟩,
           ⟨.str "edge", .undefined, .str "", .str "T13600000", "s", "c"⟩] :=
  ⟨(filterLast24Hours_window _ 100000000 _).1 _ (by decide) 13599999 (by decide) (by decide),
   (filterLast24Hours_window _ 100000000 _).2 _ (by decide) (by decide) (by decide)⟩

/-- C2: an article whose `publishedAt` is `undefined`, `null`, the empty string, or a string
that does not parse as a date is never in the output of `filterLast24Hours`, whatever
the collection time. -/
theorem filterLast24Hours_fail_closed (dateParse : String → Option Int) (now : Int)
    (articles : List RawArticle) (a : RawArticle)
    (h : a.publishedAt = .undefined ∨ a.publishedAt = .null ∨ a.publishedAt = .str "" ∨
      newDate dateParse a.publishedAt = none) :
    a ∉ filterLast24Hours dateParse now articles := by
  intro hmem
  rw [mem_filterLast24Hours] at hmem
  obtain ⟨_, htr, hge⟩ := hmem
  rcases h with h | h | h | h
  · simp [h, Field.truthy] at htr
  · simp [h, Field.truthy] at htr
  · simp [h, Field.truthy] at htr
  · simp [h, dateGe] at hge

/-- Witness for C2: an article dated `"yesterday-ish"`, which the date parser rejects, is
dropped. -/
theorem filterLast24Hours_fail_closed_witness :
    (⟨.str "t", .str "u", .str "", .str "yesterday-ish", "s", "c"⟩ : RawArticle) ∉
      filterLast24Hours (fun _ => none) 100000000
        [⟨.str "t", .str "u", .str "", .str "yesterday-ish", "s", "c"⟩] :=
  filterLast24Hours_fail_closed (fun _ => none) 100000000 _ _
    (Or.inr (Or.inr (Or.inr (by decide))))

/-- What one source contributes to a collection run: its normalized items when its feed
is fetched and parsed, nothing when the fetch fails. -/
theorem fetchFeed_eq (parseURL : String → Except JsErr (List FeedItem)) (source : Source) :
    fetchFeed parseURL source =
      .ok (match parseURL source.url with
        | .ok feed => feed.map (normalizeItem source)
        | .error _ => []) := by
  unfold fetchFeed
  cases parseURL source.url <;> rfl

theorem mapM_fetchFeed (parseURL : String → Except JsErr (List FeedItem))
    (sources : List Source) :
    sources.mapM (fetchFeed parseURL) =
      .ok (sources.map fun source =>
        match parseURL source.url with
        | .ok feed => feed.map (normalizeItem source)
        | .error _ => []) := by
  induction sources with
  | nil => rfl
  | cons s rest ih =>
    rw [List.mapM_cons, ih, fetchFeed_eq]
    rfl

theorem filterLast24Hours_append (dateParse : String → Option Int) (now : Int)
    (xs ys : List RawArticle) :
    filterLast24Hours dateParse now (xs ++ ys) =
      filterLast24Hours dateParse now xs ++ filterLast24Hours dateParse now ys := by
  simp [filterLast24Hours]

theorem collectFrom_eq (sources : List Source)
    (parseURL : String → Except JsErr (List FeedItem))
    (dateParse : String → Option Int) (now : Int) :
    collectFrom sources parseURL dateParse now =
      .ok ((sources.map fun source =>
        filterLast24Hours dateParse now
          (match parseURL source.url with
            | .ok feed => feed.map (normalizeItem source)
            | .error _ => [])).flatten) := by
  unfold collectFrom
  rw [mapM_fetchFeed]
  show Except.ok _ = Except.ok _
  congr 1
  induction sources with
  | nil => rfl
  | cons s rest ih =>
    simp only [List.map_cons, List.flatten_cons, filterLast24Hours_append, ih]

/-- C3: whatever sources fail, `collectAllFeeds` returns normally; its result is the one
obtained when every failing source returns an empty item list instead; and it is the
concatenation, in source order, of what each source yields when collected on its own
(nothing, for a failing source). -/
theorem collectAllFeeds_absorbs_source_failures
    (parseURL : String → Except JsErr (List FeedItem))
    (dateParse : String → Option Int) (now : Int) :
    ∃ alone : Source → List RawArticle,
      (∀ s, collectFrom [s] parseURL dateParse now = .ok (alone s)) ∧
      (∀ s e, parseURL s.url = .error e → alone s = []) ∧
      collectAllFeeds parseURL dateParse now = .ok ((RSS_SOURCES.map alone).flatten) ∧
      collectAllFeeds parseURL dateParse now =
        collectAllFeeds (absorbFailures parseURL) dateParse now := by
  refine ⟨fun source => filterLast24Hours dateParse now
      (match parseURL source.url with
        | .ok feed => feed.map (normalizeItem source)
        | .error _ => []), ?_, ?_, ?_, ?_⟩
  · intro s
    rw [collectFrom_eq]
    simp
  · intro s e he
    simp [he, filterLast24Hours]
  · unfold collectAllFeeds
    rw [collectFrom_eq]
  · unfold collectAllFeeds
    rw [collectFrom_eq, collectFrom_eq]
    congr 2
    apply List.map_congr_left
    intro s _
    unfold absorbFailures
    cases parseURL s.url <;> rfl

/-! ### Curation engine -/

theorem getProp_missing (v : JsVal) (key : String) (h : hasKey v key = false) :
    (∃ e, getProp (some v) key = .error e) ∨ getProp (some v) key = .ok none := by
  cases v with
  | null => exact Or.inl ⟨_, rfl⟩
  | obj props =>
    right
    cases hl : props.lookup key with
    | none => simp [getProp, hl]
    | some x => simp [hasKey, hl] at h
  | _ => exact Or.inr rfl

theorem logStatistics_missing_key (v : JsVal)
    (hk : hasKey v "highlights" = false ∨ hasKey v "categories" = false) :
    ∃ e, logStatistics v = .error e := by
  unfold logStatistics
  rcases hk with hk | hk
  · rcases getProp_missing _ _ hk with ⟨e, he⟩ | he
    · exact ⟨e, by simp only [he, bind, Except.bind]⟩
    · exact ⟨.typeError "Cannot read properties of undefined", by
        simp only [he, bind, Except.bind, getLength]⟩
  · cases h1 : getProp (some v) "highlights" with
    | error e => exact ⟨e, by simp only [bind, Except.bind]⟩
    | ok highlights =>
      cases h2 : getLength highlights with
      | error e => exact ⟨e, by simp only [h2, bind, Except.bind]⟩
      | ok n =>
        rcases getProp_missing _ _ hk with ⟨e, he⟩ | he
        · exact ⟨e, by simp only [h2, he, bind, Except.bind]⟩
        · exact ⟨.typeError "Cannot convert undefined or null to object", by
            simp only [h2, he, bind, Except.bind, objectValues]⟩

/-- C4: for a non-empty article list, when the model's response parses to a value without
the top-level key `highlights` or without the top-level key `categories`, `processWithAI`
throws instead of returning a digest. -/
theorem processWithAI_rejects_missing_top_level_key
    (generateContent : String → Except JsErr String) (articles : List RawArticle)
    (text : String) (v : JsVal) (hne : articles ≠ [])
    (hresp : (buildPrompt articles).bind generateContent = .ok text)
    (hparse : JSON.parse (stripFences text) = .ok v)
    (hk : hasKey v "highlights" = false ∨ hasKey v "categories" = false) :
    ∃ e, processWithAI generateContent articles = .error e := by
  obtain ⟨e, he⟩ := logStatistics_missing_key v hk
  refine ⟨e, ?_⟩
  unfold processWithAI
  have hlen : ¬ articles.length = 0 := by
    simpa [List.length_eq_zero] using hne
  rw [if_neg hlen]
  cases hb : buildPrompt articles with
  | error e1 => rw [hb] at hresp; cases hresp
  | ok prompt =>
    rw [hb] at hresp
    have hg : generateContent prompt = .ok text := hresp
    simp only [bind, Except.bind, hg, hparse, he]

/-- Witness for C4: a response without the key `highlights` makes `processWithAI` throw. -/
theorem processWithAI_rejects_missing_top_level_key_witness :
    ∃ e, processWithAI (fun _ => .ok "\x7b\"categories\": \x7b\x7d\x7d")
      [⟨.str "T1", .str "http://u", .str "desc", .str "2024", "HN", "Tech"⟩] = .error e :=
  processWithAI_rejects_missing_top_level_key (fun _ => .ok "\x7b\"categories\": \x7b\x7d\x7d")
    [⟨.str "T1", .str "http://u", .str "desc", .str "2024", "HN", "Tech"⟩]
    "\x7b\"categories\": \x7b\x7d\x7d" (.obj [("categories", .obj [])]) (by decide) (by rfl) (by decide)
    (Or.inl (by decide))

theorem except_bind_eq_ok {α β : Type} (x : Except JsErr α) (f : α → Except JsErr β) (b : β)
    (h : x >>= f = .ok b) : ∃ a, x = .ok a ∧ f a = .ok b := by
  cases x with
  | error e => cases h
  | ok a => exact ⟨a, rfl, h⟩

theorem getProp_eq_ok {x : Option JsVal} {name : String} {y : Option JsVal}
    (h : getProp x name = .ok y) : y = prop x name := by
  cases x with
  | none => cases h
  | some v => cases v <;> first | cases h; rfl | cases h

theorem getProp_of_nonNullish {x : Option JsVal} (name : String) (h : nonNullish x = true) :
    getProp x name = .ok (prop x name) := by
  cases x with
  | none => cases h
  | some v => cases v <;> first | rfl | cases h

theorem getLength_eq_ok {x : Option JsVal} {n : Option JsVal} (h : getLength x = .ok n) :
    nonNullish x = true := by
  cases x with
  | none => cases h
  | some v => cases v <;> first | rfl | cases h

theorem getLength_of_nonNullish {x : Option JsVal} (h : nonNullish x = true) :
    ∃ n, getLength x = .ok n := by
  cases x with
  | none => cases h
  | some v => cases v <;> first | exact ⟨_, rfl⟩ | cases h

theorem objectValues_eq_ok {x : Option JsVal} {l : List JsVal} (h : objectValues x = .ok l) :
    nonNullish x = true := by
  cases x with
  | none => cases h
  | some v => cases v <;> first | rfl | cases h

theorem objectValues_of_nonNullish {x : Option JsVal} (h : nonNullish x = true) :
    ∃ l, objectValues x = .ok l := by
  cases x with
  | none => cases h
  | some v => cases v <;> first | exact ⟨_, rfl⟩ | cases h

theorem nonNullish_of_prop {x : Option JsVal} {name : String}
    (h : nonNullish (prop x name) = true) : nonNullish x = true := by
  cases x with
  | none => cases h
  | some v => cases v <;> first | rfl | cases h

theorem logStatistics_ok_of_shape (v : JsVal) (h : hasDigestShape v = true) :
    logStatistics v = .ok () := by
  simp only [hasDigestShape, Bool.and_eq_true] at h
  obtain ⟨⟨⟨⟨⟨hh, hc⟩, h1⟩, h2⟩, h3⟩, h4⟩ := h
  obtain ⟨n0, e0⟩ := getLength_of_nonNullish hh
  obtain ⟨l, el⟩ := objectValues_of_nonNullish hc
  obtain ⟨n1, e1⟩ := getLength_of_nonNullish h1
  obtain ⟨n2, e2⟩ := getLength_of_nonNullish h2
  obtain ⟨n3, e3⟩ := getLength_of_nonNullish h3
  obtain ⟨n4, e4⟩ := getLength_of_nonNullish h4
  simp only [logStatistics, getProp_of_nonNullish _ (nonNullish_of_prop hh),
    getProp_of_nonNullish _ hc, bind, Except.bind, e0, el, e1, e2, e3, e4, pure, Except.pure]

theorem shape_of_logStatistics_ok (v : JsVal) (h : logStatistics v = .ok ()) :
    hasDigestShape v = true := by
  unfold logStatistics at h
  obtain ⟨hl, e1, h⟩ := except_bind_eq_ok _ _ _ h
  obtain ⟨n0, e2, h⟩ := except_bind_eq_ok _ _ _ h
  obtain ⟨c, e3, h⟩ := except_bind_eq_ok _ _ _ h
  obtain ⟨l, e4, h⟩ := except_bind_eq_ok _ _ _ h
  obtain ⟨hl2, _, h⟩ := except_bind_eq_ok _ _ _ h
  obtain ⟨n0', _, h⟩ := except_bind_eq_ok _ _ _ h
  obtain ⟨x1, p1, h⟩ := except_bind_eq_ok _ _ _ h
  obtain ⟨m1, q1, h⟩ := except_bind_eq_ok _ _ _ h
  obtain ⟨x2, p2, h⟩ := except_bind_eq_ok _ _ _ h
  obtain ⟨m2, q2, h⟩ := except_bind_eq_ok _ _ _ h
  obtain ⟨x3, p3, h⟩ := except_bind_eq_ok _ _ _ h
  obtain ⟨m3, q3, h⟩ := except_bind_eq_ok _ _ _ h
  obtain ⟨x4, p4, h⟩ := except_bind_eq_ok _ _ _ h
  obtain ⟨m4, q4, h⟩ := except_bind_eq_ok _ _ _ h
  have := getProp_eq_ok e1
  subst this
  have := getProp_eq_ok e3
  subst this
  have := getProp_eq_ok p1
  subst this
  have := getProp_eq_ok p2
  subst this
  have := getProp_eq_ok p3
  subst this
  have := getProp_eq_ok p4
  subst this
  simp only [hasDigestShape, Bool.and_eq_true]
  exact ⟨⟨⟨⟨⟨getLength_eq_ok e2, objectValues_eq_ok e4⟩, getLength_eq_ok q1⟩,
    getLength_eq_ok q2⟩, getLength_eq_ok q3⟩, getLength_eq_ok q4⟩

theorem logStatistics_error_of_shape (v : JsVal) (h : hasDigestShape v = false) :
    ∃ e, logStatistics v = .error e := by
  cases hr : logStatistics v with
  | error e => exact ⟨e, rfl⟩
  | ok u =>
    cases u
    rw [shape_of_logStatistics_ok v hr] at h
    cases h

theorem processWithAI_eq (generateContent : String → Except JsErr String)
    (articles : List RawArticle) (text : String) (v : JsVal) (hne : articles ≠ [])
    (hresp : (buildPrompt articles).bind generateContent = .ok text)
    (hparse : JSON.parse (stripFences text) = .ok v) :
    processWithAI generateContent articles = (logStatistics v).map fun _ => v := by
  unfold processWithAI
  have hlen : ¬ articles.length = 0 := by
    simpa [List.length_eq_zero] using hne
  rw [if_neg hlen]
  cases hb : buildPrompt articles with
  | error e1 => rw [hb] at hresp; cases hresp
  | ok prompt =>
    rw [hb] at hresp
    have hg : generateContent prompt = .ok text := hresp
    simp only [bind, Except.bind, hg, hparse]
    cases logStatistics v <;> rfl

/-- C5 (amended): `processWithAI` does not look at `relevance`.  For a non-empty article
list and a response that parses to `v`, it returns `v` itself when `v` has the digest
shape and throws otherwise, whatever the relevance values of the articles in `v`. -/
theorem processWithAI_checks_shape_only
    (generateContent : String → Except JsErr String) (articles : List RawArticle)
    (text : String) (v : JsVal) (hne : articles ≠ [])
    (hresp : (buildPrompt articles).bind generateContent = .ok text)
    (hparse : JSON.parse (stripFences text) = .ok v) :
    (hasDigestShape v = true → processWithAI generateContent articles = .ok v) ∧
    (hasDigestShape v = false → ∃ e, processWithAI generateContent articles = .error e) := by
  rw [processWithAI_eq generateContent articles text v hne hresp hparse]
  constructor
  · intro h
    rw [logStatistics_ok_of_shape v h]
    rfl
  · intro h
    obtain ⟨e, he⟩ := logStatistics_error_of_shape v h
    exact ⟨e, by rw [he]; rfl⟩

/-- Witness for C5 (amended): the response whose highlight has relevance 9 has the digest
shape and is returned as it is. -/
theorem processWithAI_checks_shape_only_witness :
    processWithAI (fun _ => .ok relevanceNineResponse)
      [⟨.str "T1", .str "http://u", .str "desc", .str "2024", "HN", "Tech"⟩] =
      .ok (.obj [("highlights", .arr [.obj [("title", .str "T"), ("url", .str "http://u"),
          ("relevance", .num 9 0)]]),
        ("categories", .obj [("launches", .arr []), ("tutorials", .arr []),
          ("discussions", .arr []), ("trends", .arr [])])]) :=
  (processWithAI_checks_shape_only (fun _ => .ok relevanceNineResponse)
    [⟨.str "T1", .str "http://u", .str "desc", .str "2024", "HN", "Tech"⟩]
    relevanceNineResponse _ (by decide) (by rfl) (by decide)).1 (by decide)

/-- Counterexample to C5 as stated: for a one-article input, the response whose only
highlight has relevance 9 is not rejected; `processWithAI` returns it. -/
theorem processWithAI_accepts_relevance_nine :
    processWithAI (fun _ => .ok relevanceNineResponse)
      [⟨.str "T1", .str "http://u", .str "desc", .str "2024", "HN", "Tech"⟩] =
      .ok (.obj [("highlights", .arr [.obj [("title", .str "T"), ("url", .str "http://u"),
          ("relevance", .num 9 0)]]),
        ("categories", .obj [("launches", .arr []), ("tutorials", .arr []),
          ("discussions", .arr []), ("trends", .arr [])])]) := by
  decide

/-! ### Writing and reading record files -/

theorem lookup_setEntry_self (name : String) (e : Entry) (l : List (String × Entry)) :
    (setEntry name e l).lookup name = some e := by
  induction l with
  | nil => simp [setEntry, List.lookup]
  | cons p rest ih =>
    obtain ⟨n, x⟩ := p
    by_cases h : n = name
    · subst h
      simp [setEntry, List.lookup]
    · have h' : (name == n) = false := by
        simpa using fun e => h e.symm
      simp [setEntry, h, List.lookup, h', ih]

theorem mem_names_setEntry (name : String) (e : Entry) (l : List (String × Entry)) (x : String) :
    x ∈ (setEntry name e l).map Prod.fst ↔ x ∈ l.map Prod.fst ∨ x = name := by
  induction l with
  | nil => simp [setEntry]
  | cons p rest ih =>
    obtain ⟨n, y⟩ := p
    by_cases hn : n = name
    · subst hn
      simp only [setEntry, if_true, List.map_cons, List.mem_cons]
      tauto
    · simp only [setEntry, hn, if_false, List.map_cons, List.mem_cons, ih]
      tauto

theorem nodup_names_setEntry (name : String) (e : Entry) (l : List (String × Entry))
    (h : (l.map Prod.fst).Nodup) : ((setEntry name e l).map Prod.fst).Nodup := by
  induction l with
  | nil => simp [setEntry]
  | cons p rest ih =>
    obtain ⟨n, y⟩ := p
    by_cases hn : n = name
    · subst hn
      simpa [setEntry] using h
    · simp only [setEntry, hn, if_false, List.map_cons, List.nodup_cons] at h ⊢
      refine ⟨?_, ih h.2⟩
      rw [mem_names_setEntry]
      intro hc
      rcases hc with hc | hc
      · exact h.1 hc
      · exact hn hc

theorem writeFile_eq (fs : FsState) (name content : String) (hacc : fs.accessible = true) :
    writeFile fs name content =
      if fs.entries.lookup name = some .dir then .error (.ioError "EISDIR")
      else .ok (fs.store name content) := by
  unfold writeFile
  simp only [hacc, Bool.not_true, Bool.false_eq_true, if_false]
  split
  · next h => simp [h]
  · next h =>
    have : ¬ fs.entries.lookup name = some .dir := fun hc => h hc
    simp [this]

theorem saveNewsletter_eq (fs : FsState) (c r : JsVal) (t g : Int)
    (hacc : fs.accessible = true) :
    saveNewsletter fs c r (some t) g =
      match newsletterData (dateKey t) g c r with
      | .error e => .error e
      | .ok data =>
        if fs.entries.lookup (dateKey t ++ ".json") = some .dir then .error (.ioError "EISDIR")
        else .ok (fs.store (dateKey t ++ ".json") (JSON.stringify data),
          DATA_DIR fs ++ "/" ++ (dateKey t ++ ".json")) := by
  have hd : (String.mk (splitFirst 'T' (isoText t))) = dateKey t := rfl
  simp only [saveNewsletter, ensureDataDir, hacc, if_true, toISOString, bind, Except.bind, hd]
  cases hdata : newsletterData (dateKey t) g c r with
  | error e => rfl
  | ok data =>
    simp only [writeFile_eq _ _ _ hacc]
    by_cases hfile : fs.entries.lookup (dateKey t ++ ".json") = some .dir
    · simp only [hfile, if_true]
    · have hacc' : (fs.store (dateKey t ++ ".json") (JSON.stringify data)).accessible = true :=
        hacc
      simp only [hfile, if_false, statSize, hacc', Bool.not_true, Bool.false_eq_true]
      simp only [FsState.store, lookup_setEntry_self, pure, Except.pure]

theorem saveNewsletter_ok_of (fs : FsState) (c r : JsVal) (t g : Int) (data : JsVal)
    (hacc : fs.accessible = true)
    (hdata : newsletterData (dateKey t) g c r = .ok data)
    (hfile : fs.entries.lookup (dateKey t ++ ".json") ≠ some .dir) :
    saveNewsletter fs c r (some t) g =
      .ok (fs.store (dateKey t ++ ".json") (JSON.stringify data),
        DATA_DIR fs ++ "/" ++ (dateKey t ++ ".json")) := by
  rw [saveNewsletter_eq fs c r t g hacc, hdata]
  simp [hfile]

theorem saveNewsletter_eq_ok (fs : FsState) (c r : JsVal) (date : Option Int) (g : Int)
    (fs' : FsState) (path : String) (h : saveNewsletter fs c r date g = .ok (fs', path)) :
    ∃ t data, date = some t ∧ fs.accessible = true ∧
      newsletterData (dateKey t) g c r = .ok data ∧
      fs.entries.lookup (dateKey t ++ ".json") ≠ some .dir ∧
      fs' = fs.store (dateKey t ++ ".json") (JSON.stringify data) ∧
      path = DATA_DIR fs ++ "/" ++ (dateKey t ++ ".json") := by
  have hacc : fs.accessible = true := by
    by_contra hc
    simp [saveNewsletter, ensureDataDir, hc, bind, Except.bind] at h
  cases date with
  | none => simp [saveNewsletter, ensureDataDir, hacc, toISOString, bind, Except.bind] at h
  | some t =>
    rw [saveNewsletter_eq fs c r t g hacc] at h
    cases hdata : newsletterData (dateKey t) g c r with
    | error e => simp [hdata] at h
    | ok data =>
      simp only [hdata] at h
      by_cases hfile : fs.entries.lookup (dateKey t ++ ".json") = some .dir
      · simp [hfile] at h
      · simp only [hfile, if_false] at h
        injection h with h
        injection h with ha hb
        exact ⟨t, data, rfl, hacc, hdata, hfile, ha.symm, hb.symm⟩

/-! ### Strings survive `JSON.stringify` followed by `JSON.parse` -/

theorem hex4_control (n : Nat) (h : n < 32) :
    hex4 '0' '0' (hexDigit (n / 16)) (hexDigit (n % 16)) = some n := by
  revert n
  decide

theorem parseStringBody_quoteChar (fuel : Nat) (c : Char) (rest : List Char) :
    parseStringBody (fuel + 1) (quoteChar c ++ rest) =
      (parseStringBody fuel rest).map fun p => (c :: p.1, p.2) := by
  unfold quoteChar
  split_ifs with h1 h2 h3 h4 h5 h6 h7 h8
  · subst h1
    simp [parseStringBody, parseEscape]
  · subst h2
    simp [parseStringBody, parseEscape]
  · have hc : c = Char.ofNat 8 := by rw [← h3, Char.ofNat_toNat]
    subst hc
    simp [parseStringBody, parseEscape]
  · have hc : c = Char.ofNat 12 := by rw [← h4, Char.ofNat_toNat]
    subst hc
    simp [parseStringBody, parseEscape]
  · have hc : c = Char.ofNat 10 := by rw [← h5, Char.ofNat_toNat]
    subst hc
    simp [parseStringBody, parseEscape]
  · have hc : c = Char.ofNat 13 := by rw [← h6, Char.ofNat_toNat]
    subst hc
    simp [parseStringBody, parseEscape]
  · have hc : c = Char.ofNat 9 := by rw [← h7, Char.ofNat_toNat]
    subst hc
    simp [parseStringBody, parseEscape]
  · have hx := hex4_control c.toNat h8
    have hns : ¬ (0xD800 ≤ c.toNat ∧ c.toNat ≤ 0xDBFF) := by omega
    have hnu : ¬ (0xD800 ≤ c.toNat ∧ c.toNat ≤ 0xDFFF) := by omega
    simp [parseStringBody, parseEscape, hx, hns, unitChar, hnu, Char.ofNat_toNat]
  · simp [parseStringBody, h1, h2, h8]

theorem length_quoteBody (cs : List Char) : cs.length + 1 ≤ (quoteBody cs).length := by
  induction cs with
  | nil => simp [quoteBody]
  | cons c rest ih =>
    have : 1 ≤ (quoteChar c).length := by
      unfold quoteChar
      split_ifs <;> simp
    simp only [quoteBody, List.length_append, List.length_cons]
    omega

theorem parseStringBody_quoteBody (cs rest : List Char) :
    ∀ fuel, cs.length < fuel → parseStringBody fuel (quoteBody cs ++ rest) = some (cs, rest) := by
  induction cs with
  | nil =>
    intro fuel h
    cases fuel with
    | zero => omega
    | succ f => simp [quoteBody, parseStringBody]
  | cons c tail ih =>
    intro fuel h
    cases fuel with
    | zero => omega
    | succ f =>
      simp only [List.length_cons, Nat.add_lt_add_iff_right] at h
      rw [quoteBody, List.append_assoc, parseStringBody_quoteChar, ih f h]
      rfl

/-! ### Integers survive `JSON.stringify` followed by `JSON.parse` -/

theorem digit_facts (d : Nat) (h : d < 10) :
    isDigit (Char.ofNat (48 + d)) = true ∧ (Char.ofNat (48 + d)).toNat - 48 = d ∧
      (Char.ofNat (48 + d) = '0' → d = 0) := by
  revert d
  decide

theorem digitsToNat_append (xs ys : List Char) :
    digitsToNat (xs ++ ys) = digitsToNat xs * 10 ^ ys.length + digitsToNat ys := by
  have key : ∀ (l : List Char) (a : Nat),
      l.foldl (fun n c => 10 * n + (c.toNat - 48)) a =
        a * 10 ^ l.length + l.foldl (fun n c => 10 * n + (c.toNat - 48)) 0 := by
    intro l
    induction l with
    | nil => intro a; simp
    | cons c t ih =>
      intro a
      simp only [List.foldl_cons, List.length_cons]
      rw [ih (10 * a + (c.toNat - 48)), ih (10 * 0 + (c.toNat - 48))]
      ring
  unfold digitsToNat
  rw [List.foldl_append, key]

theorem natDigits_spec (fuel : Nat) : ∀ (n : Nat) (acc : List Char), n < fuel →
    ∃ ds, natDigits fuel n acc = ds ++ acc ∧ ds ≠ [] ∧ (∀ c ∈ ds, isDigit c = true) ∧
      digitsToNat ds = n ∧ (ds.head? = some '0' → n = 0) := by
  induction fuel with
  | zero => intro n acc h; omega
  | succ f ih =>
    intro n acc h
    have hd := digit_facts (n % 10) (Nat.mod_lt _ (by decide))
    by_cases h0 : n / 10 = 0
    · refine ⟨[Char.ofNat (48 + n % 10)], ?_, by simp, ?_, ?_, ?_⟩
      · simp [natDigits, h0]
      · intro c hc
        simp only [List.mem_singleton] at hc
        rw [hc]
        exact hd.1
      · simp only [digitsToNat, List.foldl_cons, List.foldl_nil, hd.2.1]
        omega
      · intro hh
        simp only [List.head?_cons, Option.some.injEq] at hh
        have := hd.2.2 hh
        omega
    · obtain ⟨ds, h1, h2, h3, h4, h5⟩ := ih (n / 10) (Char.ofNat (48 + n % 10) :: acc) (by omega)
      refine ⟨ds ++ [Char.ofNat (48 + n % 10)], ?_, by simp, ?_, ?_, ?_⟩
      · simp [natDigits, h0, h1]
      · intro c hc
        rw [List.mem_append] at hc
        rcases hc with hc | hc
        · exact h3 c hc
        · simp only [List.mem_singleton] at hc
          rw [hc]
          exact hd.1
      · rw [digitsToNat_append, h4]
        simp only [digitsToNat, List.foldl_cons, List.foldl_nil, hd.2.1, List.length_singleton]
        omega
      · intro hh
        cases ds with
        | nil => exact absurd rfl h2
        | cons d t =>
          simp only [List.cons_append, List.head?_cons] at hh
          have := h5 (by simpa using hh)
          omega

theorem natText_spec (n : Nat) :
    natText n ≠ [] ∧ (∀ c ∈ natText n, isDigit c = true) ∧ digitsToNat (natText n) = n ∧
      (¬ ((natText n).head? = some '0' ∧ 1 < (natText n).length)) := by
  obtain ⟨ds, h1, h2, h3, h4, h5⟩ := natDigits_spec (n + 1) n [] (by omega)
  have he : natText n = ds := by simpa [natText] using h1
  rw [he]
  refine ⟨h2, h3, h4, ?_⟩
  rintro ⟨hh, hl⟩
  have hn := h5 hh
  subst hn
  have : natText 0 = ['0'] := by decide
  rw [this] at he
  rw [← he] at hl
  simp at hl

theorem spanDigits_append (ds rest : List Char) (hds : ∀ c ∈ ds, isDigit c = true)
    (hrest : ∀ c r, rest = c :: r → isDigit c = false) :
    spanDigits (ds ++ rest) = (ds, rest) := by
  induction ds with
  | nil =>
    cases rest with
    | nil => rfl
    | cons c r => simp [spanDigits, hrest c r rfl]
  | cons d t ih =>
    have hd : isDigit d = true := hds d (by simp)
    have := ih (fun c hc => hds c (by simp [hc]))
    simp [spanDigits, hd, this]

theorem parseNumber_numText (m : Int) (rest : List Char) (hrest : numberEnds rest) :
    parseNumber (numText m 0 ++ rest) = some (.num m 0, rest) := by
  obtain ⟨hne, hdig, hval, hlead⟩ := natText_spec m.natAbs
  have hspan : spanDigits (natText m.natAbs ++ rest) = (natText m.natAbs, rest) := by
    apply spanDigits_append _ _ hdig
    intro c r hr
    subst hr
    exact hrest.1
  have hfrac : parseFraction rest = some ([], rest) := by
    cases rest with
    | nil => rfl
    | cons c r => simp [parseFraction, hrest.2.1]
  have hexp : parseExponent rest = some (0, rest) := by
    cases rest with
    | nil => rfl
    | cons c r => simp [parseExponent, hrest.2.2.1, hrest.2.2.2]
  have hnum : numText m 0 = (if m < 0 then ['-'] else []) ++ natText m.natAbs := by
    simp [numText]
  obtain ⟨d, t, hdt⟩ : ∃ d t, natText m.natAbs = d :: t := by
    cases h : natText m.natAbs with
    | nil => exact absurd h hne
    | cons d t => exact ⟨d, t, rfl⟩
  have hd : isDigit d = true := hdig d (by simp [hdt])
  have hdm : d ≠ '-' := by
    intro hc
    subst hc
    simp [isDigit] at hd
  have hempty : (natText m.natAbs).isEmpty = false := by simp [hdt]
  rw [hnum]
  by_cases hm : m < 0
  · have hsign : parseSign false ('-' :: (natText m.natAbs ++ rest)) =
        (true, natText m.natAbs ++ rest) := by simp [parseSign]
    simp only [hm, if_true, List.singleton_append, List.cons_append, List.nil_append, parseNumber, hsign, hspan, hempty,
      hlead, hfrac, hexp, List.append_nil, hval, Bool.false_eq_true, if_false]
    simp only [mkNum, List.length_nil]
    simp
    have := abs_of_neg hm
    omega
  · have hsign : parseSign false (natText m.natAbs ++ rest) =
        (false, natText m.natAbs ++ rest) := by
      rw [hdt]
      simp [parseSign, hdm]
    simp only [hm, if_false, List.nil_append, parseNumber, hsign, hspan, hempty,
      hlead, hfrac, hexp, List.append_nil, hval, Bool.false_eq_true]
    simp only [mkNum, List.length_nil]
    simp
    omega

/-! ### Values survive `JSON.stringify` followed by `JSON.parse` -/

theorem isValueHead_facts (c : Char) (h : isValueHead c = true) :
    isJsonWs c = false ∧ c ≠ ']' ∧ c ≠ '}' := by
  simp only [isValueHead, Bool.or_eq_true, decide_eq_true_eq] at h
  rcases h with ((((((h | h) | h) | h) | h) | h) | h) | h
  any_goals (subst h; decide)
  simp only [isDigit, Bool.and_eq_true, decide_eq_true_eq] at h
  refine ⟨?_, ?_, ?_⟩
  · simp only [isJsonWs, Bool.or_eq_false_iff, decide_eq_false_iff_not]
    omega
  · intro hc
    subst hc
    revert h
    decide
  · intro hc
    subst hc
    revert h
    decide

theorem skipWs_of_head (c : Char) (r : List Char) (h : isJsonWs c = false) :
    skipWs (c :: r) = c :: r := by
  simp [skipWs, h]

theorem skipWs_newline (n : Nat) (cs : List Char) : skipWs (newline n ++ cs) = skipWs cs := by
  have hsp : ∀ k, skipWs (List.replicate k ' ' ++ cs) = skipWs cs := by
    intro k
    induction k with
    | zero => rfl
    | succ k ih =>
      have : isJsonWs ' ' = true := by decide
      simp [List.replicate_succ, skipWs, this, ih]
  have hnl : isJsonWs (Char.ofNat 10) = true := by decide
  simp [newline, skipWs, hnl, hsp]

theorem numText_head (m : Int) :
    ∃ c r, numText m 0 = c :: r ∧ (isDigit c = true ∨ c = '-') := by
  obtain ⟨hne, hdig, _, _⟩ := natText_spec m.natAbs
  have hnum : numText m 0 = (if m < 0 then ['-'] else []) ++ natText m.natAbs := by
    simp [numText]
  rw [hnum]
  by_cases hm : m < 0
  · exact ⟨'-', natText m.natAbs, by simp [hm], Or.inr rfl⟩
  · cases h : natText m.natAbs with
    | nil => exact absurd h hne
    | cons d t =>
      refine ⟨d, t, by simp [hm], Or.inl (hdig d (by simp [h]))⟩

theorem stringifyValue_head (ind : Nat) (v : JsVal) (hk : ∀ m k, v = .num m k → k = 0) :
    ∃ c r, stringifyValue ind v = c :: r ∧ isValueHead c = true := by
  cases v with
  | null => rw [stringifyValue]; exact ⟨_, _, rfl, by decide⟩
  | bool b =>
    cases b
    · rw [stringifyValue]; exact ⟨_, _, rfl, by decide⟩
    · rw [stringifyValue]; exact ⟨_, _, rfl, by decide⟩
  | num m k =>
    have hk0 := hk m k rfl
    subst hk0
    obtain ⟨c, r, h1, h2⟩ := numText_head m
    refine ⟨c, r, by simp [stringifyValue, h1], ?_⟩
    rcases h2 with h2 | h2
    · simp [isValueHead, h2]
    · subst h2
      decide
  | str s => rw [stringifyValue, quoteString]; exact ⟨_, _, rfl, by decide⟩
  | arr xs =>
    cases xs
    · rw [stringifyValue]; exact ⟨_, _, rfl, by decide⟩
    · rw [stringifyValue]; exact ⟨_, _, rfl, by decide⟩
  | obj ps =>
    cases ps with
    | nil => rw [stringifyValue]; exact ⟨_, _, rfl, by decide⟩
    | cons p t =>
      obtain ⟨key, x⟩ := p
      rw [stringifyValue]; exact ⟨_, _, rfl, by decide⟩

theorem parseValue_number (fuel : Nat) (c : Char) (r : List Char)
    (hc : isDigit c = true ∨ c = '-') :
    parseValue (fuel + 1) (c :: r) = parseNumber (c :: r) := by
  unfold parseValue
  split
  all_goals first
    | rfl
    | (rename_i heq
       have h1 := (List.cons.inj heq).1
       subst h1
       exact absurd hc (by decide))

theorem plain_num_zero (v : JsVal) (hp : v.Plain) : ∀ m k, v = .num m k → k = 0 := by
  intro m k h
  subst h
  simpa [JsVal.Plain] using hp

theorem skipWs_stringifyValue (ind : Nat) (v : JsVal) (hp : v.Plain) (rest : List Char) :
    skipWs (stringifyValue ind v ++ rest) = stringifyValue ind v ++ rest ∧
      (stringifyValue ind v ++ rest).head? ≠ some ']' ∧
      (stringifyValue ind v ++ rest).head? ≠ some '}' := by
  obtain ⟨c, r, h1, h2⟩ := stringifyValue_head ind v (plain_num_zero v hp)
  obtain ⟨f1, f2, f3⟩ := isValueHead_facts c h2
  rw [h1]
  refine ⟨skipWs_of_head c _ f1, ?_, ?_⟩
  · simpa using f2
  · simpa using f3

theorem foldl_setProp (ps acc : List (String × JsVal))
    (hnd : (ps.map Prod.fst).Nodup) (hidx : ∀ key ∈ ps.map Prod.fst, arrayIndex key = none)
    (hdis : ∀ key ∈ ps.map Prod.fst, key ∉ acc.map Prod.fst) :
    ps.foldl (fun props m => setProp props m.1 m.2) acc = acc ++ ps := by
  induction ps generalizing acc with
  | nil => simp
  | cons p t ih =>
    obtain ⟨key, x⟩ := p
    simp only [List.map_cons, List.nodup_cons, List.mem_cons, forall_eq_or_imp] at hnd hidx hdis
    have hany : acc.any (fun p => decide (p.1 = key)) = false := by
      rw [List.any_eq_false]
      intro p hp
      simp only [decide_eq_true_eq]
      intro hk
      exact hdis.1 (by rw [← hk]; exact List.mem_map_of_mem _ hp)
    have hset : setProp acc key x = acc ++ [(key, x)] := by
      simp only [setProp, hany, Bool.false_eq_true, if_false, hidx.1]
    simp only [List.foldl_cons, hset]
    rw [ih (acc ++ [(key, x)]) hnd.2 hidx.2]
    · simp
    · intro k hk
      simp only [List.map_append, List.map_cons, List.map_nil, List.mem_append,
        List.mem_singleton, not_or]
      refine ⟨hdis.2 k hk, ?_⟩
      intro hkk
      subst hkk
      exact hnd.1 hk

theorem mkObject_plain (ps : List (String × JsVal)) (h : plainKeys (ps.map Prod.fst)) :
    mkObject ps = .obj ps := by
  unfold mkObject
  rw [foldl_setProp ps [] h.1 h.2 (by simp)]
  simp

theorem numberEnds_elements (ind : Nat) (xs : List JsVal) (rest : List Char) :
    numberEnds (stringifyElements ind xs ++ rest) := by
  cases xs with
  | nil =>
    rw [stringifyElements, newline]
    exact ⟨by decide, by decide, by decide, by decide⟩
  | cons y ys =>
    rw [stringifyElements]
    exact ⟨by decide, by decide, by decide, by decide⟩

theorem numberEnds_members (ind : Nat) (ps : List (String × JsVal)) (rest : List Char) :
    numberEnds (stringifyMembers ind ps ++ rest) := by
  cases ps with
  | nil =>
    rw [stringifyMembers, newline]
    exact ⟨by decide, by decide, by decide, by decide⟩
  | cons p qs =>
    obtain ⟨key, y⟩ := p
    rw [stringifyMembers]
    exact ⟨by decide, by decide, by decide, by decide⟩

mutual
theorem parseValue_stringify : (v : JsVal) → ∀ (ind : Nat) (rest : List Char) (fuel : Nat),
    v.Plain → v.cost ≤ fuel → numberEnds rest →
    parseValue fuel (stringifyValue ind v ++ rest) = some (v, rest)
  | .null, ind, rest, fuel, _, hc, _ => by
    cases fuel with
    | zero => simp [JsVal.cost] at hc
    | succ f => simp [stringifyValue, parseValue]
  | .bool b, ind, rest, fuel, _, hc, _ => by
    cases fuel with
    | zero => simp [JsVal.cost] at hc
    | succ f => cases b <;> simp [stringifyValue, parseValue]
  | .num m k, ind, rest, fuel, hp, hc, hr => by
    cases fuel with
    | zero => simp [JsVal.cost] at hc
    | succ f =>
      have hk : k = 0 := by simpa [JsVal.Plain] using hp
      subst hk
      obtain ⟨c, r, h1, h2⟩ := numText_head m
      have := parseNumber_numText m rest hr
      rw [stringifyValue]
      rw [h1] at this ⊢
      rw [List.cons_append] at this ⊢
      rw [parseValue_number f c _ h2, this]
  | .str s, ind, rest, fuel, _, hc, _ => by
    cases fuel with
    | zero => simp [JsVal.cost] at hc
    | succ f =>
      have hlen : s.data.length < (quoteBody s.data ++ rest).length + 1 := by
        have := length_quoteBody s.data
        simp only [List.length_append]
        omega
      have := parseStringBody_quoteBody s.data rest _ hlen
      rw [stringifyValue, quoteString, List.cons_append, parseValue, this]
      rfl
  | .arr [], ind, rest, fuel, _, hc, _ => by
    cases fuel with
    | zero => simp [JsVal.cost] at hc
    | succ f =>
      have : isJsonWs ']' = false := by decide
      simp [stringifyValue, parseValue, skipWs, this]
  | .arr (x :: xs), ind, rest, fuel, hp, hc, _ => by
    cases fuel with
    | zero => simp [JsVal.cost] at hc
    | succ f =>
      have hpl : JsVal.PlainList (x :: xs) := by simpa [JsVal.Plain] using hp
      have hcl : JsVal.costList (x :: xs) ≤ f := by
        simp only [JsVal.cost] at hc
        omega
      have hE := parseElements_stringify (x :: xs) ind rest f hpl hcl x xs rfl
      obtain ⟨s1, s2, _⟩ := skipWs_stringifyValue (ind + 2) x hpl.1
        (stringifyElements ind xs ++ rest)
      rw [stringifyValue]
      simp only [List.cons_append, List.append_assoc, parseValue, skipWs_newline, s1]
      rw [if_neg s2, hE]
      rfl
  | .obj [], ind, rest, fuel, _, hc, _ => by
    cases fuel with
    | zero => simp [JsVal.cost] at hc
    | succ f =>
      have : isJsonWs '}' = false := by decide
      simp [stringifyValue, parseValue, skipWs, this]
  | .obj ((key, x) :: ps), ind, rest, fuel, hp, hc, _ => by
    cases fuel with
    | zero => simp [JsVal.cost] at hc
    | succ f =>
      have hpl : plainKeys (((key, x) :: ps).map Prod.fst) ∧ JsVal.PlainProps ((key, x) :: ps) := by
        simpa [JsVal.Plain] using hp
      have hcl : JsVal.costProps ((key, x) :: ps) ≤ f := by
        simp only [JsVal.cost] at hc
        omega
      have hM := parseMembers_stringify ((key, x) :: ps) ind rest f hpl.2 hcl key x ps rfl
      have hq : isJsonWs '"' = false := by decide
      rw [stringifyValue]
      simp only [List.cons_append, List.append_assoc, parseValue, skipWs_newline, quoteString,
        skipWs_of_head _ _ hq, List.head?_cons]
      simp only [quoteString, List.cons_append, List.append_assoc] at hM
      rw [if_neg (by decide), hM]
      simp [mkObject_plain _ hpl.1]
theorem parseElements_stringify : (l : List JsVal) → ∀ (ind : Nat) (rest : List Char)
    (fuel : Nat), JsVal.PlainList l → JsVal.costList l ≤ fuel → ∀ x xs, l = x :: xs →
    parseElements fuel (stringifyValue (ind + 2) x ++ (stringifyElements ind xs ++ rest)) =
      some (l, rest)
  | [], _, _, _, _, _, x, xs, h => by cases h
  | y :: ys, ind, rest, fuel, hp, hc, x, xs, h => by
    injection h with h1 h2
    subst h1 h2
    cases fuel with
    | zero => simp [JsVal.costList] at hc
    | succ f =>
      simp only [JsVal.costList] at hc
      have hV := parseValue_stringify y (ind + 2) (stringifyElements ind ys ++ rest) f hp.1
        (by omega) (numberEnds_elements ind ys rest)
      rw [parseElements, hV]
      cases ys with
      | nil =>
        have hb : isJsonWs ']' = false := by decide
        rw [stringifyElements]
        simp only [List.append_assoc, List.singleton_append, skipWs_newline,
          skipWs_of_head _ _ hb]
      | cons z zs =>
        have hE := parseElements_stringify (z :: zs) ind rest f hp.2 (by omega) z zs rfl
        have hcomma : isJsonWs ',' = false := by decide
        obtain ⟨s1, _, _⟩ := skipWs_stringifyValue (ind + 2) z hp.2.1
          (stringifyElements ind zs ++ rest)
        rw [stringifyElements]
        simp only [List.cons_append, List.append_assoc, skipWs_of_head _ _ hcomma,
          skipWs_newline, s1, hE]
        rfl
theorem parseMembers_stringify : (ps : List (String × JsVal)) → ∀ (ind : Nat)
    (rest : List Char) (fuel : Nat), JsVal.PlainProps ps → JsVal.costProps ps ≤ fuel →
    ∀ key x qs, ps = (key, x) :: qs →
    parseMembers fuel (quoteString key ++ (':' :: ' ' :: (stringifyValue (ind + 2) x ++
      (stringifyMembers ind qs ++ rest)))) = some (ps, rest)
  | [], _, _, _, _, _, key, x, qs, h => by cases h
  | (k, y) :: ys, ind, rest, fuel, hp, hc, key, x, qs, h => by
    injection h with h1 h2
    injection h1 with h3 h4
    subst h3 h4 h2
    cases fuel with
    | zero => simp [JsVal.costProps] at hc
    | succ f =>
      simp only [JsVal.costProps] at hc
      have hV := parseValue_stringify y (ind + 2) (stringifyMembers ind ys ++ rest) f hp.1
        (by omega) (numberEnds_members ind ys rest)
      obtain ⟨s1, _, _⟩ := skipWs_stringifyValue (ind + 2) y hp.1
        (stringifyMembers ind ys ++ rest)
      have hlen : k.data.length <
          (quoteBody k.data ++ (':' :: ' ' :: (stringifyValue (ind + 2) y ++
            (stringifyMembers ind ys ++ rest)))).length + 1 := by
        have := length_quoteBody k.data
        simp only [List.length_append]
        omega
      have hkey := parseStringBody_quoteBody k.data (':' :: ' ' :: (stringifyValue (ind + 2) y ++
            (stringifyMembers ind ys ++ rest))) _ hlen
      have hcolon : isJsonWs ':' = false := by decide
      have hspace : isJsonWs ' ' = true := by decide
      have hsp : ∀ cs, skipWs (' ' :: cs) = skipWs cs := by
        intro cs
        simp [skipWs, hspace]
      rw [quoteString, List.cons_append, parseMembers, hkey]
      simp only [skipWs_of_head _ _ hcolon, hsp, s1, hV]
      cases ys with
      | nil =>
        have hb : isJsonWs '}' = false := by decide
        rw [stringifyMembers]
        simp only [List.append_assoc, List.singleton_append, skipWs_newline,
          skipWs_of_head _ _ hb]
      | cons q zs =>
        obtain ⟨k2, z⟩ := q
        have hM := parseMembers_stringify ((k2, z) :: zs) ind rest f hp.2 (by omega) k2 z zs rfl
        have hcomma : isJsonWs ',' = false := by decide
        have hq : isJsonWs '"' = false := by decide
        rw [stringifyMembers]
        simp only [List.cons_append, List.append_assoc, skipWs_of_head _ _ hcomma,
          skipWs_newline, quoteString, skipWs_of_head _ _ hq]
        simp only [quoteString, List.cons_append, List.append_assoc] at hM
        rw [hM]
        rfl
end

mutual
theorem cost_le_length : (v : JsVal) → ∀ ind : Nat, v.cost ≤ (stringifyValue ind v).length
  | .null, ind => by simp [JsVal.cost, stringifyValue]
  | .bool b, ind => by cases b <;> simp [JsVal.cost, stringifyValue]
  | .num m k, ind => by
    obtain ⟨hne, _⟩ := natText_spec (m.natAbs / 10 ^ k)
    have : 1 ≤ (natText (m.natAbs / 10 ^ k)).length := by
      cases h : natText (m.natAbs / 10 ^ k) with
      | nil => exact absurd h hne
      | cons d t => simp
    simp only [JsVal.cost, stringifyValue, numText, List.length_append]
    omega
  | .str s, ind => by simp [JsVal.cost, stringifyValue, quoteString]
  | .arr [], ind => by simp [JsVal.cost, JsVal.costList, stringifyValue]
  | .arr (x :: xs), ind => by
    have h1 := cost_le_length x (ind + 2)
    have h2 := costList_le_length xs ind
    simp only [JsVal.cost, JsVal.costList, stringifyValue, List.length_cons, List.length_append,
      newline]
    omega
  | .obj [], ind => by simp [JsVal.cost, JsVal.costProps, stringifyValue]
  | .obj ((key, x) :: ps), ind => by
    have h1 := cost_le_length x (ind + 2)
    have h2 := costProps_le_length ps ind
    simp only [JsVal.cost, JsVal.costProps, stringifyValue, List.length_cons, List.length_append,
      newline]
    omega
theorem costList_le_length : (xs : List JsVal) → ∀ ind : Nat,
    JsVal.costList xs ≤ (stringifyElements ind xs).length
  | [], ind => by simp [JsVal.costList]
  | x :: xs, ind => by
    have h1 := cost_le_length x (ind + 2)
    have h2 := costList_le_length xs ind
    simp only [JsVal.costList, stringifyElements, List.length_cons, List.length_append, newline]
    omega
theorem costProps_le_length : (ps : List (String × JsVal)) → ∀ ind : Nat,
    JsVal.costProps ps ≤ (stringifyMembers ind ps).length
  | [], ind => by simp [JsVal.costProps]
  | (key, x) :: ps, ind => by
    have h1 := cost_le_length x (ind + 2)
    have h2 := costProps_le_length ps ind
    simp only [JsVal.costProps, stringifyMembers, List.length_cons, List.length_append, newline]
    omega
end

/-- Serialization round trip: `JSON.parse(JSON.stringify(v, null, 2))` is `v` for every
value whose numbers are integers and whose objects have plain keys. -/
theorem parse_stringify (v : JsVal) (hp : v.Plain) : JSON.parse (JSON.stringify v) = .ok v := by
  obtain ⟨s1, _, _⟩ := skipWs_stringifyValue 0 v hp []
  have hfuel : v.cost ≤ 2 * (stringifyValue 0 v).length + 2 := by
    have := cost_le_length v 0
    omega
  have hV := parseValue_stringify v 0 [] _ hp hfuel trivial
  simp only [List.append_nil] at s1 hV
  simp only [JSON.parse, JSON.stringify, s1, hV]
  rfl

/-! ### The recursion budget of `JSON.parse` is never what makes it fail -/

theorem length_skipWs (cs : List Char) : (skipWs cs).length ≤ cs.length := by
  induction cs with
  | nil => simp [skipWs]
  | cons c t ih =>
    simp only [skipWs]
    split
    · simp only [List.length_cons]; omega
    · simp

theorem length_spanDigits (cs : List Char) : (spanDigits cs).2.length ≤ cs.length := by
  induction cs with
  | nil => simp [spanDigits]
  | cons c t ih =>
    simp only [spanDigits]
    split
    · simp only [List.length_cons]; omega
    · simp

theorem length_parseSign (b : Bool) (cs : List Char) : (parseSign b cs).2.length ≤ cs.length := by
  cases cs with
  | nil => simp [parseSign]
  | cons c t =>
    simp only [parseSign]
    split_ifs <;> simp

theorem length_lowSurrogate (cs : List Char) (lo : Nat) (r : List Char)
    (h : lowSurrogate cs = some (lo, r)) : r.length ≤ cs.length := by
  unfold lowSurrogate at h
  split at h
  · split at h
    · split at h
      · injection h with h
        injection h with _ h
        subst h
        simp only [List.length_cons]
        omega
      · cases h
    · cases h
  · cases h

theorem length_parseEscape (cs : List Char) (x : Char) (r : List Char)
    (h : parseEscape cs = some (x, r)) : r.length ≤ cs.length := by
  unfold parseEscape at h
  split at h
  · cases h
  · split at h
    · cases h
    · split at h
      · next lo r2 hlow =>
        injection h with h
        injection h with _ h
        subst h
        split at hlow
        · have := length_lowSurrogate _ _ _ hlow
          simp only [List.length_cons]
          omega
        · cases hlow
      · injection h with h
        injection h with _ h
        subst h
        simp only [List.length_cons]
        omega
  · split_ifs at h
    all_goals
      injection h with h
      injection h with _ h
      subst h
      simp

theorem length_parseStringBody (fuel : Nat) : ∀ (cs s r : List Char),
    parseStringBody fuel cs = some (s, r) → r.length ≤ cs.length := by
  induction fuel with
  | zero => intro cs s r h; simp [parseStringBody] at h
  | succ f ih =>
    intro cs s r h
    cases cs with
    | nil => simp [parseStringBody] at h
    | cons c rest =>
      simp only [parseStringBody] at h
      split_ifs at h with h1 h2 h3
      · injection h with h
        injection h with _ h
        subst h
        simp
      · split at h
        · cases h
        · next x r1 hesc =>
          simp only [Option.map_eq_some'] at h
          obtain ⟨p, hp, hpe⟩ := h
          obtain ⟨p1, p2⟩ := p
          have h1 := ih _ _ _ hp
          have h2 := length_parseEscape _ _ _ hesc
          injection hpe with _ hr
          subst hr
          simp only [List.length_cons]
          omega
      · simp only [Option.map_eq_some'] at h
        obtain ⟨p, hp, hpe⟩ := h
        obtain ⟨p1, p2⟩ := p
        have := ih _ _ _ hp
        injection hpe with _ hr
        subst hr
        simp only [List.length_cons]
        omega

theorem length_parseFraction (cs fp r : List Char) (h : parseFraction cs = some (fp, r)) :
    r.length ≤ cs.length := by
  cases cs with
  | nil =>
    simp only [parseFraction] at h
    injection h with h
    injection h with _ h
    subst h
    simp
  | cons c t =>
    simp only [parseFraction] at h
    split_ifs at h
    · injection h with h
      have := length_spanDigits t
      rw [h] at this
      simp only [List.length_cons]
      exact Nat.le_succ_of_le this
    · injection h with h
      injection h with _ h
      subst h
      simp

theorem length_parseExponent (cs : List Char) (e : Int) (r : List Char)
    (h : parseExponent cs = some (e, r)) : r.length ≤ cs.length := by
  cases cs with
  | nil =>
    simp only [parseExponent] at h
    injection h with h
    injection h with _ h
    subst h
    simp
  | cons c t =>
    have h1 := length_spanDigits (parseSign true t).2
    have h2 := length_parseSign true t
    simp only [parseExponent] at h
    split_ifs at h
    all_goals
      injection h with h
      injection h with _ h
      subst h
      simp only [List.length_cons]
      omega

theorem length_parseNumber (cs : List Char) (v : JsVal) (r : List Char)
    (h : parseNumber cs = some (v, r)) : r.length ≤ cs.length := by
  unfold parseNumber at h
  simp only at h
  split_ifs at h
  split at h
  · cases h
  · next fp r2 hf =>
    split at h
    · cases h
    · next e r3 he =>
      injection h with h
      injection h with _ h
      subst h
      have h1 := length_parseExponent _ _ _ he
      have h2 := length_parseFraction _ _ _ hf
      have h3 := length_spanDigits (parseSign false cs).2
      have h4 := length_parseSign false cs
      omega

theorem length_tail_le (cs : List Char) : cs.tail.length ≤ cs.length := by
  cases cs <;> simp

theorem length_parse (fuel : Nat) :
    (∀ cs v r, parseValue fuel cs = some (v, r) → r.length ≤ cs.length) ∧
    (∀ cs l r, parseElements fuel cs = some (l, r) → r.length ≤ cs.length) ∧
    (∀ cs l r, parseMembers fuel cs = some (l, r) → r.length ≤ cs.length) := by
  induction fuel with
  | zero =>
    refine ⟨?_, ?_, ?_⟩ <;> intro cs v r h
    · simp [parseValue] at h
    · simp [parseElements] at h
    · simp [parseMembers] at h
  | succ f ih =>
    obtain ⟨ihV, ihE, ihM⟩ := ih
    refine ⟨?_, ?_, ?_⟩
    · intro cs v r h
      unfold parseValue at h
      split at h
      · injection h with h; injection h with _ h; subst h
        simp only [List.length_cons]; omega
      · injection h with h; injection h with _ h; subst h
        simp only [List.length_cons]; omega
      · injection h with h; injection h with _ h; subst h
        simp only [List.length_cons]; omega
      · simp only [Option.map_eq_some'] at h
        obtain ⟨p, hp, hpe⟩ := h
        obtain ⟨p1, p2⟩ := p
        have := length_parseStringBody _ _ _ _ hp
        injection hpe with _ hr
        subst hr
        simp only [List.length_cons]; omega
      · next r0 =>
        have hs := length_skipWs r0
        simp only at h
        split_ifs at h
        · injection h with h; injection h with _ h; subst h
          have := length_tail_le (skipWs r0)
          simp only [List.length_cons]; omega
        · simp only [Option.map_eq_some'] at h
          obtain ⟨p, hp, hpe⟩ := h
          obtain ⟨p1, p2⟩ := p
          have := ihE _ _ _ hp
          injection hpe with _ hr
          subst hr
          simp only [List.length_cons]; omega
      · next r0 =>
        have hs := length_skipWs r0
        simp only at h
        split_ifs at h
        · injection h with h; injection h with _ h; subst h
          have := length_tail_le (skipWs r0)
          simp only [List.length_cons]; omega
        · simp only [Option.map_eq_some'] at h
          obtain ⟨p, hp, hpe⟩ := h
          obtain ⟨p1, p2⟩ := p
          have := ihM _ _ _ hp
          injection hpe with _ hr
          subst hr
          simp only [List.length_cons]; omega
      · exact length_parseNumber _ _ _ h
    · intro cs l r h
      unfold parseElements at h
      split at h
      · cases h
      · next v r1 hv =>
        have h1 := ihV _ _ _ hv
        have h2 := length_skipWs r1
        split at h
        · next r2 hsk =>
          simp only [Option.map_eq_some'] at h
          obtain ⟨p, hp, hpe⟩ := h
          obtain ⟨p1, p2⟩ := p
          have h3 := ihE _ _ _ hp
          have h4 := length_skipWs r2
          injection hpe with _ hr
          subst hr
          rw [hsk] at h2
          simp only [List.length_cons] at h2
          dsimp only
          omega
        · next r2 hsk =>
          injection h with h; injection h with _ h; subst h
          rw [hsk] at h2
          simp only [List.length_cons] at h2
          omega
        · cases h
    · intro cs l r h
      unfold parseMembers at h
      split at h
      · next r0 =>
        split at h
        · cases h
        · next key r1 hk =>
          have h1 := length_parseStringBody _ _ _ _ hk
          have h2 := length_skipWs r1
          split at h
          · next r2 hsk =>
            rw [hsk] at h2
            have h3 := length_skipWs r2
            split at h
            · cases h
            · next v r3 hv =>
              have h4 := ihV _ _ _ hv
              have h5 := length_skipWs r3
              split at h
              · next r4 hsk2 =>
                simp only [Option.map_eq_some'] at h
                obtain ⟨p, hp, hpe⟩ := h
                obtain ⟨p1, p2⟩ := p
                have h6 := ihM _ _ _ hp
                have h7 := length_skipWs r4
                injection hpe with _ hr
                subst hr
                rw [hsk2] at h5
                simp only [List.length_cons] at h2 h5 ⊢
                omega
              · next r4 hsk2 =>
                injection h with h; injection h with _ h; subst h
                rw [hsk2] at h5
                simp only [List.length_cons] at h2 h5 ⊢
                omega
              · cases h
          · cases h
      · cases h

theorem parse_budget (fuel : Nat) :
    (∀ cs p f', parseValue fuel cs = some p → 2 * cs.length + 1 ≤ f' →
      parseValue f' cs = some p) ∧
    (∀ cs p f', parseElements fuel cs = some p → 2 * cs.length + 2 ≤ f' →
      parseElements f' cs = some p) ∧
    (∀ cs p f', parseMembers fuel cs = some p → 2 * cs.length + 2 ≤ f' →
      parseMembers f' cs = some p) := by
  induction fuel with
  | zero =>
    refine ⟨?_, ?_, ?_⟩ <;> intro cs p f' h
    · simp [parseValue] at h
    · simp [parseElements] at h
    · simp [parseMembers] at h
  | succ f ih =>
    obtain ⟨ihV, ihE, ihM⟩ := ih
    refine ⟨?_, ?_, ?_⟩
    · intro cs p f' h hb
      obtain ⟨g, rfl⟩ : ∃ g, f' = g + 1 := ⟨f' - 1, by omega⟩
      unfold parseValue at h ⊢
      split at h
      · exact h
      · exact h
      · exact h
      · exact h
      · next r0 =>
        have hs := length_skipWs r0
        simp only at h ⊢
        split_ifs at h ⊢
        · exact h
        · simp only [Option.map_eq_some'] at h ⊢
          obtain ⟨q, hq, hqe⟩ := h
          refine ⟨q, ihE _ _ g hq ?_, hqe⟩
          simp only [List.length_cons] at hb
          omega
      · next r0 =>
        have hs := length_skipWs r0
        simp only at h ⊢
        split_ifs at h ⊢
        · exact h
        · simp only [Option.map_eq_some'] at h ⊢
          obtain ⟨q, hq, hqe⟩ := h
          refine ⟨q, ihM _ _ g hq ?_, hqe⟩
          simp only [List.length_cons] at hb
          omega
      · exact h
    · intro cs p f' h hb
      obtain ⟨g, rfl⟩ : ∃ g, f' = g + 1 := ⟨f' - 1, by omega⟩
      unfold parseElements at h ⊢
      split at h
      · cases h
      · next v r1 hv =>
        have hlen := (length_parse f).1 _ _ _ hv
        rw [ihV _ _ g hv (by omega)]
        have h2 := length_skipWs r1
        try simp only
        split at h
        · next r2 hsk =>
          try simp only [hsk]
          simp only [Option.map_eq_some'] at h ⊢
          obtain ⟨q, hq, hqe⟩ := h
          have h4 := length_skipWs r2
          rw [hsk] at h2
          simp only [List.length_cons] at h2
          exact ⟨q, ihE _ _ g hq (by omega), hqe⟩
        · next r2 hsk =>
          try simp only [hsk]
          exact h
        · cases h
    · intro cs p f' h hb
      obtain ⟨g, rfl⟩ : ∃ g, f' = g + 1 := ⟨f' - 1, by omega⟩
      unfold parseMembers at h ⊢
      split at h
      · next r0 =>
        try simp only
        split at h
        · cases h
        · next key r1 hk =>
          try simp only [hk]
          have h1 := length_parseStringBody _ _ _ _ hk
          have h2 := length_skipWs r1
          split at h
          · next r2 hsk =>
            try simp only [hsk]
            rw [hsk] at h2
            have h3 := length_skipWs r2
            simp only [List.length_cons] at h2 hb
            split at h
            · cases h
            · next v r3 hv =>
              have hlen := (length_parse f).1 _ _ _ hv
              rw [ihV _ _ g hv (by omega)]
              have h5 := length_skipWs r3
              try simp only
              split at h
              · next r4 hsk2 =>
                try simp only [hsk2]
                simp only [Option.map_eq_some'] at h ⊢
                obtain ⟨q, hq, hqe⟩ := h
                have h7 := length_skipWs r4
                rw [hsk2] at h5
                simp only [List.length_cons] at h5
                exact ⟨q, ihM _ _ g hq (by omega), hqe⟩
              · next r4 hsk2 =>
                try simp only [hsk2]
                exact h
              · cases h
          · cases h
      · cases h

/-- The recursion budget of `JSON.parse` is never the reason for a `SyntaxError`: when the
text parses as one JSON value under any budget, `JSON.parse` returns that value. -/
theorem parse_of_parseValue (text : String) (fuel : Nat) (v : JsVal) (rest : List Char)
    (h : parseValue fuel (skipWs text.data) = some (v, rest)) (hrest : skipWs rest = []) :
    JSON.parse text = .ok v := by
  have := (parse_budget fuel).1 _ _ (2 * (skipWs text.data).length + 2) h (by omega)
  simp [JSON.parse, this, hrest]

/-! ### Digest store -/

theorem plain_lookup (ps : List (String × JsVal)) (hp : JsVal.PlainProps ps) (name : String) :
    plainOpt (ps.lookup name) := by
  induction ps with
  | nil => simp [List.lookup, plainOpt]
  | cons p t ih =>
    obtain ⟨k, x⟩ := p
    simp only [List.lookup]
    cases name == k
    · exact ih hp.2
    · exact hp.1

theorem plain_prop (x : Option JsVal) (hx : plainOpt x) (name : String) :
    plainOpt (prop x name) := by
  cases x with
  | none => trivial
  | some v =>
    cases v with
    | obj ps => exact plain_lookup ps hx.2 name
    | _ => trivial

theorem plain_getLength (x : Option JsVal) (hx : plainOpt x) (n : Option JsVal)
    (h : getLength x = .ok n) : plainOpt n := by
  cases x with
  | none => cases h
  | some v =>
    cases v with
    | null => cases h
    | bool b => cases h; trivial
    | num m k => cases h; trivial
    | str s => cases h; exact (rfl : (0 : Nat) = 0)
    | arr xs => cases h; exact (rfl : (0 : Nat) = 0)
    | obj ps =>
      cases h
      exact plain_lookup ps hx.2 "length"

theorem stripZeros_zero (m : Nat) : stripZeros m 0 = (m, 0) := rfl

theorem plain_jsAdd (a : Option JsVal) (ha : plainOpt a) (n : Nat) :
    plainOpt (jsAdd a (some (.num n 0))).toJson := by
  cases a with
  | none => exact (trivial : JsVal.Plain .null)
  | some v =>
    cases v with
    | null => exact (rfl : (0 : Nat) = 0)
    | bool b => exact (rfl : (0 : Nat) = 0)
    | num m k =>
      have hk : k = 0 := ha
      subst hk
      exact (rfl : (0 : Nat) = 0)
    | str s => exact (trivial : JsVal.Plain (.str _))
    | arr xs => exact (trivial : JsVal.Plain (.str _))
    | obj ps => exact (trivial : JsVal.Plain (.str _))

theorem plain_objectLiteral (l : List (String × Option JsVal))
    (hk : plainKeys (l.map Prod.fst)) (hv : ∀ p ∈ l, plainOpt p.2) :
    (objectLiteral l).Plain := by
  have key : ∀ l : List (String × Option JsVal), (∀ p ∈ l, plainOpt p.2) →
      JsVal.PlainProps (l.filterMap fun p => p.2.map fun v => (p.1, v)) ∧
      (List.map Prod.fst (l.filterMap fun p => p.2.map fun v => (p.1, v))).Sublist
        (l.map Prod.fst) := by
    intro l
    induction l with
    | nil => intro _; exact ⟨trivial, by simp⟩
    | cons p t ih =>
      intro hv
      obtain ⟨k, o⟩ := p
      have iht := ih (fun q hq => hv q (List.mem_cons_of_mem _ hq))
      cases o with
      | none =>
        simp only [List.filterMap_cons, Option.map_none', List.map_cons]
        exact ⟨iht.1, iht.2.cons _⟩
      | some v =>
        simp only [List.filterMap_cons, Option.map_some', List.map_cons]
        exact ⟨⟨hv (k, some v) (List.mem_cons_self _ _), iht.1⟩, iht.2.cons₂ _⟩
  obtain ⟨h1, h2⟩ := key l hv
  exact ⟨⟨hk.1.sublist h2, fun key hkey => hk.2 key (h2.subset hkey)⟩, h1⟩


theorem newsletterData_ok_of_shape (key : String) (g : Int) (c r : JsVal)
    (hc : hasDigestShape c = true) (hr : nonNullish (some r) = true) :
    ∃ data, newsletterData key g c r = .ok data := by
  simp only [hasDigestShape, Bool.and_eq_true] at hc
  obtain ⟨⟨⟨⟨⟨hh, hcat⟩, h1⟩, h2⟩, h3⟩, h4⟩ := hc
  obtain ⟨nr, er⟩ := getLength_of_nonNullish hr
  obtain ⟨n0, e0⟩ := getLength_of_nonNullish hh
  obtain ⟨l, el⟩ := objectValues_of_nonNullish hcat
  obtain ⟨n1, e1⟩ := getLength_of_nonNullish h1
  obtain ⟨n2, e2⟩ := getLength_of_nonNullish h2
  obtain ⟨n3, e3⟩ := getLength_of_nonNullish h3
  obtain ⟨n4, e4⟩ := getLength_of_nonNullish h4
  simp only [newsletterData, toISOString, getProp_of_nonNullish _ (nonNullish_of_prop hh),
    getProp_of_nonNullish _ hcat, bind, Except.bind, er, e0, el, e1, e2, e3, e4, pure,
    Except.pure]
  exact ⟨_, rfl⟩

theorem newsletterData_spec (key : String) (g : Int) (c r data : JsVal)
    (h : newsletterData key g c r = .ok data) (hc : c.Plain) (hr : r.Plain) :
    data.Plain ∧ prop (some data) "date" = some (.str key) ∧
      prop (some data) "data" = some c ∧ prop (some data) "raw" = some r := by
  unfold newsletterData at h
  obtain ⟨iso, _, h⟩ := except_bind_eq_ok _ _ _ h
  obtain ⟨nr, er, h⟩ := except_bind_eq_ok _ _ _ h
  obtain ⟨hl, e1, h⟩ := except_bind_eq_ok _ _ _ h
  obtain ⟨n0, e2, h⟩ := except_bind_eq_ok _ _ _ h
  obtain ⟨cats, e3, h⟩ := except_bind_eq_ok _ _ _ h
  obtain ⟨l, e4, h⟩ := except_bind_eq_ok _ _ _ h
  obtain ⟨hl2, e5, h⟩ := except_bind_eq_ok _ _ _ h
  obtain ⟨n0', e6, h⟩ := except_bind_eq_ok _ _ _ h
  obtain ⟨x1, p1, h⟩ := except_bind_eq_ok _ _ _ h
  obtain ⟨m1, q1, h⟩ := except_bind_eq_ok _ _ _ h
  obtain ⟨x2, p2, h⟩ := except_bind_eq_ok _ _ _ h
  obtain ⟨m2, q2, h⟩ := except_bind_eq_ok _ _ _ h
  obtain ⟨x3, p3, h⟩ := except_bind_eq_ok _ _ _ h
  obtain ⟨m3, q3, h⟩ := except_bind_eq_ok _ _ _ h
  obtain ⟨x4, p4, h⟩ := except_bind_eq_ok _ _ _ h
  obtain ⟨m4, q4, h⟩ := except_bind_eq_ok _ _ _ h
  have hhl := getProp_eq_ok e1
  have hhl2 := getProp_eq_ok e5
  have hcats := getProp_eq_ok e3
  have hx1 := getProp_eq_ok p1
  have hx2 := getProp_eq_ok p2
  have hx3 := getProp_eq_ok p3
  have hx4 := getProp_eq_ok p4
  have pc : plainOpt (some c) := hc
  have pcats : plainOpt cats := by rw [hcats]; exact plain_prop _ pc _
  have pnr : plainOpt nr := plain_getLength (some r) hr _ er
  have pn0 : plainOpt n0 := plain_getLength _ (by rw [hhl]; exact plain_prop _ pc _) _ e2
  have pn0' : plainOpt n0' := plain_getLength _ (by rw [hhl2]; exact plain_prop _ pc _) _ e6
  have pm1 : plainOpt m1 := plain_getLength _ (by rw [hx1]; exact plain_prop _ pcats _) _ q1
  have pm2 : plainOpt m2 := plain_getLength _ (by rw [hx2]; exact plain_prop _ pcats _) _ q2
  have pm3 : plainOpt m3 := plain_getLength _ (by rw [hx3]; exact plain_prop _ pcats _) _ q3
  have pm4 : plainOpt m4 := plain_getLength _ (by rw [hx4]; exact plain_prop _ pcats _) _ q4
  have hdata : data = .obj
      [ ("date", .str key),
        ("generatedAt", .str (String.mk iso)),
        ("stats", objectLiteral
          [ ("rawArticles", nr),
            ("curatedArticles", (jsAdd n0 (some (.num (flat l).length 0))).toJson),
            ("highlights", n0'),
            ("categories", some (objectLiteral
              [ ("launches", m1), ("tutorials", m2), ("discussions", m3), ("trends", m4) ])) ]),
        ("data", c),
        ("raw", r) ] := by
    injection h with h
    rw [← h]
    rfl
  have hcatsPlain : (objectLiteral
      [ ("launches", m1), ("tutorials", m2), ("discussions", m3), ("trends", m4) ]).Plain := by
    apply plain_objectLiteral
    · show plainKeys ["launches", "tutorials", "discussions", "trends"]
      exact ⟨by decide, by decide⟩
    · intro p hp
      simp only [List.mem_cons, List.mem_singleton, List.not_mem_nil, or_false] at hp
      rcases hp with hp | hp | hp | hp <;> (subst hp; assumption)
  have hstatsPlain : (objectLiteral
      [ ("rawArticles", nr),
        ("curatedArticles", (jsAdd n0 (some (.num (flat l).length 0))).toJson),
        ("highlights", n0'),
        ("categories", some (objectLiteral
          [ ("launches", m1), ("tutorials", m2), ("discussions", m3), ("trends", m4) ])) ]).Plain := by
    apply plain_objectLiteral
    · show plainKeys ["rawArticles", "curatedArticles", "highlights", "categories"]
      exact ⟨by decide, by decide⟩
    · intro p hp
      simp only [List.mem_cons, List.mem_singleton, List.not_mem_nil, or_false] at hp
      rcases hp with hp | hp | hp | hp
      · subst hp; exact pnr
      · subst hp; exact plain_jsAdd _ pn0 _
      · subst hp; exact pn0'
      · subst hp; exact hcatsPlain
  subst hdata
  have hkeys : plainKeys ["date", "generatedAt", "stats", "data", "raw"] :=
    ⟨by decide, by decide⟩
  refine ⟨⟨hkeys, trivial, trivial, hstatsPlain, hc, hr, trivial⟩, ?_, ?_, ?_⟩
  · rfl
  · rfl
  · rfl


theorem plainList_map {α : Type} (f : α → JsVal) (hf : ∀ a, (f a).Plain) (l : List α) :
    JsVal.PlainList (l.map f) := by
  induction l with
  | nil => trivial
  | cons a t ih => exact ⟨hf a, ih⟩

theorem plain_curatedArticle (a : CuratedArticle) : a.toJson.Plain := by
  apply plain_objectLiteral
  · show plainKeys ["title", "original_title", "url", "source", "category", "relevance",
      "summary", "tags", "reasoning"]
    exact ⟨by decide, by decide⟩
  · intro p hp
    simp only [List.mem_cons, List.mem_singleton, List.not_mem_nil, or_false] at hp
    rcases hp with hp | hp | hp | hp | hp | hp | hp | hp | hp <;> subst hp
    · trivial
    · cases a.original_title <;> trivial
    · trivial
    · trivial
    · trivial
    · exact (rfl : (0 : Nat) = 0)
    · trivial
    · exact plainList_map JsVal.str (fun _ => trivial) a.tags
    · cases a.reasoning <;> trivial

theorem plain_digest (d : Digest) : d.toJson.Plain := by
  have hl : ∀ l : List CuratedArticle, (JsVal.arr (l.map CuratedArticle.toJson)).Plain :=
    fun l => plainList_map _ plain_curatedArticle l
  have hk1 : plainKeys ["highlights", "categories"] := ⟨by decide, by decide⟩
  have hk2 : plainKeys ["launches", "tutorials", "discussions", "trends"] :=
    ⟨by decide, by decide⟩
  exact ⟨hk1, hl _, ⟨hk2, hl _, hl _, hl _, hl _, trivial⟩, trivial⟩

theorem shape_digest (d : Digest) : hasDigestShape d.toJson = true := rfl

theorem plain_field (f : Field) : plainOpt f.toJson := by
  cases f <;> trivial

theorem plain_rawArticle (a : RawArticle) : a.toJson.Plain := by
  apply plain_objectLiteral
  · show plainKeys ["title", "url", "description", "publishedAt", "source", "sourceCategory"]
    exact ⟨by decide, by decide⟩
  · intro p hp
    simp only [List.mem_cons, List.mem_singleton, List.not_mem_nil, or_false] at hp
    rcases hp with hp | hp | hp | hp | hp | hp <;> subst hp
    · exact plain_field _
    · exact plain_field _
    · exact plain_field _
    · exact plain_field _
    · trivial
    · trivial

theorem plain_rawToJson (r : List RawArticle) : (rawToJson r).Plain :=
  plainList_map _ plain_rawArticle r

theorem loadNewsletter_store (fs : FsState) (key : String) (data : JsVal)
    (hacc : fs.accessible = true) (hp : data.Plain) :
    loadNewsletter (fs.store (key ++ ".json") (JSON.stringify data)) key = .ok data := by
  have hacc' : (fs.store (key ++ ".json") (JSON.stringify data)).accessible = true := hacc
  simp only [loadNewsletter, readFile, hacc', Bool.not_true, Bool.false_eq_true, if_false,
    FsState.store, lookup_setEntry_self, bind, Except.bind, parse_stringify data hp, hacc]

/-- Saving a plain digest of the expected shape and then loading the record of the same
date returns the record that was written, with the digest and the raw articles in it. -/
theorem saveNewsletter_then_load (fs : FsState) (c r : JsVal) (d g : Int)
    (hacc : fs.accessible = true)
    (hfile : fs.entries.lookup (dateKey d ++ ".json") ≠ some .dir)
    (hc : c.Plain) (hr : r.Plain) (hshape : hasDigestShape c = true)
    (hrn : nonNullish (some r) = true) :
    ∃ data, newsletterData (dateKey d) g c r = .ok data ∧
      saveNewsletter fs c r (some d) g =
        .ok (fs.store (dateKey d ++ ".json") (JSON.stringify data),
          DATA_DIR fs ++ "/" ++ (dateKey d ++ ".json")) ∧
      loadNewsletter (fs.store (dateKey d ++ ".json") (JSON.stringify data)) (dateKey d) =
        .ok data ∧
      prop (some data) "data" = some c ∧ prop (some data) "raw" = some r := by
  obtain ⟨data, hdata⟩ := newsletterData_ok_of_shape (dateKey d) g c r hshape hrn
  obtain ⟨hp, _, h1, h2⟩ := newsletterData_spec _ _ _ _ _ hdata hc hr
  exact ⟨data, hdata, saveNewsletter_ok_of fs c r d g data hacc hdata hfile,
    loadNewsletter_store fs _ data hacc hp, h1, h2⟩

theorem ownProperties_objectLiteral (l : JsObject) :
    ownProperties (objectLiteral l) = definedProperties l := by
  unfold objectLiteral ownProperties definedProperties
  induction l with
  | nil => rfl
  | cons p rest ih =>
    obtain ⟨k, v⟩ := p
    cases v with
    | none => simpa [List.filterMap_cons, List.filter_cons] using ih
    | some x => simpa [List.filterMap_cons, List.filter_cons] using ih

theorem ownProperties_rawArticle (a : RawArticle) :
    ownProperties a.toJson = definedProperties a.properties :=
  ownProperties_objectLiteral a.properties

theorem field_toJson_isSome (f : Field) : f.toJson.isSome = true ↔ f ≠ .undefined := by
  cases f <;> simp [Field.toJson]

theorem definedProperties_eq_self (a : RawArticle) :
    definedProperties a.properties = a.properties ↔
      a.title ≠ .undefined ∧ a.url ≠ .undefined ∧ a.description ≠ .undefined ∧
        a.publishedAt ≠ .undefined := by
  unfold definedProperties
  rw [List.filter_eq_self]
  simp only [RawArticle.properties, List.mem_cons, List.mem_singleton, List.not_mem_nil,
    or_false, forall_eq_or_imp, forall_eq, field_toJson_isSome, Option.isSome_some, and_true]

/-- Counterexample to C6 as stated: a feed item without a title gives a raw article with
six own properties, of which `title` is `undefined`.  After `saveNewsletter` and
`loadNewsletter` the first raw article of the record has five properties and no `title`:
it is not structurally equal to the input. -/
theorem save_load_loses_undefined_title :
    (untitledRaw.map RawArticle.properties).head? =
      some [("title", none), ("url", some (.str "https://example.org/post")),
        ("description", some (.str "Text of the post.")),
        ("publishedAt", some (.str "Mon, 01 Jan 2024 06:00:00 GMT")),
        ("source", some (.str "HackerNews")), ("sourceCategory", some (.str "Tech Geral"))] ∧
    ((saveNewsletter ⟨"/app", true, []⟩ sampleDigest.toJson (rawToJson untitledRaw)
        (some 1704096000000) 1704096000123).bind fun saved =>
      (loadNewsletter saved.1 (dateKey 1704096000000)).map fun record =>
        match prop (some record) "raw" with
        | some (.arr loaded) => (loaded.map ownProperties).head?
        | _ => none) =
      .ok (some [("url", some (.str "https://example.org/post")),
        ("description", some (.str "Text of the post.")),
        ("publishedAt", some (.str "Mon, 01 Jan 2024 06:00:00 GMT")),
        ("source", some (.str "HackerNews")), ("sourceCategory", some (.str "Tech Geral"))]) := by
  constructor <;> decide

/-- C6 (amended): for every digest `c`, raw article list `r` and date `d`, when the store
can be reached and the record path is not a directory, `saveNewsletter(c, r, d)` succeeds
and `loadNewsletter` of the date key of `d` returns a record whose `data` is `c` and whose
`raw` is an array with one object per article of `r`, in order, whose own properties are
those of the article except the ones whose value is `undefined`.  The loaded `raw` is
structurally equal to `r` exactly when no `title`, `url`, `description` or `publishedAt`
of `r` is `undefined`. -/
theorem save_load_round_trip_defined (fs : FsState) (c : Digest) (r : List RawArticle)
    (d g : Int) (hacc : fs.accessible = true)
    (hfile : fs.entries.lookup (dateKey d ++ ".json") ≠ some .dir) :
    rawToJson r = .arr (r.map fun a => objectLiteral a.properties) ∧
    ∃ fs' path record loaded,
      saveNewsletter fs c.toJson (rawToJson r) (some d) g = .ok (fs', path) ∧
      loadNewsletter fs' (dateKey d) = .ok record ∧
      prop (some record) "data" = some c.toJson ∧
      prop (some record) "raw" = some (.arr loaded) ∧
      loaded.map ownProperties = r.map (fun a => definedProperties a.properties) ∧
      (loaded.map ownProperties = r.map RawArticle.properties ↔
        ∀ a ∈ r, a.title ≠ .undefined ∧ a.url ≠ .undefined ∧ a.description ≠ .undefined ∧
          a.publishedAt ≠ .undefined) := by
  obtain ⟨data, _, h1, h2, h3, h4⟩ := saveNewsletter_then_load fs c.toJson (rawToJson r) d g
    hacc hfile (plain_digest c) (plain_rawToJson r) (shape_digest c) rfl
  have hmap : (r.map RawArticle.toJson).map ownProperties =
      r.map (fun a => definedProperties a.properties) := by
    rw [List.map_map]
    apply List.map_congr_left
    intro a _
    exact ownProperties_rawArticle a
  refine ⟨rfl, _, _, data, r.map RawArticle.toJson, h1, h2, h3, h4, hmap, ?_⟩
  rw [hmap]
  constructor
  · intro h a ha
    have := List.map_inj_left.mp h a ha
    exact (definedProperties_eq_self a).mp this
  · intro h
    apply List.map_congr_left
    intro a ha
    exact (definedProperties_eq_self a).mpr (h a ha)

/-- Witness for C6 (amended): the record of 2024-01-01 saved into an empty store with an
article whose `title` is `undefined` and an article with all its fields. -/
theorem save_load_round_trip_defined_witness :
    rawToJson untitledRaw = .arr (untitledRaw.map fun a => objectLiteral a.properties) ∧
    ∃ fs' path record loaded,
      saveNewsletter ⟨"/app", true, []⟩ sampleDigest.toJson (rawToJson untitledRaw)
        (some 1704096000000) 1704096000123 = .ok (fs', path) ∧
      loadNewsletter fs' (dateKey 1704096000000) = .ok record ∧
      prop (some record) "data" = some sampleDigest.toJson ∧
      prop (some record) "raw" = some (.arr loaded) ∧
      loaded.map ownProperties = untitledRaw.map (fun a => definedProperties a.properties) ∧
      (loaded.map ownProperties = untitledRaw.map RawArticle.properties ↔
        ∀ a ∈ untitledRaw, a.title ≠ .undefined ∧ a.url ≠ .undefined ∧
          a.description ≠ .undefined ∧ a.publishedAt ≠ .undefined) :=
  save_load_round_trip_defined ⟨"/app", true, []⟩ sampleDigest untitledRaw 1704096000000
    1704096000123 rfl (by decide)

/-- The round trip of `sampleRaw`, in which no field is `undefined`: the raw articles of
the loaded record have the own properties of the input. -/
theorem save_load_round_trip_example :
    ((saveNewsletter ⟨"/app", true, []⟩ sampleDigest.toJson (rawToJson sampleRaw)
        (some 1704096000000) 1704096000123).bind fun saved =>
      (loadNewsletter saved.1 (dateKey 1704096000000)).map fun record =>
        match prop (some record) "raw" with
        | some (.arr loaded) => decide (loaded.map ownProperties =
            sampleRaw.map RawArticle.properties)
        | _ => false) = .ok true := by
  decide

/-- C7: two saves for the same computed date leave one record under the date key, and
loading it returns the record built from the second call alone, with the second digest and
the second raw articles. -/
theorem second_save_overwrites (fs : FsState) (c1 c2 : Digest) (r1 r2 : List RawArticle)
    (d1 d2 g1 g2 : Int) (hacc : fs.accessible = true)
    (hnd : (fs.entries.map Prod.fst).Nodup)
    (hfile : fs.entries.lookup (dateKey d1 ++ ".json") ≠ some .dir)
    (hsame : dateKey d1 = dateKey d2) :
    ∃ fs1 path1 fs2 path2 record,
      saveNewsletter fs c1.toJson (rawToJson r1) (some d1) g1 = .ok (fs1, path1) ∧
      saveNewsletter fs1 c2.toJson (rawToJson r2) (some d2) g2 = .ok (fs2, path2) ∧
      (fs2.entries.map Prod.fst).count (dateKey d2 ++ ".json") = 1 ∧
      loadNewsletter fs2 (dateKey d2) = .ok record ∧
      newsletterData (dateKey d2) g2 c2.toJson (rawToJson r2) = .ok record ∧
      prop (some record) "data" = some c2.toJson ∧
      prop (some record) "raw" = some (rawToJson r2) := by
  obtain ⟨data1, _, s1, _, _, _⟩ := saveNewsletter_then_load fs c1.toJson (rawToJson r1) d1 g1
    hacc hfile (plain_digest c1) (plain_rawToJson r1) (shape_digest c1) rfl
  have hacc1 : (fs.store (dateKey d1 ++ ".json") (JSON.stringify data1)).accessible = true :=
    hacc
  have hfile1 : (fs.store (dateKey d1 ++ ".json") (JSON.stringify data1)).entries.lookup
      (dateKey d2 ++ ".json") ≠ some .dir := by
    rw [← hsame]
    simp [FsState.store, lookup_setEntry_self]
  obtain ⟨data2, n2, s2, l2, p1, p2⟩ := saveNewsletter_then_load
    (fs.store (dateKey d1 ++ ".json") (JSON.stringify data1)) c2.toJson (rawToJson r2) d2 g2
    hacc1 hfile1 (plain_digest c2) (plain_rawToJson r2) (shape_digest c2) rfl
  refine ⟨_, _, _, _, data2, s1, s2, ?_, l2, n2, p1, p2⟩
  apply List.count_eq_one_of_mem
  · exact nodup_names_setEntry _ _ _ (nodup_names_setEntry _ _ _ hnd)
  · exact (mem_names_setEntry _ _ _ _).2 (Or.inr rfl)


/-- Witness for C7: two saves on 2024-01-01, at 08:00 and at 09:00 UTC, into an empty
store. -/
theorem second_save_overwrites_witness :
    ∃ fs1 path1 fs2 path2 record,
      saveNewsletter ⟨"/app", true, []⟩ sampleDigest.toJson (rawToJson sampleRaw)
        (some 1704096000000) 1704096000123 = .ok (fs1, path1) ∧
      saveNewsletter fs1 emptyTypedDigest.toJson (rawToJson []) (some 1704099600000)
        1704099600456 = .ok (fs2, path2) ∧
      (fs2.entries.map Prod.fst).count (dateKey 1704099600000 ++ ".json") = 1 ∧
      loadNewsletter fs2 (dateKey 1704099600000) = .ok record ∧
      newsletterData (dateKey 1704099600000) 1704099600456 emptyTypedDigest.toJson
        (rawToJson []) = .ok record ∧
      prop (some record) "data" = some emptyTypedDigest.toJson ∧
      prop (some record) "raw" = some (rawToJson []) :=
  second_save_overwrites ⟨"/app", true, []⟩ sampleDigest emptyTypedDigest sampleRaw []
    1704096000000 1704099600000 1704096000123 1704099600456 rfl (by decide) (by decide)
    (by decide)

theorem endsWithJson_append (key : String) : endsWithJson (key ++ ".json") = true := by
  simp [endsWithJson, String.data_append]

theorem saveAll_names (saves : List SaveCall) (fs fs' : FsState)
    (h : saveAll fs saves = .ok fs') (hnd : (fs.entries.map Prod.fst).Nodup) :
    fs'.accessible = fs.accessible ∧ (fs'.entries.map Prod.fst).Nodup ∧
      ∀ x, x ∈ fs'.entries.map Prod.fst ↔
        x ∈ fs.entries.map Prod.fst ∨
          ∃ call ∈ saves, ∃ t, call.date = some t ∧ x = dateKey t ++ ".json" := by
  induction saves generalizing fs with
  | nil =>
    simp only [saveAll] at h
    injection h with h
    subst h
    simp [hnd]
  | cons call rest ih =>
    simp only [saveAll] at h
    obtain ⟨saved, hs, h⟩ := except_bind_eq_ok _ _ _ h
    obtain ⟨fs1, path⟩ := saved
    obtain ⟨t, data, hdate, hacc, _, _, hfs1, _⟩ := saveNewsletter_eq_ok _ _ _ _ _ _ _ hs
    have hnd1 : (fs1.entries.map Prod.fst).Nodup := by
      rw [hfs1]
      exact nodup_names_setEntry _ _ _ hnd
    obtain ⟨ha, hn, hm⟩ := ih fs1 h hnd1
    refine ⟨?_, hn, ?_⟩
    · rw [ha, hfs1]
      rfl
    · intro x
      rw [hm x, hfs1]
      simp only [FsState.store, mem_names_setEntry, List.mem_cons, exists_eq_or_imp]
      constructor
      · rintro ((h1 | h1) | h1)
        · exact Or.inl h1
        · exact Or.inr (Or.inl ⟨t, hdate, h1⟩)
        · exact Or.inr (Or.inr h1)
      · rintro (h1 | ⟨t', ht', h1⟩ | h1)
        · exact Or.inl (Or.inl h1)
        · rw [hdate] at ht'
          injection ht' with ht'
          subst ht'
          exact Or.inl (Or.inr h1)
        · exact Or.inr h1

/-- Counterexample to C8 as stated: after saving records for 2024-01-01, 2024-01-03 and
2024-01-02 into an empty store, `listNewsletters` returns the three file names, with the
extension `.json`, and not the bare date keys. -/
theorem listNewsletters_returns_file_names :
    (saveAll ⟨"/app", true, []⟩ threeSaves).bind listNewsletters =
      .ok ["2024-01-03.json", "2024-01-02.json", "2024-01-01.json"] ∧
    (saveAll ⟨"/app", true, []⟩ threeSaves).bind listNewsletters ≠
      .ok ["2024-01-03", "2024-01-02", "2024-01-01"] := by
  decide

/-- C8 (amended): after any sequence of successful saves into an empty store,
`listNewsletters` returns the names of the record files, that is the saved date keys each
followed by `.json`, each once and in descending order of their code units. -/
theorem listNewsletters_after_saves (cwd : String) (saves : List SaveCall) (fs' : FsState)
    (h : saveAll ⟨cwd, true, []⟩ saves = .ok fs') :
    ∃ names, listNewsletters fs' = .ok names ∧ names.Nodup ∧
      names.Pairwise (fun a b => sortLe b a) ∧
      ∀ x, x ∈ names ↔ ∃ call ∈ saves, ∃ t, call.date = some t ∧ x = dateKey t ++ ".json" := by
  obtain ⟨hacc, hnd, hmem⟩ := saveAll_names saves _ fs' h (by simp)
  have hacc' : fs'.accessible = true := hacc
  have hfilter : (fs'.entries.map Prod.fst).filter endsWithJson = fs'.entries.map Prod.fst := by
    rw [List.filter_eq_self]
    intro x hx
    rw [hmem x] at hx
    rcases hx with hx | ⟨_, _, t, _, hx⟩
    · simp at hx
    · rw [hx]
      exact endsWithJson_append _
  refine ⟨((fs'.entries.map Prod.fst).insertionSort sortLe).reverse, ?_, ?_, ?_, ?_⟩
  · simp only [listNewsletters, ensureDataDir, hacc', if_true, readdir, bind, Except.bind, pure,
      Except.pure, hfilter]
  · rw [List.nodup_reverse]
    exact (List.perm_insertionSort sortLe _).nodup_iff.2 hnd
  · rw [List.pairwise_reverse]
    have := List.sorted_insertionSort sortLe (fs'.entries.map Prod.fst)
    exact this.imp (fun h => h)
  · intro x
    rw [List.mem_reverse, (List.perm_insertionSort sortLe _).mem_iff, hmem x]
    simp


/-- Witness for C8 (amended): the three saves of the listing example succeed. -/
theorem listNewsletters_after_saves_witness :
    ∃ names, listNewsletters savedThree = .ok names ∧ names.Nodup ∧
      names.Pairwise (fun a b => sortLe b a) ∧
      ∀ x, x ∈ names ↔
        ∃ call ∈ threeSaves, ∃ t, call.date = some t ∧ x = dateKey t ++ ".json" :=
  listNewsletters_after_saves "/app" threeSaves savedThree (by
    have hok : (saveAll ⟨"/app", true, []⟩ threeSaves).isOk = true := by decide
    unfold savedThree
    cases hs : saveAll ⟨"/app", true, []⟩ threeSaves with
    | ok fs => rfl
    | error e => simp [hs, Except.isOk, Except.toBool] at hok)

/-- C9 (amended): `loadNewsletter` never throws.  It returns `null` when the store cannot
be reached, when there is no record for the date, when the record cannot be read, and
when its text does not parse; otherwise it returns the parsed record. -/
theorem loadNewsletter_never_throws (fs : FsState) (date : String) :
    (fs.accessible = false → loadNewsletter fs date = .ok .null) ∧
    (fs.entries.lookup (date ++ ".json") = none → loadNewsletter fs date = .ok .null) ∧
    (fs.entries.lookup (date ++ ".json") = some .dir → loadNewsletter fs date = .ok .null) ∧
    (∀ content, fs.accessible = true →
      fs.entries.lookup (date ++ ".json") = some (.file content) →
      (∀ e, JSON.parse content = .error e → loadNewsletter fs date = .ok .null) ∧
      (∀ record, JSON.parse content = .ok record → loadNewsletter fs date = .ok record)) := by
  refine ⟨?_, ?_, ?_, ?_⟩
  · intro h
    simp [loadNewsletter, readFile, h, bind, Except.bind]
  · intro h
    cases ha : fs.accessible <;> simp [loadNewsletter, readFile, h, ha, bind, Except.bind]
  · intro h
    cases ha : fs.accessible <;> simp [loadNewsletter, readFile, h, ha, bind, Except.bind]
  · intro content ha h
    constructor
    · intro e he
      simp [loadNewsletter, readFile, h, ha, he, bind, Except.bind]
    · intro record hr
      simp [loadNewsletter, readFile, h, ha, hr, bind, Except.bind]

/-- Witness for C9 (amended): a stored record whose text is the JSON value `[1]` is
returned parsed. -/
theorem loadNewsletter_never_throws_witness :
    loadNewsletter ⟨"/app", true, [("2024-01-01.json", .file "[1]")]⟩ "2024-01-01" =
      .ok (.arr [.num 1 0]) :=
  ((loadNewsletter_never_throws ⟨"/app", true, [("2024-01-01.json", .file "[1]")]⟩
    "2024-01-01").2.2.2 "[1]" (by decide) (by decide)).2 _ (by decide)

/-- Counterexample to C9 as stated: a record exists for the date but its text does not
parse, or its node cannot be read as a file, and `loadNewsletter` returns `null` as it
does for a missing record, instead of throwing. -/
theorem loadNewsletter_corrupt_record_returns_null :
    loadNewsletter ⟨"/app", true, [("2024-01-01.json", .file "\x7b\"date\": ")]⟩ "2024-01-01" =
      .ok .null ∧
    loadNewsletter ⟨"/app", true, [("2024-01-01.json", .dir)]⟩ "2024-01-01" = .ok .null ∧
    loadNewsletter ⟨"/app", true, []⟩ "2024-01-01" = .ok .null := by
  decide

/-! ### Pipeline orchestrators -/

/-- C10: when the collector returns no article, each orchestrator calls the collector
only, leaves the store as it was and ends normally: `runNewsletterJob` and
`runScheduledNewsletter` return, and the generate handler answers 404. -/
theorem empty_collection_ends_run (w : World) (fs : FsState)
    (h : collectAllFeeds w.parseURL w.dateParse w.collectTime = .ok []) :
    runNewsletterJob w fs = ⟨[.collectAllFeeds], fs, .returned⟩ ∧
    runScheduledNewsletter w fs = ⟨[.collectAllFeeds], fs, .returned⟩ ∧
    generateHandler w fs = ⟨[.collectAllFeeds], fs,
      .responded 404 (errorBody "Nenhum artigo encontrado" "Nenhum artigo novo nas últimas 24h")⟩ := by
  simp [runNewsletterJob, runScheduledNewsletter, generateHandler, h]

/-- Witness for C10: with every feed unreachable the collector returns no article. -/
theorem empty_collection_ends_run_witness :
    runNewsletterJob offlineWorld ⟨"/app", true, []⟩ =
      ⟨[.collectAllFeeds], ⟨"/app", true, []⟩, .returned⟩ :=
  (empty_collection_ends_run offlineWorld ⟨"/app", true, []⟩ (by rfl)).1

/-- C11: for the empty article list `processWithAI` returns the digest whose `highlights`
and four categories are empty, and it does so for every model: the result does not depend
on `generateContent`, so the model is not called (a model that throws on every prompt
included). -/
theorem processWithAI_empty_input (generateContent : String → Except JsErr String) :
    processWithAI generateContent [] =
      .ok (.obj [("highlights", .arr []),
        ("categories", .obj [("launches", .arr []), ("tutorials", .arr []),
          ("discussions", .arr []), ("trends", .arr [])])]) := by
  rfl

/-- C13, the code at the failing input: the response is valid JSON whose highlight title
contains three backticks; `processWithAI` accepts it and returns a digest in which the
title has lost them, which is not the value that the response encodes. -/
theorem processWithAI_drops_backticks_in_strings :
    JSON.parse backtickResponse =
      .ok (.obj [("highlights", .arr [.obj [("title", .str "Use ```js fences"),
          ("url", .str "http://u")]]),
        ("categories", .obj [("launches", .arr []), ("tutorials", .arr []),
          ("discussions", .arr []), ("trends", .arr [])])]) ∧
    processWithAI (fun _ => .ok backtickResponse) sampleRaw =
      .ok (.obj [("highlights", .arr [.obj [("title", .str "Use js fences"),
          ("url", .str "http://u")]]),
        ("categories", .obj [("launches", .arr []), ("tutorials", .arr []),
          ("discussions", .arr []), ("trends", .arr [])])]) := by
  constructor <;> decide

/-- Counterexample to C14 as stated: the only raw article has the url
`https://react.dev/blog`, the model answers with a highlight whose url is another one, and
`processWithAI` returns that highlight. -/
theorem processWithAI_returns_unseen_url :
    sampleRaw.map (fun a => a.url) = [.str "https://react.dev/blog"] ∧
    processWithAI (fun _ => .ok unseenUrlResponse) sampleRaw =
      .ok (.obj [("highlights", .arr [.obj [("title", .str "T"),
          ("url", .str "http://invented.example/post")]]),
        ("categories", .obj [("launches", .arr []), ("tutorials", .arr []),
          ("discussions", .arr []), ("trends", .arr [])])]) := by
  constructor <;> decide

/-- C14 (amended): `processWithAI` does not compare the urls of the digest with those of
its input.  What it returns is fixed by the text of the model's response alone: two runs
on any two non-empty article lists in which the model gives the same text end the same
way, so the urls of the returned digest are those written by the model, whether or not a
raw article carries them. -/
theorem processWithAI_result_from_response_alone
    (gen1 gen2 : String → Except JsErr String) (articles1 articles2 : List RawArticle)
    (text : String) (hne1 : articles1 ≠ []) (hne2 : articles2 ≠ [])
    (hresp1 : (buildPrompt articles1).bind gen1 = .ok text)
    (hresp2 : (buildPrompt articles2).bind gen2 = .ok text) :
    processWithAI gen1 articles1 = processWithAI gen2 articles2 ∧
    (∀ v, JSON.parse (stripFences text) = .ok v → hasDigestShape v = true →
      processWithAI gen1 articles1 = .ok v) := by
  have key : ∀ (gen : String → Except JsErr String) (articles : List RawArticle),
      articles ≠ [] → (buildPrompt articles).bind gen = .ok text →
      processWithAI gen articles =
        (JSON.parse (stripFences text)).bind fun v => (logStatistics v).map fun _ => v := by
    intro gen articles hne hresp
    cases hp : JSON.parse (stripFences text) with
    | ok v => rw [processWithAI_eq gen articles text v hne hresp hp]; rfl
    | error e =>
      unfold processWithAI
      have hlen : ¬ articles.length = 0 := by
        simpa [List.length_eq_zero] using hne
      rw [if_neg hlen]
      cases hb : buildPrompt articles with
      | error e1 => rw [hb] at hresp; cases hresp
      | ok prompt =>
        rw [hb] at hresp
        have hg : gen prompt = .ok text := hresp
        simp only [bind, Except.bind, hg, hp]
  refine ⟨by rw [key gen1 articles1 hne1 hresp1, key gen2 articles2 hne2 hresp2], ?_⟩
  intro v hp hs
  rw [processWithAI_eq gen1 articles1 text v hne1 hresp1 hp, logStatistics_ok_of_shape v hs]
  rfl

theorem processWithAI_result_from_response_alone_witness :
    processWithAI (fun _ => .ok unseenUrlResponse) sampleRaw =
      processWithAI (fun _ => .ok unseenUrlResponse)
        [⟨.str "Other", .str "http://other", .str "", .str "2024", "Dev.to", "Dev"⟩] :=
  (processWithAI_result_from_response_alone (fun _ => .ok unseenUrlResponse)
    (fun _ => .ok unseenUrlResponse) sampleRaw
    [⟨.str "Other", .str "http://other", .str "", .str "2024", "Dev.to", "Dev"⟩]
    unseenUrlResponse (by decide) (by decide) (by rfl) (by rfl)).1

/-- Counterexample to C15 as stated: a response whose `highlights` is the number 5, whose
`tutorials` is a string, whose `discussions` is an object and whose only launch is an
object without any field is not rejected; `processWithAI` returns it as it is. -/
theorem processWithAI_accepts_loose_response :
    processWithAI (fun _ => .ok looseResponse) sampleRaw =
      .ok (.obj [("highlights", .num 5 0),
        ("categories", .obj [("launches", .arr [.obj []]), ("tutorials", .str "x"),
          ("discussions", .obj []), ("trends", .arr [])])]) := by
  decide

/-- C15 (amended): `processWithAI` checks neither the fields of an article nor that
`highlights` or a category is a sequence.  When the response parses to an object whose
`highlights` and whose four categories are any values other than `null` (sequences or
not, of any elements), `processWithAI` returns that object unchanged. -/
theorem processWithAI_accepts_any_non_null_parts
    (generateContent : String → Except JsErr String) (articles : List RawArticle)
    (text : String) (highlights launches tutorials discussions trends : JsVal)
    (hne : articles ≠ [])
    (hresp : (buildPrompt articles).bind generateContent = .ok text)
    (hparse : JSON.parse (stripFences text) =
      .ok (.obj [("highlights", highlights),
        ("categories", .obj [("launches", launches), ("tutorials", tutorials),
          ("discussions", discussions), ("trends", trends)])]))
    (h0 : highlights ≠ .null) (h1 : launches ≠ .null) (h2 : tutorials ≠ .null)
    (h3 : discussions ≠ .null) (h4 : trends ≠ .null) :
    processWithAI generateContent articles =
      .ok (.obj [("highlights", highlights),
        ("categories", .obj [("launches", launches), ("tutorials", tutorials),
          ("discussions", discussions), ("trends", trends)])]) := by
  have hn : ∀ x : JsVal, x ≠ .null → nonNullish (some x) = true := by
    intro x hx
    cases x <;> first | rfl | exact absurd rfl hx
  rw [processWithAI_eq generateContent articles text _ hne hresp hparse,
    logStatistics_ok_of_shape]
  · rfl
  · simp [hasDigestShape, prop, List.lookup, hn _ h0, hn _ h1, hn _ h2, hn _ h3, hn _ h4,
      nonNullish]

theorem processWithAI_accepts_any_non_null_parts_witness :
    processWithAI (fun _ => .ok looseResponse) sampleRaw =
      .ok (.obj [("highlights", .num 5 0),
        ("categories", .obj [("launches", .arr [.obj []]), ("tutorials", .str "x"),
          ("discussions", .obj []), ("trends", .arr [])])]) :=
  processWithAI_accepts_any_non_null_parts (fun _ => .ok looseResponse) sampleRaw
    looseResponse _ _ _ _ _ (by decide) (by rfl) (by decide) (by decide) (by decide)
    (by decide) (by decide) (by decide)

/-! ### Recency window and normalization, continued -/

/-- C16, the code at the failing input: with a clock reading of 100,000,000 ms, an article
whose `publishedAt` parses to 200,000,000 ms, later than the collection time and so
outside the last 24 hours, is kept by `filterLast24Hours`. -/
theorem filterLast24Hours_keeps_future_article :
    newDate (fun s => if s = "T200000000" then some 200000000 else none)
        (.str "T200000000") = some 200000000 ∧
    (100000000 : Int) < 200000000 ∧
    filterLast24Hours (fun s => if s = "T200000000" then some 200000000 else none) 100000000
        [⟨.str "ahead", .str "u", .str "", .str "T200000000", "s", "c"⟩] =
      [⟨.str "ahead", .str "u", .str "", .str "T200000000", "s", "c"⟩] := by
  refine ⟨by decide, by decide, by decide⟩

/-- C17: `collectAllFeeds` returns `filterLast24Hours` of the concatenation, in the order
of `RSS_SOURCES`, of the normalized items of each source in feed order (none for a source
that cannot be read).  The result is a subsequence of that concatenation, so order is
kept, and every retained article occurs in it as many times as in the concatenation, so
nothing is merged, whether two items share a url or not. -/
theorem collectAllFeeds_is_filter_of_concatenation
    (parseURL : String → Except JsErr (List FeedItem))
    (dateParse : String → Option Int) (now : Int) :
    RSS_SOURCES.mapM (fetchFeed parseURL) =
      .ok (RSS_SOURCES.map fun source =>
        match parseURL source.url with
        | .ok feed => feed.map (normalizeItem source)
        | .error _ => []) ∧
    collectAllFeeds parseURL dateParse now =
      .ok (filterLast24Hours dateParse now
        (RSS_SOURCES.map fun source =>
          match parseURL source.url with
          | .ok feed => feed.map (normalizeItem source)
          | .error _ => []).flatten) ∧
    (filterLast24Hours dateParse now
        (RSS_SOURCES.map fun source =>
          match parseURL source.url with
          | .ok feed => feed.map (normalizeItem source)
          | .error _ => []).flatten).Sublist
      (RSS_SOURCES.map fun source =>
        match parseURL source.url with
        | .ok feed => feed.map (normalizeItem source)
        | .error _ => []).flatten ∧
    ∀ a ∈ filterLast24Hours dateParse now
        (RSS_SOURCES.map fun source =>
          match parseURL source.url with
          | .ok feed => feed.map (normalizeItem source)
          | .error _ => []).flatten,
      (filterLast24Hours dateParse now
        (RSS_SOURCES.map fun source =>
          match parseURL source.url with
          | .ok feed => feed.map (normalizeItem source)
          | .error _ => []).flatten).count a =
      ((RSS_SOURCES.map fun source =>
        match parseURL source.url with
        | .ok feed => feed.map (normalizeItem source)
        | .error _ => []).flatten).count a := by
  refine ⟨mapM_fetchFeed parseURL RSS_SOURCES, ?_, ?_, ?_⟩
  · unfold collectAllFeeds collectFrom
    rw [mapM_fetchFeed]
    rfl
  · exact List.filter_sublist _
  · intro a ha
    unfold filterLast24Hours at ha ⊢
    exact List.count_filter (List.mem_filter.mp ha).2

/-- Two sources that carry an item with the same url: both items are returned, in source
order. -/
theorem collectAllFeeds_keeps_same_url_twice :
    collectAllFeeds twoFeedsOneLink (fun _ => some 100000000) 100000000 =
      .ok [⟨.str "Post", .str "https://example.org/post", .str "", .str "now",
          "HackerNews", "Tech Geral"⟩,
        ⟨.str "Post again", .str "https://example.org/post", .str "", .str "now",
          "Dev.to - AI", "AI"⟩] := by
  decide

/-- Counterexample to C18 as stated: the item's `pubDate` is a non-empty text that does
not parse as a date and its `isoDate` parses; the normalized `publishedAt` is the
`pubDate` text, not the `isoDate`. -/
theorem normalizeItem_keeps_unparseable_pubDate :
    newDate (fun s => if s = "2024-01-01T00:00:00.000Z" then some 1704067200000 else none)
        (.str "yesterday-ish") = none ∧
    newDate (fun s => if s = "2024-01-01T00:00:00.000Z" then some 1704067200000 else none)
        (.str "2024-01-01T00:00:00.000Z") = some 1704067200000 ∧
    (normalizeItem ⟨"HackerNews", "https://hnrss.org/frontpage", "Tech Geral"⟩
        ⟨.str "t", .str "u", .undefined, .undefined, .str "yesterday-ish",
          .str "2024-01-01T00:00:00.000Z"⟩).publishedAt = .str "yesterday-ish" := by
  refine ⟨by decide, by decide, by decide⟩

/-- C18 (amended): the normalized `publishedAt` is chosen by truthiness, not by whether a
field parses as a date: it is the item's `pubDate` when that is a non-empty string, and
the item's `isoDate`, as it is, otherwise.  No date is parsed in the choice, so the value
is the same under every date parser, and it is absent (`undefined`) exactly when
`pubDate` is falsy and `isoDate` is `undefined`. -/
theorem normalizeItem_publishedAt_first_truthy (source : Source) (item : FeedItem) :
    (normalizeItem source item).publishedAt =
      (if item.pubDate.truthy then item.pubDate else item.isoDate) ∧
    ((normalizeItem source item).publishedAt = .undefined ↔
      item.pubDate.truthy = false ∧ item.isoDate = .undefined) := by
  refine ⟨rfl, ?_⟩
  show item.pubDate.or item.isoDate = .undefined ↔ _
  unfold Field.or
  cases hp : item.pubDate with
  | undefined => simp [Field.truthy]
  | null => simp [Field.truthy]
  | str s =>
    by_cases hs : s = ""
    · subst hs
      simp [Field.truthy]
    · simp [Field.truthy, hs]

/-! ### Counts of a record -/

theorem flat_length (xs : List JsVal) : (flat xs).length = (xs.map flatWidth).sum := by
  induction xs with
  | nil => rfl
  | cons x rest ih =>
    have : flat (x :: rest) = (match x with | .arr ys => ys | y => [y]) ++ flat rest := by
      cases x <;> simp [flat, List.flatMap_cons]
    rw [this, List.length_append, ih, List.map_cons, List.sum_cons]
    cases x <;> rfl

theorem map_values_eq_map_keys (f : JsVal → Nat) (l : List (String × JsVal))
    (hnd : (l.map Prod.fst).Nodup) :
    l.map (fun p => f p.2) = (l.map Prod.fst).map fun k => f ((l.lookup k).getD .null) := by
  induction l with
  | nil => rfl
  | cons p rest ih =>
    obtain ⟨k, v⟩ := p
    rw [List.map_cons, List.nodup_cons] at hnd
    simp only [List.map_cons, List.lookup, beq_self_eq_true, Option.getD_some, List.cons.injEq,
      true_and]
    rw [ih hnd.2]
    simp only [List.map_map]
    apply List.map_congr_left
    intro q hq
    have hne : q.1 ≠ k := by
      intro e
      apply hnd.1
      show k ∈ List.map Prod.fst rest
      rw [← e]
      exact List.mem_map_of_mem Prod.fst hq
    have hb : (q.1 == k) = false := by simpa using hne
    simp [Function.comp, List.lookup, hb]

theorem jsAdd_counts (a b : Nat) :
    (jsAdd (some (.num a 0)) (some (.num b 0))).toJson = some (.num ((a + b : Nat) : Int) 0) := by
  have h : ¬ ((a : Int) + (b : Int) < 0) := by omega
  simp [jsAdd, toPrimitive, addNumeric, Prim.toNumber, addDecimal, stripZeros_zero, h,
    Prim.toJson]
  omega
theorem flat_values_length (cats : List (String × JsVal)) (a b c d : List JsVal)
    (hkeys : (cats.map Prod.fst).Perm ["launches", "tutorials", "discussions", "trends"])
    (h1 : cats.lookup "launches" = some (.arr a))
    (h2 : cats.lookup "tutorials" = some (.arr b))
    (h3 : cats.lookup "discussions" = some (.arr c))
    (h4 : cats.lookup "trends" = some (.arr d)) :
    (flat (cats.map Prod.snd)).length = a.length + b.length + c.length + d.length := by
  have hnd : (cats.map Prod.fst).Nodup := hkeys.nodup_iff.mpr (by decide)
  rw [flat_length, List.map_map]
  have e := map_values_eq_map_keys flatWidth cats hnd
  have e2 : List.map (flatWidth ∘ Prod.snd) cats = cats.map fun p => flatWidth p.2 := rfl
  rw [e2, e, (hkeys.map _).sum_eq]
  simp [h1, h2, h3, h4, flatWidth]
  omega

/-- C20: the `stats` of the record that `saveNewsletter` builds and writes are counts of the
digest and of the raw articles given to the same call: `rawArticles` is the number of raw
articles, `highlights` the number of highlights, each category count the length of that
category, and, when `categories` has exactly the keys `launches`, `tutorials`,
`discussions` and `trends` (in any order), `curatedArticles` is `highlights` plus the sum
of the four category counts. -/
theorem stats_are_derived_counts (fs : FsState) (t g : Int) (c : JsVal)
    (raw hs l tu di tr : List JsVal) (cats : List (String × JsVal))
    (hh : prop (some c) "highlights" = some (.arr hs))
    (hcat : prop (some c) "categories" = some (.obj cats))
    (hkeys : (cats.map Prod.fst).Perm ["launches", "tutorials", "discussions", "trends"])
    (h1 : cats.lookup "launches" = some (.arr l))
    (h2 : cats.lookup "tutorials" = some (.arr tu))
    (h3 : cats.lookup "discussions" = some (.arr di))
    (h4 : cats.lookup "trends" = some (.arr tr))
    (hacc : fs.accessible = true)
    (hfile : fs.entries.lookup (dateKey t ++ ".json") ≠ some .dir) :
    ∃ data,
      newsletterData (dateKey t) g c (.arr raw) = .ok data ∧
      saveNewsletter fs c (.arr raw) (some t) g =
        .ok (fs.store (dateKey t ++ ".json") (JSON.stringify data),
          DATA_DIR fs ++ "/" ++ (dateKey t ++ ".json")) ∧
      prop (some data) "stats" = some (.obj
        [ ("rawArticles", .num raw.length 0),
          ("curatedArticles",
            .num ((hs.length + (l.length + tu.length + di.length + tr.length) : Nat) : Int) 0),
          ("highlights", .num hs.length 0),
          ("categories", .obj
            [ ("launches", .num l.length 0),
              ("tutorials", .num tu.length 0),
              ("discussions", .num di.length 0),
              ("trends", .num tr.length 0) ]) ]) := by
  obtain ⟨ps, rfl⟩ : ∃ ps, c = .obj ps := by
    cases c <;> first | exact ⟨_, rfl⟩ | cases hh
  have hh' : ps.lookup "highlights" = some (.arr hs) := hh
  have hcat' : ps.lookup "categories" = some (.obj cats) := hcat
  have hsum := flat_values_length cats l tu di tr hkeys h1 h2 h3 h4
  have hdata : newsletterData (dateKey t) g (.obj ps) (.arr raw) = .ok (objectLiteral
      [ ("date", some (.str (dateKey t))),
        ("generatedAt", some (.str (String.mk (isoText g)))),
        ("stats", some (objectLiteral
          [ ("rawArticles", some (.num raw.length 0)),
            ("curatedArticles", (jsAdd (some (.num hs.length 0))
              (some (.num (flat (cats.map Prod.snd)).length 0))).toJson),
            ("highlights", some (.num hs.length 0)),
            ("categories", some (objectLiteral
              [ ("launches", some (.num l.length 0)),
                ("tutorials", some (.num tu.length 0)),
                ("discussions", some (.num di.length 0)),
                ("trends", some (.num tr.length 0)) ])) ])),
        ("data", some (.obj ps)),
        ("raw", some (.arr raw)) ]) := by
    simp only [newsletterData, toISOString, getProp, getLength, objectValues, hh', hcat', h1, h2,
      h3, h4, bind, Except.bind, pure, Except.pure]
  refine ⟨_, hdata, saveNewsletter_ok_of fs _ _ t g _ hacc hdata hfile, ?_⟩
  rw [jsAdd_counts, hsum]
  simp [objectLiteral, prop, List.lookup, add_assoc]

theorem stats_are_derived_counts_witness :
    ∃ data,
      newsletterData (dateKey 1704096000000) 1704096000123 sampleDigest.toJson
        (.arr [.null, .null, .null]) = .ok data ∧
      saveNewsletter ⟨"/app", true, []⟩ sampleDigest.toJson (.arr [.null, .null, .null])
          (some 1704096000000) 1704096000123 =
        .ok (FsState.store ⟨"/app", true, []⟩ (dateKey 1704096000000 ++ ".json")
            (JSON.stringify data),
          DATA_DIR ⟨"/app", true, []⟩ ++ "/" ++ (dateKey 1704096000000 ++ ".json")) ∧
      prop (some data) "stats" = some (.obj
        [ ("rawArticles", .num 3 0),
          ("curatedArticles", .num 2 0),
          ("highlights", .num 1 0),
          ("categories", .obj
            [ ("launches", .num 1 0),
              ("tutorials", .num 0 0),
              ("discussions", .num 0 0),
              ("trends", .num 0 0) ]) ]) :=
  stats_are_derived_counts ⟨"/app", true, []⟩ 1704096000000 1704096000123 sampleDigest.toJson
    [.null, .null, .null] (sampleDigest.highlights.map CuratedArticle.toJson)
    (sampleDigest.launches.map CuratedArticle.toJson) [] [] []
    [("launches", .arr (sampleDigest.launches.map CuratedArticle.toJson)),
      ("tutorials", .arr []), ("discussions", .arr []), ("trends", .arr [])]
    (by decide) (by decide) (by decide) (by decide) (by decide) (by decide) (by decide)
    rfl (by decide)

/-! ### The calendar of `toISOString` -/

theorem civil_day_bounds (doe yoe doy : Int) (h0 : 0 ≤ doe) (h1 : doe < 146097)
    (hyoe : (doe - doe / 1460 + doe / 36524 - doe / 146096) / 365 = yoe)
    (hdoy : doe - (365 * yoe + yoe / 4 - yoe / 100) = doy) :
    0 ≤ doy ∧ doy ≤ 365 ∧ 0 ≤ yoe ∧ yoe ≤ 399 := by
  have hc : 0 ≤ doe / 36524 ∧ doe / 36524 ≤ 4 := by omega
  have hd : 0 ≤ doe / 146096 ∧ doe / 146096 ≤ 1 := by omega
  have hy : 0 ≤ yoe ∧ yoe ≤ 400 := by omega
  have hf : 0 ≤ yoe / 100 ∧ yoe / 100 ≤ 4 := by omega
  obtain ⟨hc0, hc1⟩ := hc
  obtain ⟨hd0, hd1⟩ := hd
  obtain ⟨hf0, hf1⟩ := hf
  generalize hcc : doe / 36524 = c at *
  generalize hdd : doe / 146096 = d at *
  generalize hff : yoe / 100 = f at *
  interval_cases c <;> interval_cases d <;> interval_cases f <;> omega

set_option maxHeartbeats 2000000 in
theorem civil_last_day (doe yoe : Int) (h0 : 0 ≤ doe) (h1 : doe < 146097)
    (hyoe : (doe - doe / 1460 + doe / 36524 - doe / 146096) / 365 = yoe)
    (hdoy : doe - (365 * yoe + yoe / 4 - yoe / 100) = 365) :
    (yoe + 1) % 4 = 0 ∧ ((yoe + 1) % 100 ≠ 0 ∨ yoe = 399) := by
  obtain ⟨_, _, hy0, hy1⟩ := civil_day_bounds doe yoe 365 h0 h1 hyoe hdoy
  have hf : 0 ≤ yoe / 100 ∧ yoe / 100 ≤ 3 := by omega
  have hδ : -1 ≤ doe / 1460 - yoe / 4 ∧ doe / 1460 - yoe / 4 ≤ 2 := by omega
  have hr : 0 ≤ yoe % 4 ∧ yoe % 4 ≤ 3 := by omega
  obtain ⟨hf0, hf1⟩ := hf
  obtain ⟨hδ0, hδ1⟩ := hδ
  obtain ⟨hr0, hr1⟩ := hr
  generalize hff : yoe / 100 = f at *
  generalize hee : doe / 1460 - yoe / 4 = δ at *
  generalize hrr : yoe % 4 = r at *
  have hc : 0 ≤ doe / 36524 ∧ doe / 36524 ≤ 4 := by omega
  have hd : 0 ≤ doe / 146096 ∧ doe / 146096 ≤ 1 := by omega
  obtain ⟨hc0, hc1⟩ := hc
  obtain ⟨hd0, hd1⟩ := hd
  generalize hcc : doe / 36524 = c at *
  generalize hdd : doe / 146096 = d at *
  interval_cases f <;> interval_cases c <;> interval_cases d <;>
    first
    | omega
    | (interval_cases δ <;> interval_cases r <;> omega)

theorem civil_day_of_year (doe yoe doy : Int) (h0 : 0 ≤ doe) (h1 : doe < 146097)
    (hyoe : (doe - doe / 1460 + doe / 36524 - doe / 146096) / 365 = yoe)
    (hdoy : doe - (365 * yoe + yoe / 4 - yoe / 100) = doy) :
    0 ≤ doy ∧ 0 ≤ yoe ∧ yoe ≤ 399 ∧
      (doy ≤ 364 ∨ (doy = 365 ∧ (yoe + 1) % 4 = 0 ∧ ((yoe + 1) % 100 ≠ 0 ∨ yoe = 399))) := by
  obtain ⟨hd0, hd1, hy0, hy1⟩ := civil_day_bounds doe yoe doy h0 h1 hyoe hdoy
  refine ⟨hd0, hy0, hy1, ?_⟩
  by_cases h : doy ≤ 364
  · exact Or.inl h
  · have he : doy = 365 := by omega
    subst he
    exact Or.inr ⟨rfl, civil_last_day doe yoe h0 h1 hyoe hdoy⟩

theorem dayFromYear_era (y era : Int) :
    dayFromYear (y + era * 400) = era * 146097 + dayFromYear y := by
  unfold dayFromYear
  omega

theorem isLeapYear_era (y era : Int) : isLeapYear (y + era * 400) = isLeapYear y := by
  unfold isLeapYear
  have h4 : (y + era * 400) % 4 = y % 4 := by omega
  have h100 : (y + era * 400) % 100 = y % 100 := by omega
  have h400 : (y + era * 400) % 400 = y % 400 := by omega
  rw [h4, h100, h400]

theorem isLeapYear_iff (y : Int) :
    isLeapYear y = true ↔ y % 4 = 0 ∧ (y % 100 ≠ 0 ∨ y % 400 = 0) := by
  simp [isLeapYear]

theorem dayFromYear_march (y : Int) (h0 : 0 ≤ y) (h1 : y ≤ 399) :
    dayFromYear y + 59 + (if isLeapYear y = true then 1 else 0) =
      365 * y + y / 4 - y / 100 - 719468 := by
  have hf : 0 ≤ y / 100 ∧ y / 100 ≤ 3 := by omega
  obtain ⟨hf0, hf1⟩ := hf
  unfold dayFromYear
  by_cases hl : isLeapYear y = true
  · rw [if_pos hl]
    rw [isLeapYear_iff] at hl
    generalize hff : y / 100 = f at *
    interval_cases f <;> omega
  · rw [if_neg hl]
    rw [isLeapYear_iff] at hl
    generalize hff : y / 100 = f at *
    interval_cases f <;> omega

theorem dayFromYear_next (y : Int) (h0 : 0 ≤ y) (h1 : y ≤ 399) :
    dayFromYear (y + 1) = 365 * y + y / 4 - y / 100 + 306 - 719468 := by
  have hf : 0 ≤ y / 100 ∧ y / 100 ≤ 3 := by omega
  obtain ⟨hf0, hf1⟩ := hf
  unfold dayFromYear
  generalize hff : y / 100 = f at *
  interval_cases f <;> omega

/-- The triple computed by `civilFromDays` is the calendar date of the day number: the
month is 1 to 12, the day is 1 to the length of that month, and the days of the years, of
the months and of the month before it add up to the day number. -/
theorem civilFromDays_calendar (z : Int) :
    1 ≤ (civilFromDays z).2.1 ∧ (civilFromDays z).2.1 ≤ 12 ∧
    1 ≤ (civilFromDays z).2.2 ∧
    (civilFromDays z).2.2 ≤ daysInMonth (isLeapYear (civilFromDays z).1) (civilFromDays z).2.1 ∧
    dayFromYear (civilFromDays z).1 +
      daysBeforeMonth (isLeapYear (civilFromDays z).1) (civilFromDays z).2.1 +
      ((civilFromDays z).2.2 - 1) = z := by
  simp only [civilFromDays]
  generalize hera : (z + 719468) / 146097 = era
  generalize hdoe : z + 719468 - era * 146097 = doe
  generalize hyoe : (doe - doe / 1460 + doe / 36524 - doe / 146096) / 365 = yoe
  generalize hdoy : doe - (365 * yoe + yoe / 4 - yoe / 100) = doy
  generalize hmp : (5 * doy + 2) / 153 = mp
  obtain ⟨hd0, hy0, hy1, hleap⟩ := civil_day_of_year doe yoe doy (by omega) (by omega) hyoe hdoy
  have hb : 0 ≤ mp ∧ mp ≤ 11 := by omega
  obtain ⟨hb0, hb1⟩ := hb
  by_cases hlt : mp < 10
  · have hm : ¬ (mp + 3 ≤ 2) := by omega
    simp only [hlt, if_true, hm, if_false, add_zero]
    rw [dayFromYear_era, isLeapYear_era]
    have hM := dayFromYear_march yoe hy0 hy1
    generalize hx : (if isLeapYear yoe = true then (1 : Int) else 0) = x at hM
    interval_cases mp <;> simp [daysBeforeMonth, daysInMonth, hx] <;> omega
  · have hm : mp - 9 ≤ 2 := by omega
    have hy : yoe + era * 400 + 1 = yoe + 1 + era * 400 := by ring
    simp only [hlt, if_false, hm, if_true, hy]
    rw [dayFromYear_era, isLeapYear_era]
    have hN := dayFromYear_next yoe hy0 hy1
    have hL : doy ≤ 364 ∨ isLeapYear (yoe + 1) = true := by
      rcases hleap with h | ⟨_, h4, h100⟩
      · exact Or.inl h
      · refine Or.inr ((isLeapYear_iff _).2 ⟨h4, ?_⟩)
        omega
    interval_cases mp
    · simp [daysBeforeMonth, daysInMonth]
      omega
    · rcases hL with h | h
      · simp [daysBeforeMonth, daysInMonth]
        refine ⟨by omega, ?_, by omega⟩
        split_ifs <;> omega
      · simp [daysBeforeMonth, daysInMonth, h]
        omega

/-! ### Date keys -/

theorem digitChar_ne_T (n : Nat) : ¬ digitChar n = 'T' := by
  have h : n % 10 < 10 := Nat.mod_lt _ (by decide)
  unfold digitChar
  generalize n % 10 = d at h
  revert d
  decide

theorem padDigits_two (n : Nat) : padDigits 2 n [] = [digitChar (n / 10), digitChar n] := rfl

theorem padDigits_four (n : Nat) :
    padDigits 4 n [] =
      [digitChar (n / 1000), digitChar (n / 100), digitChar (n / 10), digitChar n] := by
  have h1 : n / 10 / 10 = n / 100 := by omega
  have h2 : n / 100 / 10 = n / 1000 := by omega
  simp only [padDigits, digitChar, h1, h2]

theorem dateKey_eq_calendarDateText (t : Int)
    (h0 : 0 ≤ (civilFromDays (t / 86400000)).1)
    (h1 : (civilFromDays (t / 86400000)).1 ≤ 9999) :
    dateKey t = calendarDateText (civilFromDays (t / 86400000)).1.toNat
      (civilFromDays (t / 86400000)).2.1.toNat (civilFromDays (t / 86400000)).2.2.toNat := by
  unfold dateKey calendarDateText isoText isoYear
  simp only [h0, h1, and_self, if_true, padDigits_two, padDigits_four, List.cons_append,
    List.nil_append, splitFirst, digitChar_ne_T, if_false]
  simp

theorem newsletterData_date (key : String) (g : Int) (c r data : JsVal)
    (h : newsletterData key g c r = .ok data) :
    prop (some data) "date" = some (.str key) := by
  unfold newsletterData at h
  obtain ⟨iso, _, h⟩ := except_bind_eq_ok _ _ _ h
  obtain ⟨nr, er, h⟩ := except_bind_eq_ok _ _ _ h
  obtain ⟨hl, e1, h⟩ := except_bind_eq_ok _ _ _ h
  obtain ⟨n0, e2, h⟩ := except_bind_eq_ok _ _ _ h
  obtain ⟨cats, e3, h⟩ := except_bind_eq_ok _ _ _ h
  obtain ⟨l, e4, h⟩ := except_bind_eq_ok _ _ _ h
  obtain ⟨hl2, e5, h⟩ := except_bind_eq_ok _ _ _ h
  obtain ⟨n0', e6, h⟩ := except_bind_eq_ok _ _ _ h
  obtain ⟨x1, p1, h⟩ := except_bind_eq_ok _ _ _ h
  obtain ⟨m1, q1, h⟩ := except_bind_eq_ok _ _ _ h
  obtain ⟨x2, p2, h⟩ := except_bind_eq_ok _ _ _ h
  obtain ⟨m2, q2, h⟩ := except_bind_eq_ok _ _ _ h
  obtain ⟨x3, p3, h⟩ := except_bind_eq_ok _ _ _ h
  obtain ⟨m3, q3, h⟩ := except_bind_eq_ok _ _ _ h
  obtain ⟨x4, p4, h⟩ := except_bind_eq_ok _ _ _ h
  obtain ⟨m4, q4, h⟩ := except_bind_eq_ok _ _ _ h
  injection h with h
  rw [← h]
  rfl

/-- C19: for a date `d` whose UTC year lies in 0000-9999, when the store can be reached
and the digest can be counted, `saveNewsletter` succeeds; the name of the file it writes
is the date key followed by `.json`; the `date` of the record written there is the date
key; the year, month and day computed for `d` are the calendar date of the UTC day of `d`;
the date key is the ten characters `YYYY-MM-DD` of that date; and the path returned is
that file in the newsletter directory. -/
theorem saveNewsletter_keys_record_by_date (fs : FsState) (c r : JsVal) (d g : Int)
    (h0 : 0 ≤ (civilFromDays (d / 86400000)).1)
    (h1 : (civilFromDays (d / 86400000)).1 ≤ 9999)
    (hacc : fs.accessible = true)
    (hfile : fs.entries.lookup (dateKey d ++ ".json") ≠ some .dir)
    (hc : hasDigestShape c = true) (hr : nonNullish (some r) = true) :
    ∃ fs' data,
      saveNewsletter fs c r (some d) g =
        .ok (fs', DATA_DIR fs ++ "/" ++ (dateKey d ++ ".json")) ∧
      fs'.entries.lookup (dateKey d ++ ".json") = some (.file (JSON.stringify data)) ∧
      newsletterData (dateKey d) g c r = .ok data ∧
      prop (some data) "date" = some (.str (dateKey d)) ∧
      IsCalendarDate (d / 86400000) (civilFromDays (d / 86400000)).1
        (civilFromDays (d / 86400000)).2.1 (civilFromDays (d / 86400000)).2.2 ∧
      dateKey d = calendarDateText (civilFromDays (d / 86400000)).1.toNat
        (civilFromDays (d / 86400000)).2.1.toNat (civilFromDays (d / 86400000)).2.2.toNat ∧
      (dateKey d).length = 10 := by
  obtain ⟨data, hdata⟩ := newsletterData_ok_of_shape (dateKey d) g c r hc hr
  have hk := dateKey_eq_calendarDateText d h0 h1
  refine ⟨_, data, saveNewsletter_ok_of fs c r d g data hacc hdata hfile, ?_, hdata,
    newsletterData_date _ _ _ _ _ hdata, civilFromDays_calendar _, hk, ?_⟩
  · simp [FsState.store, lookup_setEntry_self]
  · rw [hk]
    rfl

theorem saveNewsletter_keys_record_by_date_witness :
    ∃ fs' data,
      saveNewsletter ⟨"/app", true, []⟩ sampleDigest.toJson (rawToJson sampleRaw)
          (some 1704096000000) 1704096000123 =
        .ok (fs', DATA_DIR ⟨"/app", true, []⟩ ++ "/" ++ (dateKey 1704096000000 ++ ".json")) ∧
      fs'.entries.lookup (dateKey 1704096000000 ++ ".json") =
        some (.file (JSON.stringify data)) ∧
      newsletterData (dateKey 1704096000000) 1704096000123 sampleDigest.toJson
        (rawToJson sampleRaw) = .ok data ∧
      prop (some data) "date" = some (.str (dateKey 1704096000000)) ∧
      IsCalendarDate (1704096000000 / 86400000) (civilFromDays (1704096000000 / 86400000)).1
        (civilFromDays (1704096000000 / 86400000)).2.1
        (civilFromDays (1704096000000 / 86400000)).2.2 ∧
      dateKey 1704096000000 = calendarDateText (civilFromDays (1704096000000 / 86400000)).1.toNat
        (civilFromDays (1704096000000 / 86400000)).2.1.toNat
        (civilFromDays (1704096000000 / 86400000)).2.2.toNat ∧
      (dateKey 1704096000000).length = 10 :=
  saveNewsletter_keys_record_by_date ⟨"/app", true, []⟩ sampleDigest.toJson
    (rawToJson sampleRaw) 1704096000000 1704096000123 (by decide) (by decide) rfl (by decide)
    (by decide) (by decide)

/-- The date key of 2024-01-01T08:00:00Z and the path returned for it. -/
theorem dateKey_example :
    civilFromDays (1704096000000 / 86400000) = (2024, 1, 1) ∧
    dateKey 1704096000000 = "2024-01-01" ∧
    calendarDateText 2024 1 1 = "2024-01-01" ∧
    DATA_DIR ⟨"/app", true, []⟩ ++ "/" ++ (dateKey 1704096000000 ++ ".json") =
      "/app/data/newsletters/2024-01-01.json" := by
  decide

/-! ### Fence stripping on JSON text -/

theorem removeFence_nil (pat : List Char) (f : Nat) : removeFence pat f [] = [] := by
  cases f <;> rfl

theorem length_dropLineFeed (l : List Char) : (dropLineFeed l).length ≤ l.length := by
  cases l with
  | nil => simp [dropLineFeed]
  | cons d r =>
    simp only [dropLineFeed]
    split_ifs <;> simp

theorem fencePattern_length {pat : List Char} (hp : IsFencePattern pat) : 1 ≤ pat.length := by
  rcases hp with h | h <;> subst h <;> decide

theorem removeFence_cons (pat : List Char) (f : Nat) (c : Char) (cs : List Char) :
    removeFence pat (f + 1) (c :: cs) =
      if pat.isPrefixOf (c :: cs) then
        removeFence pat f (dropLineFeed ((c :: cs).drop pat.length))
      else c :: removeFence pat f cs := by
  rw [removeFence]
  split_ifs
  · congr 1
  · rfl

theorem removeFence_budget {pat : List Char} (hp : IsFencePattern pat) (n : Nat) :
    ∀ (cs : List Char) (f1 f2 : Nat), cs.length ≤ n → cs.length ≤ f1 → cs.length ≤ f2 →
      removeFence pat f1 cs = removeFence pat f2 cs := by
  induction n with
  | zero =>
    intro cs f1 f2 h _ _
    have : cs = [] := List.length_eq_zero.mp (by omega)
    subst this
    rw [removeFence_nil, removeFence_nil]
  | succ n ih =>
    intro cs f1 f2 h h1 h2
    cases cs with
    | nil => rw [removeFence_nil, removeFence_nil]
    | cons c t =>
      simp only [List.length_cons] at h h1 h2
      obtain ⟨g1, rfl⟩ : ∃ g, f1 = g + 1 := ⟨f1 - 1, by omega⟩
      obtain ⟨g2, rfl⟩ : ∃ g, f2 = g + 1 := ⟨f2 - 1, by omega⟩
      rw [removeFence_cons, removeFence_cons]
      have hl := fencePattern_length hp
      have hd : (dropLineFeed ((c :: t).drop pat.length)).length ≤ t.length := by
        have := length_dropLineFeed ((c :: t).drop pat.length)
        simp only [List.length_drop, List.length_cons] at this
        omega
      split_ifs
      · exact ih _ _ _ (by omega) (by omega) (by omega)
      · rw [ih t g1 g2 (by omega) (by omega) (by omega)]

theorem removeFence_eq_strip {pat : List Char} (hp : IsFencePattern pat) (cs : List Char)
    (f : Nat) (h : cs.length ≤ f) : removeFence pat f cs = strip pat cs :=
  removeFence_budget hp cs.length cs f cs.length (le_refl _) h (le_refl _)

theorem strip_nil (pat : List Char) : strip pat [] = [] := rfl

theorem strip_cons_no_match (pat : List Char) (c : Char)
    (cs : List Char) (h : pat.isPrefixOf (c :: cs) = false) :
    strip pat (c :: cs) = c :: strip pat cs := by
  unfold strip
  rw [List.length_cons, removeFence_cons, h]
  simp

theorem strip_cons_match {pat : List Char} (hp : IsFencePattern pat) (c : Char)
    (cs : List Char) (h : pat.isPrefixOf (c :: cs) = true) :
    strip pat (c :: cs) = strip pat (dropLineFeed ((c :: cs).drop pat.length)) := by
  unfold strip
  rw [List.length_cons, removeFence_cons, h, if_pos rfl]
  apply removeFence_budget hp cs.length
  · have := length_dropLineFeed ((c :: cs).drop pat.length)
    have hl := fencePattern_length hp
    simp only [List.length_drop, List.length_cons] at this
    omega
  · have := length_dropLineFeed ((c :: cs).drop pat.length)
    have hl := fencePattern_length hp
    simp only [List.length_drop, List.length_cons] at this
    omega
  · exact le_refl _

theorem fencePattern_head {pat : List Char} (hp : IsFencePattern pat) :
    ∃ rest, pat = Char.ofNat 96 :: rest := by
  rcases hp with h | h <;> subst h <;> exact ⟨_, rfl⟩

/-- A character other than the backtick is kept by `strip`. -/
theorem strip_cons {pat : List Char} (hp : IsFencePattern pat) (c : Char) (cs : List Char)
    (h : c ≠ Char.ofNat 96) : strip pat (c :: cs) = c :: strip pat cs := by
  apply strip_cons_no_match
  obtain ⟨rest, rfl⟩ := fencePattern_head hp
  simp only [List.isPrefixOf, Bool.and_eq_false_imp, beq_iff_eq]
  intro e
  exact absurd e.symm h

/-- A text without backticks in front of another text is kept by `strip`. -/
theorem strip_append {pat : List Char} (hp : IsFencePattern pat) (pre cs : List Char)
    (h : ∀ c ∈ pre, c ≠ Char.ofNat 96) : strip pat (pre ++ cs) = pre ++ strip pat cs := by
  induction pre with
  | nil => rfl
  | cons c rest ih =>
    rw [List.cons_append, strip_cons hp c _ (h c (List.mem_cons_self _ _)),
      ih (fun x hx => h x (List.mem_cons_of_mem _ hx)), List.cons_append]

theorem hexVal_ne_tick (c : Char) (v : Nat) (h : hexVal c = some v) : c ≠ Char.ofNat 96 := by
  intro e
  subst e
  have h0 : hexVal (Char.ofNat 96) = none := by decide
  rw [h0] at h
  cases h

theorem hex4_ne_tick (a b c d : Char) (h : (hex4 a b c d).isSome = true) :
    a ≠ Char.ofNat 96 ∧ b ≠ Char.ofNat 96 ∧ c ≠ Char.ofNat 96 ∧ d ≠ Char.ofNat 96 := by
  unfold hex4 at h
  split at h
  · next x y z w hx hy hz hw =>
    exact ⟨hexVal_ne_tick _ _ hx, hexVal_ne_tick _ _ hy, hexVal_ne_tick _ _ hz,
      hexVal_ne_tick _ _ hw⟩
  · cases h

theorem lowSurrogate_consumed (cs : List Char) (lo : Nat) (r : List Char)
    (h : lowSurrogate cs = some (lo, r)) :
    ∃ a b c d, cs = '\\' :: 'u' :: a :: b :: c :: d :: r ∧ (hex4 a b c d).isSome = true := by
  unfold lowSurrogate at h
  split at h
  · next a b c d r0 =>
    split at h
    · next lo2 hl =>
      split_ifs at h
      injection h with h
      injection h with _ h
      subst h
      exact ⟨a, b, c, d, rfl, by rw [hl]; rfl⟩
    · cases h
  · cases h

theorem parseEscape_consumed (cs : List Char) (x : Char) (r : List Char)
    (h : parseEscape cs = some (x, r)) :
    ∃ E, cs = E ++ r ∧ (∀ B, Body B → Body ('\\' :: (E ++ B))) ∧
      ∀ c ∈ E, c ≠ Char.ofNat 96 := by
  unfold parseEscape at h
  split at h
  · cases h
  · next h1 h2 h3 h4 r0 =>
    split at h
    · cases h
    · next hi hhex =>
      have hsome : (hex4 h1 h2 h3 h4).isSome = true := by rw [hhex]; rfl
      obtain ⟨t1, t2, t3, t4⟩ := hex4_ne_tick _ _ _ _ hsome
      split at h
      · next lo r2 hlow =>
        injection h with h
        injection h with _ h
        subst h
        split at hlow
        · obtain ⟨a, b, c, d, hcs, hl⟩ := lowSurrogate_consumed _ _ _ hlow
          obtain ⟨u1, u2, u3, u4⟩ := hex4_ne_tick _ _ _ _ hl
          refine ⟨['u', h1, h2, h3, h4, '\\', 'u', a, b, c, d], by rw [hcs]; rfl, ?_, ?_⟩
          · intro B hB
            exact Body.unicode _ _ _ _ _ hsome (Body.unicode _ _ _ _ _ hl hB)
          · intro c hc
            simp only [List.mem_cons, List.mem_singleton, List.not_mem_nil, or_false] at hc
            rcases hc with e | e | e | e | e | e | e | e | e | e | e <;> subst e <;>
              first | assumption | decide
        · cases hlow
      · injection h with h
        injection h with _ h
        subst h
        refine ⟨['u', h1, h2, h3, h4], rfl, ?_, ?_⟩
        · intro B hB
          exact Body.unicode _ _ _ _ _ hsome hB
        · intro c hc
          simp only [List.mem_cons, List.mem_singleton, List.not_mem_nil, or_false] at hc
          rcases hc with e | e | e | e | e <;> subst e <;> first | assumption | decide
  · split_ifs at h with c1 c2 c3 c4 c5 c6 c7 c8
    all_goals
      injection h with h
      injection h with _ h
      subst h
      refine ⟨[_], rfl, ?_, ?_⟩
      · intro B hB
        refine Body.simple _ _ ?_ hB
        subst_vars
        decide
      · intro c hc
        simp only [List.mem_singleton] at hc
        subst_vars
        decide

/-- What `parseStringBody` consumes is a string body followed by the closing quote, and a
backtick written in the body is a character of the string. -/
theorem parseStringBody_consumed (fuel : Nat) : ∀ (cs s r : List Char),
    parseStringBody fuel cs = some (s, r) →
    ∃ B, cs = B ++ '"' :: r ∧ Body B ∧ (Char.ofNat 96 ∈ B → Char.ofNat 96 ∈ s) := by
  induction fuel with
  | zero => intro cs s r h; simp [parseStringBody] at h
  | succ f ih =>
    intro cs s r h
    cases cs with
    | nil => simp [parseStringBody] at h
    | cons c rest =>
      simp only [parseStringBody] at h
      split_ifs at h with h1 h2 h3
      · injection h with h
        injection h with hs hr
        subst hr
        subst h1
        exact ⟨[], rfl, Body.nil, fun hm => absurd hm (List.not_mem_nil _)⟩
      · split at h
        · cases h
        · next x r1 hesc =>
          simp only [Option.map_eq_some'] at h
          obtain ⟨p, hp, he⟩ := h
          obtain ⟨s1, r2⟩ := p
          injection he with hs hr
          subst hs
          subst hr
          obtain ⟨E, hE, hbody, htick⟩ := parseEscape_consumed _ _ _ hesc
          obtain ⟨B1, hB1, hb1, ht1⟩ := ih _ _ _ hp
          subst h2
          refine ⟨'\\' :: (E ++ B1), ?_, hbody _ hb1, ?_⟩
          · rw [hE, hB1]
            simp
          · intro hm
            simp only [List.mem_cons, List.mem_append] at hm
            rcases hm with e | e | e
            · exact absurd e (by decide)
            · exact absurd rfl (htick _ e)
            · exact List.mem_cons_of_mem _ (ht1 e)
      · simp only [Option.map_eq_some'] at h
        obtain ⟨p, hp, he⟩ := h
        obtain ⟨s1, r2⟩ := p
        injection he with hs hr
        subst hs
        subst hr
        obtain ⟨B1, hB1, hb1, ht1⟩ := ih _ _ _ hp
        refine ⟨c :: B1, by rw [hB1]; rfl, Body.plain _ _ ?_ hb1, ?_⟩
        · simp only [isPlainChar, Bool.and_eq_true, decide_eq_true_eq]
          exact ⟨⟨h1, h2⟩, by omega⟩
        · intro hm
          simp only [List.mem_cons] at hm ⊢
          rcases hm with e | e
          · exact Or.inl e
          · exact Or.inr (ht1 e)

theorem plainChar_facts (c : Char) (h : isPlainChar c = true) :
    c ≠ '"' ∧ c ≠ '\\' ∧ ¬ c.toNat < 32 := by
  simp only [isPlainChar, Bool.and_eq_true, decide_eq_true_eq] at h
  exact ⟨h.1.1, h.1.2, by omega⟩

theorem lowSurrogate_of_head (c : Char) (l : List Char) (h : c ≠ '\\') :
    lowSurrogate (c :: l) = none := by
  unfold lowSurrogate
  split
  · next heq =>
    have := (List.cons.inj heq).1
    exact absurd this h
  · rfl

theorem lowSurrogate_of_second (e : Char) (l : List Char) (h : e ≠ 'u') :
    lowSurrogate ('\\' :: e :: l) = none := by
  unfold lowSurrogate
  split
  · next heq =>
    have := (List.cons.inj (List.cons.inj heq).2).1
    exact absurd this h
  · rfl

theorem simpleEscape_ne_u (e : Char) (h : isSimpleEscape e = true) : e ≠ 'u' := by
  intro he
  subst he
  revert h
  decide

/-- Whether the text after a `\uXXXX` escape starts with the escape of a low surrogate does
not depend on what follows the closing quote. -/
theorem lowSurrogate_body (B : List Char) (hB : Body B) :
    (∀ r, lowSurrogate (B ++ '"' :: r) = none) ∨
    ∃ lo B2, Body B2 ∧ B2.length < B.length ∧
      ∀ r, lowSurrogate (B ++ '"' :: r) = some (lo, B2 ++ '"' :: r) := by
  cases hB with
  | nil => exact Or.inl fun r => lowSurrogate_of_head _ _ (by decide)
  | plain c rest hc hrest =>
    exact Or.inl fun r => lowSurrogate_of_head _ _ (plainChar_facts c hc).2.1
  | simple e rest he hrest =>
    exact Or.inl fun r => lowSurrogate_of_second _ _ (simpleEscape_ne_u e he)
  | unicode a b c d rest hh hrest =>
    cases hx : hex4 a b c d with
    | none => rw [hx] at hh; cases hh
    | some lo =>
      by_cases hlow : 0xDC00 ≤ lo ∧ lo ≤ 0xDFFF
      · refine Or.inr ⟨lo, rest, hrest, by simp only [List.length_cons]; omega, fun r => ?_⟩
        simp only [List.cons_append, lowSurrogate, hx, hlow, and_self, if_true]
      · refine Or.inl fun r => ?_
        simp only [List.cons_append, lowSurrogate, hx, hlow, if_false]

theorem parseEscape_simple (e : Char) (h : isSimpleEscape e = true) :
    ∃ x, ∀ rest, parseEscape (e :: rest) = some (x, rest) := by
  simp only [isSimpleEscape, Bool.or_eq_true, decide_eq_true_eq] at h
  rcases h with ((((((h | h) | h) | h) | h) | h) | h) | h <;> subst h
  · exact ⟨'"', fun rest => by simp [parseEscape]⟩
  · exact ⟨'\\', fun rest => by simp [parseEscape]⟩
  · exact ⟨'/', fun rest => by simp [parseEscape]⟩
  · exact ⟨Char.ofNat 8, fun rest => by simp [parseEscape]⟩
  · exact ⟨Char.ofNat 12, fun rest => by simp [parseEscape]⟩
  · exact ⟨Char.ofNat 10, fun rest => by simp [parseEscape]⟩
  · exact ⟨Char.ofNat 13, fun rest => by simp [parseEscape]⟩
  · exact ⟨Char.ofNat 9, fun rest => by simp [parseEscape]⟩

/-- Every string body followed by a closing quote is read by `parseStringBody`, up to that
quote, whatever follows it. -/
theorem body_parses (n : Nat) : ∀ B : List Char, B.length ≤ n → Body B →
    ∃ s, ∀ (r : List Char) (f : Nat), B.length + 1 ≤ f →
      parseStringBody f (B ++ '"' :: r) = some (s, r) := by
  induction n using Nat.strong_induction_on with
  | _ n ih =>
    intro B hlen hB
    cases hB with
    | nil =>
      refine ⟨[], fun r f hf => ?_⟩
      obtain ⟨g, rfl⟩ : ∃ g, f = g + 1 := ⟨f - 1, by simp at hf; omega⟩
      simp [parseStringBody]
    | plain c rest hc hrest =>
      simp only [List.length_cons] at hlen
      obtain ⟨s1, hs1⟩ := ih (n - 1) (by omega) rest (by omega) hrest
      obtain ⟨c1, c2, c3⟩ := plainChar_facts c hc
      refine ⟨c :: s1, fun r f hf => ?_⟩
      simp only [List.length_cons] at hf
      obtain ⟨g, rfl⟩ : ∃ g, f = g + 1 := ⟨f - 1, by omega⟩
      simp only [List.cons_append, parseStringBody, List.append_eq, if_neg c1, if_neg c2, if_neg c3,
        hs1 r g (by omega), Option.map_some']
    | simple e rest he hrest =>
      simp only [List.length_cons] at hlen
      obtain ⟨s1, hs1⟩ := ih (n - 1) (by omega) rest (by omega) hrest
      obtain ⟨x, hx⟩ := parseEscape_simple e he
      refine ⟨x :: s1, fun r f hf => ?_⟩
      simp only [List.length_cons] at hf
      obtain ⟨g, rfl⟩ : ∃ g, f = g + 1 := ⟨f - 1, by omega⟩
      have c1 : ¬ ('\\' = '"') := by decide
      simp only [List.cons_append, parseStringBody, List.append_eq, if_neg c1, if_true, hx,
        hs1 r g (by omega), Option.map_some']
    | unicode a b c d rest hh hrest =>
      simp only [List.length_cons] at hlen
      obtain ⟨s1, hs1⟩ := ih (n - 1) (by omega) rest (by omega) hrest
      have c1 : ¬ ('\\' = '"') := by decide
      cases hx : hex4 a b c d with
      | none => rw [hx] at hh; cases hh
      | some hi =>
        by_cases hhigh : 0xD800 ≤ hi ∧ hi ≤ 0xDBFF
        · rcases lowSurrogate_body rest hrest with hnone | ⟨lo, B2, hB2, hl2, hsome⟩
          · refine ⟨unitChar hi :: s1, fun r f hf => ?_⟩
            simp only [List.length_cons] at hf
            obtain ⟨g, rfl⟩ : ∃ g, f = g + 1 := ⟨f - 1, by omega⟩
            simp only [List.cons_append, parseStringBody, List.append_eq, if_neg c1, if_true, parseEscape, hx,
              hhigh, and_self, hnone, hs1 r g (by omega), Option.map_some']
          · obtain ⟨s2, hs2⟩ := ih (n - 1) (by omega) B2 (by omega) hB2
            refine ⟨Char.ofNat (0x10000 + (hi - 0xD800) * 0x400 + (lo - 0xDC00)) :: s2,
              fun r f hf => ?_⟩
            simp only [List.length_cons] at hf
            obtain ⟨g, rfl⟩ : ∃ g, f = g + 1 := ⟨f - 1, by omega⟩
            simp only [List.cons_append, parseStringBody, List.append_eq, if_neg c1, if_true, parseEscape, hx,
              hhigh, and_self, hsome, hs2 r g (by omega), Option.map_some']
        · refine ⟨unitChar hi :: s1, fun r f hf => ?_⟩
          simp only [List.length_cons] at hf
          obtain ⟨g, rfl⟩ : ∃ g, f = g + 1 := ⟨f - 1, by omega⟩
          simp only [List.cons_append, parseStringBody, List.append_eq, if_neg c1, if_true, parseEscape, hx,
            hhigh, if_false, hs1 r g (by omega), Option.map_some']

theorem fencePattern_plain {pat : List Char} (hp : IsFencePattern pat) :
    ∀ c ∈ pat, isPlainChar c = true := by
  rcases hp with h | h <;> subst h <;> decide

theorem isPrefixOf_append_quote (pat : List Char) (hq : ∀ c ∈ pat, c ≠ '"') :
    ∀ (X r : List Char), pat.isPrefixOf (X ++ '"' :: r) = pat.isPrefixOf X := by
  induction pat with
  | nil => intro X r; simp [List.isPrefixOf]
  | cons p ps ih =>
    intro X r
    cases X with
    | nil =>
      have : (p == '"') = false := by
        simpa using hq p (List.mem_cons_self _ _)
      simp [List.isPrefixOf, this]
    | cons x xs =>
      simp only [List.cons_append, List.isPrefixOf, List.append_eq]
      rw [ih (fun c hc => hq c (List.mem_cons_of_mem _ hc))]

theorem isPrefixOf_eq_append (pat : List Char) :
    ∀ X : List Char, pat.isPrefixOf X = true → ∃ Y, pat ++ Y = X := by
  induction pat with
  | nil => intro X _; exact ⟨X, rfl⟩
  | cons p ps ih =>
    intro X h
    cases X with
    | nil => simp [List.isPrefixOf] at h
    | cons x xs =>
      simp only [List.isPrefixOf, Bool.and_eq_true, beq_iff_eq] at h
      obtain ⟨Y, hY⟩ := ih xs h.2
      exact ⟨Y, by rw [List.cons_append, hY, h.1]⟩

theorem body_of_plain_append (P : List Char) (hP : ∀ c ∈ P, isPlainChar c = true) :
    ∀ Y, Body (P ++ Y) → Body Y := by
  induction P with
  | nil => intro Y h; exact h
  | cons p ps ih =>
    intro Y h
    have hp := plainChar_facts p (hP p (List.mem_cons_self _ _))
    have h' : Body (p :: (ps ++ Y)) := h
    generalize hZ : ps ++ Y = Z at h'
    cases h' with
    | plain _ _ _ hrest =>
      subst hZ
      exact ih (fun c hc => hP c (List.mem_cons_of_mem _ hc)) Y hrest
    | simple _ _ _ _ => exact absurd rfl hp.2.1
    | unicode _ _ _ _ _ _ _ => exact absurd rfl hp.2.1

theorem dropLineFeed_body (Y : List Char) (hY : Body Y) (r : List Char) :
    dropLineFeed (Y ++ '"' :: r) = Y ++ '"' :: r := by
  cases hY with
  | nil => simp [dropLineFeed]
  | plain c rest hc _ =>
    have := (plainChar_facts c hc).2.2
    have h10 : ¬ c.toNat = 10 := by omega
    simp [dropLineFeed, h10]
  | simple _ _ _ _ => simp [dropLineFeed]
  | unicode _ _ _ _ _ _ _ => simp [dropLineFeed]

/-- Removing fences from a string body leaves a string body, and leaves a body without
backticks as it is; the closing quote stops every match. -/
theorem body_strip {pat : List Char} (hp : IsFencePattern pat) (n : Nat) :
    ∀ B : List Char, B.length ≤ n → Body B →
    ∃ B', Body B' ∧ (∀ r, strip pat (B ++ '"' :: r) = B' ++ '"' :: strip pat r) ∧
      (Char.ofNat 96 ∉ B → B' = B) := by
  induction n using Nat.strong_induction_on with
  | _ n ih =>
    intro B hlen hB
    have hplain := fencePattern_plain hp
    have hquote : ∀ c ∈ pat, c ≠ '"' := fun c hc => (plainChar_facts c (hplain c hc)).1
    cases hB with
    | nil =>
      exact ⟨[], Body.nil, fun r => strip_cons hp _ _ (by decide), fun _ => rfl⟩
    | plain c rest hc hrest =>
      simp only [List.length_cons] at hlen
      by_cases hpre : pat.isPrefixOf (c :: rest) = true
      · obtain ⟨Y, hY⟩ := isPrefixOf_eq_append pat _ hpre
        have hbY : Body Y := by
          apply body_of_plain_append pat hplain
          rw [hY]
          exact Body.plain c rest hc hrest
        have hl := fencePattern_length hp
        have hlenY : Y.length < (c :: rest).length := by
          rw [← hY, List.length_append]
          omega
        simp only [List.length_cons] at hlenY
        obtain ⟨B', hB', hs, _⟩ := ih (n - 1) (by omega) Y (by omega) hbY
        refine ⟨B', hB', fun r => ?_, fun hno => ?_⟩
        · have hpre2 : pat.isPrefixOf (c :: (rest ++ '"' :: r)) = true := by
            rw [← List.cons_append, isPrefixOf_append_quote pat hquote]
            exact hpre
          rw [List.cons_append, strip_cons_match hp _ _ hpre2, ← List.cons_append, ← hY,
            List.append_assoc, List.drop_left, dropLineFeed_body Y hbY, hs r]
        · exfalso
          apply hno
          obtain ⟨t, ht⟩ := fencePattern_head hp
          have : Char.ofNat 96 ∈ pat ++ Y := by
            rw [ht]
            simp
          rw [hY] at this
          exact this
      · obtain ⟨B', hB', hs, hk⟩ := ih (n - 1) (by omega) rest (by omega) hrest
        refine ⟨c :: B', Body.plain c B' hc hB', fun r => ?_, fun hno => ?_⟩
        · have hpre2 : pat.isPrefixOf (c :: (rest ++ '"' :: r)) = false := by
            rw [← List.cons_append, isPrefixOf_append_quote pat hquote]
            exact Bool.eq_false_iff.mpr hpre
          rw [List.cons_append, strip_cons_no_match pat _ _ hpre2, hs r]
          rfl
        · rw [hk (fun hm => hno (List.mem_cons_of_mem _ hm))]
    | simple e rest he hrest =>
      simp only [List.length_cons] at hlen
      obtain ⟨B', hB', hs, hk⟩ := ih (n - 1) (by omega) rest (by omega) hrest
      have he96 : e ≠ Char.ofNat 96 := by
        intro h
        subst h
        revert he
        decide
      refine ⟨'\\' :: e :: B', Body.simple e B' he hB', fun r => ?_, fun hno => ?_⟩
      · rw [List.cons_append, List.cons_append, strip_cons hp _ _ (by decide),
          strip_cons hp _ _ he96, hs r]
        rfl
      · rw [hk (fun hm => hno (List.mem_cons_of_mem _ (List.mem_cons_of_mem _ hm)))]
    | unicode a b c d rest hh hrest =>
      simp only [List.length_cons] at hlen
      obtain ⟨B', hB', hs, hk⟩ := ih (n - 1) (by omega) rest (by omega) hrest
      obtain ⟨t1, t2, t3, t4⟩ := hex4_ne_tick _ _ _ _ hh
      refine ⟨'\\' :: 'u' :: a :: b :: c :: d :: B', Body.unicode a b c d B' hh hB',
        fun r => ?_, fun hno => ?_⟩
      · simp only [List.cons_append]
        rw [strip_cons hp _ _ (by decide), strip_cons hp _ _ (by decide), strip_cons hp _ _ t1,
          strip_cons hp _ _ t2, strip_cons hp _ _ t3, strip_cons hp _ _ t4, hs r]
      · rw [hk (fun hm => hno (by simp [hm]))]

theorem parseStringBody_mono (f : Nat) : ∀ (cs : List Char) (p : List Char × List Char) (g : Nat),
    parseStringBody f cs = some p → f ≤ g → parseStringBody g cs = some p := by
  induction f with
  | zero => intro cs p g h; simp [parseStringBody] at h
  | succ f ih =>
    intro cs p g h hg
    obtain ⟨g, rfl⟩ : ∃ k, g = k + 1 := ⟨g - 1, by omega⟩
    cases cs with
    | nil => simp [parseStringBody] at h
    | cons c rest =>
      simp only [parseStringBody] at h ⊢
      split_ifs at h ⊢ with h1 h2 h3
      · exact h
      · split at h
        · cases h
        · next x r1 hesc =>
          simp only [Option.map_eq_some'] at h ⊢
          obtain ⟨q, hq, he⟩ := h
          exact ⟨q, ih _ _ g hq (by omega), he⟩
      · simp only [Option.map_eq_some'] at h ⊢
        obtain ⟨q, hq, he⟩ := h
        exact ⟨q, ih _ _ g hq (by omega), he⟩

/-- A string literal after fence stripping: the stripped text is again a string body up to
the same closing quote, it is read whatever follows, and a string without backticks is
read as the same string. -/
theorem string_strip {pat : List Char} (hp : IsFencePattern pat) (f : Nat)
    (cs s r : List Char) (h : parseStringBody f cs = some (s, r)) :
    ∃ B B' s', cs = B ++ '"' :: r ∧
      (∀ r', strip pat (B ++ '"' :: r') = B' ++ '"' :: strip pat r') ∧
      (∀ r' g, B'.length + 1 ≤ g → parseStringBody g (B' ++ '"' :: r') = some (s', r')) ∧
      (Char.ofNat 96 ∉ s → s' = s) := by
  obtain ⟨B, hcs, hB, htick⟩ := parseStringBody_consumed f cs s r h
  obtain ⟨B', hB', hs, hk⟩ := body_strip hp B.length B (le_refl _) hB
  obtain ⟨s', hs'⟩ := body_parses B'.length B' (le_refl _) hB'
  refine ⟨B, B', s', hcs, hs, hs', fun hno => ?_⟩
  have hB'B : B' = B := hk (fun hm => hno (htick hm))
  subst hB'B
  have h1 := parseStringBody_mono f cs (s, r) (max f (B'.length + 1)) h (le_max_left _ _)
  have h2 := hs' r (max f (B'.length + 1)) (le_max_right _ _)
  rw [hcs] at h1
  rw [h1] at h2
  injection h2 with h2
  injection h2 with h2 _
  exact h2.symm

theorem ws_ne_tick (c : Char) (h : isJsonWs c = true) : c ≠ Char.ofNat 96 := by
  intro e
  subst e
  revert h
  decide

theorem skipWs_consumed (r : List Char) :
    ∃ W, r = W ++ skipWs r ∧ ∀ c ∈ W, isJsonWs c = true := by
  induction r with
  | nil => exact ⟨[], rfl, fun c hc => absurd hc (List.not_mem_nil _)⟩
  | cons c t ih =>
    by_cases hc : isJsonWs c = true
    · obtain ⟨W, hW, hall⟩ := ih
      refine ⟨c :: W, ?_, ?_⟩
      · simp only [skipWs, hc, if_true, List.cons_append]
        rw [← hW]
      · intro x hx
        simp only [List.mem_cons] at hx
        rcases hx with e | e
        · subst e; exact hc
        · exact hall x e
    · refine ⟨[], ?_, fun c hc => absurd hc (List.not_mem_nil _)⟩
      simp [skipWs, hc]

theorem skipWs_append (W X : List Char) (h : ∀ c ∈ W, isJsonWs c = true) :
    skipWs (W ++ X) = skipWs X := by
  induction W with
  | nil => rfl
  | cons c t ih =>
    simp only [List.cons_append, skipWs, h c (List.mem_cons_self _ _), if_true]
    exact ih (fun x hx => h x (List.mem_cons_of_mem _ hx))

theorem skipWs_head (r : List Char) (c : Char) (t : List Char) (h : skipWs r = c :: t) :
    isJsonWs c = false := by
  induction r with
  | nil => simp [skipWs] at h
  | cons x xs ih =>
    simp only [skipWs] at h
    split_ifs at h with hx
    · exact ih h
    · have := (List.cons.inj h).1
      subst this
      simpa using hx

theorem strip_ws {pat : List Char} (hp : IsFencePattern pat) (W X : List Char)
    (h : ∀ c ∈ W, isJsonWs c = true) : strip pat (W ++ X) = W ++ strip pat X :=
  strip_append hp W X fun c hc => ws_ne_tick c (h c hc)

/-- The input after a value that is followed by a separator or a closing bracket does not
continue a number. -/
theorem numberEnds_of_skipWs (r : List Char) (c : Char) (t : List Char)
    (h : skipWs r = c :: t) (hc : c = ',' ∨ c = ']' ∨ c = '}' ∨ c = ':') : numberEnds r := by
  cases r with
  | nil => trivial
  | cons x xs =>
    simp only [skipWs] at h
    split_ifs at h with hx
    · show isDigit x = false ∧ x ≠ '.' ∧ x ≠ 'e' ∧ x ≠ 'E'
      simp only [isJsonWs, Bool.or_eq_true, decide_eq_true_eq] at hx
      refine ⟨?_, ?_, ?_, ?_⟩
      · simp only [isDigit, Bool.and_eq_false_imp, decide_eq_true_eq, decide_eq_false_iff_not]
        omega
      all_goals
        intro e
        subst e
        revert hx
        decide
    · have := (List.cons.inj h).1
      subst this
      show isDigit x = false ∧ x ≠ '.' ∧ x ≠ 'e' ∧ x ≠ 'E'
      rcases hc with e | e | e | e <;> subst e <;> decide

theorem numberEnds_of_ws (r : List Char) (h : skipWs r = []) : numberEnds r := by
  cases r with
  | nil => trivial
  | cons x xs =>
    simp only [skipWs] at h
    split_ifs at h with hx
    show isDigit x = false ∧ x ≠ '.' ∧ x ≠ 'e' ∧ x ≠ 'E'
    simp only [isJsonWs, Bool.or_eq_true, decide_eq_true_eq] at hx
    refine ⟨?_, ?_, ?_, ?_⟩
    · simp only [isDigit, Bool.and_eq_false_imp, decide_eq_true_eq, decide_eq_false_iff_not]
      omega
    all_goals
      intro e
      subst e
      revert hx
      decide

theorem spanDigits_consumed (cs : List Char) :
    cs = (spanDigits cs).1 ++ (spanDigits cs).2 ∧
    (∀ c ∈ (spanDigits cs).1, isDigit c = true) ∧
    (∀ c r, (spanDigits cs).2 = c :: r → isDigit c = false) := by
  induction cs with
  | nil => simp [spanDigits]
  | cons c t ih =>
    by_cases hc : isDigit c = true
    · obtain ⟨h1, h2, h3⟩ := ih
      simp only [spanDigits, hc, if_true]
      refine ⟨by rw [List.cons_append, ← h1], ?_, h3⟩
      intro x hx
      simp only [List.mem_cons] at hx
      rcases hx with e | e
      · subst e; exact hc
      · exact h2 x e
    · simp only [spanDigits, hc]
      refine ⟨rfl, fun x hx => absurd hx (List.not_mem_nil _), fun x r hx => ?_⟩
      have := (List.cons.inj hx).1
      subst this
      simpa using hc

theorem digit_ne_tick (c : Char) (h : isDigit c = true) : c ≠ Char.ofNat 96 := by
  intro e
  subst e
  revert h
  decide

theorem parseFraction_consumed (r1 fp r2 : List Char)
    (h : parseFraction r1 = some (fp, r2)) :
    (fp = [] ∧ r2 = r1 ∧ ∀ c r, r1 = c :: r → c ≠ '.') ∨
    (r1 = '.' :: (fp ++ r2) ∧ fp ≠ [] ∧ (∀ c ∈ fp, isDigit c = true) ∧
      ∀ c r, r2 = c :: r → isDigit c = false) := by
  cases r1 with
  | nil =>
    simp only [parseFraction] at h
    injection h with h
    injection h with h1 h2
    exact Or.inl ⟨h1.symm, h2.symm, fun c r hr => by cases hr⟩
  | cons c t =>
    simp only [parseFraction] at h
    split_ifs at h with h1 h2
    · injection h with h
      obtain ⟨s1, s2, s3⟩ := spanDigits_consumed t
      rw [h] at s1 s2 s3
      rw [h] at h2
      subst h1
      refine Or.inr ⟨by rw [← s1], ?_, s2, s3⟩
      intro e
      subst e
      simp at h2
    · injection h with h
      injection h with h1' h2'
      refine Or.inl ⟨h1'.symm, h2'.symm, fun x r hr => ?_⟩
      have := (List.cons.inj hr).1
      subst this
      exact h1

theorem parseFraction_none (Y : List Char) (h : ∀ c r, Y = c :: r → c ≠ '.') :
    parseFraction Y = some ([], Y) := by
  cases Y with
  | nil => rfl
  | cons c t => simp [parseFraction, h c t rfl]

theorem parseFraction_some (fp Y : List Char) (hne : fp ≠ [])
    (hd : ∀ c ∈ fp, isDigit c = true) (hY : ∀ c r, Y = c :: r → isDigit c = false) :
    parseFraction ('.' :: (fp ++ Y)) = some (fp, Y) := by
  have := spanDigits_append fp Y hd hY
  simp only [parseFraction, if_true, this]
  cases fp with
  | nil => exact absurd rfl hne
  | cons _ _ => simp

theorem parseExponent_none (Y : List Char) (h : ∀ c r, Y = c :: r → c ≠ 'e' ∧ c ≠ 'E') :
    parseExponent Y = some (0, Y) := by
  cases Y with
  | nil => rfl
  | cons c t => simp [parseExponent, h c t rfl]

theorem parseExponent_consumed (r2 r3 : List Char) (e : Int)
    (h : parseExponent r2 = some (e, r3)) :
    (e = 0 ∧ r3 = r2 ∧ ∀ c r, r2 = c :: r → c ≠ 'e' ∧ c ≠ 'E') ∨
    ∃ X d, r2 = X ++ d :: r3 ∧ isDigit d = true ∧ (∀ c ∈ X, c ≠ Char.ofNat 96) ∧
      (∃ x t, X ++ [d] = x :: t ∧ (x = 'e' ∨ x = 'E')) ∧
      (∀ c r, r3 = c :: r → isDigit c = false) ∧
      ∀ Y, (∀ c r, Y = c :: r → isDigit c = false) →
        parseExponent (X ++ d :: Y) = some (e, Y) := by
  cases r2 with
  | nil =>
    simp only [parseExponent] at h
    injection h with h
    injection h with h1 h2
    exact Or.inl ⟨h1.symm, h2.symm, fun c r hr => by cases hr⟩
  | cons c t =>
    simp only [parseExponent] at h
    by_cases h1 : c = 'e' ∨ c = 'E'
    · rw [if_pos h1] at h
      by_cases h2 : (spanDigits (parseSign true t).2).1.isEmpty = true
      · rw [if_pos h2] at h
        cases h
      rw [if_neg h2] at h
      injection h with h
      injection h with hval hrest
      right
      obtain ⟨s1, s2, s3⟩ := spanDigits_consumed (parseSign true t).2
      rw [hrest] at s1 s3
      obtain ⟨S, hS, hSt, hSre⟩ : ∃ S, t = S ++ (parseSign true t).2 ∧
          (∀ c ∈ S, c ≠ Char.ofNat 96) ∧
          ∀ d Y, isDigit d = true →
            parseSign true (S ++ d :: Y) = ((parseSign true t).1, d :: Y) := by
        cases t with
        | nil =>
          refine ⟨[], rfl, fun c hc => absurd hc (List.not_mem_nil _), fun d Y hd => ?_⟩
          have e1 : ¬ d = '-' := by intro e; subst e; revert hd; decide
          have e2 : ¬ d = '+' := by intro e; subst e; revert hd; decide
          simp [parseSign, e1, e2]
        | cons x xs =>
          by_cases hx : x = '-'
          · subst hx
            refine ⟨['-'], by simp [parseSign], ?_, fun d Y hd => by simp [parseSign]⟩
            intro c hc
            simp only [List.mem_singleton] at hc
            subst hc
            decide
          · by_cases hx2 : x = '+'
            · subst hx2
              refine ⟨['+'], by simp [parseSign], ?_, fun d Y hd => by simp [parseSign]⟩
              intro c hc
              simp only [List.mem_singleton] at hc
              subst hc
              decide
            · refine ⟨[], by simp [parseSign, hx, hx2],
                fun c hc => absurd hc (List.not_mem_nil _), fun d Y hd => ?_⟩
              have e1 : ¬ d = '-' := by intro e; subst e; revert hd; decide
              have e2 : ¬ d = '+' := by intro e; subst e; revert hd; decide
              simp [parseSign, hx, hx2, e1, e2]
      generalize hds : (spanDigits (parseSign true t).2).1 = ds at *
      have hne : ds ≠ [] := by
        intro e
        subst e
        simp at h2
      obtain ⟨pre, d, hpd⟩ : ∃ pre d, ds = pre ++ [d] :=
        ⟨ds.dropLast, ds.getLast hne, (List.dropLast_append_getLast hne).symm⟩
      have hdig : isDigit d = true := s2 d (by rw [hpd]; simp)
      refine ⟨c :: (S ++ pre), d, ?_, hdig, ?_, ⟨c, S ++ pre ++ [d], by simp, h1⟩, s3, ?_⟩
      · rw [hS]
        conv_lhs => rw [s1, hpd]
        simp
      · intro x hx
        simp only [List.mem_cons, List.mem_append] at hx
        rcases hx with e | e | e
        · subst e
          rcases h1 with e | e <;> subst e <;> decide
        · exact hSt x e
        · exact digit_ne_tick x (s2 x (by rw [hpd]; simp [e]))
      · intro Y hY
        have hspan : spanDigits (ds ++ Y) = (ds, Y) := spanDigits_append ds Y s2 hY
        obtain ⟨d0, t0, hd0⟩ : ∃ d0 t0, ds = d0 :: t0 := by
          cases ds with
          | nil => exact absurd rfl hne
          | cons a b => exact ⟨a, b, rfl⟩
        have hd0dig : isDigit d0 = true := s2 d0 (by rw [hd0]; simp)
        have htext : c :: (S ++ pre) ++ d :: Y = c :: (S ++ d0 :: (t0 ++ Y)) := by
          have : pre ++ d :: Y = ds ++ Y := by rw [hpd]; simp
          rw [List.cons_append, List.append_assoc, this, hd0]
          rfl
        rw [htext]
        have hsign := hSre d0 (t0 ++ Y) hd0dig
        have hspan2 : spanDigits (d0 :: (t0 ++ Y)) = (ds, Y) := by
          rw [← List.cons_append, ← hd0]
          exact hspan
        simp only [parseExponent, h1, if_true, hsign, hspan2]
        rw [hd0] at hval ⊢
        simp only [List.isEmpty_cons, Bool.false_eq_true, if_false]
        rw [← hval]
    · rw [if_neg h1] at h
      injection h with h
      injection h with h1' h2'
      refine Or.inl ⟨h1'.symm, h2'.symm, fun x r hr => ?_⟩
      have := (List.cons.inj hr).1
      subst this
      exact not_or.mp h1

theorem parseNumber_eq (cs : List Char) :
    parseNumber cs = numberAfterSign (parseSign false cs).1 (parseSign false cs).2 := rfl

theorem numberEnds_facts (Y : List Char) (h : numberEnds Y) :
    (∀ c r, Y = c :: r → isDigit c = false) ∧ (∀ c r, Y = c :: r → c ≠ '.') ∧
      (∀ c r, Y = c :: r → c ≠ 'e' ∧ c ≠ 'E') := by
  cases Y with
  | nil =>
    exact ⟨fun c r h => (by cases h), fun c r h => (by cases h), fun c r h => (by cases h)⟩
  | cons x xs =>
    obtain ⟨h1, h2, h3, h4⟩ : isDigit x = false ∧ x ≠ '.' ∧ x ≠ 'e' ∧ x ≠ 'E' := h
    refine ⟨fun c r e => ?_, fun c r e => ?_, fun c r e => ?_⟩
    all_goals
      have hce := (List.cons.inj e).1
      subst hce
    · exact h1
    · exact h2
    · exact ⟨h3, h4⟩

theorem last_digit (ds : List Char) (hne : ds ≠ []) (hd : ∀ c ∈ ds, isDigit c = true) :
    ∃ pre d, ds = pre ++ [d] ∧ isDigit d = true :=
  ⟨ds.dropLast, ds.getLast hne, (List.dropLast_append_getLast hne).symm,
    hd _ (List.getLast_mem hne)⟩

theorem numberAfterSign_consumed (neg : Bool) (body : List Char) (v : JsVal) (r : List Char)
    (h : numberAfterSign neg body = some (v, r)) (hr : numberEnds r) :
    ∃ N, body = N ++ r ∧ (∀ c ∈ N, c ≠ Char.ofNat 96) ∧
      (∃ pre d, N = pre ++ [d] ∧ isDigit d = true) ∧
      (∃ x t, N = x :: t ∧ isDigit x = true) ∧
      ∀ Y, numberEnds Y → numberAfterSign neg (N ++ Y) = some (v, Y) := by
  unfold numberAfterSign at h
  simp only at h
  obtain ⟨s1, s2, s3⟩ := spanDigits_consumed body
  generalize hip : (spanDigits body).1 = ip at *
  generalize hr1 : (spanDigits body).2 = r1 at *
  by_cases hemp : ip.isEmpty = true
  · rw [if_pos hemp] at h
    cases h
  rw [if_neg hemp] at h
  by_cases hzero : ip.head? = some '0' ∧ 1 < ip.length
  · rw [if_pos hzero] at h
    cases h
  rw [if_neg hzero] at h
  have hne : ip ≠ [] := by
    intro e
    subst e
    simp at hemp
  obtain ⟨x0, t0, hx0⟩ : ∃ x0 t0, ip = x0 :: t0 := by
    cases ip with
    | nil => exact absurd rfl hne
    | cons a b => exact ⟨a, b, rfl⟩
  have hx0d : isDigit x0 = true := s2 x0 (by rw [hx0]; simp)
  have hiptick : ∀ c ∈ ip, c ≠ Char.ofNat 96 := fun c hc => digit_ne_tick c (s2 c hc)
  have reparse : ∀ (rest1 : List Char) (fp r2' r3' : List Char) (e : Int),
      (∀ c r, rest1 = c :: r → isDigit c = false) →
      parseFraction rest1 = some (fp, r2') → parseExponent r2' = some (e, r3') →
      numberAfterSign neg (ip ++ rest1) =
        some (mkNum neg (digitsToNat (ip ++ fp)) (e - fp.length), r3') := by
    intro rest1 fp r2' r3' e hd hf he
    have hspan := spanDigits_append ip rest1 s2 hd
    unfold numberAfterSign
    simp only [hspan, if_neg hemp, if_neg hzero, hf, he]
  split at h
  · cases h
  · next fp r2 hfrac =>
    split at h
    · cases h
    · next e r3 hexp =>
      injection h with h
      injection h with hv hr3
      subst hr3
      subst hv
      obtain ⟨yd, ydot, ye⟩ := numberEnds_facts r3 hr
      rcases parseFraction_consumed _ _ _ hfrac with ⟨hfp, hr2, hdot⟩ | ⟨hr1', hfne, hfd, hr2d⟩
      · subst hfp
        subst hr2
        rcases parseExponent_consumed _ _ _ hexp with ⟨he0, hr3, hee⟩ |
          ⟨X, d, hX, hd, hXt, ⟨x, t, hxt, hxe⟩, hr3d, hre⟩
        · subst hr3
          refine ⟨ip, s1, hiptick, last_digit ip hne s2, ⟨x0, t0, hx0, hx0d⟩, fun Y hY => ?_⟩
          obtain ⟨y1, y2, y3⟩ := numberEnds_facts Y hY
          rw [reparse Y [] Y Y e y1 (parseFraction_none Y y2)
            (by rw [he0]; exact parseExponent_none Y y3)]
        · have hhead : ∀ Y c r, X ++ d :: Y = c :: r → c = x := by
            intro Y c r hc
            have : X ++ d :: Y = x :: (t ++ Y) := by
              have : X ++ d :: Y = (X ++ [d]) ++ Y := by simp
              rw [this, hxt]
              rfl
            rw [this] at hc
            exact ((List.cons.inj hc).1).symm
          have hxnd : isDigit x = false := by
            rcases hxe with e1 | e1 <;> subst e1 <;> decide
          have hxndot : x ≠ '.' := by
            rcases hxe with e1 | e1 <;> subst e1 <;> decide
          refine ⟨ip ++ (X ++ [d]), ?_, ?_, ⟨ip ++ X, d, by simp, hd⟩,
            ⟨x0, t0 ++ (X ++ [d]), by rw [hx0]; rfl, hx0d⟩, fun Y hY => ?_⟩
          · rw [s1, hX]
            simp
          · intro c hc
            simp only [List.mem_append, List.mem_singleton] at hc
            rcases hc with hc | hc | hc
            · exact hiptick c hc
            · exact hXt c hc
            · subst hc
              exact digit_ne_tick c hd
          · obtain ⟨y1, y2, y3⟩ := numberEnds_facts Y hY
            have htext : ip ++ (X ++ [d]) ++ Y = ip ++ (X ++ d :: Y) := by simp
            rw [htext, reparse (X ++ d :: Y) [] (X ++ d :: Y) Y e
              (fun c r hc => by rw [hhead Y c r hc]; exact hxnd)
              (parseFraction_none _ (fun c r hc => by rw [hhead Y c r hc]; exact hxndot))
              (hre Y y1)]
      · rcases parseExponent_consumed _ _ _ hexp with ⟨he0, hr3, hee⟩ |
          ⟨X, d, hX, hd, hXt, ⟨x, t, hxt, hxe⟩, hr3d, hre⟩
        · subst hr3
          obtain ⟨pre, d, hpd, hdd⟩ := last_digit fp hfne hfd
          refine ⟨ip ++ '.' :: fp, ?_, ?_, ⟨ip ++ '.' :: pre, d, by rw [hpd]; simp, hdd⟩,
            ⟨x0, t0 ++ '.' :: fp, by rw [hx0]; rfl, hx0d⟩, fun Y hY => ?_⟩
          · rw [s1, hr1']
            simp
          · intro c hc
            simp only [List.mem_append, List.mem_cons] at hc
            rcases hc with hc | hc | hc
            · exact hiptick c hc
            · subst hc
              decide
            · exact digit_ne_tick c (hfd c hc)
          · obtain ⟨y1, y2, y3⟩ := numberEnds_facts Y hY
            have htext : ip ++ '.' :: fp ++ Y = ip ++ ('.' :: (fp ++ Y)) := by simp
            rw [htext, reparse ('.' :: (fp ++ Y)) fp Y Y e
              (fun c r hc => by rw [← (List.cons.inj hc).1]; decide)
              (parseFraction_some fp Y hfne hfd y1)
              (by rw [he0]; exact parseExponent_none Y y3)]
        · have hhead : ∀ Y c r, X ++ d :: Y = c :: r → c = x := by
            intro Y c r hc
            have : X ++ d :: Y = x :: (t ++ Y) := by
              have : X ++ d :: Y = (X ++ [d]) ++ Y := by simp
              rw [this, hxt]
              rfl
            rw [this] at hc
            exact ((List.cons.inj hc).1).symm
          have hxnd : isDigit x = false := by
            rcases hxe with e1 | e1 <;> subst e1 <;> decide
          refine ⟨ip ++ '.' :: (fp ++ (X ++ [d])), ?_, ?_,
            ⟨ip ++ '.' :: (fp ++ X), d, by simp, hd⟩,
            ⟨x0, t0 ++ '.' :: (fp ++ (X ++ [d])), by rw [hx0]; rfl, hx0d⟩, fun Y hY => ?_⟩
          · rw [s1, hr1', hX]
            simp
          · intro c hc
            simp only [List.mem_append, List.mem_cons, List.mem_singleton, List.not_mem_nil,
              or_false] at hc
            rcases hc with hc | hc | hc | hc | hc
            · exact hiptick c hc
            · subst hc
              decide
            · exact digit_ne_tick c (hfd c hc)
            · exact hXt c hc
            · subst hc
              exact digit_ne_tick c hd
          · obtain ⟨y1, y2, y3⟩ := numberEnds_facts Y hY
            have htext : ip ++ '.' :: (fp ++ (X ++ [d])) ++ Y =
                ip ++ ('.' :: (fp ++ (X ++ d :: Y))) := by simp
            rw [htext, reparse ('.' :: (fp ++ (X ++ d :: Y))) fp (X ++ d :: Y) Y e
              (fun c r hc => by rw [← (List.cons.inj hc).1]; decide)
              (parseFraction_some fp _ hfne hfd
                (fun c r hc => by rw [hhead Y c r hc]; exact hxnd))
              (hre Y y1)]

theorem number_consumed (cs : List Char) (v : JsVal) (r : List Char)
    (h : parseNumber cs = some (v, r)) (hr : numberEnds r) :
    ∃ N, cs = N ++ r ∧ (∀ c ∈ N, c ≠ Char.ofNat 96) ∧
      (∃ pre d, N = pre ++ [d] ∧ isDigit d = true) ∧
      (∃ x t, N = x :: t ∧ (isDigit x = true ∨ x = '-')) ∧
      ∀ Y, numberEnds Y → parseNumber (N ++ Y) = some (v, Y) := by
  rw [parseNumber_eq] at h
  cases cs with
  | nil =>
    obtain ⟨N, hN, _, _, ⟨x, t, hx, _⟩, _⟩ := numberAfterSign_consumed _ _ _ _ h hr
    subst hx
    simp [parseSign] at hN
  | cons c t =>
    by_cases hc : c = '-'
    · subst hc
      have hs : parseSign false ('-' :: t) = (true, t) := by simp [parseSign]
      rw [hs] at h
      simp only at h
      obtain ⟨N, hN, htick, ⟨pre, d, hpd, hd⟩, ⟨x, t', hx, hxd⟩, hre⟩ :=
        numberAfterSign_consumed _ _ _ _ h hr
      refine ⟨'-' :: N, by rw [hN]; rfl, ?_, ⟨'-' :: pre, d, by rw [hpd]; rfl, hd⟩,
        ⟨'-', N, rfl, Or.inr rfl⟩, fun Y hY => ?_⟩
      · intro a ha
        simp only [List.mem_cons] at ha
        rcases ha with e | e
        · subst e; decide
        · exact htick a e
      · rw [parseNumber_eq]
        have hs2 : parseSign false ('-' :: N ++ Y) = (true, N ++ Y) := by simp [parseSign]
        rw [hs2]
        exact hre Y hY
    · have hs : parseSign false (c :: t) = (false, c :: t) := by simp [parseSign, hc]
      rw [hs] at h
      simp only at h
      obtain ⟨N, hN, htick, hlast, ⟨x, t', hx, hxd⟩, hre⟩ :=
        numberAfterSign_consumed _ _ _ _ h hr
      refine ⟨N, hN, htick, hlast, ⟨x, t', hx, Or.inl hxd⟩, fun Y hY => ?_⟩
      rw [parseNumber_eq]
      have hx' : ¬ x = '-' := by
        intro e
        subst e
        revert hxd
        decide
      have hs2 : parseSign false (N ++ Y) = (false, N ++ Y) := by
        rw [hx]
        simp [parseSign, hx']
      rw [hs2]
      exact hre Y hY

theorem StripsTo.append {pat A A' B B' : List Char} (h1 : StripsTo pat A A')
    (h2 : StripsTo pat B B') : StripsTo pat (A ++ B) (A' ++ B') := by
  intro Y
  rw [List.append_assoc, h1, h2, List.append_assoc]

theorem StripsTo.of_tickFree {pat : List Char} (hp : IsFencePattern pat) (A : List Char)
    (h : ∀ c ∈ A, c ≠ Char.ofNat 96) : StripsTo pat A A :=
  fun Y => strip_append hp A Y h

theorem StripsTo.of_ws {pat : List Char} (hp : IsFencePattern pat) (W : List Char)
    (h : ∀ c ∈ W, isJsonWs c = true) : StripsTo pat W W :=
  fun Y => strip_ws hp W Y h

theorem StripsTo.single {pat : List Char} (hp : IsFencePattern pat) (c : Char)
    (h : c ≠ Char.ofNat 96) : StripsTo pat [c] [c] :=
  fun Y => strip_cons hp c Y h

theorem any_key_weak {props props' : List (String × JsVal)}
    (h : List.Forall₂ WeakProp props props') (k : String) :
    props'.any (fun p => p.1 = k) = props.any (fun p => p.1 = k) := by
  induction h with
  | nil => rfl
  | cons hab _ ih =>
    simp only [List.any_cons, ih, hab.1]

theorem replaceProp_weak {props props' : List (String × JsVal)}
    (h : List.Forall₂ WeakProp props props') (k : String) (v v' : JsVal) (hv : Weak v v') :
    List.Forall₂ WeakProp (replaceProp k v props) (replaceProp k v' props') := by
  induction h with
  | nil => exact List.Forall₂.nil
  | @cons a b l1 l2 hab hrest ih =>
    obtain ⟨ka, va⟩ := a
    obtain ⟨kb, vb⟩ := b
    have hk : kb = ka := hab.1
    subst hk
    simp only [replaceProp]
    split_ifs
    · exact List.Forall₂.cons ⟨rfl, hv⟩ hrest
    · exact List.Forall₂.cons hab ih

theorem insertIndexed_weak {props props' : List (String × JsVal)}
    (h : List.Forall₂ WeakProp props props') (n : Nat) (k : String) (v v' : JsVal)
    (hv : Weak v v') :
    List.Forall₂ WeakProp (insertIndexed n k v props) (insertIndexed n k v' props') := by
  induction h with
  | nil => exact List.Forall₂.cons ⟨rfl, hv⟩ List.Forall₂.nil
  | @cons a b l1 l2 hab hrest ih =>
    obtain ⟨ka, va⟩ := a
    obtain ⟨kb, vb⟩ := b
    have hk : kb = ka := hab.1
    subst hk
    simp only [insertIndexed]
    split
    · split_ifs
      · exact List.Forall₂.cons hab ih
      · exact List.Forall₂.cons ⟨rfl, hv⟩ (List.Forall₂.cons hab hrest)
    · exact List.Forall₂.cons ⟨rfl, hv⟩ (List.Forall₂.cons hab hrest)

theorem setProp_weak {props props' : List (String × JsVal)}
    (h : List.Forall₂ WeakProp props props') (k : String) (v v' : JsVal) (hv : Weak v v') :
    List.Forall₂ WeakProp (setProp props k v) (setProp props' k v') := by
  unfold setProp
  rw [any_key_weak h k]
  split_ifs
  · exact replaceProp_weak h k v v' hv
  · split
    · exact insertIndexed_weak h _ k v v' hv
    · exact List.rel_append h (List.Forall₂.cons ⟨rfl, hv⟩ List.Forall₂.nil)

theorem foldl_setProp_weak {ms ms' : List (String × JsVal)}
    (h : List.Forall₂ WeakProp ms ms') :
    ∀ props props', List.Forall₂ WeakProp props props' →
      List.Forall₂ WeakProp (ms.foldl (fun props m => setProp props m.1 m.2) props)
        (ms'.foldl (fun props m => setProp props m.1 m.2) props') := by
  induction h with
  | nil => intro props props' hp; exact hp
  | @cons a b l1 l2 hab _ ih =>
    intro props props' hp
    simp only [List.foldl_cons]
    apply ih
    have := setProp_weak hp a.1 a.2 b.2 hab.2
    rw [hab.1]
    exact this

theorem mem_keys_replaceProp (k : String) (v : JsVal) (props : List (String × JsVal)) :
    (replaceProp k v props).map Prod.fst = props.map Prod.fst := by
  induction props with
  | nil => rfl
  | cons p rest ih =>
    obtain ⟨a, b⟩ := p
    simp only [replaceProp]
    split_ifs
    · rfl
    · simp only [List.map_cons, ih]

theorem mem_keys_insertIndexed (n : Nat) (k : String) (v : JsVal)
    (props : List (String × JsVal)) (x : String) :
    x ∈ (insertIndexed n k v props).map Prod.fst ↔ x = k ∨ x ∈ props.map Prod.fst := by
  induction props with
  | nil => simp [insertIndexed]
  | cons p rest ih =>
    obtain ⟨a, b⟩ := p
    simp only [insertIndexed]
    split
    · split_ifs
      · simp only [List.map_cons, List.mem_cons, ih]
        tauto
      · simp
    · simp

theorem mem_keys_setProp (props : List (String × JsVal)) (k : String) (v : JsVal)
    (x : String) :
    x ∈ (setProp props k v).map Prod.fst ↔ x = k ∨ x ∈ props.map Prod.fst := by
  unfold setProp
  split_ifs with hany
  · rw [mem_keys_replaceProp]
    constructor
    · exact Or.inr
    · rintro (e | e)
      · subst e
        simp only [List.any_eq_true, decide_eq_true_eq] at hany
        obtain ⟨p, hp, hpk⟩ := hany
        rw [← hpk]
        exact List.mem_map_of_mem Prod.fst hp
      · exact e
  · split
    · exact mem_keys_insertIndexed _ _ _ _ _
    · simp only [List.map_append, List.map_cons, List.map_nil, List.mem_append,
        List.mem_singleton]
      tauto

theorem mem_keys_foldl (ms : List (String × JsVal)) :
    ∀ (props : List (String × JsVal)) (x : String),
      x ∈ (ms.foldl (fun props m => setProp props m.1 m.2) props).map Prod.fst ↔
        x ∈ ms.map Prod.fst ∨ x ∈ props.map Prod.fst := by
  induction ms with
  | nil => intro props x; simp
  | cons m rest ih =>
    intro props x
    simp only [List.foldl_cons, ih, mem_keys_setProp, List.map_cons, List.mem_cons]
    tauto

theorem tickFree_of_mem_keys (props : List (String × JsVal)) (h : JsVal.TickFreeProps props) :
    ∀ x ∈ props.map Prod.fst, Char.ofNat 96 ∉ x.data := by
  induction props with
  | nil => intro x hx; cases hx
  | cons p rest ih =>
    obtain ⟨a, b⟩ := p
    obtain ⟨h1, _, h3⟩ : Char.ofNat 96 ∉ a.data ∧ JsVal.TickFreeKeys b ∧
      JsVal.TickFreeProps rest := by
      simpa only [JsVal.TickFreeProps] using h
    intro x hx
    simp only [List.map_cons, List.mem_cons] at hx
    rcases hx with e | e
    · subst e; exact h1
    · exact ih h3 x e

theorem skeletonProps_of_weak {props props' : List (String × JsVal)}
    (h : List.Forall₂ WeakProp props props') (htf : JsVal.TickFreeProps props) :
    JsVal.skeletonProps props' = JsVal.skeletonProps props := by
  induction h with
  | nil => rfl
  | @cons a b l1 l2 hab _ ih =>
    obtain ⟨ka, va⟩ := a
    obtain ⟨kb, vb⟩ := b
    obtain ⟨_, h2, h3⟩ : Char.ofNat 96 ∉ ka.data ∧ JsVal.TickFreeKeys va ∧
      JsVal.TickFreeProps l1 := by
      simpa only [JsVal.TickFreeProps] using htf
    have hk : kb = ka := hab.1
    subst hk
    simp only [JsVal.skeletonProps]
    rw [ih h3, hab.2 h2]

theorem weakProp_of_weakMember {ms ms' : List (String × JsVal)}
    (h : List.Forall₂ WeakMember ms ms')
    (hk : ∀ x ∈ ms.map Prod.fst, Char.ofNat 96 ∉ x.data) : List.Forall₂ WeakProp ms ms' := by
  induction h with
  | nil => exact List.Forall₂.nil
  | @cons a b l1 l2 hab _ ih =>
    refine List.Forall₂.cons ⟨hab.1 (hk a.1 (by simp)), hab.2⟩ (ih fun x hx => hk x ?_)
    simp only [List.map_cons, List.mem_cons]
    exact Or.inr hx

/-- The objects built from two member lists related by `WeakMember` are related by
`Weak`. -/
theorem mkObject_weak {ms ms' : List (String × JsVal)}
    (h : List.Forall₂ WeakMember ms ms') : Weak (mkObject ms) (mkObject ms') := by
  intro htf
  have htf' : JsVal.TickFreeProps (ms.foldl (fun props m => setProp props m.1 m.2) []) := by
    simpa only [mkObject, JsVal.TickFreeKeys] using htf
  have hkeys : ∀ x ∈ ms.map Prod.fst, Char.ofNat 96 ∉ x.data := by
    intro x hx
    exact tickFree_of_mem_keys _ htf' x ((mem_keys_foldl ms [] x).2 (Or.inl hx))
  have hw := foldl_setProp_weak (weakProp_of_weakMember h hkeys) [] [] List.Forall₂.nil
  simp only [mkObject, JsVal.skeleton]
  rw [skeletonProps_of_weak hw htf']

theorem parseNumber_head (cs : List Char) (p : JsVal × List Char)
    (h : parseNumber cs = some p) :
    ∃ c t, cs = c :: t ∧ (isDigit c = true ∨ c = '-') := by
  cases cs with
  | nil => simp [parseNumber, parseSign, spanDigits] at h
  | cons c t =>
    by_cases hc : c = '-'
    · exact ⟨c, t, rfl, Or.inr hc⟩
    · by_cases hd : isDigit c = true
      · exact ⟨c, t, rfl, Or.inl hd⟩
      · simp [parseNumber, parseSign, hc, spanDigits, hd] at h

theorem parseValue_head (f : Nat) (cs : List Char) (p : JsVal × List Char)
    (h : parseValue f cs = some p) : ∃ c t, cs = c :: t ∧ isValueHead c = true := by
  cases f with
  | zero => simp [parseValue] at h
  | succ f =>
    unfold parseValue at h
    split at h
    · exact ⟨_, _, rfl, by decide⟩
    · exact ⟨_, _, rfl, by decide⟩
    · exact ⟨_, _, rfl, by decide⟩
    · exact ⟨_, _, rfl, by decide⟩
    · exact ⟨_, _, rfl, by decide⟩
    · exact ⟨_, _, rfl, by decide⟩
    · obtain ⟨c, t, hc, hd⟩ := parseNumber_head _ _ h
      refine ⟨c, t, hc, ?_⟩
      rcases hd with hd | hd
      · simp [isValueHead, hd]
      · subst hd
        decide

theorem parseElements_head (f : Nat) (cs : List Char) (p : List JsVal × List Char)
    (h : parseElements f cs = some p) : ∃ c t, cs = c :: t ∧ isValueHead c = true := by
  cases f with
  | zero => simp [parseElements] at h
  | succ f =>
    unfold parseElements at h
    split at h
    · cases h
    · next v r hv => exact parseValue_head f cs _ hv

theorem parseMembers_head (f : Nat) (cs : List Char)
    (p : List (String × JsVal) × List Char) (h : parseMembers f cs = some p) :
    ∃ t, cs = '"' :: t := by
  cases f with
  | zero => simp [parseMembers] at h
  | succ f =>
    unfold parseMembers at h
    split at h
    · exact ⟨_, rfl⟩
    · cases h

theorem valueHead_not_trimSpace (c : Char) (h : isValueHead c = true) :
    isTrimSpace c = false := by
  simp only [isValueHead, Bool.or_eq_true, decide_eq_true_eq] at h
  rcases h with ((((((h | h) | h) | h) | h) | h) | h) | h
  any_goals (subst h; decide)
  simp only [isDigit, Bool.and_eq_true, decide_eq_true_eq] at h
  simp only [isTrimSpace, Bool.or_eq_false_iff, Bool.and_eq_false_imp, decide_eq_false_iff_not,
    decide_eq_true_eq]
  omega

theorem skipWs_split (r : List Char) (c : Char) (t : List Char) (h : skipWs r = c :: t) :
    ∃ W, r = W ++ c :: t ∧ ∀ x ∈ W, isJsonWs x = true := by
  obtain ⟨W, hW, hall⟩ := skipWs_consumed r
  rw [h] at hW
  exact ⟨W, hW, hall⟩

theorem skipWs_ws_head (W : List Char) (c : Char) (t : List Char)
    (hW : ∀ x ∈ W, isJsonWs x = true) (hc : isJsonWs c = false) :
    skipWs (W ++ c :: t) = c :: t := by
  rw [skipWs_append W _ hW, skipWs_of_head c t hc]

theorem parseValue_string (f : Nat) (X s Y : List Char)
    (h : parseStringBody (X.length + 1) X = some (s, Y)) :
    parseValue (f + 1) ('"' :: X) = some (.str (String.mk s), Y) := by
  simp only [parseValue, h, Option.map_some']

theorem parseValue_array_empty (f : Nat) (W Y : List Char)
    (hW : ∀ x ∈ W, isJsonWs x = true) :
    parseValue (f + 1) ('[' :: (W ++ ']' :: Y)) = some (.arr [], Y) := by
  simp only [parseValue, skipWs_ws_head W ']' Y hW (by decide), List.head?_cons, if_true,
    List.tail_cons]

theorem parseValue_array (f : Nat) (W X Y : List Char) (l : List JsVal)
    (hW : ∀ x ∈ W, isJsonWs x = true) (hX : parseElements f X = some (l, Y)) :
    parseValue (f + 1) ('[' :: (W ++ X)) = some (.arr l, Y) := by
  obtain ⟨c, t, hc, hv⟩ := parseElements_head f X _ hX
  obtain ⟨h1, h2, _⟩ := isValueHead_facts c hv
  subst hc
  have hne : ¬ (some c = some ']') := by
    intro e
    exact h2 (Option.some.inj e)
  simp only [parseValue, skipWs_ws_head W c t hW h1, List.head?_cons, if_neg hne, hX,
    Option.map_some']

theorem parseValue_object_empty (f : Nat) (W Y : List Char)
    (hW : ∀ x ∈ W, isJsonWs x = true) :
    parseValue (f + 1) ('{' :: (W ++ '}' :: Y)) = some (.obj [], Y) := by
  simp only [parseValue, skipWs_ws_head W '}' Y hW (by decide), List.head?_cons, if_true,
    List.tail_cons]

theorem parseValue_object (f : Nat) (W X Y : List Char) (ms : List (String × JsVal))
    (hW : ∀ x ∈ W, isJsonWs x = true) (hX : parseMembers f X = some (ms, Y)) :
    parseValue (f + 1) ('{' :: (W ++ X)) = some (mkObject ms, Y) := by
  obtain ⟨t, hc⟩ := parseMembers_head f X _ hX
  subst hc
  have hne : ¬ (some '"' = some '}') := by decide
  simp only [parseValue, skipWs_ws_head W '"' t hW (by decide), List.head?_cons, if_neg hne, hX,
    Option.map_some']

theorem parseElements_more (f : Nat) (X W1 W2 Z Y : List Char) (v : JsVal) (l : List JsVal)
    (hv : parseValue f X = some (v, W1 ++ ',' :: (W2 ++ Z)))
    (hW1 : ∀ x ∈ W1, isJsonWs x = true) (hW2 : ∀ x ∈ W2, isJsonWs x = true)
    (hl : parseElements f Z = some (l, Y)) :
    parseElements (f + 1) X = some (v :: l, Y) := by
  obtain ⟨c, t, hc, hh⟩ := parseElements_head f Z _ hl
  obtain ⟨h1, _, _⟩ := isValueHead_facts c hh
  have hsk : skipWs (W2 ++ Z) = Z := by
    rw [hc]
    exact skipWs_ws_head W2 c t hW2 h1
  simp only [parseElements, hv, skipWs_ws_head W1 ',' _ hW1 (by decide), hsk, hl,
    Option.map_some']

theorem parseElements_last (f : Nat) (X W1 Y : List Char) (v : JsVal)
    (hv : parseValue f X = some (v, W1 ++ ']' :: Y))
    (hW1 : ∀ x ∈ W1, isJsonWs x = true) :
    parseElements (f + 1) X = some ([v], Y) := by
  simp only [parseElements, hv, skipWs_ws_head W1 ']' _ hW1 (by decide)]

theorem parseMembers_more (f : Nat) (K W1 W2 V W3 W4 Z Y key : List Char) (v : JsVal)
    (ms : List (String × JsVal))
    (hk : parseStringBody (K.length + 1) K = some (key, W1 ++ ':' :: (W2 ++ V)))
    (hW1 : ∀ x ∈ W1, isJsonWs x = true) (hW2 : ∀ x ∈ W2, isJsonWs x = true)
    (hv : parseValue f V = some (v, W3 ++ ',' :: (W4 ++ Z)))
    (hW3 : ∀ x ∈ W3, isJsonWs x = true) (hW4 : ∀ x ∈ W4, isJsonWs x = true)
    (hm : parseMembers f Z = some (ms, Y)) :
    parseMembers (f + 1) ('"' :: K) = some ((String.mk key, v) :: ms, Y) := by
  obtain ⟨c, t, hc, hh⟩ := parseValue_head f V _ hv
  obtain ⟨h1, _, _⟩ := isValueHead_facts c hh
  have hsk : skipWs (W2 ++ V) = V := by
    rw [hc]
    exact skipWs_ws_head W2 c t hW2 h1
  obtain ⟨t2, hc2⟩ := parseMembers_head f Z _ hm
  have hsk2 : skipWs (W4 ++ Z) = Z := by
    rw [hc2]
    exact skipWs_ws_head W4 '"' t2 hW4 (by decide)
  simp only [parseMembers, hk, skipWs_ws_head W1 ':' _ hW1 (by decide), hsk, hv,
    skipWs_ws_head W3 ',' _ hW3 (by decide), hsk2, hm, Option.map_some']

theorem parseMembers_last (f : Nat) (K W1 W2 V W3 Y key : List Char) (v : JsVal)
    (hk : parseStringBody (K.length + 1) K = some (key, W1 ++ ':' :: (W2 ++ V)))
    (hW1 : ∀ x ∈ W1, isJsonWs x = true) (hW2 : ∀ x ∈ W2, isJsonWs x = true)
    (hv : parseValue f V = some (v, W3 ++ '}' :: Y))
    (hW3 : ∀ x ∈ W3, isJsonWs x = true) :
    parseMembers (f + 1) ('"' :: K) = some ([(String.mk key, v)], Y) := by
  obtain ⟨c, t, hc, hh⟩ := parseValue_head f V _ hv
  obtain ⟨h1, _, _⟩ := isValueHead_facts c hh
  have hsk : skipWs (W2 ++ V) = V := by
    rw [hc]
    exact skipWs_ws_head W2 c t hW2 h1
  simp only [parseMembers, hk, skipWs_ws_head W1 ':' _ hW1 (by decide), hsk, hv,
    skipWs_ws_head W3 '}' _ hW3 (by decide)]

theorem parseElements_inv (f : Nat) (cs : List Char) (l : List JsVal) (r : List Char)
    (h : parseElements (f + 1) cs = some (l, r)) :
    ∃ v r1, parseValue f cs = some (v, r1) ∧
      ((∃ r2 l1, skipWs r1 = ',' :: r2 ∧ parseElements f (skipWs r2) = some (l1, r) ∧
          l = v :: l1) ∨
        (skipWs r1 = ']' :: r ∧ l = [v])) := by
  unfold parseElements at h
  split at h
  · cases h
  · next v r1 hv =>
    refine ⟨v, r1, hv, ?_⟩
    split at h
    · next r2 hsk =>
      simp only [Option.map_eq_some'] at h
      obtain ⟨q, hq, hqe⟩ := h
      obtain ⟨l1, r'⟩ := q
      injection hqe with e1 e2
      subst e1
      subst e2
      exact Or.inl ⟨r2, l1, hsk, hq, rfl⟩
    · next r2 hsk =>
      injection h with h
      injection h with e1 e2
      subst e1
      subst e2
      exact Or.inr ⟨hsk, rfl⟩
    · cases h

theorem parseMembers_inv (f : Nat) (cs : List Char) (ms : List (String × JsVal))
    (r : List Char) (h : parseMembers (f + 1) cs = some (ms, r)) :
    ∃ K key r1 r2 v r3, cs = '"' :: K ∧ parseStringBody (K.length + 1) K = some (key, r1) ∧
      skipWs r1 = ':' :: r2 ∧ parseValue f (skipWs r2) = some (v, r3) ∧
      ((∃ r4 ms1, skipWs r3 = ',' :: r4 ∧ parseMembers f (skipWs r4) = some (ms1, r) ∧
          ms = (String.mk key, v) :: ms1) ∨
        (skipWs r3 = '}' :: r ∧ ms = [(String.mk key, v)])) := by
  unfold parseMembers at h
  split at h
  · next K =>
    split at h
    · cases h
    · next key r1 hk =>
      split at h
      · next r2 hsk =>
        split at h
        · cases h
        · next v r3 hv =>
          refine ⟨K, key, r1, r2, v, r3, rfl, hk, hsk, hv, ?_⟩
          split at h
          · next r4 hsk2 =>
            simp only [Option.map_eq_some'] at h
            obtain ⟨q, hq, hqe⟩ := h
            obtain ⟨ms1, r'⟩ := q
            injection hqe with e1 e2
            subst e1
            subst e2
            exact Or.inl ⟨r4, ms1, hsk2, hq, rfl⟩
          · next r4 hsk2 =>
            injection h with h
            injection h with e1 e2
            subst e1
            subst e2
            exact Or.inr ⟨hsk2, rfl⟩
          · cases h
      · cases h
  · cases h

theorem numberEnds_ws_sep (W : List Char) (c : Char) (t : List Char)
    (hW : ∀ x ∈ W, isJsonWs x = true) (hc : c = ',' ∨ c = ']' ∨ c = '}' ∨ c = ':') :
    numberEnds (W ++ c :: t) := by
  apply numberEnds_of_skipWs (W ++ c :: t) c t _ hc
  apply skipWs_ws_head W c t hW
  rcases hc with e | e | e | e <;> subst e <;> decide

theorem digit_not_trimSpace (c : Char) (h : isDigit c = true) : isTrimSpace c = false := by
  simp only [isDigit, Bool.and_eq_true, decide_eq_true_eq] at h
  simp only [isTrimSpace, Bool.or_eq_false_iff, Bool.and_eq_false_imp, decide_eq_false_iff_not,
    decide_eq_true_eq]
  omega

theorem head_of_skipWs (r0 : List Char) (c : Char) (h : (skipWs r0).head? = some c) :
    skipWs r0 = c :: (skipWs r0).tail := by
  cases hsk : skipWs r0 with
  | nil => rw [hsk] at h; cases h
  | cons x t =>
    rw [hsk] at h
    simp only [List.head?_cons, Option.some.injEq] at h
    subst h
    rfl

/-- Fence stripping against the parser, for values: when the parser reads a value from a
text, stops at `r`, and `r` does not continue a number, the text it read is mapped by
`strip` to a text from which the parser reads a value related to the first by `Weak`.
For the elements of an array and the members of an object likewise. -/
theorem strip_parse {pat : List Char} (hp : IsFencePattern pat) (fuel : Nat) :
    (∀ cs v r, parseValue fuel cs = some (v, r) → numberEnds r →
      ∃ C C' v', cs = C ++ r ∧ StripsTo pat C C' ∧
        (∀ Y, numberEnds Y → parseValue fuel (C' ++ Y) = some (v', Y)) ∧ Weak v v' ∧
        ∃ pre c, C' = pre ++ [c] ∧ isTrimSpace c = false) ∧
    (∀ cs l r, parseElements fuel cs = some (l, r) →
      ∃ C C' l', cs = C ++ r ∧ StripsTo pat C C' ∧
        (∀ Y, parseElements fuel (C' ++ Y) = some (l', Y)) ∧
        (JsVal.TickFreeList l → JsVal.skeletonList l' = JsVal.skeletonList l) ∧
        ∃ pre, C' = pre ++ [']']) ∧
    (∀ cs ms r, parseMembers fuel cs = some (ms, r) →
      ∃ C C' ms', cs = C ++ r ∧ StripsTo pat C C' ∧
        (∀ Y, parseMembers fuel (C' ++ Y) = some (ms', Y)) ∧
        List.Forall₂ WeakMember ms ms' ∧ ∃ pre, C' = pre ++ ['}']) := by
  induction fuel with
  | zero =>
    refine ⟨?_, ?_, ?_⟩
    · intro cs v r h; simp [parseValue] at h
    · intro cs l r h; simp [parseElements] at h
    · intro cs ms r h; simp [parseMembers] at h
  | succ f ih =>
    obtain ⟨ihV, ihE, ihM⟩ := ih
    refine ⟨?_, ?_, ?_⟩
    · intro cs v r h hr
      unfold parseValue at h
      split at h
      · injection h with h
        injection h with e1 e2
        subst e1
        subst e2
        exact ⟨['n', 'u', 'l', 'l'], ['n', 'u', 'l', 'l'], .null, rfl,
          StripsTo.of_tickFree hp _ (by decide), fun Y _ => by simp [parseValue],
          fun _ => rfl, ⟨['n', 'u', 'l'], 'l', rfl, by decide⟩⟩
      · injection h with h
        injection h with e1 e2
        subst e1
        subst e2
        exact ⟨['t', 'r', 'u', 'e'], ['t', 'r', 'u', 'e'], .bool true, rfl,
          StripsTo.of_tickFree hp _ (by decide), fun Y _ => by simp [parseValue],
          fun _ => rfl, ⟨['t', 'r', 'u'], 'e', rfl, by decide⟩⟩
      · injection h with h
        injection h with e1 e2
        subst e1
        subst e2
        exact ⟨['f', 'a', 'l', 's', 'e'], ['f', 'a', 'l', 's', 'e'], .bool false, rfl,
          StripsTo.of_tickFree hp _ (by decide), fun Y _ => by simp [parseValue],
          fun _ => rfl, ⟨['f', 'a', 'l', 's'], 'e', rfl, by decide⟩⟩
      · next r0 =>
        simp only [Option.map_eq_some'] at h
        obtain ⟨q, hq, hqe⟩ := h
        obtain ⟨s, r'⟩ := q
        injection hqe with e1 e2
        subst e1
        subst e2
        obtain ⟨B, B', s', hcs, hst, hre, _⟩ := string_strip hp _ _ _ _ hq
        refine ⟨'"' :: (B ++ ['"']), '"' :: (B' ++ ['"']), .str (String.mk s'), ?_, ?_, ?_,
          fun _ => rfl, ⟨'"' :: B', '"', rfl, by decide⟩⟩
        · rw [hcs]
          simp
        · intro Y
          have := hst Y
          simp only [List.cons_append, List.append_assoc, List.nil_append]
          rw [strip_cons hp '"' _ (by decide), this]
        · intro Y _
          have := hre Y ((B' ++ '"' :: Y).length + 1) (by simp only [List.length_append]; omega)
          simp only [List.cons_append, List.append_assoc, List.nil_append]
          exact parseValue_string f _ _ _ this
      · next r0 =>
        simp only at h
        by_cases hh : (skipWs r0).head? = some ']'
        · rw [if_pos hh] at h
          injection h with h
          injection h with e1 e2
          subst e1
          subst e2
          obtain ⟨W, hW, hall⟩ := skipWs_split r0 ']' _ (head_of_skipWs r0 ']' hh)
          refine ⟨'[' :: (W ++ [']']), '[' :: (W ++ [']']), .arr [], ?_, ?_, ?_,
            fun _ => rfl, ⟨'[' :: W, ']', rfl, by decide⟩⟩
          · conv_lhs => rw [hW]
            simp
          · exact (StripsTo.single hp '[' (by decide)).append
              ((StripsTo.of_ws hp W hall).append (StripsTo.single hp ']' (by decide)))
          · intro Y _
            have := parseValue_array_empty f W Y hall
            simpa using this
        · rw [if_neg hh] at h
          simp only [Option.map_eq_some'] at h
          obtain ⟨q, hq, hqe⟩ := h
          obtain ⟨l, r'⟩ := q
          injection hqe with e1 e2
          subst e1
          subst e2
          obtain ⟨CE, CE', l', hcs, hst, hre, hweak, ⟨pre, hpre⟩⟩ := ihE _ _ _ hq
          obtain ⟨W, hW, hall⟩ := skipWs_consumed r0
          refine ⟨'[' :: (W ++ CE), '[' :: (W ++ CE'), .arr l', ?_, ?_, ?_, ?_,
            ⟨'[' :: (W ++ pre), ']', by rw [hpre]; simp, by decide⟩⟩
          · conv_lhs => rw [hW, hcs]
            simp
          · exact (StripsTo.single hp '[' (by decide)).append
              ((StripsTo.of_ws hp W hall).append hst)
          · intro Y _
            have := parseValue_array f W (CE' ++ Y) Y l' hall (hre Y)
            simpa using this
          · intro htf
            simp only [JsVal.skeleton]
            rw [hweak htf]
      · next r0 =>
        simp only at h
        by_cases hh : (skipWs r0).head? = some '}'
        · rw [if_pos hh] at h
          injection h with h
          injection h with e1 e2
          subst e1
          subst e2
          obtain ⟨W, hW, hall⟩ := skipWs_split r0 '}' _ (head_of_skipWs r0 '}' hh)
          refine ⟨'{' :: (W ++ ['}']), '{' :: (W ++ ['}']), .obj [], ?_, ?_, ?_,
            fun _ => rfl, ⟨'{' :: W, '}', rfl, by decide⟩⟩
          · conv_lhs => rw [hW]
            simp
          · exact (StripsTo.single hp '{' (by decide)).append
              ((StripsTo.of_ws hp W hall).append (StripsTo.single hp '}' (by decide)))
          · intro Y _
            have := parseValue_object_empty f W Y hall
            simpa using this
        · rw [if_neg hh] at h
          simp only [Option.map_eq_some'] at h
          obtain ⟨q, hq, hqe⟩ := h
          obtain ⟨ms, r'⟩ := q
          injection hqe with e1 e2
          subst e1
          subst e2
          obtain ⟨CM, CM', ms', hcs, hst, hre, hweak, ⟨pre, hpre⟩⟩ := ihM _ _ _ hq
          obtain ⟨W, hW, hall⟩ := skipWs_consumed r0
          refine ⟨'{' :: (W ++ CM), '{' :: (W ++ CM'), mkObject ms', ?_, ?_, ?_,
            mkObject_weak hweak,
            ⟨'{' :: (W ++ pre), '}', by rw [hpre]; simp, by decide⟩⟩
          · conv_lhs => rw [hW, hcs]
            simp
          · exact (StripsTo.single hp '{' (by decide)).append
              ((StripsTo.of_ws hp W hall).append hst)
          · intro Y _
            have := parseValue_object f W (CM' ++ Y) Y ms' hall (hre Y)
            simpa using this
      · obtain ⟨N, hN, htick, ⟨pre, d, hpd, hd⟩, ⟨x, t, hx, hxd⟩, hre⟩ :=
          number_consumed _ _ _ h hr
        refine ⟨N, N, v, hN, StripsTo.of_tickFree hp N htick, ?_, fun _ => rfl,
          ⟨pre, d, hpd, digit_not_trimSpace d hd⟩⟩
        intro Y hY
        have h1 := hre Y hY
        rw [hx] at h1 ⊢
        rw [List.cons_append] at h1 ⊢
        rw [parseValue_number f x _ hxd]
        exact h1
    · intro cs l r h
      obtain ⟨v, r1, hv, hcase⟩ := parseElements_inv f cs l r h
      rcases hcase with ⟨r2, l1, hsk, hl1, hl⟩ | ⟨hsk, hl⟩
      · have hne : numberEnds r1 := numberEnds_of_skipWs r1 ',' r2 hsk (Or.inl rfl)
        obtain ⟨CV, CV', v', hcs, hst, hre, hweak, _⟩ := ihV cs v r1 hv hne
        obtain ⟨W1, hW1, hall1⟩ := skipWs_split r1 ',' r2 hsk
        obtain ⟨W2, hW2, hall2⟩ := skipWs_consumed r2
        obtain ⟨CE, CE', l1', hcs2, hst2, hre2, hweak2, ⟨pre, hpre⟩⟩ := ihE _ _ _ hl1
        refine ⟨CV ++ (W1 ++ ([','] ++ (W2 ++ CE))), CV' ++ (W1 ++ ([','] ++ (W2 ++ CE'))),
          v' :: l1', ?_, ?_, ?_, ?_, ⟨CV' ++ (W1 ++ ([','] ++ (W2 ++ pre))), ?_⟩⟩
        · conv_lhs => rw [hcs, hW1, hW2, hcs2]
          simp
        · exact hst.append ((StripsTo.of_ws hp W1 hall1).append
            ((StripsTo.single hp ',' (by decide)).append
              ((StripsTo.of_ws hp W2 hall2).append hst2)))
        · intro Y
          have hshape : CV' ++ (W1 ++ ([','] ++ (W2 ++ CE'))) ++ Y =
              CV' ++ (W1 ++ ',' :: (W2 ++ (CE' ++ Y))) := by simp
          rw [hshape]
          exact parseElements_more f _ W1 W2 (CE' ++ Y) Y v' l1'
            (hre _ (numberEnds_ws_sep W1 ',' _ hall1 (Or.inl rfl))) hall1 hall2 (hre2 Y)
        · intro htf
          subst hl
          obtain ⟨t1, t2⟩ : JsVal.TickFreeKeys v ∧ JsVal.TickFreeList l1 := by
            simpa only [JsVal.TickFreeList] using htf
          simp only [JsVal.skeletonList]
          rw [hweak t1, hweak2 t2]
        · rw [hpre]
          simp
      · have hne : numberEnds r1 := numberEnds_of_skipWs r1 ']' r hsk (Or.inr (Or.inl rfl))
        obtain ⟨CV, CV', v', hcs, hst, hre, hweak, _⟩ := ihV cs v r1 hv hne
        obtain ⟨W1, hW1, hall1⟩ := skipWs_split r1 ']' r hsk
        refine ⟨CV ++ (W1 ++ [']']), CV' ++ (W1 ++ [']']), [v'], ?_, ?_, ?_, ?_,
          ⟨CV' ++ W1, by simp⟩⟩
        · conv_lhs => rw [hcs, hW1]
          simp
        · exact hst.append ((StripsTo.of_ws hp W1 hall1).append
            (StripsTo.single hp ']' (by decide)))
        · intro Y
          have hshape : CV' ++ (W1 ++ [']']) ++ Y = CV' ++ (W1 ++ ']' :: Y) := by simp
          rw [hshape]
          exact parseElements_last f _ W1 Y v'
            (hre _ (numberEnds_ws_sep W1 ']' _ hall1 (Or.inr (Or.inl rfl)))) hall1
        · intro htf
          subst hl
          obtain ⟨t1, _⟩ : JsVal.TickFreeKeys v ∧ JsVal.TickFreeList [] := by
            simpa only [JsVal.TickFreeList] using htf
          simp only [JsVal.skeletonList]
          rw [hweak t1]
    · intro cs ms r h
      obtain ⟨K, key, r1, r2, v, r3, hcsK, hk, hsk1, hv, hcase⟩ := parseMembers_inv f cs ms r h
      obtain ⟨B, B', key', hK, hstK, hreK, hkey⟩ := string_strip hp _ _ _ _ hk
      obtain ⟨W1, hW1, hall1⟩ := skipWs_split r1 ':' r2 hsk1
      obtain ⟨W2, hW2, hall2⟩ := skipWs_consumed r2
      have hstB : StripsTo pat (B ++ ['"']) (B' ++ ['"']) := by
        intro Y
        have := hstK Y
        simpa using this
      have hmember : WeakMember (String.mk key, v) (String.mk key', v) →
          ∀ v', Weak v v' → WeakMember (String.mk key, v) (String.mk key', v') :=
        fun h v' hw => ⟨h.1, hw⟩
      have hkeyW : Char.ofNat 96 ∉ (String.mk key).data → String.mk key' = String.mk key := by
        intro hno
        rw [hkey hno]
      rcases hcase with ⟨r4, ms1, hsk3, hms1, hms⟩ | ⟨hsk3, hms⟩
      · have hne : numberEnds r3 := numberEnds_of_skipWs r3 ',' r4 hsk3 (Or.inl rfl)
        obtain ⟨CV, CV', v', hcs, hst, hre, hweak, _⟩ := ihV _ v r3 hv hne
        obtain ⟨W3, hW3, hall3⟩ := skipWs_split r3 ',' r4 hsk3
        obtain ⟨W4, hW4, hall4⟩ := skipWs_consumed r4
        obtain ⟨CM, CM', ms1', hcs2, hst2, hre2, hweak2, ⟨pre, hpre⟩⟩ := ihM _ _ _ hms1
        refine ⟨['"'] ++ ((B ++ ['"']) ++ (W1 ++ ([':'] ++ (W2 ++ (CV ++ (W3 ++ ([','] ++
            (W4 ++ CM)))))))),
          ['"'] ++ ((B' ++ ['"']) ++ (W1 ++ ([':'] ++ (W2 ++ (CV' ++ (W3 ++ ([','] ++
            (W4 ++ CM')))))))),
          (String.mk key', v') :: ms1', ?_, ?_, ?_, ?_,
          ⟨['"'] ++ ((B' ++ ['"']) ++ (W1 ++ ([':'] ++ (W2 ++ (CV' ++ (W3 ++ ([','] ++
            (W4 ++ pre)))))))), ?_⟩⟩
        · rw [hcsK, hK]
          conv_lhs => rw [hW1, hW2, hcs, hW3, hW4, hcs2]
          simp
        · exact (StripsTo.single hp '"' (by decide)).append (hstB.append
            ((StripsTo.of_ws hp W1 hall1).append ((StripsTo.single hp ':' (by decide)).append
              ((StripsTo.of_ws hp W2 hall2).append (hst.append
                ((StripsTo.of_ws hp W3 hall3).append
                  ((StripsTo.single hp ',' (by decide)).append
                    ((StripsTo.of_ws hp W4 hall4).append hst2))))))))
        · intro Y
          have hshape : ['"'] ++ ((B' ++ ['"']) ++ (W1 ++ ([':'] ++ (W2 ++ (CV' ++ (W3 ++
              ([','] ++ (W4 ++ CM')))))))) ++ Y =
              '"' :: (B' ++ '"' :: (W1 ++ ':' :: (W2 ++ (CV' ++ (W3 ++ ',' ::
                (W4 ++ (CM' ++ Y))))))) := by simp
          rw [hshape]
          exact parseMembers_more f _ W1 W2 _ W3 W4 (CM' ++ Y) Y key' v' ms1'
            (hreK _ _ (by simp only [List.length_append]; omega)) hall1 hall2
            (hre _ (numberEnds_ws_sep W3 ',' _ hall3 (Or.inl rfl))) hall3 hall4 (hre2 Y)
        · subst hms
          exact List.Forall₂.cons ⟨hkeyW, hweak⟩ hweak2
        · rw [hpre]
          simp
      · have hne : numberEnds r3 :=
          numberEnds_of_skipWs r3 '}' r hsk3 (Or.inr (Or.inr (Or.inl rfl)))
        obtain ⟨CV, CV', v', hcs, hst, hre, hweak, _⟩ := ihV _ v r3 hv hne
        obtain ⟨W3, hW3, hall3⟩ := skipWs_split r3 '}' r hsk3
        refine ⟨['"'] ++ ((B ++ ['"']) ++ (W1 ++ ([':'] ++ (W2 ++ (CV ++ (W3 ++ ['}'])))))),
          ['"'] ++ ((B' ++ ['"']) ++ (W1 ++ ([':'] ++ (W2 ++ (CV' ++ (W3 ++ ['}'])))))),
          [(String.mk key', v')], ?_, ?_, ?_, ?_,
          ⟨['"'] ++ ((B' ++ ['"']) ++ (W1 ++ ([':'] ++ (W2 ++ (CV' ++ W3))))), by simp⟩⟩
        · rw [hcsK, hK]
          conv_lhs => rw [hW1, hW2, hcs, hW3]
          simp
        · exact (StripsTo.single hp '"' (by decide)).append (hstB.append
            ((StripsTo.of_ws hp W1 hall1).append ((StripsTo.single hp ':' (by decide)).append
              ((StripsTo.of_ws hp W2 hall2).append (hst.append
                ((StripsTo.of_ws hp W3 hall3).append
                  (StripsTo.single hp '}' (by decide))))))))
        · intro Y
          have hshape : ['"'] ++ ((B' ++ ['"']) ++ (W1 ++ ([':'] ++ (W2 ++ (CV' ++
              (W3 ++ ['}'])))))) ++ Y =
              '"' :: (B' ++ '"' :: (W1 ++ ':' :: (W2 ++ (CV' ++ (W3 ++ '}' :: Y))))) := by simp
          rw [hshape]
          exact parseMembers_last f _ W1 W2 _ W3 Y key' v'
            (hreK _ _ (by simp only [List.length_append]; omega)) hall1 hall2
            (hre _ (numberEnds_ws_sep W3 '}' _ hall3 (Or.inr (Or.inr (Or.inl rfl))))) hall3
        · subst hms
          exact List.Forall₂.cons ⟨hkeyW, hweak⟩ List.Forall₂.nil

theorem JSON.parse_eq_ok (text : String) (v : JsVal) (h : JSON.parse text = .ok v) :
    ∃ rest, parseValue (2 * (skipWs text.data).length + 2) (skipWs text.data) = some (v, rest) ∧
      skipWs rest = [] := by
  unfold JSON.parse at h
  simp only at h
  split at h
  · cases h
  · next w rest hw =>
    split_ifs at h with hr
    injection h with h
    subst h
    refine ⟨rest, hw, ?_⟩
    simpa using hr

theorem ws_trimSpace (c : Char) (h : isJsonWs c = true) : isTrimSpace c = true := by
  simp only [isJsonWs, Bool.or_eq_true, decide_eq_true_eq] at h
  simp only [isTrimSpace, Bool.or_eq_true, decide_eq_true_eq, Bool.and_eq_true]
  omega

theorem dropWhile_all (p : Char → Bool) (A M : List Char) (hA : ∀ c ∈ A, p c = true) :
    (A ++ M).dropWhile p = M.dropWhile p := by
  induction A with
  | nil => rfl
  | cons a t ih =>
    simp only [List.cons_append, List.dropWhile_cons, hA a (List.mem_cons_self _ _), if_true]
    exact ih fun c hc => hA c (List.mem_cons_of_mem _ hc)

/-- The method `trim()` on a text between white space, when the text neither starts nor
ends with white space. -/
theorem trim_between (A M Z pre : List Char) (h l : Char) (t : List Char)
    (hA : ∀ c ∈ A, isTrimSpace c = true) (hZ : ∀ c ∈ Z, isTrimSpace c = true)
    (hM : M = h :: t) (hh : isTrimSpace h = false) (hM2 : M = pre ++ [l])
    (hl : isTrimSpace l = false) : trim (A ++ M ++ Z) = M := by
  unfold trim
  rw [List.append_assoc, dropWhile_all _ A _ hA]
  have h1 : (M ++ Z).dropWhile isTrimSpace = M ++ Z := by
    rw [hM]
    simp [List.dropWhile_cons, hh]
  rw [h1, List.reverse_append, dropWhile_all _ Z.reverse _ (fun c hc => hZ c (by simpa using hc))]
  have h2 : M.reverse.dropWhile isTrimSpace = M.reverse := by
    rw [hM2]
    simp [List.dropWhile_cons, hl]
  rw [h2, List.reverse_reverse]

mutual
theorem tickFree_skeleton : ∀ v : JsVal, (JsVal.skeleton v).TickFreeKeys ↔ v.TickFreeKeys
  | .null => by simp only [JsVal.skeleton]
  | .bool _ => by simp only [JsVal.skeleton]
  | .num _ _ => by simp only [JsVal.skeleton]
  | .str _ => by simp only [JsVal.skeleton, JsVal.TickFreeKeys]
  | .arr xs => by
    simp only [JsVal.skeleton, JsVal.TickFreeKeys]
    exact tickFreeList_skeleton xs
  | .obj ps => by
    simp only [JsVal.skeleton, JsVal.TickFreeKeys]
    exact tickFreeProps_skeleton ps
theorem tickFreeList_skeleton : ∀ xs : List JsVal,
    JsVal.TickFreeList (JsVal.skeletonList xs) ↔ JsVal.TickFreeList xs
  | [] => by simp only [JsVal.skeletonList]
  | x :: xs => by
    simp only [JsVal.skeletonList, JsVal.TickFreeList]
    rw [tickFree_skeleton x, tickFreeList_skeleton xs]
theorem tickFreeProps_skeleton : ∀ ps : List (String × JsVal),
    JsVal.TickFreeProps (JsVal.skeletonProps ps) ↔ JsVal.TickFreeProps ps
  | [] => by simp only [JsVal.skeletonProps]
  | (k, x) :: ps => by
    simp only [JsVal.skeletonProps, JsVal.TickFreeProps]
    rw [tickFree_skeleton x, tickFreeProps_skeleton ps]
end

theorem tickFree_of_skeleton_eq {v w : JsVal} (h : w.skeleton = v.skeleton)
    (hv : v.TickFreeKeys) : w.TickFreeKeys := by
  rw [← tickFree_skeleton, h, tickFree_skeleton]
  exact hv

theorem lookup_skeletonProps (ps : List (String × JsVal)) (k : String) :
    (JsVal.skeletonProps ps).lookup k = (ps.lookup k).map JsVal.skeleton := by
  induction ps with
  | nil => rfl
  | cons p rest ih =>
    obtain ⟨a, b⟩ := p
    simp only [JsVal.skeletonProps, List.lookup]
    cases k == a <;> simp [ih]

theorem prop_skeleton (x : Option JsVal) (k : String) :
    prop (x.map JsVal.skeleton) k = (prop x k).map JsVal.skeleton := by
  cases x with
  | none => rfl
  | some v =>
    cases v <;> simp [prop, JsVal.skeleton, lookup_skeletonProps]

theorem nonNullish_skeleton (x : Option JsVal) :
    nonNullish (x.map JsVal.skeleton) = nonNullish x := by
  cases x with
  | none => rfl
  | some v => cases v <;> rfl

theorem hasDigestShape_skeleton (v : JsVal) :
    hasDigestShape v.skeleton = hasDigestShape v := by
  have h0 : (some v.skeleton : Option JsVal) = (some v).map JsVal.skeleton := rfl
  simp only [hasDigestShape, h0, prop_skeleton, nonNullish_skeleton]

theorem hasDigestShape_of_skeleton_eq {v w : JsVal} (h : w.skeleton = v.skeleton) :
    hasDigestShape w = hasDigestShape v := by
  rw [← hasDigestShape_skeleton w, h, hasDigestShape_skeleton]

theorem numberEnds_ws_cons (c : Char) (t : List Char) (h : isJsonWs c = true) :
    numberEnds (c :: t) := by
  show isDigit c = false ∧ c ≠ '.' ∧ c ≠ 'e' ∧ c ≠ 'E'
  simp only [isJsonWs, Bool.or_eq_true, decide_eq_true_eq] at h
  refine ⟨?_, ?_, ?_, ?_⟩
  · simp only [isDigit, Bool.and_eq_false_imp, decide_eq_true_eq, decide_eq_false_iff_not]
    omega
  all_goals
    intro e
    subst e
    revert h
    decide

theorem numberEnds_ws_append (W X : List Char) (hW : ∀ c ∈ W, isJsonWs c = true)
    (hX : numberEnds X) : numberEnds (W ++ X) := by
  cases W with
  | nil => exact hX
  | cons c t => exact numberEnds_ws_cons c _ (hW c (List.mem_cons_self _ _))

theorem all_ws_of_skipWs_nil (rest : List Char) (h : skipWs rest = []) :
    ∀ c ∈ rest, isJsonWs c = true := by
  obtain ⟨W, hW, hall⟩ := skipWs_consumed rest
  rw [h, List.append_nil] at hW
  rw [hW]
  exact hall

theorem strip_open_fence (X : List Char) :
    strip (fence ++ ['j', 's', 'o', 'n'])
      (fence ++ ['j', 's', 'o', 'n'] ++ Char.ofNat 10 :: X) =
      strip (fence ++ ['j', 's', 'o', 'n']) X := by
  have hp : IsFencePattern (fence ++ ['j', 's', 'o', 'n']) := Or.inr rfl
  have hshape : fence ++ ['j', 's', 'o', 'n'] ++ Char.ofNat 10 :: X =
      Char.ofNat 96 :: (Char.ofNat 96 :: Char.ofNat 96 :: 'j' :: 's' :: 'o' :: 'n' ::
        Char.ofNat 10 :: X) := rfl
  have hpre : (fence ++ ['j', 's', 'o', 'n']).isPrefixOf
      (Char.ofNat 96 :: (Char.ofNat 96 :: Char.ofNat 96 :: 'j' :: 's' :: 'o' :: 'n' ::
        Char.ofNat 10 :: X)) = true := by
    simp [fence, List.isPrefixOf]
  rw [hshape, strip_cons_match hp _ _ hpre]
  rfl

/-- Parsing survives the two fence removals and the `trim()` of `stripFences`: when a text
parses to a value none of whose property names contains a backtick, the same text wrapped
in a code fence is stripped to a text that parses to a value with the same skeleton. -/
theorem parse_stripFences_fenced (j : String) (v : JsVal) (h : JSON.parse j = .ok v)
    (hv : v.TickFreeKeys) :
    ∃ w, JSON.parse (stripFences (fenced j)) = .ok w ∧ w.skeleton = v.skeleton := by
  have hp1 : IsFencePattern (fence ++ ['j', 's', 'o', 'n']) := Or.inr rfl
  have hp2 : IsFencePattern fence := Or.inl rfl
  obtain ⟨rest, hpv, hrest⟩ := JSON.parse_eq_ok j v h
  obtain ⟨W0, hW0, hall0⟩ := skipWs_consumed j.data
  have hallr := all_ws_of_skipWs_nil rest hrest
  have hnl : isJsonWs (Char.ofNat 10) = true := by decide
  have hY0 : numberEnds (rest ++ Char.ofNat 10 :: fence) :=
    numberEnds_ws_append rest _ hallr (numberEnds_ws_cons _ _ hnl)
  obtain ⟨C, C1, v1, hcs, hst1, hre1, hweak1, _⟩ :=
    (strip_parse hp1 _).1 _ _ _ hpv (numberEnds_of_ws rest hrest)
  have hsk1 : v1.skeleton = v.skeleton := hweak1 hv
  obtain ⟨C2, C2', v2, hcs2, hst2, hre2, hweak2, ⟨pre, l, hpre, hl⟩⟩ :=
    (strip_parse hp2 _).1 _ _ _ (hre1 _ hY0) hY0
  have hC2 : C1 = C2 := List.append_cancel_right hcs2
  subst hC2
  have hsk2 : v2.skeleton = v1.skeleton := hweak2 (tickFree_of_skeleton_eq hsk1 hv)
  have hparse2 := hre2 [] trivial
  rw [List.append_nil] at hparse2
  obtain ⟨hd, tl, hhd, hvh⟩ := parseValue_head _ _ _ hparse2
  have hdata : (fenced j).data = fence ++ ['j', 's', 'o', 'n'] ++
      Char.ofNat 10 :: (W0 ++ (C ++ (rest ++ Char.ofNat 10 :: fence))) := by
    show fence ++ ['j', 's', 'o', 'n'] ++ Char.ofNat 10 :: (j.data ++ Char.ofNat 10 :: fence) = _
    conv_lhs => rw [hW0, hcs]
    simp
  have hstep1 : strip (fence ++ ['j', 's', 'o', 'n']) (fenced j).data =
      W0 ++ (C1 ++ (rest ++ Char.ofNat 10 :: fence)) := by
    rw [hdata, strip_open_fence, strip_ws hp1 W0 _ hall0, hst1, strip_ws hp1 rest _ hallr,
      strip_cons hp1 _ _ (by decide)]
    rfl
  have hstep2 : strip fence (W0 ++ (C1 ++ (rest ++ Char.ofNat 10 :: fence))) =
      W0 ++ C2' ++ (rest ++ [Char.ofNat 10]) := by
    rw [strip_ws hp2 W0 _ hall0, hst2, strip_ws hp2 rest _ hallr, strip_cons hp2 _ _ (by decide)]
    have : strip fence fence = [] := rfl
    rw [this]
    simp
  have htrim : trim (W0 ++ C2' ++ (rest ++ [Char.ofNat 10])) = C2' := by
    apply trim_between W0 C2' _ pre hd l tl (fun c hc => ws_trimSpace c (hall0 c hc)) _ hhd
      (valueHead_not_trimSpace hd hvh) hpre hl
    intro c hc
    simp only [List.mem_append, List.mem_singleton] at hc
    rcases hc with hc | hc
    · exact ws_trimSpace c (hallr c hc)
    · subst hc
      decide
  have hstrip : stripFences (fenced j) = String.mk C2' := by
    unfold stripFences
    simp only
    rw [removeFence_eq_strip hp1 _ _ (by omega), hstep1, removeFence_eq_strip hp2 _ _ (by omega),
      hstep2, htrim]
  refine ⟨v2, ?_, by rw [hsk2, hsk1]⟩
  rw [hstrip]
  have hsk : skipWs C2' = C2' := by
    rw [hhd]
    exact skipWs_of_head hd tl (isValueHead_facts hd hvh).1
  refine parse_of_parseValue (String.mk C2') (2 * (skipWs j.data).length + 2) v2 [] ?_ rfl
  show parseValue _ (skipWs C2') = some (v2, [])
  rw [hsk]
  exact hparse2

theorem skeleton_eq_str (w : JsVal) (s : String) (h : w.skeleton = .str s) :
    ∃ t, w = .str t := by
  cases w <;> simp only [JsVal.skeleton] at h <;> first | exact ⟨_, rfl⟩ | cases h

theorem skeleton_eq_num (w : JsVal) (m : Int) (k : Nat) (h : w.skeleton = .num m k) :
    w = .num m k := by
  cases w <;> simp only [JsVal.skeleton] at h <;> first | exact h | cases h

theorem skeleton_eq_arr (w : JsVal) (l : List JsVal) (h : w.skeleton = .arr l) :
    ∃ xs, w = .arr xs ∧ JsVal.skeletonList xs = l := by
  cases w <;> simp only [JsVal.skeleton] at h <;>
    first | exact ⟨_, rfl, by injection h⟩ | cases h

theorem skeleton_eq_obj (w : JsVal) (q : List (String × JsVal)) (h : w.skeleton = .obj q) :
    ∃ ps, w = .obj ps ∧ JsVal.skeletonProps ps = q := by
  cases w <;> simp only [JsVal.skeleton] at h <;>
    first | exact ⟨_, rfl, by injection h⟩ | cases h

theorem skeletonProps_eq_cons (ps : List (String × JsVal)) (k : String) (x : JsVal)
    (q : List (String × JsVal)) (h : JsVal.skeletonProps ps = (k, x) :: q) :
    ∃ v ps', ps = (k, v) :: ps' ∧ v.skeleton = x ∧ JsVal.skeletonProps ps' = q := by
  cases ps with
  | nil => simp [JsVal.skeletonProps] at h
  | cons p rest =>
    obtain ⟨a, b⟩ := p
    simp only [JsVal.skeletonProps, List.cons.injEq, Prod.mk.injEq] at h
    obtain ⟨⟨h1, h2⟩, h3⟩ := h
    subst h1
    exact ⟨b, rest, rfl, h2, h3⟩

theorem skeletonProps_eq_nil (ps : List (String × JsVal)) (h : JsVal.skeletonProps ps = []) :
    ps = [] := by
  cases ps with
  | nil => rfl
  | cons p rest =>
    obtain ⟨a, b⟩ := p
    simp [JsVal.skeletonProps] at h

theorem skeletonList_strings (tags : List String) :
    ∀ xs, JsVal.skeletonList xs = JsVal.skeletonList (tags.map JsVal.str) →
      ∃ tags' : List String, xs = tags'.map JsVal.str := by
  induction tags with
  | nil =>
    intro xs h
    cases xs with
    | nil => exact ⟨[], rfl⟩
    | cons x rest => simp [JsVal.skeletonList] at h
  | cons t rest ih =>
    intro xs h
    cases xs with
    | nil => simp [JsVal.skeletonList] at h
    | cons x xs' =>
      simp only [List.map_cons, JsVal.skeletonList, List.cons.injEq] at h
      obtain ⟨s, hs⟩ := skeleton_eq_str x _ h.1
      obtain ⟨tags', ht⟩ := ih xs' h.2
      exact ⟨s :: tags', by rw [hs, ht]; rfl⟩

theorem article_of_skeleton (a : CuratedArticle) (w : JsVal)
    (h : w.skeleton = a.toJson.skeleton) : ∃ a' : CuratedArticle, w = a'.toJson := by
  obtain ⟨title, ot, url, source, category, relevance, summary, tags, reasoning⟩ := a
  cases ot with
  | none =>
    cases reasoning with
    | none =>
      simp only [CuratedArticle.toJson, objectLiteral, List.filterMap, Option.map,
        JsVal.skeleton, JsVal.skeletonProps] at h
      obtain ⟨ps, hw, hq⟩ := skeleton_eq_obj _ _ h
      subst hw
      clear h
      obtain ⟨v1, ps, rfl, e1, h⟩ := skeletonProps_eq_cons _ _ _ _ hq
      obtain ⟨v3, ps, rfl, e3, h⟩ := skeletonProps_eq_cons _ _ _ _ h
      obtain ⟨v4, ps, rfl, e4, h⟩ := skeletonProps_eq_cons _ _ _ _ h
      obtain ⟨v5, ps, rfl, e5, h⟩ := skeletonProps_eq_cons _ _ _ _ h
      obtain ⟨v6, ps, rfl, e6, h⟩ := skeletonProps_eq_cons _ _ _ _ h
      obtain ⟨v7, ps, rfl, e7, h⟩ := skeletonProps_eq_cons _ _ _ _ h
      obtain ⟨v8, ps, rfl, e8, h⟩ := skeletonProps_eq_cons _ _ _ _ h
      have := skeletonProps_eq_nil _ h
      subst this
      obtain ⟨s1, rfl⟩ := skeleton_eq_str _ _ e1
      obtain ⟨s3, rfl⟩ := skeleton_eq_str _ _ e3
      obtain ⟨s4, rfl⟩ := skeleton_eq_str _ _ e4
      obtain ⟨s5, rfl⟩ := skeleton_eq_str _ _ e5
      have := skeleton_eq_num _ _ _ e6
      subst this
      obtain ⟨s7, rfl⟩ := skeleton_eq_str _ _ e7
      obtain ⟨xs, rfl, hxs⟩ := skeleton_eq_arr _ _ e8
      obtain ⟨tags', rfl⟩ := skeletonList_strings tags xs hxs
      exact ⟨⟨s1, none, s3, s4, s5, relevance, s7, tags', none⟩, rfl⟩
    | some rs =>
      simp only [CuratedArticle.toJson, objectLiteral, List.filterMap, Option.map,
        JsVal.skeleton, JsVal.skeletonProps] at h
      obtain ⟨ps, hw, hq⟩ := skeleton_eq_obj _ _ h
      subst hw
      clear h
      obtain ⟨v1, ps, rfl, e1, h⟩ := skeletonProps_eq_cons _ _ _ _ hq
      obtain ⟨v3, ps, rfl, e3, h⟩ := skeletonProps_eq_cons _ _ _ _ h
      obtain ⟨v4, ps, rfl, e4, h⟩ := skeletonProps_eq_cons _ _ _ _ h
      obtain ⟨v5, ps, rfl, e5, h⟩ := skeletonProps_eq_cons _ _ _ _ h
      obtain ⟨v6, ps, rfl, e6, h⟩ := skeletonProps_eq_cons _ _ _ _ h
      obtain ⟨v7, ps, rfl, e7, h⟩ := skeletonProps_eq_cons _ _ _ _ h
      obtain ⟨v8, ps, rfl, e8, h⟩ := skeletonProps_eq_cons _ _ _ _ h
      obtain ⟨v9, ps, rfl, e9, h⟩ := skeletonProps_eq_cons _ _ _ _ h
      have := skeletonProps_eq_nil _ h
      subst this
      obtain ⟨s1, rfl⟩ := skeleton_eq_str _ _ e1
      obtain ⟨s3, rfl⟩ := skeleton_eq_str _ _ e3
      obtain ⟨s4, rfl⟩ := skeleton_eq_str _ _ e4
      obtain ⟨s5, rfl⟩ := skeleton_eq_str _ _ e5
      have := skeleton_eq_num _ _ _ e6
      subst this
      obtain ⟨s7, rfl⟩ := skeleton_eq_str _ _ e7
      obtain ⟨xs, rfl, hxs⟩ := skeleton_eq_arr _ _ e8
      obtain ⟨tags', rfl⟩ := skeletonList_strings tags xs hxs
      obtain ⟨s9, rfl⟩ := skeleton_eq_str _ _ e9
      exact ⟨⟨s1, none, s3, s4, s5, relevance, s7, tags', some s9⟩, rfl⟩
  | some os =>
    cases reasoning with
    | none =>
      simp only [CuratedArticle.toJson, objectLiteral, List.filterMap, Option.map,
        JsVal.skeleton, JsVal.skeletonProps] at h
      obtain ⟨ps, hw, hq⟩ := skeleton_eq_obj _ _ h
      subst hw
      clear h
      obtain ⟨v1, ps, rfl, e1, h⟩ := skeletonProps_eq_cons _ _ _ _ hq
      obtain ⟨v2, ps, rfl, e2, h⟩ := skeletonProps_eq_cons _ _ _ _ h
      obtain ⟨v3, ps, rfl, e3, h⟩ := skeletonProps_eq_cons _ _ _ _ h
      obtain ⟨v4, ps, rfl, e4, h⟩ := skeletonProps_eq_cons _ _ _ _ h
      obtain ⟨v5, ps, rfl, e5, h⟩ := skeletonProps_eq_cons _ _ _ _ h
      obtain ⟨v6, ps, rfl, e6, h⟩ := skeletonProps_eq_cons _ _ _ _ h
      obtain ⟨v7, ps, rfl, e7, h⟩ := skeletonProps_eq_cons _ _ _ _ h
      obtain ⟨v8, ps, rfl, e8, h⟩ := skeletonProps_eq_cons _ _ _ _ h
      have := skeletonProps_eq_nil _ h
      subst this
      obtain ⟨s1, rfl⟩ := skeleton_eq_str _ _ e1
      obtain ⟨s2, rfl⟩ := skeleton_eq_str _ _ e2
      obtain ⟨s3, rfl⟩ := skeleton_eq_str _ _ e3
      obtain ⟨s4, rfl⟩ := skeleton_eq_str _ _ e4
      obtain ⟨s5, rfl⟩ := skeleton_eq_str _ _ e5
      have := skeleton_eq_num _ _ _ e6
      subst this
      obtain ⟨s7, rfl⟩ := skeleton_eq_str _ _ e7
      obtain ⟨xs, rfl, hxs⟩ := skeleton_eq_arr _ _ e8
      obtain ⟨tags', rfl⟩ := skeletonList_strings tags xs hxs
      exact ⟨⟨s1, some s2, s3, s4, s5, relevance, s7, tags', none⟩, rfl⟩
    | some rs =>
      simp only [CuratedArticle.toJson, objectLiteral, List.filterMap, Option.map,
        JsVal.skeleton, JsVal.skeletonProps] at h
      obtain ⟨ps, hw, hq⟩ := skeleton_eq_obj _ _ h
      subst hw
      clear h
      obtain ⟨v1, ps, rfl, e1, h⟩ := skeletonProps_eq_cons _ _ _ _ hq
      obtain ⟨v2, ps, rfl, e2, h⟩ := skeletonProps_eq_cons _ _ _ _ h
      obtain ⟨v3, ps, rfl, e3, h⟩ := skeletonProps_eq_cons _ _ _ _ h
      obtain ⟨v4, ps, rfl, e4, h⟩ := skeletonProps_eq_cons _ _ _ _ h
      obtain ⟨v5, ps, rfl, e5, h⟩ := skeletonProps_eq_cons _ _ _ _ h
      obtain ⟨v6, ps, rfl, e6, h⟩ := skeletonProps_eq_cons _ _ _ _ h
      obtain ⟨v7, ps, rfl, e7, h⟩ := skeletonProps_eq_cons _ _ _ _ h
      obtain ⟨v8, ps, rfl, e8, h⟩ := skeletonProps_eq_cons _ _ _ _ h
      obtain ⟨v9, ps, rfl, e9, h⟩ := skeletonProps_eq_cons _ _ _ _ h
      have := skeletonProps_eq_nil _ h
      subst this
      obtain ⟨s1, rfl⟩ := skeleton_eq_str _ _ e1
      obtain ⟨s2, rfl⟩ := skeleton_eq_str _ _ e2
      obtain ⟨s3, rfl⟩ := skeleton_eq_str _ _ e3
      obtain ⟨s4, rfl⟩ := skeleton_eq_str _ _ e4
      obtain ⟨s5, rfl⟩ := skeleton_eq_str _ _ e5
      have := skeleton_eq_num _ _ _ e6
      subst this
      obtain ⟨s7, rfl⟩ := skeleton_eq_str _ _ e7
      obtain ⟨xs, rfl, hxs⟩ := skeleton_eq_arr _ _ e8
      obtain ⟨tags', rfl⟩ := skeletonList_strings tags xs hxs
      obtain ⟨s9, rfl⟩ := skeleton_eq_str _ _ e9
      exact ⟨⟨s1, some s2, s3, s4, s5, relevance, s7, tags', some s9⟩, rfl⟩

theorem articles_of_skeleton (as : List CuratedArticle) :
    ∀ xs, JsVal.skeletonList xs = JsVal.skeletonList (as.map CuratedArticle.toJson) →
      ∃ as' : List CuratedArticle, xs = as'.map CuratedArticle.toJson := by
  induction as with
  | nil =>
    intro xs h
    cases xs with
    | nil => exact ⟨[], rfl⟩
    | cons x rest => simp [JsVal.skeletonList] at h
  | cons a rest ih =>
    intro xs h
    cases xs with
    | nil => simp [JsVal.skeletonList] at h
    | cons x xs' =>
      simp only [List.map_cons, JsVal.skeletonList, List.cons.injEq] at h
      obtain ⟨a', ha⟩ := article_of_skeleton a x h.1
      obtain ⟨as', has⟩ := ih xs' h.2
      exact ⟨a' :: as', by rw [ha, has]; rfl⟩

/-- A value with the skeleton of a digest is a digest. -/
theorem digest_of_skeleton (d : Digest) (w : JsVal) (h : w.skeleton = d.toJson.skeleton) :
    ∃ d' : Digest, w = d'.toJson := by
  simp only [Digest.toJson, JsVal.skeleton, JsVal.skeletonProps] at h
  obtain ⟨ps, hw, hq⟩ := skeleton_eq_obj _ _ h
  subst hw
  clear h
  obtain ⟨v1, ps, rfl, e1, h⟩ := skeletonProps_eq_cons _ _ _ _ hq
  obtain ⟨v2, ps, rfl, e2, h⟩ := skeletonProps_eq_cons _ _ _ _ h
  have := skeletonProps_eq_nil _ h
  subst this
  obtain ⟨x1, rfl, hx1⟩ := skeleton_eq_arr _ _ e1
  obtain ⟨hs, rfl⟩ := articles_of_skeleton _ _ hx1
  obtain ⟨qs, hw2, hq2⟩ := skeleton_eq_obj _ _ e2
  subst hw2
  obtain ⟨c1, qs, rfl, f1, h⟩ := skeletonProps_eq_cons _ _ _ _ hq2
  obtain ⟨c2, qs, rfl, f2, h⟩ := skeletonProps_eq_cons _ _ _ _ h
  obtain ⟨c3, qs, rfl, f3, h⟩ := skeletonProps_eq_cons _ _ _ _ h
  obtain ⟨c4, qs, rfl, f4, h⟩ := skeletonProps_eq_cons _ _ _ _ h
  have := skeletonProps_eq_nil _ h
  subst this
  obtain ⟨y1, rfl, hy1⟩ := skeleton_eq_arr _ _ f1
  obtain ⟨l1, rfl⟩ := articles_of_skeleton _ _ hy1
  obtain ⟨y2, rfl, hy2⟩ := skeleton_eq_arr _ _ f2
  obtain ⟨l2, rfl⟩ := articles_of_skeleton _ _ hy2
  obtain ⟨y3, rfl, hy3⟩ := skeleton_eq_arr _ _ f3
  obtain ⟨l3, rfl⟩ := articles_of_skeleton _ _ hy3
  obtain ⟨y4, rfl, hy4⟩ := skeleton_eq_arr _ _ f4
  obtain ⟨l4, rfl⟩ := articles_of_skeleton _ _ hy4
  exact ⟨⟨hs, l1, l2, l3, l4⟩, rfl⟩

theorem tickFree_strings (tags : List String) : JsVal.TickFreeList (tags.map JsVal.str) := by
  induction tags with
  | nil => trivial
  | cons t rest ih => exact ⟨trivial, ih⟩

theorem tickFree_article (a : CuratedArticle) : a.toJson.TickFreeKeys := by
  obtain ⟨title, ot, url, source, category, relevance, summary, tags, reasoning⟩ := a
  have ht := tickFree_strings tags
  cases ot <;> cases reasoning <;>
    simp only [CuratedArticle.toJson, objectLiteral, List.filterMap, Option.map,
      JsVal.TickFreeKeys, JsVal.TickFreeProps] <;>
    refine ⟨by decide, ?_⟩ <;> simp [ht]

theorem tickFree_articles (as : List CuratedArticle) :
    JsVal.TickFreeList (as.map CuratedArticle.toJson) := by
  induction as with
  | nil => trivial
  | cons a rest ih => exact ⟨tickFree_article a, ih⟩

theorem tickFree_digest (d : Digest) : d.toJson.TickFreeKeys := by
  simp only [Digest.toJson, JsVal.TickFreeKeys, JsVal.TickFreeProps]
  exact ⟨(by decide), tickFree_articles _, (by decide),
    ⟨(by decide), tickFree_articles _, (by decide), tickFree_articles _, (by decide),
      tickFree_articles _, (by decide), tickFree_articles _, trivial⟩, trivial⟩

theorem processWithAI_fenced (generateContent : String → Except JsErr String)
    (articles : List RawArticle) (j : String) (v : JsVal) (hne : articles ≠ [])
    (hresp : (buildPrompt articles).bind generateContent = .ok (fenced j))
    (hj : JSON.parse j = .ok v) (hk : v.TickFreeKeys) (hs : hasDigestShape v = true) :
    ∃ w, processWithAI generateContent articles = .ok w ∧ w.skeleton = v.skeleton := by
  obtain ⟨w, hw, hsk⟩ := parse_stripFences_fenced j v hj hk
  refine ⟨w, ?_, hsk⟩
  rw [processWithAI_eq generateContent articles (fenced j) w hne hresp hw,
    logStatistics_ok_of_shape w (by rw [hasDigestShape_of_skeleton_eq hsk]; exact hs)]
  rfl

/-- C12: for a non-empty article list, when the model's response is a JSON text `j`
wrapped in a Markdown code fence (the fence with the word json, a line feed, `j`, a line
feed, the fence) and `j` parses to a digest, `processWithAI` parses the response and
returns a digest; that digest has the articles of `j`'s digest in the same places, with
the same property names and numbers (only string values can differ). -/
theorem processWithAI_accepts_fenced_json (generateContent : String → Except JsErr String)
    (articles : List RawArticle) (j : String) (d : Digest) (hne : articles ≠ [])
    (hresp : (buildPrompt articles).bind generateContent = .ok (fenced j))
    (hj : JSON.parse j = .ok d.toJson) :
    ∃ d' : Digest, processWithAI generateContent articles = .ok d'.toJson ∧
      d'.toJson.skeleton = d.toJson.skeleton := by
  obtain ⟨w, hw, hsk⟩ := processWithAI_fenced generateContent articles j d.toJson hne hresp hj
    (tickFree_digest d) (shape_digest d)
  obtain ⟨d', hd'⟩ := digest_of_skeleton d w hsk
  subst hd'
  exact ⟨d', hw, hsk⟩

theorem processWithAI_accepts_fenced_json_witness :
    ∃ d' : Digest,
      processWithAI (fun _ => .ok (fenced (JSON.stringify fenceDigest.toJson))) sampleRaw =
        .ok d'.toJson ∧
      d'.toJson.skeleton = fenceDigest.toJson.skeleton :=
  processWithAI_accepts_fenced_json (fun _ => .ok (fenced (JSON.stringify fenceDigest.toJson)))
    sampleRaw (JSON.stringify fenceDigest.toJson) fenceDigest (by decide) (by rfl)
    (parse_stringify fenceDigest.toJson (plain_digest fenceDigest))

/-- The fenced text of `fenceDigest`: the digest comes back, the fence inside the summary
of its highlight removed with the wrapping fence. -/
theorem processWithAI_fenced_example :
    processWithAI (fun _ => .ok (fenced (JSON.stringify fenceDigest.toJson))) sampleRaw =
      .ok (Digest.toJson ⟨[⟨"Fences", none, "http://u", "HackerNews", "tutorials", 4,
        "Use js fences", ["markdown"], none⟩], [], [], [], []⟩) := by
  decide

/-! ### Failures inside a run -/

theorem collect_sample :
    collectAllFeeds oneFreshItem (fun _ => some 1704088800000) 1704096000000 = .ok sampleRaw := by
  decide

theorem length_pos_of_processWithAI_error (g : String → Except JsErr String)
    (raw : List RawArticle) (e : JsErr) (h : processWithAI g raw = .error e) :
    ¬ raw.length = 0 := by
  intro h0
  simp [processWithAI, h0] at h

/-- C21: in a run of any of the three orchestrators in which `processWithAI` throws, the
calls made are the collector and `processWithAI` only, so `saveNewsletter` is not called,
and the store after the run is the store before it. -/
theorem curation_failure_leaves_store (w : World) (fs : FsState) (raw : List RawArticle)
    (e : JsErr)
    (hc : collectAllFeeds w.parseURL w.dateParse w.collectTime = .ok raw)
    (hp : processWithAI w.generateContent raw = .error e) :
    ∀ run ∈ [runNewsletterJob w fs, runScheduledNewsletter w fs, generateHandler w fs],
      run.calls = [.collectAllFeeds, .processWithAI raw] ∧
      (∀ c r, Call.saveNewsletter c r ∉ run.calls) ∧
      run.fs = fs := by
  have hne := length_pos_of_processWithAI_error _ _ _ hp
  intro run hrun
  simp only [List.mem_cons, List.mem_singleton, List.not_mem_nil, or_false] at hrun
  rcases hrun with h | h | h <;> subst h <;>
    simp [runNewsletterJob, runScheduledNewsletter, generateHandler, hc, hne, curateSaveSend, hp]

/-- Witness for C21: one article is collected and the model call fails. -/
theorem curation_failure_leaves_store_witness :
    (runNewsletterJob modelDownWorld savedThree).calls =
        [.collectAllFeeds, .processWithAI sampleRaw] ∧
      (∀ c r, Call.saveNewsletter c r ∉ (runNewsletterJob modelDownWorld savedThree).calls) ∧
      (runNewsletterJob modelDownWorld savedThree).fs = savedThree :=
  curation_failure_leaves_store modelDownWorld savedThree sampleRaw
    (.other "503 Service Unavailable") collect_sample (by decide) _ (List.mem_cons_self _ _)

/-- C22: in a run of any of the three orchestrators in which `saveNewsletter` succeeded
and `sendNewsletter` then throws, the store after the run is the store that
`saveNewsletter` returned, and in it the file of the date key holds the text of the record
that the run saved. -/
theorem send_failure_keeps_record (w : World) (fs fs1 : FsState) (raw : List RawArticle)
    (c : JsVal) (path : String) (e : JsErr)
    (hc : collectAllFeeds w.parseURL w.dateParse w.collectTime = .ok raw)
    (hne : raw ≠ [])
    (hp : processWithAI w.generateContent raw = .ok c)
    (hs : saveNewsletter fs c (rawToJson raw) (some w.saveTime) w.generatedTime =
      .ok (fs1, path))
    (hsend : w.sendNewsletter c = .error e) :
    (∀ run ∈ [runNewsletterJob w fs, runScheduledNewsletter w fs, generateHandler w fs],
      run.fs = fs1) ∧
    (runNewsletterJob w fs).calls = [.collectAllFeeds, .processWithAI raw,
      .saveNewsletter c raw, .sendNewsletter c] ∧
    ∃ data, newsletterData (dateKey w.saveTime) w.generatedTime c (rawToJson raw) = .ok data ∧
      fs1.entries.lookup (dateKey w.saveTime ++ ".json") = some (.file (JSON.stringify data)) := by
  have hl : ¬ raw.length = 0 := by
    intro h0
    exact hne (List.length_eq_zero.mp h0)
  refine ⟨?_, ?_, ?_⟩
  · intro run hrun
    simp only [List.mem_cons, List.mem_singleton, List.not_mem_nil, or_false] at hrun
    rcases hrun with h | h | h <;> subst h
    · simp [runNewsletterJob, hc, hl, curateSaveSend, hp, hs, hsend]
    · simp only [runScheduledNewsletter, hc, hl, curateSaveSend, hp, hs, if_false, if_true]
      cases w.sendEmailOnGenerate with
      | error e1 => rfl
      | ok flag =>
        cases hg : w.gmailConfigured <;> simp [hsend]
    · simp only [generateHandler, hc, hl, curateSaveSend, hp, hs, if_false, if_true]
      cases w.sendEmailOnGenerate with
      | error e1 => rfl
      | ok flag =>
        cases flag
        · simp only [Bool.false_eq_true, if_false]
          cases generateBody raw c <;> rfl
        · simp [hsend]
  · simp [runNewsletterJob, hc, hl, curateSaveSend, hp, hs, hsend]
  · obtain ⟨t, data, ht, _, hdata, _, hfs, _⟩ := saveNewsletter_eq_ok _ _ _ _ _ _ _ hs
    cases ht
    refine ⟨data, hdata, ?_⟩
    rw [hfs]
    simp [FsState.store, lookup_setEntry_self]

/-- Witness for C22: the record of 2024-01-01 is saved and the mailer fails. -/
theorem send_failure_keeps_record_witness :
    (∀ run ∈ [runNewsletterJob mailDownWorld ⟨"/app", true, []⟩,
        runScheduledNewsletter mailDownWorld ⟨"/app", true, []⟩,
        generateHandler mailDownWorld ⟨"/app", true, []⟩],
      run.fs = savedOnce) ∧
    (runNewsletterJob mailDownWorld ⟨"/app", true, []⟩).calls = [.collectAllFeeds,
      .processWithAI sampleRaw, .saveNewsletter sampleDigest.toJson sampleRaw,
      .sendNewsletter sampleDigest.toJson] ∧
    ∃ data, newsletterData (dateKey 1704096000000) 1704096000123 sampleDigest.toJson
        (rawToJson sampleRaw) = .ok data ∧
      savedOnce.entries.lookup (dateKey 1704096000000 ++ ".json") =
        some (.file (JSON.stringify data)) :=
  send_failure_keeps_record mailDownWorld ⟨"/app", true, []⟩ savedOnce sampleRaw
    sampleDigest.toJson "/app/data/newsletters/2024-01-01.json" (.other "Invalid login")
    collect_sample (by decide) (by decide) (by
      show saveNewsletter ⟨"/app", true, []⟩ sampleDigest.toJson (rawToJson sampleRaw)
        (some 1704096000000) 1704096000123 = .ok (savedOnce, _)
      have hok : (saveNewsletter ⟨"/app", true, []⟩ sampleDigest.toJson (rawToJson sampleRaw)
          (some 1704096000000) 1704096000123).isOk = true := by decide
      unfold savedOnce
      cases hsv : saveNewsletter ⟨"/app", true, []⟩ sampleDigest.toJson (rawToJson sampleRaw)
          (some 1704096000000) 1704096000123 with
      | ok p =>
        obtain ⟨fs1, path⟩ := p
        obtain ⟨t, data, ht, _, _, _, _, hq⟩ := saveNewsletter_eq_ok _ _ _ _ _ _ _ hsv
        cases ht
        have hd : DATA_DIR ⟨"/app", true, []⟩ ++ "/" ++ (dateKey 1704096000000 ++ ".json") =
            "/app/data/newsletters/2024-01-01.json" := by decide
        rw [hd] at hq
        rw [hq]
      | error e => simp [hsv, Except.isOk, Except.toBool] at hok) rfl

/-- Counterexample to C23 as stated: the newsletter directory cannot be read, and
`listNewsletters` returns the empty list instead of throwing. -/
theorem listNewsletters_unreadable_returns_empty :
    readdir ⟨"/app", false, [("2024-01-01.json", .file "[1]")]⟩ = .error (.ioError "ENOENT") ∧
    listNewsletters ⟨"/app", false, [("2024-01-01.json", .file "[1]")]⟩ = .ok [] := by
  decide

/-- C23 (amended): `listNewsletters` never throws.  When the directory cannot be reached
or read it returns the empty list; otherwise it returns the names that end in `.json`,
sorted and reversed. -/
theorem listNewsletters_never_throws (fs : FsState) :
    (∀ e, listNewsletters fs ≠ .error e) ∧
    (fs.accessible = false → listNewsletters fs = .ok []) ∧
    (fs.accessible = true → listNewsletters fs =
      .ok (((fs.entries.map Prod.fst).filter endsWithJson).insertionSort sortLe).reverse) := by
  cases ha : fs.accessible <;>
    simp [listNewsletters, ensureDataDir, readdir, ha, bind, Except.bind, pure, Except.pure]

/-- Witness for C23 (amended): a directory that can be read, with two records and one
other file. -/
theorem listNewsletters_never_throws_witness :
    listNewsletters ⟨"/app", true, [("2024-01-01.json", .file "[1]"), ("notes.txt", .file ""),
        ("2024-01-02.json", .file "[2]")]⟩ =
      .ok (((["2024-01-01.json", "notes.txt", "2024-01-02.json"].filter
        endsWithJson).insertionSort sortLe).reverse) :=
  (listNewsletters_never_throws ⟨"/app", true, [("2024-01-01.json", .file "[1]"),
    ("notes.txt", .file ""), ("2024-01-02.json", .file "[2]")]⟩).2.2 rfl

/-- C27, the code at the failing input: a scheduled run in which the saved configuration
has `sendEmailOnGenerate = false` and the mail account is configured calls `sendNewsletter`
after the save, while the generate handler in the same world does not. -/
theorem runScheduledNewsletter_ignores_sendEmailOnGenerate :
    mailOffWorld.sendEmailOnGenerate = .ok false ∧
    (runScheduledNewsletter mailOffWorld ⟨"/app", true, []⟩).calls =
      [.collectAllFeeds, .processWithAI sampleRaw,
        .saveNewsletter sampleDigest.toJson sampleRaw, .loadConfig,
        .sendNewsletter sampleDigest.toJson] ∧
    (generateHandler mailOffWorld ⟨"/app", true, []⟩).calls =
      [.collectAllFeeds, .processWithAI sampleRaw,
        .saveNewsletter sampleDigest.toJson sampleRaw, .loadConfig] := by
  decide

/-! ### Prompt construction -/

theorem takeUnits_low (n : Nat) (c : Char) (cs : List Char) (h : c.toNat < 65536) :
    takeUnits (n + 1) (c :: cs) = c :: takeUnits n cs := by
  cases n with
  | zero =>
    rw [takeUnits]
    simp [h, takeUnits]
  | succ m =>
    rw [takeUnits]
    simp [h]

theorem takeUnits_high (n : Nat) (c : Char) (cs : List Char) (h : ¬ c.toNat < 65536) :
    takeUnits (n + 2) (c :: cs) = c :: takeUnits n cs := by
  rw [takeUnits]
  simp [h]

theorem takeUnits_cut (c : Char) (cs : List Char) (h : ¬ c.toNat < 65536) :
    takeUnits 1 (c :: cs) = [Char.ofNat 0xFFFD] := by
  rw [takeUnits]
  simp [h]

theorem takeUnits_spec : ∀ (cs : List Char) (n : Nat),
    utf16Length (String.mk (takeUnits n cs)) = min n (utf16Length (String.mk cs)) ∧
    ∃ k, takeUnits n cs = cs.take k ∨
      (takeUnits n cs = cs.take k ++ [Char.ofNat 0xFFFD] ∧
        utf16Length (String.mk (cs.take k)) + 1 = n ∧
        ∃ c, cs[k]? = some c ∧ 65536 ≤ c.toNat) := by
  intro cs
  induction cs with
  | nil =>
    intro n
    cases n <;> simp [takeUnits, utf16Length]
  | cons c rest ih =>
    intro n
    cases n with
    | zero => exact ⟨by simp [takeUnits, utf16Length], 0, Or.inl (by simp [takeUnits])⟩
    | succ m =>
      by_cases hc : c.toNat < 65536
      · obtain ⟨hlen, k, hk⟩ := ih m
        simp only [utf16Length, List.map_cons, List.sum_cons] at hlen ⊢
        rw [takeUnits_low m c rest hc]
        refine ⟨?_, k + 1, ?_⟩
        · simp only [hc, if_true, List.map_cons, List.sum_cons]
          rw [hlen]
          omega
        · rcases hk with hk | ⟨hk, hu, d, hd, hd2⟩
          · left
            simp [hk]
          · right
            refine ⟨by simp [hk], ?_, d, by simpa using hd, hd2⟩
            simp only [utf16Length, List.take_succ_cons, List.map_cons, List.sum_cons, hc,
              if_true] at hu ⊢
            omega
      · cases m with
        | zero =>
          rw [takeUnits_cut c rest hc]
          refine ⟨?_, 0, Or.inr ⟨by simp, by simp [utf16Length], c, by simp, by omega⟩⟩
          have h1 : (Char.ofNat 0xFFFD).toNat < 65536 := by decide
          simp only [hc, if_false, utf16Length, List.map_cons, List.sum_cons, h1,
            if_true, List.map_nil, List.sum_nil]
          omega
        | succ j =>
          obtain ⟨hlen, k, hk⟩ := ih j
          simp only [utf16Length, List.map_cons, List.sum_cons] at hlen ⊢
          rw [takeUnits_high j c rest hc]
          refine ⟨?_, k + 1, ?_⟩
          · simp only [hc, if_false, List.map_cons, List.sum_cons]
            rw [hlen]
            omega
          · rcases hk with hk | ⟨hk, hu, d, hd, hd2⟩
            · left
              simp [hk]
            · right
              refine ⟨by simp [hk], ?_, d, by simpa using hd, hd2⟩
              simp only [utf16Length, List.take_succ_cons, List.map_cons, List.sum_cons, hc,
                if_false] at hu ⊢
              omega

theorem takeUnits_basic_plane : ∀ (cs : List Char) (n : Nat),
    (∀ c ∈ cs, c.toNat < 65536) → takeUnits n cs = cs.take n := by
  intro cs
  induction cs with
  | nil => intro n _; cases n <;> rfl
  | cons c rest ih =>
    intro n h
    cases n with
    | zero => rfl
    | succ m =>
      have hc : c.toNat < 65536 := h c (List.mem_cons_self _ _)
      rw [takeUnits_low m c rest hc, List.take_succ_cons,
        ih m (fun d hd => h d (List.mem_cons_of_mem _ hd))]

theorem promptBlocks_spec : ∀ (articles : List RawArticle) (index : Nat),
    (∀ a ∈ articles, ∃ s, a.description = .str s) →
    ∃ blocks, promptBlocks index articles = .ok blocks ∧ blocks.length = articles.length ∧
      ∀ (i : Nat) (hi : i < articles.length), ∃ desc,
        (articles.get ⟨i, hi⟩).description = .str desc ∧
        blocks[i]? = some (blockText (index + i) (articles.get ⟨i, hi⟩)
          (String.mk (takeUnits 300 desc.data))) := by
  intro articles
  induction articles with
  | nil =>
    intro index _
    exact ⟨[], rfl, rfl, fun i hi => absurd hi (by simp)⟩
  | cons a rest ih =>
    intro index h
    obtain ⟨s, hs⟩ := h a (List.mem_cons_self _ _)
    obtain ⟨blocks, hb, hl, hget⟩ := ih (index + 1) (fun x hx => h x (List.mem_cons_of_mem _ hx))
    refine ⟨blockText index a (String.mk (takeUnits 300 s.data)) :: blocks, ?_, by simp [hl], ?_⟩
    · simp only [promptBlocks, hs, sliceDescription, bind, Except.bind, hb, pure, Except.pure,
        blockText]
    · intro i hi
      cases i with
      | zero => exact ⟨s, hs, by simp⟩
      | succ j =>
        obtain ⟨desc, hd, hbj⟩ := hget j (by simpa using hi)
        refine ⟨desc, hd, ?_⟩
        simp only [List.getElem?_cons_succ, List.get_cons_succ]
        rw [hbj, show index + 1 + j = index + (j + 1) by omega]

/-- C25: for a non-empty article list whose descriptions are strings, the prompt that
`processWithAI` hands to the model is the fixed instructions, the heading, the blocks
joined by blank lines, and the closing line.  There is one block per article, in input
order; the block at position `i` carries the decimal numeral of `i + 1`, the title, url
and source of the article, and a description text `d` with
`d.length = min 300 description.length` in UTF-16 code units that is the text of the
description up to a cut: `d` is the first `k` characters of the description, or these
followed by U+FFFD when the 300th code unit is the first half of a character outside the
basic plane.  When the description has no such character, `d` is its first 300
characters. -/
theorem prompt_has_one_block_per_article (generateContent : String → Except JsErr String)
    (articles : List RawArticle) (hne : articles ≠ [])
    (hd : ∀ a ∈ articles, ∃ s, a.description = .str s) :
    ∃ blocks : List String,
      buildPrompt articles = .ok (CURATOR_PROMPT ++ "\n\nARTIGOS PARA ANALISAR:\n\n" ++
        "\n\n".intercalate blocks ++ "\n\nRETORNE O JSON:") ∧
      processWithAI generateContent articles =
        (generateContent (CURATOR_PROMPT ++ "\n\nARTIGOS PARA ANALISAR:\n\n" ++
          "\n\n".intercalate blocks ++ "\n\nRETORNE O JSON:")).bind (fun text =>
            (JSON.parse (stripFences text)).bind fun curatedData =>
              (logStatistics curatedData).map fun _ => curatedData) ∧
      blocks.length = articles.length ∧
      ∀ (i : Nat) (hi : i < articles.length), ∃ desc d : String,
        (articles.get ⟨i, hi⟩).description = .str desc ∧
        blocks[i]? = some (blockText i (articles.get ⟨i, hi⟩) d) ∧
        digitsToNat (natText (i + 1)) = i + 1 ∧
        utf16Length d = min 300 (utf16Length desc) ∧
        (∃ k, d.data = desc.data.take k ∨
          (d.data = desc.data.take k ++ [Char.ofNat 0xFFFD] ∧
            utf16Length (String.mk (desc.data.take k)) + 1 = 300 ∧
            ∃ c, desc.data[k]? = some c ∧ 65536 ≤ c.toNat)) ∧
        ((∀ c ∈ desc.data, c.toNat < 65536) → d.data = desc.data.take 300) := by
  obtain ⟨blocks, hb, hl, hget⟩ := promptBlocks_spec articles 0 hd
  have hlen : ¬ articles.length = 0 := by
    simpa [List.length_eq_zero] using hne
  have hprompt : buildPrompt articles = .ok (CURATOR_PROMPT ++ "\n\nARTIGOS PARA ANALISAR:\n\n" ++
      "\n\n".intercalate blocks ++ "\n\nRETORNE O JSON:") := by
    simp only [buildPrompt, hb, bind, Except.bind, pure, Except.pure]
  refine ⟨blocks, hprompt, ?_, hl, ?_⟩
  · unfold processWithAI
    rw [if_neg hlen, hprompt]
    simp only [bind, Except.bind]
    cases generateContent _ with
    | error e => rfl
    | ok text =>
      simp only
      cases JSON.parse (stripFences text) with
      | error e => rfl
      | ok v =>
        simp only
        cases logStatistics v <;> rfl
  · intro i hi
    obtain ⟨desc, hdesc, hbi⟩ := hget i hi
    obtain ⟨hu, hk⟩ := takeUnits_spec desc.data 300
    obtain ⟨ds, hds, -, -, hn, -⟩ := natDigits_spec (i + 1 + 1) (i + 1) [] (by omega)
    refine ⟨desc, String.mk (takeUnits 300 desc.data), hdesc, ?_, ?_, hu, hk, ?_⟩
    · rw [hbi, Nat.zero_add]
    · unfold natText
      rw [hds, List.append_nil, hn]
    · intro hbmp
      exact takeUnits_basic_plane desc.data 300 hbmp

/-- Witness for C25: four articles; the third description is cut at 300 characters and the
fourth in the middle of a character outside the basic plane. -/
theorem prompt_has_one_block_per_article_witness :
    ∃ blocks : List String,
      buildPrompt fourArticles = .ok (CURATOR_PROMPT ++ "\n\nARTIGOS PARA ANALISAR:\n\n" ++
        "\n\n".intercalate blocks ++ "\n\nRETORNE O JSON:") ∧
      processWithAI (fun _ => .error (.other "503")) fourArticles =
        (Except.error (.other "503") : Except JsErr String).bind (fun text =>
            (JSON.parse (stripFences text)).bind fun curatedData =>
              (logStatistics curatedData).map fun _ => curatedData) ∧
      blocks.length = fourArticles.length ∧
      ∀ (i : Nat) (hi : i < fourArticles.length), ∃ desc d : String,
        (fourArticles.get ⟨i, hi⟩).description = .str desc ∧
        blocks[i]? = some (blockText i (fourArticles.get ⟨i, hi⟩) d) ∧
        digitsToNat (natText (i + 1)) = i + 1 ∧
        utf16Length d = min 300 (utf16Length desc) ∧
        (∃ k, d.data = desc.data.take k ∨
          (d.data = desc.data.take k ++ [Char.ofNat 0xFFFD] ∧
            utf16Length (String.mk (desc.data.take k)) + 1 = 300 ∧
            ∃ c, desc.data[k]? = some c ∧ 65536 ≤ c.toNat)) ∧
        ((∀ c ∈ desc.data, c.toNat < 65536) → d.data = desc.data.take 300) :=
  prompt_has_one_block_per_article (fun _ => .error (.other "503")) fourArticles (by decide)
    (by
      intro a ha
      simp only [fourArticles, List.mem_cons, List.mem_singleton, List.not_mem_nil,
        or_false] at ha
      rcases ha with h | h | h | h <;> subst h <;> exact ⟨_, rfl⟩)

/-- The descriptions placed in the blocks of `fourArticles`: the short ones whole, the
long one cut after 300 letters, and the last one cut after 299 letters and U+FFFD. -/
theorem sliceDescription_examples :
    fourArticles.map (fun a => sliceDescription a.description) =
      [ .ok "short", .ok "", .ok (String.mk (List.replicate 300 'x')),
        .ok (String.mk (List.replicate 299 'y' ++ [Char.ofNat 0xFFFD])) ] ∧
    blockText 0 ⟨.str "A", .str "http://a", .str "short", .str "now", "HackerNews",
        "Tech Geral"⟩ "short" =
      "[1]\nTítulo: A\nURL: http://a\nFonte: HackerNews\nDescrição: short...\n---" := by
  decide

/-! ### Schedule validation -/

theorem mem_oneOf (cs x : List Char) : x ∈ (oneOf cs).matches' ↔ ∃ c ∈ cs, x = [c] := by
  induction cs with
  | nil =>
    simp only [oneOf, List.foldr_nil, RegularExpression.matches'_zero, List.not_mem_nil,
      false_and, exists_false, iff_false]
    exact Language.not_mem_zero x
  | cons c rest ih =>
    have h : oneOf (c :: rest) = .char c + oneOf rest := rfl
    rw [h, RegularExpression.matches'_add, Language.mem_add, ih,
      RegularExpression.matches'_char]
    simp only [List.mem_cons, exists_eq_or_imp]
    exact Iff.rfl

theorem separated_cons (f : List Char) (parts : List (List Char)) (s tail : List Char)
    (hs : s ≠ []) (hws : ∀ c ∈ s, isTrimSpace c = true) (hf : ∀ c ∈ f, isTrimSpace c = false)
    (h : Separated parts tail) : Separated (f :: parts) (f ++ s ++ tail) := by
  cases parts with
  | nil => exact h.elim
  | cons g rest => exact ⟨s, tail, rfl, hs, hws, hf, h⟩

theorem splitSpaces_separated : ∀ cs : List Char,
    (∀ piece : List Char, (∀ c ∈ piece, isTrimSpace c = false) →
      Separated (splitSpaces false piece cs) (piece.reverse ++ cs)) ∧
    (∀ c0 : Char, isTrimSpace c0 = true → ∃ s tail, c0 :: cs = s ++ tail ∧ s ≠ [] ∧
      (∀ c ∈ s, isTrimSpace c = true) ∧ Separated (splitSpaces true [] cs) tail) := by
  intro cs
  induction cs with
  | nil =>
    refine ⟨?_, ?_⟩
    · intro piece hp
      simp only [splitSpaces, List.append_nil, Separated]
      exact ⟨trivial, fun c hc => hp c (List.mem_reverse.mp hc)⟩
    · intro c0 h0
      refine ⟨[c0], [], rfl, by simp, by simpa using h0, ?_⟩
      simp [splitSpaces, Separated]
  | cons c rest ih =>
    obtain ⟨iha, ihb⟩ := ih
    refine ⟨?_, ?_⟩
    · intro piece hp
      by_cases hc : isTrimSpace c = true
      · obtain ⟨s, tail, hst, hs, hws, hsep⟩ := ihb c hc
        simp only [splitSpaces, hc, if_true, Bool.false_eq_true, if_false]
        rw [hst, ← List.append_assoc]
        exact separated_cons _ _ _ _ hs hws
          (fun d hd => hp d (List.mem_reverse.mp hd)) hsep
      · have hc2 : isTrimSpace c = false := by simpa using hc
        simp only [splitSpaces, hc2, Bool.false_eq_true, if_false]
        have := iha (c :: piece) (fun d hd => by
          rcases List.mem_cons.mp hd with h | h
          · rw [h]; exact hc2
          · exact hp d h)
        simpa using this
    · intro c0 h0
      by_cases hc : isTrimSpace c = true
      · obtain ⟨s, tail, hst, hs, hws, hsep⟩ := ihb c hc
        refine ⟨c0 :: s, tail, by rw [hst]; rfl, by simp, ?_, ?_⟩
        · intro d hd
          rcases List.mem_cons.mp hd with h | h
          · rw [h]; exact h0
          · exact hws d h
        · simpa only [splitSpaces, hc, if_true] using hsep
      · have hc2 : isTrimSpace c = false := by simpa using hc
        refine ⟨[c0], c :: rest, rfl, by simp, by simpa using h0, ?_⟩
        simp only [splitSpaces, hc2, Bool.false_eq_true, if_false]
        have := iha [c] (by simpa using hc2)
        simpa using this

theorem trim_split (cs : List Char) :
    ∃ lead trail, cs = lead ++ trim cs ++ trail ∧ (∀ c ∈ lead, isTrimSpace c = true) ∧
      ∀ c ∈ trail, isTrimSpace c = true := by
  refine ⟨cs.takeWhile isTrimSpace,
    ((cs.dropWhile isTrimSpace).reverse.takeWhile isTrimSpace).reverse, ?_, ?_, ?_⟩
  · unfold trim
    rw [List.append_assoc, ← List.reverse_append, List.takeWhile_append_dropWhile,
      List.reverse_reverse, List.takeWhile_append_dropWhile]
  · intro c hc
    exact List.mem_takeWhile_imp hc
  · intro c hc
    exact List.mem_takeWhile_imp (List.mem_reverse.mp hc)

theorem numbersFrom_digits : ∀ (ds : List Char), (∀ c ∈ ds, isDigit c = true) →
    ∀ (n : Nat) (rest : List Char),
      numbersFrom (some n) (ds ++ rest) =
        numbersFrom (some (ds.foldl (fun n c => 10 * n + (c.toNat - 48)) n)) rest := by
  intro ds
  induction ds with
  | nil => intro _ n rest; rfl
  | cons d t ih =>
    intro h n rest
    have hd : isDigit d = true := h d (List.mem_cons_self _ _)
    simp only [List.cons_append, numbersFrom, hd, if_true, Option.getD_some, List.foldl_cons]
    exact ih (fun c hc => h c (List.mem_cons_of_mem _ hc)) _ rest

theorem numbersFrom_numeral (lo hi : Nat) (a rest : List Char) (h : isNumeral lo hi a = true) :
    numbersFrom none (a ++ rest) = numbersFrom (some (digitsToNat a)) rest := by
  simp only [isNumeral, Bool.and_eq_true, Bool.not_eq_true', List.all_eq_true,
    decide_eq_true_eq] at h
  obtain ⟨⟨⟨hne, hd⟩, -⟩, -⟩ := h
  cases a with
  | nil => simp at hne
  | cons c t =>
    have hc : isDigit c = true := hd c (List.mem_cons_self _ _)
    simp only [List.cons_append, numbersFrom, hc, if_true, Option.getD_none, List.append_eq]
    rw [numbersFrom_digits t (fun x hx => hd x (List.mem_cons_of_mem _ hx))]
    rfl

theorem numbersIn_chain (lo hi : Nat) : ∀ (L : List (List Char)),
    (∀ y ∈ L, ∃ s b, isDigit s = false ∧ isNumeral lo hi b = true ∧ y = s :: b) →
    ∀ a, isNumeral lo hi a = true →
      ∀ n ∈ numbersIn (a ++ L.flatten), lo ≤ n ∧ n ≤ hi := by
  intro L
  induction L with
  | nil =>
    intro _ a ha n hn
    unfold numbersIn at hn
    rw [List.flatten_nil, numbersFrom_numeral lo hi a [] ha] at hn
    simp only [numbersFrom, Option.toList, List.mem_singleton] at hn
    simp only [isNumeral, Bool.and_eq_true, decide_eq_true_eq] at ha
    rw [hn]
    exact ⟨ha.1.2, ha.2⟩
  | cons y rest ih =>
    intro h a ha n hn
    obtain ⟨s, b, hs, hb, hy⟩ := h y (List.mem_cons_self _ _)
    unfold numbersIn at hn
    rw [List.flatten_cons, hy, numbersFrom_numeral lo hi a _ ha] at hn
    simp only [List.cons_append, numbersFrom, hs, Bool.false_eq_true, if_false, Option.toList,
      List.singleton_append, List.mem_cons] at hn
    rcases hn with hn | hn
    · simp only [isNumeral, Bool.and_eq_true, decide_eq_true_eq] at ha
      rw [hn]
      exact ⟨ha.1.2, ha.2⟩
    · exact ih (fun z hz => h z (List.mem_cons_of_mem _ hz)) b hb n hn

theorem rangeList_numbers (number : RegularExpression Char) (lo hi : Nat)
    (hnum : ∀ a ∈ number.matches', isNumeral lo hi a = true) (x : List Char)
    (h : (rangeList number).rmatch x = true) :
    x ≠ [] ∧ ∀ n ∈ numbersIn x, lo ≤ n ∧ n ≤ hi := by
  rw [RegularExpression.rmatch_iff_matches'] at h
  simp only [rangeList, RegularExpression.matches'_add, RegularExpression.matches'_mul,
    RegularExpression.matches'_star, RegularExpression.matches'_char, Language.mem_add,
    Language.mem_mul, Language.mem_kstar] at h
  rcases h with h | ⟨a, ha, t, ⟨L, hL, hmem⟩, hx⟩
  · have hx : x = ['*'] := h
    subst hx
    have hstar : numbersIn ['*'] = [] := by decide
    rw [hstar]
    exact ⟨by simp, by simp⟩
  · subst hx
    subst hL
    have hA := hnum a ha
    refine ⟨?_, ?_⟩
    · intro hc
      have hnil : a = [] := (List.append_eq_nil.mp hc).1
      rw [hnil] at hA
      simp [isNumeral] at hA
    · apply numbersIn_chain lo hi L ?_ a hA
      intro y hy
      obtain ⟨u, hu, b, hb, hub⟩ := hmem y hy
      obtain ⟨s, hs, hus⟩ := (mem_oneOf _ _).mp hu
      subst hus
      refine ⟨s, b, ?_, hnum b hb, hub.symm⟩
      have hs2 : s = '-' ∨ s = '/' := by simpa using hs
      rcases hs2 with e | e <;> subst e <;> decide

theorem minuteNumber_range : ∀ a ∈ minuteNumber.matches', isNumeral 0 59 a = true := by
  intro a ha
  have k1 : ∀ d ∈ "0123456789".data, isNumeral 0 59 [d] = true := by decide
  have k2 : ∀ c ∈ "012345".data, ∀ d ∈ "0123456789".data, isNumeral 0 59 [c, d] = true := by
    decide
  simp only [minuteNumber, opt, digit, RegularExpression.matches'_add,
    RegularExpression.matches'_mul, RegularExpression.matches'_epsilon, Language.mem_add,
    Language.mem_mul, Language.mem_one, mem_oneOf] at ha
  obtain ⟨u, hu, v, ⟨d, hd, hv⟩, huv⟩ := ha
  subst hv
  rcases hu with hu | ⟨c, hc, hu⟩ <;> subst hu <;> subst huv
  · exact k1 d hd
  · exact k2 c hc d hd

theorem hourNumber_range : ∀ a ∈ hourNumber.matches', isNumeral 0 23 a = true := by
  intro a ha
  have k1 : ∀ d ∈ "0123456789".data, isNumeral 0 23 [d] = true := by decide
  have k2 : ∀ c ∈ "01".data, ∀ d ∈ "0123456789".data, isNumeral 0 23 [c, d] = true := by
    decide
  have k3 : ∀ d ∈ "0123".data, isNumeral 0 23 ['2', d] = true := by decide
  simp only [hourNumber, opt, digit, RegularExpression.matches'_add,
    RegularExpression.matches'_mul, RegularExpression.matches'_epsilon,
    RegularExpression.matches'_char, Language.mem_add, Language.mem_mul, Language.mem_one,
    mem_oneOf] at ha
  rcases ha with ⟨u, hu, v, ⟨d, hd, hv⟩, huv⟩ | ⟨u, hu, v, ⟨d, hd, hv⟩, huv⟩
  · subst hv
    rcases hu with hu | ⟨c, hc, hu⟩ <;> subst hu <;> subst huv
    · exact k1 d hd
    · exact k2 c hc d hd
  · have hu2 : u = ['2'] := hu
    subst hv; subst hu2; subst huv
    exact k3 d hd

theorem dayOfMonthNumber_range :
    ∀ a ∈ dayOfMonthNumber.matches', isNumeral 1 31 a = true := by
  intro a ha
  have k1 : ∀ d ∈ "123456789".data, isNumeral 1 31 [d] = true := by decide
  have k2 : ∀ c ∈ "12".data, ∀ d ∈ "0123456789".data, isNumeral 1 31 [c, d] = true := by
    decide
  have k3 : ∀ d ∈ "01".data, isNumeral 1 31 ['3', d] = true := by decide
  simp only [dayOfMonthNumber, digit, RegularExpression.matches'_add,
    RegularExpression.matches'_mul, RegularExpression.matches'_char, Language.mem_add,
    Language.mem_mul, mem_oneOf] at ha
  rcases ha with (⟨d, hd, hv⟩ | ⟨u, ⟨c, hc, hu⟩, v, ⟨d, hd, hv⟩, huv⟩) |
    ⟨u, hu, v, ⟨d, hd, hv⟩, huv⟩
  · subst hv
    exact k1 d hd
  · subst hv; subst hu; subst huv
    exact k2 c hc d hd
  · have hu2 : u = ['3'] := hu
    subst hv; subst hu2; subst huv
    exact k3 d hd

theorem monthNumber_range : ∀ a ∈ monthNumber.matches', isNumeral 1 12 a = true := by
  intro a ha
  have k1 : ∀ d ∈ "123456789".data, isNumeral 1 12 [d] = true := by decide
  have k3 : ∀ d ∈ "012".data, isNumeral 1 12 ['1', d] = true := by decide
  simp only [monthNumber, RegularExpression.matches'_add,
    RegularExpression.matches'_mul, RegularExpression.matches'_char, Language.mem_add,
    Language.mem_mul, mem_oneOf] at ha
  rcases ha with ⟨d, hd, hv⟩ | ⟨u, hu, v, ⟨d, hd, hv⟩, huv⟩
  · subst hv
    exact k1 d hd
  · have hu2 : u = ['1'] := hu
    subst hv; subst hu2; subst huv
    exact k3 d hd

theorem dayOfWeekNumber_range : ∀ a ∈ dayOfWeekNumber.matches', isNumeral 0 6 a = true := by
  intro a ha
  have k1 : ∀ d ∈ "0123456".data, isNumeral 0 6 [d] = true := by decide
  obtain ⟨d, hd, hv⟩ := (mem_oneOf _ _).mp ha
  subst hv
  exact k1 d hd

/-- C26: an expression that `isValidCron` accepts is, between leading and trailing white
space, five non-empty fields without white space, separated by non-empty runs of white
space; and every number that occurs in a field lies in the range of the field: minute 0
to 59, hour 0 to 23, day of month 1 to 31, month 1 to 12, day of week 0 to 6. -/
theorem isValidCron_fields_in_range (expression : String)
    (h : isValidCron expression = true) :
    ∃ lead minute hour dayOfMonth month dayOfWeek trail middle : List Char,
      expression.data = lead ++ middle ++ trail ∧
      (∀ c ∈ lead, isTrimSpace c = true) ∧ (∀ c ∈ trail, isTrimSpace c = true) ∧
      Separated [minute, hour, dayOfMonth, month, dayOfWeek] middle ∧
      (∀ f ∈ [minute, hour, dayOfMonth, month, dayOfWeek], f ≠ []) ∧
      (∀ n ∈ numbersIn minute, 0 ≤ n ∧ n ≤ 59) ∧
      (∀ n ∈ numbersIn hour, 0 ≤ n ∧ n ≤ 23) ∧
      (∀ n ∈ numbersIn dayOfMonth, 1 ≤ n ∧ n ≤ 31) ∧
      (∀ n ∈ numbersIn month, 1 ≤ n ∧ n ≤ 12) ∧
      (∀ n ∈ numbersIn dayOfWeek, 0 ≤ n ∧ n ≤ 6) := by
  obtain ⟨lead, trail, hsplit, hlead, htrail⟩ := trim_split expression.data
  have hsep := (splitSpaces_separated (trim expression.data)).1 [] (by simp)
  simp only [List.reverse_nil, List.nil_append] at hsep
  unfold isValidCron at h
  generalize splitSpaces false [] (trim expression.data) = parts at h hsep
  simp only [ne_eq, ite_not] at h
  by_cases hlen : parts.length = 5
  · rw [if_pos hlen] at h
    match parts, hlen with
    | [f0, f1, f2, f3, f4], _ =>
      simp only [cronPatterns, List.zip_cons_cons, List.zip_nil_right, List.all_cons,
        List.all_nil, Bool.and_true, Bool.and_eq_true] at h
      obtain ⟨h0, h1, h2, h3, h4⟩ := h
      have r0 := rangeList_numbers _ 0 59 minuteNumber_range f0 h0
      have r1 := rangeList_numbers _ 0 23 hourNumber_range f1 h1
      have r2 := rangeList_numbers _ 1 31 dayOfMonthNumber_range f2 h2
      have r3 := rangeList_numbers _ 1 12 monthNumber_range f3 h3
      have r4 := rangeList_numbers _ 0 6 dayOfWeekNumber_range f4 h4
      refine ⟨lead, f0, f1, f2, f3, f4, trail, trim expression.data, hsplit, hlead, htrail,
        hsep, ?_, r0.2, r1.2, r2.2, r3.2, r4.2⟩
      intro f hf
      simp only [List.mem_cons, List.mem_singleton, List.not_mem_nil, or_false] at hf
      rcases hf with e | e | e | e | e <;> subst e
      · exact r0.1
      · exact r1.1
      · exact r2.1
      · exact r3.1
      · exact r4.1
  · rw [if_neg hlen] at h
    cases h

/-- Witness for C26: an accepted expression with ranges and steps. -/
theorem isValidCron_fields_in_range_witness :
    ∃ lead minute hour dayOfMonth month dayOfWeek trail middle : List Char,
      " 0-59/15 7  1-31 1-12 0-6 ".data = lead ++ middle ++ trail ∧
      (∀ c ∈ lead, isTrimSpace c = true) ∧ (∀ c ∈ trail, isTrimSpace c = true) ∧
      Separated [minute, hour, dayOfMonth, month, dayOfWeek] middle ∧
      (∀ f ∈ [minute, hour, dayOfMonth, month, dayOfWeek], f ≠ []) ∧
      (∀ n ∈ numbersIn minute, 0 ≤ n ∧ n ≤ 59) ∧
      (∀ n ∈ numbersIn hour, 0 ≤ n ∧ n ≤ 23) ∧
      (∀ n ∈ numbersIn dayOfMonth, 1 ≤ n ∧ n ≤ 31) ∧
      (∀ n ∈ numbersIn month, 1 ≤ n ∧ n ≤ 12) ∧
      (∀ n ∈ numbersIn dayOfWeek, 0 ≤ n ∧ n ≤ 6) :=
  isValidCron_fields_in_range " 0-59/15 7  1-31 1-12 0-6 " (by decide)

/-- Expressions that `isValidCron` accepts and rejects, and the numbers of a field. -/
theorem isValidCron_examples :
    ["0 7 * * *", "0-59/15 0-23/2 1-31 1-12 0-6", "  59   23 31 12 6  ", "00 07 * * *",
      "0\t7\n* * *"].all isValidCron = true ∧
    ["", "0 7 * *", "0 7 * * * *", "60 7 * * *", "0 24 * * *", "0 7 0 * *", "0 7 32 * *",
      "0 7 * 13 *", "0 7 * 0 *", "0 7 * * 7", "0 7 * * 1,2", "a b c d e", "0 7 01 * *",
      "*/15 * * * *", "0 7 * * 1-"].any isValidCron = false ∧
    splitSpaces false [] " a  b ".data = ["".data, "a".data, "b".data, "".data] ∧
    numbersIn "0-59/15".data = [0, 59, 15] := by
  decide

/-! ### Configuration store -/

/-- C28, the code at the failing input: the stored configuration has the schedule
`0 9 * * *` and `sendEmailOnGenerate = true`, and the body of the request supplies only
`timezone`.  The configuration that `saveConfig` returns has `cronSchedule` and
`sendEmailOnGenerate` set to `undefined`, the file written has neither, and a later
`loadConfig` returns the defaults `0 7 * * *` and `false` for them. -/
theorem saveConfig_drops_omitted_fields :
    (loadConfig storedConfig).2.map (fun c => (c.get "cronSchedule", c.get "timezone",
        c.get "sendEmailOnGenerate")) =
      .ok (some (.str "0 9 * * *"), some (.str "America/Sao_Paulo"), some (.bool true)) ∧
    configUpdates none (some (.str "UTC")) none =
      [("cronSchedule", none), ("timezone", some (.str "UTC")), ("sendEmailOnGenerate", none)] ∧
    (saveConfig storedConfig (configUpdates none (some (.str "UTC")) none) 1704096000000).2 =
      .ok [("cronSchedule", none), ("timezone", some (.str "UTC")),
        ("sendEmailOnGenerate", none), ("lastUpdated", some (.str "2024-01-01T08:00:00.000Z"))] ∧
    (saveConfig storedConfig (configUpdates none (some (.str "UTC")) none) 1704096000000).1 =
      ⟨some (JSON.stringify (.obj [("timezone", .str "UTC"),
        ("lastUpdated", .str "2024-01-01T08:00:00.000Z")])), true⟩ ∧
    (loadConfig (saveConfig storedConfig (configUpdates none (some (.str "UTC")) none)
        1704096000000).1).2 =
      .ok [("cronSchedule", some (.str "0 7 * * *")), ("timezone", some (.str "UTC")),
        ("sendEmailOnGenerate", some (.bool false)),
        ("lastUpdated", some (.str "2024-01-01T08:00:00.000Z"))] ∧
    (putConfig (fun _ _ => .ok ()) storedConfig 1704096000000
        (some (.obj [("timezone", .str "UTC")]))).outcome =
      .responded 200 (.obj [("success", .bool true),
        ("message", .str "Configuração atualizada!"),
        ("config", .obj [("timezone", .str "UTC"),
          ("lastUpdated", .str "2024-01-01T08:00:00.000Z")])]) := by
  decide

theorem putConfig_accepts_valid (updateCronJob : Option JsVal → Option JsVal → Except JsErr Unit)
    (fs : ConfigFs) (now : Int) (props : List (String × JsVal)) (s : String)
    (hs : props.lookup "cronSchedule" = some (.str s)) (hvalid : isValidCron s = true) :
    ∃ status body, (putConfig updateCronJob fs now (some (.obj props))).outcome =
      .responded status body ∧ (status = 200 ∨ status = 500) := by
  have hne : (s != "") = true := by
    rw [bne_iff_ne]
    intro h
    rw [h] at hvalid
    revert hvalid
    decide
  simp only [putConfig, getProp, hs, bind, Except.bind, truthy, hne, if_true, callIsValidCron,
    Except.map, hvalid, Bool.not_true, pure, Except.pure, Bool.false_eq_true, if_false]
  rcases saveConfig fs (configUpdates (some (.str s)) (props.lookup "timezone")
      (props.lookup "sendEmailOnGenerate")) now with ⟨fs1, r⟩
  cases r with
  | error e => exact ⟨500, _, rfl, Or.inr rfl⟩
  | ok newConfig =>
    simp only
    cases updateCronJob (newConfig.get "cronSchedule") (newConfig.get "timezone") with
    | error e => exact ⟨500, _, rfl, Or.inr rfl⟩
    | ok u => exact ⟨200, _, rfl, Or.inl rfl⟩

/-- C30: `isValidCron` returns true for the schedule of `DEFAULT_CONFIG` and for the six
schedules that the admin page offers, and a request to `PUT /api/admin/config` whose body
has one of them as `cronSchedule` is not answered with the 400 of the validation: the
handler goes on to `saveConfig` and answers 200, or 500 when saving or scheduling
throws. -/
theorem offered_schedules_are_valid :
    DEFAULT_CONFIG.get "cronSchedule" = some (.str "0 7 * * *") ∧
    commonSchedules =
      ["0 6 * * *", "0 7 * * *", "0 8 * * *", "0 9 * * *", "0 12 * * *", "0 18 * * *"] ∧
    (∀ s ∈ "0 7 * * *" :: commonSchedules, isValidCron s = true) ∧
    ∀ s ∈ "0 7 * * *" :: commonSchedules,
      ∀ (updateCronJob : Option JsVal → Option JsVal → Except JsErr Unit) (fs : ConfigFs)
        (now : Int) (props : List (String × JsVal)),
        props.lookup "cronSchedule" = some (.str s) →
        ∃ status body, (putConfig updateCronJob fs now (some (.obj props))).outcome =
          .responded status body ∧ (status = 200 ∨ status = 500) := by
  have hall : ∀ s ∈ "0 7 * * *" :: commonSchedules, isValidCron s = true := by decide
  refine ⟨rfl, rfl, hall, ?_⟩
  intro s hs updateCronJob fs now props hp
  exact putConfig_accepts_valid updateCronJob fs now props s hp (hall s hs)

/-- Witness for C30: the request that the admin page sends for its 18h entry, on the
stored configuration. -/
theorem offered_schedules_are_valid_witness :
    ∃ status body, (putConfig (fun _ _ => .ok ()) storedConfig 1704096000000
        (some (.obj [("cronSchedule", .str "0 18 * * *"), ("timezone", .str "America/Sao_Paulo"),
          ("sendEmailOnGenerate", .bool false)]))).outcome =
      .responded status body ∧ (status = 200 ∨ status = 500) :=
  offered_schedules_are_valid.2.2.2 "0 18 * * *" (by decide) (fun _ _ => .ok ()) storedConfig
    1704096000000 _ (by decide)

/-- The request of the witness is answered 200 with the saved configuration, and the job
is scheduled again; a schedule with a minute of 60 is answered 400 and nothing is
written. -/
theorem putConfig_examples :
    putConfig (fun _ _ => .ok ()) storedConfig 1704096000000
        (some (.obj [("cronSchedule", .str "0 18 * * *"), ("timezone", .str "America/Sao_Paulo"),
          ("sendEmailOnGenerate", .bool false)])) =
      ⟨⟨some (JSON.stringify (.obj [("cronSchedule", .str "0 18 * * *"),
          ("timezone", .str "America/Sao_Paulo"), ("sendEmailOnGenerate", .bool false),
          ("lastUpdated", .str "2024-01-01T08:00:00.000Z")])), true⟩,
        some (some (.str "0 18 * * *"), some (.str "America/Sao_Paulo")),
        .responded 200 (.obj [("success", .bool true),
          ("message", .str "Configuração atualizada!"),
          ("config", .obj [("cronSchedule", .str "0 18 * * *"),
            ("timezone", .str "America/Sao_Paulo"), ("sendEmailOnGenerate", .bool false),
            ("lastUpdated", .str "2024-01-01T08:00:00.000Z")])])⟩ ∧
    putConfig (fun _ _ => .ok ()) storedConfig 1704096000000
        (some (.obj [("cronSchedule", .str "60 7 * * *")])) =
      ⟨storedConfig, none, .responded 400 (.obj [("error", .str "Formato de cron inválido"),
        ("example", .str "0 7 * * * (todo dia às 7h)")])⟩ := by
  decide

/-! ### Admin authentication -/

theorem splitChar_piece (sep : Char) : ∀ (w piece rest : List Char), sep ∉ w →
    splitChar sep piece (w ++ sep :: rest) = (piece.reverse ++ w) :: splitChar sep [] rest := by
  intro w
  induction w with
  | nil =>
    intro piece rest _
    simp [splitChar]
  | cons c t ih =>
    intro piece rest h
    have hc : ¬ c = sep := fun e => h (by rw [e]; exact List.mem_cons_self _ _)
    have ht : sep ∉ t := fun e => h (List.mem_cons_of_mem _ e)
    simp only [List.cons_append, splitChar, hc, if_false, List.append_eq]
    rw [ih (c :: piece) rest ht]
    simp

theorem splitChar_last (sep : Char) : ∀ (w piece : List Char), sep ∉ w →
    splitChar sep piece w = [piece.reverse ++ w] := by
  intro w
  induction w with
  | nil =>
    intro piece _
    simp [splitChar]
  | cons c t ih =>
    intro piece h
    have hc : ¬ c = sep := fun e => h (by rw [e]; exact List.mem_cons_self _ _)
    have ht : sep ∉ t := fun e => h (List.mem_cons_of_mem _ e)
    simp only [splitChar, hc, if_false]
    rw [ih (c :: piece) ht]
    simp

/-- C29, the code on credentials with trailing text: whenever the token after `Basic `
decodes to the admin user, a colon, the admin password, a colon and any further text,
`authMiddleware` calls `next`; the text after the second colon is not looked at. -/
theorem authMiddleware_accepts_trailing_text (decodeBase64 : String → String)
    (envUser envPassword : Option String) (token extra : String)
    (htoken : ' ' ∉ token.data)
    (huser : ':' ∉ (envOr envUser "admin").data)
    (hpass : ':' ∉ (envOr envPassword "admin123").data)
    (hdecode : decodeBase64 token =
      envOr envUser "admin" ++ ":" ++ envOr envPassword "admin123" ++ ":" ++ extra) :
    authMiddleware decodeBase64 envUser envPassword (some ("Basic " ++ token)) = .next := by
  have hhead : ("Basic " ++ token).data = "Basic".data ++ ' ' :: token.data := rfl
  have hne : ¬ ("Basic " ++ token = "") := by
    intro h
    have := congrArg String.data h
    rw [hhead] at this
    simp at this
  have hpre : "Basic ".data.isPrefixOf ("Basic " ++ token).data = true := by
    rw [hhead]
    simp [List.isPrefixOf]
  have hsplit : splitChar ' ' [] ("Basic " ++ token).data = ["Basic".data, token.data] := by
    rw [hhead, splitChar_piece ' ' "Basic".data [] token.data (by decide),
      splitChar_last ' ' token.data [] htoken]
    rfl
  have hcred : (envOr envUser "admin" ++ ":" ++ envOr envPassword "admin123" ++ ":" ++
      extra).data = (envOr envUser "admin").data ++ ':' ::
        ((envOr envPassword "admin123").data ++ ':' :: extra.data) := by
    simp [String.data_append]
  have hparts : splitChar ':' [] (decodeBase64 token).data =
      (envOr envUser "admin").data :: (envOr envPassword "admin123").data ::
        splitChar ':' [] extra.data := by
    rw [hdecode, hcred, splitChar_piece ':' _ [] _ huser, splitChar_piece ':' _ [] _ hpass]
    rfl
  simp only [authMiddleware, hne, hpre, hsplit, List.getElem?_cons_succ, List.getElem?_cons_zero,
    hparts]
  simp

/-- Witness for C29: the default user and password, and the token
`YWRtaW46YWRtaW4xMjM6ZXh0cmE=`, the base64 text of `admin:admin123:extra`. -/
theorem authMiddleware_accepts_trailing_text_witness :
    authMiddleware sampleDecoder none none (some ("Basic " ++ "YWRtaW46YWRtaW4xMjM6ZXh0cmE=")) =
      .next :=
  authMiddleware_accepts_trailing_text sampleDecoder none none "YWRtaW46YWRtaW4xMjM6ZXh0cmE="
    "extra" (by decide) (by decide) (by decide) (by decide)

/-- The middleware on several headers: the exact credentials and the credentials with
trailing text pass; a wrong password, a missing header and another scheme are answered
401; and when the password of the environment contains a colon, its exact credentials are
answered 401. -/
theorem authMiddleware_examples :
    authMiddleware sampleDecoder none none (some "Basic YWRtaW46YWRtaW4xMjM=") = .next ∧
    authMiddleware sampleDecoder none none (some "Basic YWRtaW46YWRtaW4xMjM6ZXh0cmE=") = .next ∧
    authMiddleware sampleDecoder none none (some "Basic YWRtaW46YWRtaW4xMjM= ignored") = .next ∧
    authMiddleware sampleDecoder none none (some "Basic YWRtaW46d3Jvbmc=") =
      .unauthorized "Credenciais inválidas" ∧
    authMiddleware sampleDecoder none none none = .unauthorized "Autenticação requerida" ∧
    authMiddleware sampleDecoder none none (some "Bearer YWRtaW46YWRtaW4xMjM=") =
      .unauthorized "Autenticação requerida" ∧
    authMiddleware sampleDecoder none (some "a:b") (some "Basic YWRtaW46YTpi") =
      .unauthorized "Credenciais inválidas" := by
  decide

/-! ### The order of date keys -/

theorem cons_lt_cons_nat (a b : Nat) (as bs : List Nat) :
    a :: as < b :: bs ↔ a < b ∨ (a = b ∧ as < bs) := by
  constructor
  · intro h
    cases h with
    | rel h => exact Or.inl h
    | cons h => exact Or.inr ⟨rfl, h⟩
  · rintro (h | ⟨h1, h2⟩)
    · exact List.Lex.rel h
    · subst h1
      exact List.Lex.cons h2

theorem cons_le_cons_nat (a b : Nat) (as bs : List Nat) :
    a :: as ≤ b :: bs ↔ a < b ∨ (a = b ∧ as ≤ bs) := by
  rw [le_iff_lt_or_eq, le_iff_lt_or_eq, cons_lt_cons_nat, List.cons.injEq]
  constructor
  · rintro ((h | ⟨h1, h2⟩) | ⟨h1, h2⟩)
    · exact Or.inl h
    · exact Or.inr ⟨h1, Or.inl h2⟩
    · exact Or.inr ⟨h1, Or.inr h2⟩
  · rintro (h | ⟨h1, h2 | h2⟩)
    · exact Or.inl (Or.inl h)
    · exact Or.inl (Or.inr ⟨h1, h2⟩)
    · exact Or.inr ⟨h1, h2⟩

theorem digitChar_toNat (n : Nat) : (digitChar n).toNat = 48 + n % 10 := by
  have h : n % 10 < 10 := Nat.mod_lt _ (by decide)
  unfold digitChar
  generalize n % 10 = d at h
  revert d
  decide

theorem units_calendarDateText (y m d : Nat) :
    utf16Units (calendarDateText y m d ++ ".json") =
      [48 + y / 1000 % 10, 48 + y / 100 % 10, 48 + y / 10 % 10, 48 + y % 10, 45,
        48 + m / 10 % 10, 48 + m % 10, 45, 48 + d / 10 % 10, 48 + d % 10,
        46, 106, 115, 111, 110] := by
  have hlt : ∀ n, (48 + n % 10 < 65536) := by intro n; omega
  simp [utf16Units, calendarDateText, String.data_append, digitChar_toNat, hlt]

theorem sortLe_calendarDateText (y1 m1 d1 y2 m2 d2 : Nat)
    (hy1 : y1 ≤ 9999) (hm1 : m1 ≤ 99) (hd1 : d1 ≤ 99)
    (hy2 : y2 ≤ 9999) (hm2 : m2 ≤ 99) (hd2 : d2 ≤ 99) :
    sortLe (calendarDateText y1 m1 d1 ++ ".json") (calendarDateText y2 m2 d2 ++ ".json") ↔
      y1 < y2 ∨ (y1 = y2 ∧ (m1 < m2 ∨ (m1 = m2 ∧ d1 ≤ d2))) := by
  unfold sortLe
  rw [units_calendarDateText, units_calendarDateText]
  simp only [cons_le_cons_nat]
  have hnil : ([] : List Nat) ≤ [] := le_refl _
  simp only [hnil, and_true, lt_self_iff_false, false_or, true_and]
  have e1 : ∀ y : Nat, y / 100 = y / 10 / 10 := fun y => by
    rw [Nat.div_div_eq_div_mul]
  have e2 : ∀ y : Nat, y / 1000 = y / 10 / 10 / 10 := fun y => by
    rw [Nat.div_div_eq_div_mul, Nat.div_div_eq_div_mul]
  rw [e1 y1, e1 y2, e2 y1, e2 y2]
  omega

theorem dayFromYear_succ (y : Int) :
    dayFromYear (y + 1) = dayFromYear y + 365 + (if isLeapYear y = true then 1 else 0) := by
  unfold dayFromYear
  by_cases hl : isLeapYear y = true
  · rw [if_pos hl]
    rw [isLeapYear_iff] at hl
    omega
  · rw [if_neg hl]
    rw [isLeapYear_iff] at hl
    omega

theorem dayFromYear_mono {y1 y2 : Int} (h : y1 ≤ y2) : dayFromYear y1 ≤ dayFromYear y2 := by
  have hm : Monotone dayFromYear := by
    apply monotone_int_of_le_succ
    intro n
    rw [dayFromYear_succ]
    split_ifs <;> omega
  exact hm h

theorem dayOfYear_bounds (leap : Bool) (m d : Int) (hm1 : 1 ≤ m) (hm2 : m ≤ 12) (hd1 : 1 ≤ d)
    (hd2 : d ≤ daysInMonth leap m) :
    0 ≤ daysBeforeMonth leap m + (d - 1) ∧
      daysBeforeMonth leap m + (d - 1) ≤ 364 + (if leap = true then 1 else 0) := by
  unfold daysInMonth at hd2
  unfold daysBeforeMonth
  cases leap <;> interval_cases m <;> simp at hd2 ⊢ <;> omega

theorem dayOfYear_lt (leap : Bool) (m1 d1 m2 d2 : Int) (hm1 : 1 ≤ m1) (hm2 : m2 ≤ 12)
    (hd1 : d1 ≤ daysInMonth leap m1) (hd2 : 1 ≤ d2) (h : m1 < m2) :
    daysBeforeMonth leap m1 + (d1 - 1) < daysBeforeMonth leap m2 + (d2 - 1) := by
  have hb : ∀ m : Int, 1 ≤ m → m ≤ 11 →
      daysBeforeMonth leap m + daysInMonth leap m = daysBeforeMonth leap (m + 1) := by
    intro m h1 h2
    unfold daysInMonth daysBeforeMonth
    cases leap <;> interval_cases m <;> simp
  have hmono : ∀ a b : Int, 1 ≤ a → a ≤ b → b ≤ 12 →
      daysBeforeMonth leap a ≤ daysBeforeMonth leap b := by
    intro a b h1 h2 h3
    have h4 : a ≤ 12 := by omega
    unfold daysBeforeMonth
    cases leap <;> interval_cases a <;> interval_cases b <;> simp at h2 ⊢
  have h1 := hb m1 hm1 (by omega)
  have h2 := hmono (m1 + 1) m2 (by omega) (by omega) hm2
  omega

theorem calendar_lt (n1 y1 m1 d1 n2 y2 m2 d2 : Int) (h1 : IsCalendarDate n1 y1 m1 d1)
    (h2 : IsCalendarDate n2 y2 m2 d2)
    (h : y1 < y2 ∨ (y1 = y2 ∧ (m1 < m2 ∨ (m1 = m2 ∧ d1 < d2)))) : n1 < n2 := by
  obtain ⟨a1, a2, a3, a4, a5⟩ := h1
  obtain ⟨b1, b2, b3, b4, b5⟩ := h2
  rcases h with h | ⟨h, h' | ⟨h', h''⟩⟩
  · have k1 := dayOfYear_bounds _ m1 d1 a1 a2 a3 a4
    have k2 := dayOfYear_bounds _ m2 d2 b1 b2 b3 b4
    have k3 := dayFromYear_succ y1
    have k4 : dayFromYear (y1 + 1) ≤ dayFromYear y2 := dayFromYear_mono (by omega)
    omega
  · subst h
    have := dayOfYear_lt _ m1 d1 m2 d2 a1 b2 a4 b3 h'
    omega
  · subst h
    subst h'
    omega

theorem calendar_order (n1 y1 m1 d1 n2 y2 m2 d2 : Int) (h1 : IsCalendarDate n1 y1 m1 d1)
    (h2 : IsCalendarDate n2 y2 m2 d2) :
    (y1 < y2 ∨ (y1 = y2 ∧ (m1 < m2 ∨ (m1 = m2 ∧ d1 ≤ d2)))) ↔ n1 ≤ n2 := by
  constructor
  · intro h
    by_cases he : y1 = y2 ∧ m1 = m2 ∧ d1 = d2
    · obtain ⟨e1, e2, e3⟩ := he
      subst e1; subst e2; subst e3
      have := h1.2.2.2.2
      have := h2.2.2.2.2
      omega
    · have := calendar_lt n1 y1 m1 d1 n2 y2 m2 d2 h1 h2 (by omega)
      omega
  · intro h
    by_contra hc
    have := calendar_lt n2 y2 m2 d2 n1 y1 m1 d1 h2 h1 (by omega)
    omega

/-- The order of the file names of two date keys whose years are within 0000 to 9999 is
the order of their days. -/
theorem dateKey_order (t1 t2 : Int)
    (h1 : 0 ≤ (civilFromDays (t1 / 86400000)).1 ∧ (civilFromDays (t1 / 86400000)).1 ≤ 9999)
    (h2 : 0 ≤ (civilFromDays (t2 / 86400000)).1 ∧ (civilFromDays (t2 / 86400000)).1 ≤ 9999) :
    sortLe (dateKey t1 ++ ".json") (dateKey t2 ++ ".json") ↔ dayOf t1 ≤ dayOf t2 := by
  rw [dateKey_eq_calendarDateText t1 h1.1 h1.2, dateKey_eq_calendarDateText t2 h2.1 h2.2]
  have c1 := civilFromDays_calendar (t1 / 86400000)
  have c2 := civilFromDays_calendar (t2 / 86400000)
  have k := calendar_order _ _ _ _ _ _ _ _ c1 c2
  unfold dayOf
  rw [← k]
  obtain ⟨a1, a2, a3, a4, -⟩ := c1
  obtain ⟨b1, b2, b3, b4, -⟩ := c2
  have hd1 : (civilFromDays (t1 / 86400000)).2.2 ≤ 31 := by
    refine le_trans a4 ?_
    unfold daysInMonth
    split_ifs <;> omega
  have hd2 : (civilFromDays (t2 / 86400000)).2.2 ≤ 31 := by
    refine le_trans b4 ?_
    unfold daysInMonth
    split_ifs <;> omega
  generalize (civilFromDays (t1 / 86400000)).1 = y1 at *
  generalize (civilFromDays (t1 / 86400000)).2.1 = m1 at *
  generalize (civilFromDays (t1 / 86400000)).2.2 = d1 at *
  generalize (civilFromDays (t2 / 86400000)).1 = y2 at *
  generalize (civilFromDays (t2 / 86400000)).2.1 = m2 at *
  generalize (civilFromDays (t2 / 86400000)).2.2 = d2 at *
  rw [sortLe_calendarDateText _ _ _ _ _ _ (by omega) (by omega) (by omega) (by omega)
    (by omega) (by omega)]
  omega

theorem dateKey_of_day_eq (t1 t2 : Int)
    (h1 : 0 ≤ (civilFromDays (t1 / 86400000)).1 ∧ (civilFromDays (t1 / 86400000)).1 ≤ 9999)
    (h : dayOf t1 = dayOf t2) : dateKey t1 = dateKey t2 := by
  unfold dayOf at h
  have h2 : 0 ≤ (civilFromDays (t2 / 86400000)).1 ∧ (civilFromDays (t2 / 86400000)).1 ≤ 9999 := by
    rw [← h]
    exact h1
  rw [dateKey_eq_calendarDateText t1 h1.1 h1.2, dateKey_eq_calendarDateText t2 h2.1 h2.2, h]

/-! ### The latest record -/

theorem saveAll_dates (saves : List SaveCall) : ∀ (fs fs' : FsState),
    saveAll fs saves = .ok fs' → ∀ call ∈ saves, ∃ t, call.date = some t := by
  induction saves with
  | nil => intro _ _ _ call hc; cases hc
  | cons c rest ih =>
    intro fs fs' h call hc
    simp only [saveAll] at h
    obtain ⟨saved, hs, h⟩ := except_bind_eq_ok _ _ _ h
    obtain ⟨fs1, path⟩ := saved
    obtain ⟨t, data, hdate, -⟩ := saveNewsletter_eq_ok _ _ _ _ _ _ _ hs
    rcases List.mem_cons.mp hc with e | e
    · rw [e]
      exact ⟨t, hdate⟩
    · exact ih fs1 fs' h call e

theorem names_after_saves (cwd : String) (saves : List SaveCall) (fs' : FsState)
    (h : saveAll ⟨cwd, true, []⟩ saves = .ok fs') :
    ∃ names, listNewsletters fs' = .ok names ∧ names.Nodup ∧
      names.Pairwise (fun a b => sortLe b a) ∧
      ∀ x, x ∈ names ↔ ∃ call ∈ saves, ∃ t, call.date = some t ∧ x = dateKey t ++ ".json" := by
  obtain ⟨hacc, hnd, hmem⟩ := saveAll_names saves _ fs' h (by simp)
  have hacc2 : fs'.accessible = true := hacc
  have hfilter : (fs'.entries.map Prod.fst).filter endsWithJson = fs'.entries.map Prod.fst := by
    rw [List.filter_eq_self]
    intro x hx
    rw [hmem x] at hx
    rcases hx with hx | ⟨_, _, t, _, hx⟩
    · simp at hx
    · rw [hx]
      exact endsWithJson_append _
  refine ⟨((fs'.entries.map Prod.fst).insertionSort sortLe).reverse, ?_, ?_, ?_, ?_⟩
  · simp only [listNewsletters, ensureDataDir, hacc2, if_true, readdir, bind, Except.bind, pure,
      Except.pure, hfilter]
  · rw [List.nodup_reverse]
    exact (List.perm_insertionSort sortLe _).nodup_iff.2 hnd
  · rw [List.pairwise_reverse]
    have hsorted := List.sorted_insertionSort sortLe (fs'.entries.map Prod.fst)
    exact hsorted.imp (fun h => h)
  · intro x
    rw [List.mem_reverse, (List.perm_insertionSort sortLe _).mem_iff, hmem x]
    simp

theorem exists_map_of_forall {α β : Type} (f : α → β) (P : α → Prop) : ∀ (l : List β),
    (∀ x ∈ l, ∃ a, P a ∧ x = f a) → ∃ as : List α, l = as.map f ∧ ∀ a ∈ as, P a := by
  intro l
  induction l with
  | nil => intro _; exact ⟨[], rfl, fun a ha => by cases ha⟩
  | cons x rest ih =>
    intro h
    obtain ⟨a, ha, hx⟩ := h x (List.mem_cons_self _ _)
    obtain ⟨as, has, hP⟩ := ih (fun y hy => h y (List.mem_cons_of_mem _ hy))
    refine ⟨a :: as, by rw [List.map_cons, ← hx, ← has], ?_⟩
    intro b hb
    rcases List.mem_cons.mp hb with e | e
    · rw [e]; exact ha
    · exact hP b e

theorem digitChar_ne_dot (n : Nat) : ¬ digitChar n = '.' := by
  have h : n % 10 < 10 := Nat.mod_lt _ (by decide)
  unfold digitChar
  generalize n % 10 = d at h
  revert d
  decide

theorem isPrefixOf_self (l : List Char) : l.isPrefixOf l = true := by
  induction l with
  | nil => rfl
  | cons c rest ih => simp [List.isPrefixOf, ih]

theorem replaceFirst_suffix (p : Char) (tail key : List Char) (h : p ∉ key) :
    replaceFirst (p :: tail) [] (key ++ p :: tail) = key := by
  induction key with
  | nil =>
    simp only [List.nil_append, replaceFirst, isPrefixOf_self, if_true, List.drop_length]
  | cons c rest ih =>
    have hc2 : ¬ p = c := fun e => h (by rw [e]; exact List.mem_cons_self _ _)
    have hpre : (p :: tail).isPrefixOf (c :: (rest ++ p :: tail)) = false := by
      simp [List.isPrefixOf, hc2]
    simp only [List.cons_append, replaceFirst, hpre, Bool.false_eq_true, if_false,
      List.append_eq]
    rw [ih (fun e => h (List.mem_cons_of_mem _ e))]

theorem replaceFirst_json (key : List Char) (h : '.' ∉ key) :
    replaceFirst ".json".data [] (key ++ ".json".data) = key :=
  replaceFirst_suffix '.' "json".data key h

theorem replaceFirst_dateKey (t : Int)
    (h : 0 ≤ (civilFromDays (t / 86400000)).1 ∧ (civilFromDays (t / 86400000)).1 ≤ 9999) :
    String.mk (replaceFirst ".json".data [] (dateKey t ++ ".json").data) = dateKey t := by
  have hdot : '.' ∉ (dateKey t).data := by
    rw [dateKey_eq_calendarDateText t h.1 h.2]
    simp only [calendarDateText, List.mem_cons, List.not_mem_nil, or_false, not_or]
    refine ⟨?_, ?_, ?_, ?_, by decide, ?_, ?_, by decide, ?_, ?_⟩ <;>
      exact fun e => digitChar_ne_dot _ e.symm
  rw [String.data_append, replaceFirst_json _ hdot]

theorem loadNewsletter_ok (fs : FsState) (date : String) :
    ∃ record, loadNewsletter fs date = .ok record := by
  unfold loadNewsletter
  split
  · exact ⟨_, rfl⟩
  · exact ⟨_, rfl⟩

/-- C24: after any non-empty sequence of successful saves into an empty store whose dates
have years 0000 to 9999, the order of the file names of two saved date keys is the order
of their days; `listNewsletters` returns the names of the saved date keys with the days
strictly descending, so its first element belongs to a save of the most recent day; and
the handler of `GET /api/newsletter/latest` answers 200 with what `loadNewsletter`
returns for that date key. -/
theorem latest_is_most_recent (cwd : String) (saves : List SaveCall) (fs' : FsState)
    (hsave : saveAll ⟨cwd, true, []⟩ saves = .ok fs') (hne : saves ≠ [])
    (hyears : ∀ call ∈ saves, ∀ t, call.date = some t →
      0 ≤ (civilFromDays (t / 86400000)).1 ∧ (civilFromDays (t / 86400000)).1 ≤ 9999) :
    (∀ c1 ∈ saves, ∀ c2 ∈ saves, ∀ a b, c1.date = some a → c2.date = some b →
      (sortLe (dateKey a ++ ".json") (dateKey b ++ ".json") ↔ dayOf a ≤ dayOf b)) ∧
    ∃ (t : Int) (ts : List Int) (record : JsVal),
      listNewsletters fs' = .ok ((t :: ts).map fun u => dateKey u ++ ".json") ∧
      (∀ u ∈ t :: ts, ∃ call ∈ saves, call.date = some u) ∧
      (t :: ts).Pairwise (fun a b => dayOf b < dayOf a) ∧
      (∀ call ∈ saves, ∀ u, call.date = some u → dayOf u ≤ dayOf t) ∧
      loadNewsletter fs' (dateKey t) = .ok record ∧
      latestHandler fs' = .responded 200 record := by
  have horder : ∀ c1 ∈ saves, ∀ c2 ∈ saves, ∀ a b, c1.date = some a → c2.date = some b →
      (sortLe (dateKey a ++ ".json") (dateKey b ++ ".json") ↔ dayOf a ≤ dayOf b) := by
    intro c1 h1 c2 h2 a b ha hb
    exact dateKey_order a b (hyears c1 h1 a ha) (hyears c2 h2 b hb)
  refine ⟨horder, ?_⟩
  obtain ⟨names, hlist, hnd, hpw, hmem⟩ := names_after_saves cwd saves fs' hsave
  obtain ⟨us, hus, hP⟩ := exists_map_of_forall (fun u : Int => dateKey u ++ ".json")
    (fun u => ∃ call ∈ saves, call.date = some u) names (by
      intro x hx
      obtain ⟨call, hc, t, ht, hxt⟩ := (hmem x).mp hx
      exact ⟨t, ⟨call, hc, ht⟩, hxt⟩)
  subst hus
  have hdesc : us.Pairwise (fun a b => dayOf b < dayOf a) := by
    rw [List.pairwise_map] at hpw
    have hnd2 : us.Pairwise (fun a b => dateKey a ++ ".json" ≠ dateKey b ++ ".json") := by
      have := hnd
      unfold List.Nodup at this
      rwa [List.pairwise_map] at this
    refine (hpw.and hnd2).imp_of_mem ?_
    intro a b ha hb hab
    obtain ⟨ca, hca, hda⟩ := hP a ha
    obtain ⟨cb, hcb, hdb⟩ := hP b hb
    have hle := (horder cb hcb ca hca b a hdb hda).mp hab.1
    rcases lt_or_eq_of_le hle with hlt | heq
    · exact hlt
    · exact absurd (by rw [dateKey_of_day_eq b a (hyears cb hcb b hdb) heq]) hab.2
  cases us with
  | nil =>
    exfalso
    obtain ⟨c0, rest, hs⟩ := List.exists_cons_of_ne_nil hne
    have hc0 : c0 ∈ saves := by rw [hs]; exact List.mem_cons_self _ _
    obtain ⟨t0, ht0⟩ := saveAll_dates saves _ fs' hsave c0 hc0
    have := (hmem (dateKey t0 ++ ".json")).mpr ⟨c0, hc0, t0, ht0, rfl⟩
    simp at this
  | cons t ts =>
    obtain ⟨record, hrec⟩ := loadNewsletter_ok fs' (dateKey t)
    obtain ⟨ct, hct, hdt⟩ := hP t (List.mem_cons_self _ _)
    refine ⟨t, ts, record, hlist, hP, hdesc, ?_, hrec, ?_⟩
    · intro call hc u hu
      have hin := (hmem (dateKey u ++ ".json")).mpr ⟨call, hc, u, hu, rfl⟩
      obtain ⟨v, hv, hvu⟩ := List.mem_map.mp hin
      obtain ⟨cv, hcv, hdv⟩ := hP v hv
      have hrefl : sortLe (dateKey u ++ ".json") (dateKey v ++ ".json") := by
        have hvu2 : dateKey v ++ ".json" = dateKey u ++ ".json" := hvu
        rw [hvu2]
        exact le_refl (utf16Units (dateKey u ++ ".json"))
      have huv : dayOf u ≤ dayOf v := (horder call hc cv hcv u v hu hdv).mp hrefl
      rcases List.mem_cons.mp hv with e | e
      · rw [e] at huv
        exact huv
      · have := (List.pairwise_cons.mp hdesc).1 v e
        omega
    · simp only [latestHandler, hlist, List.map_cons, bind, Except.bind,
        replaceFirst_dateKey t (hyears ct hct t hdt), hrec, pure, Except.pure]

/-- Witness for C24: the three saves of the listing example, for 2024-01-01, 2024-01-03
and 2024-01-02. -/
theorem latest_is_most_recent_witness :
    (∀ c1 ∈ threeSaves, ∀ c2 ∈ threeSaves, ∀ a b, c1.date = some a → c2.date = some b →
      (sortLe (dateKey a ++ ".json") (dateKey b ++ ".json") ↔ dayOf a ≤ dayOf b)) ∧
    ∃ (t : Int) (ts : List Int) (record : JsVal),
      listNewsletters savedThree = .ok ((t :: ts).map fun u => dateKey u ++ ".json") ∧
      (∀ u ∈ t :: ts, ∃ call ∈ threeSaves, call.date = some u) ∧
      (t :: ts).Pairwise (fun a b => dayOf b < dayOf a) ∧
      (∀ call ∈ threeSaves, ∀ u, call.date = some u → dayOf u ≤ dayOf t) ∧
      loadNewsletter savedThree (dateKey t) = .ok record ∧
      latestHandler savedThree = .responded 200 record :=
  latest_is_most_recent "/app" threeSaves savedThree (by
    have hok : (saveAll ⟨"/app", true, []⟩ threeSaves).isOk = true := by decide
    unfold savedThree
    cases hs : saveAll ⟨"/app", true, []⟩ threeSaves with
    | ok fs => rfl
    | error e => simp [hs, Except.isOk, Except.toBool] at hok) (List.cons_ne_nil _ _) (by
    intro call hc t ht
    simp only [threeSaves, List.mem_cons, List.mem_singleton, List.not_mem_nil, or_false] at hc
    rcases hc with e | e | e <;> subst e <;> cases ht <;> decide)

/-- The listing example at the handler: the record loaded is the one of 2024-01-03; an
empty store is answered 404. -/
theorem latestHandler_examples :
    listNewsletters savedThree =
      .ok ["2024-01-03.json", "2024-01-02.json", "2024-01-01.json"] ∧
    (loadNewsletter savedThree "2024-01-03").map (fun r => prop (some r) "date") =
      .ok (some (.str "2024-01-03")) ∧
    latestHandler savedThree =
      .responded 200 (match loadNewsletter savedThree "2024-01-03" with
        | .ok record => record
        | .error _ => .null) ∧
    latestHandler ⟨"/app", true, []⟩ =
      .responded 404 (errorBody "Nenhuma newsletter encontrada"
        "Execute primeiro a geração de newsletter") ∧
    replaceFirst ".json".data [] "2024-01-03.json".data = "2024-01-03".data := by
  refine ⟨?_, ?_, ?_, ?_, ?_⟩ <;> decide

end TechNews
